import Mathlib

/-! LiveHD front-end: bit-width range lattice and LNAST semantic validator

A shallow embedding of `pass/bitwidth/bitwidth_range.cpp` and
`pass/semantic/semantic_check.cpp`, followed by theorems about them.

Conventions of the embedding

* `int64_t` and `unsigned long` values are integers; every C++ conversion that can
  wrap is written out with `to_int64` / `to_uint64`.
* `Bits_t` and `Bits_max` are declared in a header that is not among the sources.
  `Bits_max` is a parameter of the operations that assert against it, and `w` is
  the number of bits of the unsigned type `Bits_t`.
* An assertion `I(...)` that fails ends the operation: such operations return
  `Option`, `none` standing for the failed assertion.
-/

/-! ## Machine integers -/

/-- Conversion of an integer to `int64_t` (two's complement wrap-around). -/
def to_int64 (x : Int) : Int := (x + 2 ^ 63) % 2 ^ 64 - 2 ^ 63

/-- Conversion of an integer to `unsigned long` / `uint64_t` (reduction modulo 2^64). -/
def to_uint64 (x : Int) : Int := x % 2 ^ 64

/-- Conversion of an integer to `Bits_t`, an unsigned type of `w` bits. -/
def to_Bits_t (w : Nat) (x : Int) : Nat := (x % 2 ^ w).toNat

/-- The value that `-x` stores into an `int64_t` when `x` has type `Bits_t`:
a type narrower than `int` is promoted to `int` and negated there; a 32- or
64-bit unsigned is negated modulo 2^w and then converted. -/
def neg_Bits_t (w : Nat) (x : Nat) : Int :=
  if w < 32 then -(x : Int) else to_int64 ((-(x : Int)) % 2 ^ w)

/-- Leading zero bits of `x` among the bits `k-1 .. 0`, scanning from bit `k-1` down. -/
def clz_from : Nat → Nat → Nat
  | 0, _ => 0
  | k + 1, x => if x / 2 ^ k % 2 = 1 then 0 else clz_from k x + 1

/-- The compiler builtin `__builtin_clzll`: leading zero bits of a non-zero 64-bit word. -/
def builtin_clzll (x : Nat) : Nat := clz_from 64 x

/-! ## Lconst -/

/-- Modelled from the spec: the arbitrary-precision constant class `Lconst` is not
among the sources. A constant is its integer value. -/
abbrev Lconst := Int

/-- Number of binary digits of a natural number (0 for 0); `fuel` bounds the digits read. -/
def bit_count_aux : Nat → Nat → Nat
  | 0, _ => 0
  | fuel + 1, n => if n = 0 then 0 else bit_count_aux fuel (n / 2) + 1

/-- Number of binary digits of a natural number. -/
def bit_count (n : Nat) : Nat := bit_count_aux n n

/-- Modelled from the spec: `Lconst::is_i`, "both bounds fit a signed 64-bit machine
integer". -/
def Lconst.is_i (v : Lconst) : Bool := decide (-(2 : Int) ^ 63 ≤ v ∧ v < 2 ^ 63)

/-- Modelled from the spec: `Lconst::to_i`, the machine integer of a constant that fits. -/
def Lconst.to_i (v : Lconst) : Int := to_int64 v

/-- Modelled from the spec: `Lconst::is_negative`. -/
def Lconst.is_negative (v : Lconst) : Bool := decide (v < 0)

/-- Modelled from the spec: `Lconst::get_bits`, the "signed/unsigned bit count of k":
the number of binary digits of a non-negative constant ("positive = unsigned bit
count") and one more than the number of binary digits of the absolute value of a
negative one ("negative = signed bit count of the absolute value"). -/
def Lconst.get_bits (v : Lconst) : Nat :=
  if v < 0 then bit_count v.natAbs + 1 else bit_count v.natAbs

/-! ## Bitwidth_range -/

/-- The fields of `Bitwidth_range`: two `int64_t` bounds and the overflow flag. -/
structure Bitwidth_range where
  max : Int
  min : Int
  overflow : Bool
  deriving DecidableEq, Repr

namespace Bitwidth_range

/-- Embedding of `Bitwidth_range::to_lconst(bool overflow, int64_t val)`. -/
def to_lconst (overflow : Bool) (val : Int) : Lconst :=
  if val = 0 then 0
  else if !overflow then val
  else if val > 0 then 1 * 2 ^ val.toNat - 1
  else 0 - 1 * 2 ^ (-val).toNat

/-- Embedding of the constructor `Bitwidth_range::Bitwidth_range(const Lconst &val)`. -/
def of_const (w : Nat) (val : Lconst) : Bitwidth_range :=
  if Lconst.is_i val then
    { overflow := false, max := Lconst.to_i val, min := Lconst.to_i val }
  else
    let bits := Lconst.get_bits val
    if Lconst.is_negative val then
      { overflow := true, max := neg_Bits_t w bits, min := neg_Bits_t w bits }
    else
      { overflow := true, max := (bits : Int), min := (bits : Int) }

/-- The encoding of one bound by `set_range` in overflow mode. -/
def encode_bound (w : Nat) (v : Lconst) : Int :=
  if v = 0 then 0
  else
    let bits := Lconst.get_bits v
    if Lconst.is_negative v then neg_Bits_t w bits else (bits : Int)

/-- Embedding of `Bitwidth_range::set_range(min_val, max_val)`; every field is overwritten, so
the previous fields are no argument. `none`: the assertion `max_val >= min_val` failed. -/
def set_range (w : Nat) (min_val max_val : Lconst) : Option Bitwidth_range :=
  if ¬ (max_val ≥ min_val) then none
  else if Lconst.is_i max_val && Lconst.is_i min_val then
    some { overflow := false, max := Lconst.to_i max_val, min := Lconst.to_i min_val }
  else
    some { overflow := true, max := encode_bound w max_val, min := encode_bound w min_val }

/-- Embedding of the constructor `Bitwidth_range::Bitwidth_range(min_val, max_val)`. -/
def of_range (w : Nat) (min_val max_val : Lconst) : Option Bitwidth_range :=
  set_range w min_val max_val

/-- Embedding of `Bitwidth_range::set_narrower_range(min_val, max_val)` on the object `self`.
`none`: one of the assertions (its own two, or the one of `set_range`) failed. -/
def set_narrower_range (w : Nat) (self : Bitwidth_range) (min_val max_val : Lconst) :
    Option Bitwidth_range :=
  if Lconst.is_i max_val && Lconst.is_i min_val then
    if ¬ (self.max ≥ Lconst.to_i max_val) then none
    else if ¬ (self.min ≤ Lconst.to_i min_val) then none
    else set_range w min_val max_val
  else set_range w min_val max_val

/-- Embedding of `Bitwidth_range::set_sbits(Bits_t size)`; every field is overwritten.
`none`: the assertion `size < Bits_max` failed. -/
def set_sbits (w Bits_max : Nat) (size : Nat) : Option Bitwidth_range :=
  if ¬ (size < Bits_max) then none
  else if size = 0 then
    some { overflow := true, max := 326768, min := -32768 }
  else if size > 63 then
    some { overflow := true, max := (size : Int) - 1, min := neg_Bits_t w (size - 1) }
  else
    some { overflow := false
           max := to_int64 (to_uint64 (to_uint64 (1 * 2 ^ (size - 1)) - 1))
           min := to_int64 (to_uint64 (-(to_uint64 (1 * 2 ^ (size - 1))))) }

/-- Embedding of `Bitwidth_range::set_ubits(Bits_t size)`; every field is overwritten.
`none`: the assertion `size < Bits_max` failed. -/
def set_ubits (Bits_max : Nat) (size : Nat) : Option Bitwidth_range :=
  if ¬ (size < Bits_max) then none
  else if size = 0 then
    some { overflow := true, max := 326768, min := 0 }
  else if size > 63 then
    some { overflow := true, max := (size : Int), min := 0 }
  else
    some { overflow := false, max := to_int64 (to_uint64 (to_uint64 (1 * 2 ^ size) - 1)), min := 0 }

/-- Embedding of the constructor `Bitwidth_range::Bitwidth_range(Bits_t bits, bool _sign)`. -/
def of_bits_sign (w Bits_max : Nat) (bits : Nat) (sign : Bool) : Option Bitwidth_range :=
  if sign then set_sbits w Bits_max bits else set_ubits Bits_max bits

/-- Embedding of the constructor `Bitwidth_range::Bitwidth_range(Bits_t bits)`. -/
def of_bits (Bits_max : Nat) (bits : Nat) : Option Bitwidth_range := set_ubits Bits_max bits

/-- Value of `abs(max)` on an `int64_t`, as the `unsigned long long` handed to `__builtin_clzll`. -/
def abs_max (max : Int) : Nat := (to_uint64 (to_int64 |max|)).toNat

/-- Embedding of `Bitwidth_range::get_bits()`. `none`: the assertion `bits < Bits_max` failed. -/
def get_bits (w Bits_max : Nat) (self : Bitwidth_range) : Option Nat :=
  if self.overflow then
    let bits := to_Bits_t w self.max
    let bits := if self.min < 0 then to_Bits_t w ((bits : Int) + 1) else bits
    if bits ≥ Bits_max then some 0 else some bits
  else
    let bits := to_Bits_t w 1
    let bits := if self.max ≠ 0 then
        to_Bits_t w ((8 * 8 : Int) - (builtin_clzll (abs_max self.max) : Int))
      else bits
    let bits := if self.min < 0 then to_Bits_t w ((bits : Int) + 1) else bits
    if ¬ (bits < Bits_max) then none else some bits

end Bitwidth_range

/-- The bit count that `get_bits` computes in exact mode, as a closed formula. -/
def exact_bits (r : Bitwidth_range) : Nat :=
  (if r.max = 0 then 1 else Nat.size r.max.natAbs) + (if r.min < 0 then 1 else 0)

/-! ## LNAST -/

/-- Modelled from the spec: the node types of the LNAST (§3.2, "a closed tag set"); the
header declaring `Lnast_ntype` is not among the sources. The shifts carry the names of
the predicates that `semantic_check.cpp` tests them with. -/
inductive Lnast_ntype where
  | top | stmts | cstmts | if_ | cond | elif | uif | for_ | while_ | func_def | func_call
  | plus | minus | mult | div | mod
  | and_ | or_ | xor | not_
  | logic_shift_right | arith_shift_right | arith_shift_left
  | rotate_shift_right | rotate_shift_left | dynamic_shift_left | dynamic_shift_right
  | eq | neq | lt | leq | gt | geq
  | logical_and | logical_or | logical_not
  | assign | dp_assign | as_ | dot | select | bit_select | tuple | tuple_concat
  | ref | const
  deriving DecidableEq, Repr

namespace Lnast_ntype

/-- Modelled from the spec: `is_logical_op`, the "logical and/or" of §4.6. -/
def is_logical_op (t : Lnast_ntype) : Bool := t = logical_and || t = logical_or

/-- Modelled from the spec: `is_unary_op`, "unary `not`, `logical_not`" (§3.2). -/
def is_unary_op (t : Lnast_ntype) : Bool := t = not_ || t = logical_not

/-- Modelled from the spec: `is_nary_op`, the arithmetic and bitwise operators of §4.6,
and the comparisons other than `eq`, which §3.2 lists among the primitive ops and which
no other predicate tested by `is_primitive_op` covers. -/
def is_nary_op (t : Lnast_ntype) : Bool :=
  t = plus || t = minus || t = mult || t = div || t = mod ||
  t = and_ || t = or_ || t = xor ||
  t = neq || t = lt || t = leq || t = gt || t = geq

end Lnast_ntype

/-- A node of the LNAST with the subtree below it: type, name (the token text) and the
ordered children. The tree library (`get_first_child`, `get_sibling_next`, `children`,
`has_single_child`, `get_data`, `get_name`) is not among the sources; a node id is
modelled by the subtree it designates. -/
inductive Lnast_node where
  | mk (type : Lnast_ntype) (name : String) (children : List Lnast_node)

namespace Lnast_node

/-- Type of a node: `lnast->get_data(nid).type`. -/
def type : Lnast_node → Lnast_ntype
  | mk t _ _ => t

/-- Name of a node: `lnast->get_name(nid)`. -/
def name : Lnast_node → String
  | mk _ n _ => n

/-- Children of a node in order: `lnast->children(nid)`. -/
def children : Lnast_node → List Lnast_node
  | mk _ _ cs => cs

end Lnast_node

/-- Modelled from the spec: `lnast->has_single_child`, the node has exactly one child. -/
def has_single_child (children : List Lnast_node) : Bool := children.length = 1

/-! ## Semantic_pass -/

/-- The three lists of `Semantic_pass`. -/
structure Semantic_pass where
  temp_list : List String
  not_read_list : List String
  have_read_list : List String
  deriving DecidableEq, Repr

/-- A freshly constructed `Semantic_pass`: the three lists are empty. -/
def Semantic_pass.fresh : Semantic_pass :=
  { temp_list := [], not_read_list := [], have_read_list := [] }

/-- What ends a check early: a call of `Pass::error`, or the tree library being asked for
a child that does not exist. -/
inductive Pass_error where
  | temp_var (node_name : String)
  | msg (text : String)
  | invalid_nid
  deriving DecidableEq, Repr

/-- The text handed to `Pass::error`. -/
def Pass_error.message : Pass_error → String
  | temp_var node_name =>
    "Temporary Variable Error: " ++ node_name ++ " must be written to only once\n"
  | msg text => text
  | invalid_nid => "invalid node id"

/-- Modelled from the spec: `Pass::error` is fatal (§4.6, §7), it ends the check. A check
either runs to its end (`ok`) or is ended by an error (`error`); both carry the lists of
the pass object at that point. -/
inductive Outcome (α : Type) where
  | ok (pass : Semantic_pass) (val : α)
  | error (pass : Semantic_pass) (err : Pass_error)
  deriving Repr

/-- The error that ended a check, if any. -/
def Outcome.err {α : Type} : Outcome α → Option Pass_error
  | ok _ _ => none
  | error _ e => some e

/-- The pass object after a check. -/
def Outcome.pass_after {α : Type} : Outcome α → Semantic_pass
  | ok s _ => s
  | error s _ => s

namespace Semantic_pass

/-- Embedding of `Semantic_pass::is_primitive_op`. -/
def is_primitive_op (node_type : Lnast_ntype) : Bool :=
  node_type.is_logical_op || node_type.is_unary_op || node_type.is_nary_op ||
  node_type = .assign || node_type = .dp_assign || node_type = .as_ || node_type = .eq ||
  node_type = .select || node_type = .bit_select || node_type = .logic_shift_right ||
  node_type = .arith_shift_right || node_type = .arith_shift_left ||
  node_type = .rotate_shift_right || node_type = .rotate_shift_left ||
  node_type = .dynamic_shift_left || node_type = .dynamic_shift_right ||
  node_type = .dot || node_type = .tuple || node_type = .tuple_concat

/-- Embedding of `Semantic_pass::is_tree_structs`. -/
def is_tree_structs (node_type : Lnast_ntype) : Bool :=
  node_type = .stmts || node_type = .cstmts || node_type = .if_ || node_type = .cond ||
  node_type = .uif || node_type = .elif || node_type = .for_ || node_type = .while_ ||
  node_type = .func_call || node_type = Lnast_ntype.func_def

/-- Embedding of `Semantic_pass::is_temp_var`: the first three characters are underscores
(a character beyond the end of a shorter name compares unequal). -/
def is_temp_var (node_name : String) : Bool :=
  match node_name.data with
  | c0 :: c1 :: c2 :: _ => c0 = '_' && c1 = '_' && c2 = '_'
  | _ => false

/-- Embedding of `Semantic_pass::in_temp_list`. -/
def in_temp_list (s : Semantic_pass) (node_name : String) : Bool :=
  decide (node_name ∈ s.temp_list)

/-- Embedding of `Semantic_pass::check_for_temp_var`. -/
def check_for_temp_var (s : Semantic_pass) (node_name : String) : Outcome Unit :=
  if is_temp_var node_name then
    if !in_temp_list s node_name then
      .ok { s with temp_list := s.temp_list ++ [node_name] } ()
    else
      .error s (.temp_var node_name)
  else .ok s ()

/-- Embedding of `Semantic_pass::in_not_read_list`. -/
def in_not_read_list (s : Semantic_pass) (node_name : String) : Bool :=
  decide (node_name ∈ s.not_read_list)

/-- Embedding of `Semantic_pass::in_have_read_list`. -/
def in_have_read_list (s : Semantic_pass) (node_name : String) : Bool :=
  decide (node_name ∈ s.have_read_list)

/-- The erase loop of `check_for_not_read` over the rest of `not_read_list`: an entry
equal to `node_name` is erased and `node_name` is appended to `have_read_list`; the
iterator advances over every other entry. Returns both lists. -/
def erase_read (node_name : String) : List String → List String → List String × List String
  | [], have_read => ([], have_read)
  | x :: rest, have_read =>
    if x = node_name then erase_read node_name rest (have_read ++ [node_name])
    else
      let r := erase_read node_name rest have_read
      (x :: r.1, r.2)

/-- Embedding of `Semantic_pass::check_for_not_read` (the "Added"/"Deleted" prints are
left out; the first character of an empty name compares unequal to the output sigil). -/
def check_for_not_read (s : Semantic_pass) (node_name : String) : Semantic_pass :=
  if in_not_read_list s node_name then
    let r := erase_read node_name s.not_read_list s.have_read_list
    { s with not_read_list := r.1, have_read_list := r.2 }
  else if !in_have_read_list s node_name && node_name.data.head? ≠ some '%' then
    { s with not_read_list := s.not_read_list ++ [node_name] }
  else s

/-- The statement pair `if (!in_not_read_list(n)) check_for_not_read(n);` that follows a
write to `n`. -/
def note_written (s : Semantic_pass) (node_name : String) : Semantic_pass :=
  if !in_not_read_list s node_name then check_for_not_read s node_name else s

/-- The statement pair `if (in_not_read_list(n)) check_for_not_read(n);` at a read of `n`. -/
def note_read (s : Semantic_pass) (node_name : String) : Semantic_pass :=
  if in_not_read_list s node_name then check_for_not_read s node_name else s

/-- The test of the first branch of `check_primitive_ops` ("Unary Operations"). -/
def unary_branch (node_type : Lnast_ntype) : Bool :=
  node_type = .assign || node_type = .dp_assign || node_type = .not_ ||
  node_type = .logical_not || node_type = .as_

/-- The test of the second branch of `check_primitive_ops` ("N-ary Operations"). -/
def nary_branch (node_type : Lnast_ntype) : Bool :=
  node_type = .dot || node_type = .logical_and || node_type = .logical_or ||
  node_type.is_nary_op || node_type = .eq || node_type = .select ||
  node_type = .bit_select || node_type = .logic_shift_right ||
  node_type = .arith_shift_right || node_type = .arith_shift_left ||
  node_type = .rotate_shift_right || node_type = .rotate_shift_left ||
  node_type = .dynamic_shift_right || node_type = .dynamic_shift_left ||
  node_type = .tuple_concat

/-- The loop over the children in the N-ary branch of `check_primitive_ops`;
`is_first` tells whether the child is `get_first_child` of the node. -/
def check_nary_children (s : Semantic_pass) : List Lnast_node → Bool → Outcome Unit
  | [], _ => .ok s ()
  | c :: cs, is_first =>
    if is_first then
      if c.type ≠ .ref then
        .error s (.msg "N-ary Operation Error: LHS Node must be Node type 'ref'\n")
      else
        match check_for_temp_var s c.name with
        | .error s1 e => .error s1 e
        | .ok s1 _ => check_nary_children (note_written s1 c.name) cs false
    else if c.type ≠ .ref && c.type ≠ .const then
      .error s (.msg "N-ary Operation Error!: RHS Node(s) must be Node type 'ref' or 'const'\n")
    else check_nary_children (note_read s c.name) cs false

/-- The body of the unary branch of `check_primitive_ops` on the children of the node.
The branch is entered when the node does not have a single child; with no child at all
`get_first_child` yields no node, and the check ends with `invalid_nid`. -/
def check_unary (s : Semantic_pass) : List Lnast_node → Outcome Unit
  | lhs :: rhs :: _ =>
    if lhs.type ≠ .ref then
      .error s (.msg "Unary Operation Error: LHS Node must be Node type 'ref'\n")
    else if rhs.type ≠ .ref && rhs.type ≠ .const then
      .error s (.msg "Unary Operation Error: RHS Node must be Node type 'ref' or 'const'\n")
    else
      match check_for_temp_var s lhs.name with
      | .error s1 e => .error s1 e
      | .ok s1 _ => .ok (note_read (note_written s1 lhs.name) rhs.name) ()
  | _ => .error s .invalid_nid

/-- The verdict after the loop of the tuple branch of `check_primitive_ops`. -/
def tuple_verdict (s : Semantic_pass) (num_of_ref num_of_assign : Nat) : Outcome Unit :=
  if num_of_ref ≠ 1 then
    .error s (.msg "Tuple Operation Error: Missing Reference Node\n")
  else if num_of_assign ≠ 2 then
    .error s (.msg "Tuple Operation Error: Missing Assign Node(s)\n")
  else .ok s ()

mutual
/-- Embedding of `Semantic_pass::check_primitive_ops(lnast, lnidx_opr, node_type)`. -/
def check_primitive_ops (s : Semantic_pass) : Lnast_node → Lnast_ntype → Outcome Unit
  | .mk _ _ children, node_type =>
    if !has_single_child children then
      if unary_branch node_type then check_unary s children
      else if nary_branch node_type then check_nary_children s children true
      else if node_type = .tuple then
        match check_tuple_children s children 0 0 with
        | .error s1 e => .error s1 e
        | .ok s1 (num_of_ref, num_of_assign) => tuple_verdict s1 num_of_ref num_of_assign
      else .error s (.msg "Primitive Operation Error: Not a Valid Node Type\n")
    else
      .error s (.msg "Primitive Operation Error: Requires at least 2 LNAST Nodes (lhs, rhs)\n")
/-- The loop over the children in the tuple branch of `check_primitive_ops`, with the
counters `num_of_ref` and `num_of_assign`. -/
def check_tuple_children (s : Semantic_pass) :
    List Lnast_node → Nat → Nat → Outcome (Nat × Nat)
  | [], num_of_ref, num_of_assign => .ok s (num_of_ref, num_of_assign)
  | c :: cs, num_of_ref, num_of_assign =>
    if c.type = .ref then
      match check_for_temp_var s c.name with
      | .error s1 e => .error s1 e
      | .ok s1 _ => check_tuple_children (note_written s1 c.name) cs (num_of_ref + 1) num_of_assign
    else if c.type = .assign then
      match check_primitive_ops s c c.type with
      | .error s1 e => .error s1 e
      | .ok s1 _ => check_tuple_children s1 cs num_of_ref (num_of_assign + 1)
    else check_tuple_children s cs num_of_ref num_of_assign
end

end Semantic_pass

namespace Semantic_pass

/-- The body of the `cond` case of `check_if_op` on the children of the `cond` node. -/
def check_if_cond (s : Semantic_pass) (cond_children : List Lnast_node) : Outcome Unit :=
  if has_single_child cond_children then
    match cond_children with
    | cc :: _ =>
      if cc.type ≠ .ref then
        .error s (.msg "If Operation Error: Condition must be Node type 'ref'\n")
      else .ok (note_read s cc.name) ()
    | [] => .error s .invalid_nid
  else .error s (.msg "If Operation Error: Missing Condition Node\n")

/-- The verdict after the loop of `check_if_op`. -/
def if_verdict (s : Semantic_pass) (is_cstmts is_cond is_stmts : Bool) : Outcome Unit :=
  if !is_cstmts then .error s (.msg "If Operation Error: Missing Condition Statments Node\n")
  else if !is_cond then .error s (.msg "If Operation Error: Missing Condition Node\n")
  else if !is_stmts then .error s (.msg "If Operation Error: Missing Statements Node\n")
  else .ok s ()

mutual
/-- Embedding of `Semantic_pass::check_if_op(lnast, lnidx_opr)`. -/
def check_if_op (s : Semantic_pass) : Lnast_node → Outcome Unit
  | .mk _ _ children =>
    match check_if_children s children false false false with
    | .error s1 e => .error s1 e
    | .ok s1 (is_cstmts, is_cond, is_stmts) => if_verdict s1 is_cstmts is_cond is_stmts
/-- The loop of `check_if_op` over the children of the node, with its three flags. -/
def check_if_children (s : Semantic_pass) :
    List Lnast_node → Bool → Bool → Bool → Outcome (Bool × Bool × Bool)
  | [], is_cstmts, is_cond, is_stmts => .ok s (is_cstmts, is_cond, is_stmts)
  | .mk ntype_child _ grandchildren :: cs, is_cstmts, is_cond, is_stmts =>
    if ntype_child = .cstmts || ntype_child = .stmts then
      match check_stmts_children s grandchildren with
      | .error s1 e => .error s1 e
      | .ok s1 _ =>
        if ntype_child = .cstmts then check_if_children s1 cs true is_cond is_stmts
        else check_if_children s1 cs is_cstmts is_cond true
    else if ntype_child = .cond then
      match check_if_cond s grandchildren with
      | .error s1 e => .error s1 e
      | .ok s1 _ => check_if_children s1 cs is_cstmts true is_stmts
    else .error s (.msg "If Operation Error: Not a Valid Node Type\n")
/-- The loop over the statements of a `cstmts`/`stmts` node, as written out in
`check_if_op`, `check_for_op`, `check_while_op` and `check_func_def`: a primitive op goes
to `check_primitive_ops`, every tree structure to `check_if_op`. -/
def check_stmts_children (s : Semantic_pass) : List Lnast_node → Outcome Unit
  | [] => .ok s ()
  | c :: cs =>
    if is_primitive_op c.type then
      match check_primitive_ops s c c.type with
      | .error s1 e => .error s1 e
      | .ok s1 _ => check_stmts_children s1 cs
    else if is_tree_structs c.type then
      match check_if_op s c with
      | .error s1 e => .error s1 e
      | .ok s1 _ => check_stmts_children s1 cs
    else check_stmts_children s cs
end

/-- The loop of `check_for_op` over the children, with `stmts` and `num_of_ref`. -/
def check_for_children (s : Semantic_pass) : List Lnast_node → Bool → Nat → Outcome (Bool × Nat)
  | [], stmts, num_of_ref => .ok s (stmts, num_of_ref)
  | c :: cs, stmts, num_of_ref =>
    if c.type = .stmts then
      match check_stmts_children s c.children with
      | .error s1 e => .error s1 e
      | .ok s1 _ => check_for_children s1 cs true num_of_ref
    else if c.type = .ref then check_for_children (note_read s c.name) cs stmts (num_of_ref + 1)
    else .error s (.msg "For Operation Error: Not a Valid Node Type\n")

/-- Embedding of `Semantic_pass::check_for_op(lnast, lnidx_opr)`. -/
def check_for_op (s : Semantic_pass) (lnidx_opr : Lnast_node) : Outcome Unit :=
  match check_for_children s lnidx_opr.children false 0 with
  | .error s1 e => .error s1 e
  | .ok s1 (stmts, num_of_ref) =>
    if num_of_ref < 2 then .error s1 (.msg "For Operation Error: Missing Reference Node(s)\n")
    else if !stmts then .error s1 (.msg "For Operation Error: Missing Statements Node\n")
    else .ok s1 ()

/-- The body of the `cond` case of `check_while_op` on the children of the `cond` node. -/
def check_while_cond (s : Semantic_pass) (cond_children : List Lnast_node) : Outcome Unit :=
  if has_single_child cond_children then
    match cond_children with
    | cc :: _ =>
      if cc.type ≠ .ref then
        .error s (.msg "While Operation Error: Condition must be Node type 'ref'\n")
      else .ok s ()
    | [] => .error s .invalid_nid
  else .error s (.msg "While Operation Error: Missing Condition Node\n")

/-- The loop of `check_while_op` over the children, with the flags `cond` and `stmt`. -/
def check_while_children (s : Semantic_pass) :
    List Lnast_node → Bool → Bool → Outcome (Bool × Bool)
  | [], cond, stmt => .ok s (cond, stmt)
  | c :: cs, cond, stmt =>
    if c.type = .cond then
      match check_while_cond s c.children with
      | .error s1 e => .error s1 e
      | .ok s1 _ => check_while_children s1 cs true stmt
    else if c.type = .stmts then
      match check_stmts_children s c.children with
      | .error s1 e => .error s1 e
      | .ok s1 _ => check_while_children s1 cs cond true
    else .error s (.msg "While Operation Error: Not a Valid Node Type\n")

/-- Embedding of `Semantic_pass::check_while_op(lnast, lnidx_opr)`. -/
def check_while_op (s : Semantic_pass) (lnidx_opr : Lnast_node) : Outcome Unit :=
  match check_while_children s lnidx_opr.children false false with
  | .error s1 e => .error s1 e
  | .ok s1 (cond, stmt) =>
    if !cond then .error s1 (.msg "While Operation Error: Missing Condition Node\n")
    else if !stmt then .error s1 (.msg "While Operation Error: Missing Statement Node\n")
    else .ok s1 ()

/-- The body of the `cond` case of `check_func_def` on the children of the `cond` node. -/
def check_func_def_cond (s : Semantic_pass) (cond_children : List Lnast_node) : Outcome Unit :=
  if has_single_child cond_children then
    match cond_children with
    | cc :: _ =>
      if cc.type ≠ .const && cc.type ≠ .ref then
        .error s (.msg
          "Func Def Operation Error: Condition must be Node type 'ref' or 'const'\n")
      else .ok s ()
    | [] => .error s .invalid_nid
  else .error s (.msg "Func Def Operation Error: Missing Condition Node\n")

/-- The loop of `check_func_def` over the children, with `num_of_refs`, `cond` and
`stmts`; `is_first` tells whether the child is `get_first_child` of the node. -/
def check_func_def_children (s : Semantic_pass) :
    List Lnast_node → Bool → Nat → Bool → Bool → Outcome (Nat × Bool × Bool)
  | [], _, num_of_refs, cond, stmts => .ok s (num_of_refs, cond, stmts)
  | c :: cs, is_first, num_of_refs, cond, stmts =>
    let num_of_refs := if is_first then num_of_refs + 1 else num_of_refs
    let s := if is_first then note_written s c.name else s
    if c.type = .cstmts || c.type = .stmts then
      match check_stmts_children s c.children with
      | .error s1 e => .error s1 e
      | .ok s1 _ =>
        check_func_def_children s1 cs false num_of_refs cond (if c.type = .stmts then true else stmts)
    else if c.type = .cond then
      match check_func_def_cond s c.children with
      | .error s1 e => .error s1 e
      | .ok s1 _ => check_func_def_children s1 cs false num_of_refs true stmts
    else if c.type = .ref then check_func_def_children s cs false (num_of_refs + 1) cond stmts
    else .error s (.msg "Func Def Operation Error: Not a Valid Node Type\n")

/-- Embedding of `Semantic_pass::check_func_def(lnast, lnidx_opr)`. -/
def check_func_def (s : Semantic_pass) (lnidx_opr : Lnast_node) : Outcome Unit :=
  match check_func_def_children s lnidx_opr.children true 0 false false with
  | .error s1 e => .error s1 e
  | .ok s1 (num_of_refs, cond, stmts) =>
    if num_of_refs < 1 then
      .error s1 (.msg "Func Def Operation Error: Missing Reference Node\n")
    else if !cond then .error s1 (.msg "Func Def Operation Error: Missing Condition Node\n")
    else if !stmts then .error s1 (.msg "Func Def Operation Error: Missing Statement Node\n")
    else .ok s1 ()

/-- The loop of `check_func_call` over the children, with `num_of_refs`. -/
def check_func_call_children (s : Semantic_pass) : List Lnast_node → Nat → Outcome Nat
  | [], num_of_refs => .ok s num_of_refs
  | c :: cs, num_of_refs =>
    if c.type = .ref then check_func_call_children (note_read s c.name) cs (num_of_refs + 1)
    else .error s (.msg "Func Call Operation Error: Condition must be Node type 'ref'\n")

/-- Embedding of `Semantic_pass::check_func_call(lnast, lnidx_opr)`. -/
def check_func_call (s : Semantic_pass) (lnidx_opr : Lnast_node) : Outcome Unit :=
  match check_func_call_children s lnidx_opr.children 0 with
  | .error s1 e => .error s1 e
  | .ok s1 num_of_refs =>
    if num_of_refs ≠ 3 then
      .error s1 (.msg "Func Call Operation Error: Missing Reference Node(s)\n")
    else .ok s1 ()

/-- The dispatch of `semantic_check` on one top-level statement. -/
def check_top_stmt (s : Semantic_pass) (stmt : Lnast_node) : Outcome Unit :=
  if is_primitive_op stmt.type then check_primitive_ops s stmt stmt.type
  else if stmt.type = .if_ then check_if_op s stmt
  else if stmt.type = .for_ then check_for_op s stmt
  else if stmt.type = .while_ then check_while_op s stmt
  else if stmt.type = .func_call then check_func_call s stmt
  else if stmt.type = Lnast_ntype.func_def then check_func_def s stmt
  else .ok s ()

/-- The loop of `semantic_check` over the top-level statements. -/
def check_top_stmts (s : Semantic_pass) : List Lnast_node → Outcome Unit
  | [] => .ok s ()
  | stmt :: rest =>
    match check_top_stmt s stmt with
    | .error s1 e => .error s1 e
    | .ok s1 _ => check_top_stmts s1 rest

/-- The names that the warning at the end of `semantic_check` lists: `not_read_list`, when
it is not empty. -/
def never_read_warning (s : Semantic_pass) : Option (List String) :=
  if s.not_read_list.length ≠ 0 then some s.not_read_list else none

/-- Embedding of `Semantic_pass::semantic_check(lnast)` on the tree below the root `top`;
the value is the warning printed at the end. The statements are the children of the
first child of the root. -/
def semantic_check (s : Semantic_pass) (top : Lnast_node) : Outcome (Option (List String)) :=
  match top.children with
  | [] => .error s .invalid_nid
  | stmts :: _ =>
    match check_top_stmts s stmts.children with
    | .error s1 e => .error s1 e
    | .ok s1 _ => .ok s1 (never_read_warning s1)

end Semantic_pass

/-! ## Write positions of a name in a tree -/

/-- Whether `c` is a node named `node_name`, as 0 or 1. -/
def names_it (node_name : String) (c : Lnast_node) : Nat :=
  if c.name = node_name then 1 else 0

/-- The write position among the children of a node of a unary or N-ary type: its first
child, when it is named `node_name`. -/
def first_child_write (node_name : String) : List Lnast_node → Nat
  | c :: _ => names_it node_name c
  | [] => 0

/-- The write positions among the children of a `tuple` node: the `ref` children named
`node_name`. -/
def tuple_ref_writes (node_name : String) (children : List Lnast_node) : Nat :=
  (children.filter fun c => decide (c.type = .ref ∧ c.name = node_name)).length

/-- The write positions of `node_name` among the children of one node of type `t`: the
first child of a node of a unary or N-ary type, and every `ref` child of a `tuple`. -/
def own_writes (node_name : String) (t : Lnast_ntype) (children : List Lnast_node) : Nat :=
  if Semantic_pass.unary_branch t || Semantic_pass.nary_branch t then
    first_child_write node_name children
  else if t = .tuple then tuple_ref_writes node_name children
  else 0

mutual
/-- Number of write positions of `node_name` in the tree below a node. -/
def write_count (node_name : String) : Lnast_node → Nat
  | .mk t _ children => own_writes node_name t children + write_count_list node_name children
/-- Number of write positions of `node_name` in the trees below a list of nodes. -/
def write_count_list (node_name : String) : List Lnast_node → Nat
  | [] => 0
  | c :: cs => write_count node_name c + write_count_list node_name cs
end

/-- The LNAST `top(stmts(...))` with the given top-level statements. -/
def lnast_of_stmts (stmts : List Lnast_node) : Lnast_node :=
  .mk .top "top" [.mk .stmts "stmts" stmts]

/-- The leaf `ref` node of a name. -/
def ref_node (node_name : String) : Lnast_node := .mk .ref node_name []

/-- The leaf `const` node of a literal. -/
def const_node (text : String) : Lnast_node := .mk .const text []

/-! ## Invariant of the temporary list -/

/-- Whether `node_name` is in `temp_list`, as 0 or 1. -/
def temp_mark (node_name : String) (s : Semantic_pass) : Nat :=
  if node_name ∈ s.temp_list then 1 else 0

/-- The relation between the pass object `s` before a check, the number `budget` of write
positions of `node_name` that the check visits at most, and the outcome: a check that
runs to its end keeps `node_name` in `temp_list` and can only add it when it visits a
write position; a check ended by the Temporary Variable Error for `node_name` has seen
two write positions, counting the one that put it into `temp_list`. -/
def Temp_inv {α : Type} (node_name : String) (s : Semantic_pass) (budget : Nat) :
    Outcome α → Prop
  | .ok s1 _ => temp_mark node_name s ≤ temp_mark node_name s1 ∧
      temp_mark node_name s1 ≤ temp_mark node_name s + budget
  | .error _ e => e = .temp_var node_name →
      Semantic_pass.is_temp_var node_name = true ∧ 2 ≤ temp_mark node_name s + budget

mutual
/-- Number of `assign`/`dp_assign` nodes in the tree below a node whose first child is
named `node_name`. -/
def assign_lhs_count (node_name : String) : Lnast_node → Nat
  | .mk t _ children =>
    (if t = .assign ∨ t = .dp_assign then first_child_write node_name children else 0)
      + assign_lhs_count_list node_name children
/-- Number of such nodes in the trees below a list of nodes. -/
def assign_lhs_count_list (node_name : String) : List Lnast_node → Nat
  | [] => 0
  | c :: cs => assign_lhs_count node_name c + assign_lhs_count_list node_name cs
end

/-! ## Shapes accepted by the validator -/

/-- A child that the loop of `check_if_op` accepts: a cstmts, a stmts, or a cond with a
single child, of type ref. -/
def if_child_ok (c : Lnast_node) : Bool :=
  c.type = .cstmts || c.type = .stmts ||
    (c.type = .cond && match c.children with
      | [r] => decide (r.type = .ref)
      | _ => false)

/-- Number of nodes of type `t` in a list of children. -/
def count_type (t : Lnast_ntype) (children : List Lnast_node) : Nat :=
  (children.filter fun c => decide (c.type = t)).length

/-! ## Outcomes that agree up to the read lists -/

/-- Two outcomes of one check started from two pass objects agree: both run to their end
with the same value, or both are ended by the same error, and they leave the same
`temp_list`. -/
def Same_temp {α : Type} : Outcome α → Outcome α → Prop
  | .ok s1 v1, .ok s2 v2 => s1.temp_list = s2.temp_list ∧ v1 = v2
  | .error s1 e1, .error s2 e2 => s1.temp_list = s2.temp_list ∧ e1 = e2
  | _, _ => False

/-! ## Writes and reads noted by the validator -/

/-- A name that the validator notes as written (`if (!in_not_read_list(n))
check_for_not_read(n)`) or as read (`if (in_not_read_list(n)) check_for_not_read(n)`). -/
inductive Rw_event where
  | written (node_name : String)
  | read (node_name : String)
  deriving DecidableEq, Repr

/-- The effect of one noted write or read on the pass object. -/
def note_event (s : Semantic_pass) : Rw_event → Semantic_pass
  | .written node_name => Semantic_pass.note_written s node_name
  | .read node_name => Semantic_pass.note_read s node_name

/-- The effect of a sequence of noted writes and reads, in order. -/
def note_events (s : Semantic_pass) (events : List Rw_event) : Semantic_pass :=
  events.foldl note_event s

/-- Whether `node_name` is written in `events` and not read after its first write. -/
def first_write_unread (node_name : String) : List Rw_event → Bool
  | [] => false
  | .written m :: rest =>
    if m = node_name then !decide (Rw_event.read node_name ∈ rest)
    else first_write_unread node_name rest
  | .read _ :: rest => first_write_unread node_name rest

namespace Semantic_pass

/-- The writes and reads that `check_unary` notes when no error ends it. -/
def unary_events : List Lnast_node → List Rw_event
  | lhs :: rhs :: _ => [.written lhs.name, .read rhs.name]
  | _ => []

/-- The writes and reads that `check_nary_children` notes when no error ends it. -/
def nary_events : List Lnast_node → Bool → List Rw_event
  | [], _ => []
  | c :: cs, is_first =>
    (if is_first then Rw_event.written c.name else Rw_event.read c.name) ::
      nary_events cs false

mutual
/-- The writes and reads that `check_primitive_ops` notes when no error ends it. -/
def primitive_ops_events : Lnast_node → Lnast_ntype → List Rw_event
  | .mk _ _ children, node_type =>
    if unary_branch node_type then unary_events children
    else if nary_branch node_type then nary_events children true
    else if node_type = .tuple then tuple_events children
    else []
/-- The writes and reads that `check_tuple_children` notes when no error ends it. -/
def tuple_events : List Lnast_node → List Rw_event
  | [] => []
  | c :: cs =>
    if c.type = .ref then .written c.name :: tuple_events cs
    else if c.type = .assign then primitive_ops_events c c.type ++ tuple_events cs
    else tuple_events cs
end

/-- The read that `check_if_cond` notes when no error ends it. -/
def if_cond_events : List Lnast_node → List Rw_event
  | cc :: _ => [.read cc.name]
  | [] => []

mutual
/-- The writes and reads that `check_if_op` notes when no error ends it. -/
def if_op_events : Lnast_node → List Rw_event
  | .mk _ _ children => if_children_events children
/-- The writes and reads that `check_if_children` notes when no error ends it. -/
def if_children_events : List Lnast_node → List Rw_event
  | [] => []
  | .mk ntype_child _ grandchildren :: cs =>
    if ntype_child = .cstmts || ntype_child = .stmts then
      stmts_children_events grandchildren ++ if_children_events cs
    else if ntype_child = .cond then if_cond_events grandchildren ++ if_children_events cs
    else []
/-- The writes and reads that `check_stmts_children` notes when no error ends it. -/
def stmts_children_events : List Lnast_node → List Rw_event
  | [] => []
  | c :: cs =>
    if is_primitive_op c.type then primitive_ops_events c c.type ++ stmts_children_events cs
    else if is_tree_structs c.type then if_op_events c ++ stmts_children_events cs
    else stmts_children_events cs
end

/-- The writes and reads that `check_for_op` notes when no error ends it. -/
def for_events : List Lnast_node → List Rw_event
  | [] => []
  | c :: cs =>
    if c.type = .stmts then stmts_children_events c.children ++ for_events cs
    else if c.type = .ref then .read c.name :: for_events cs
    else []

/-- The writes and reads that `check_while_op` notes when no error ends it. -/
def while_events : List Lnast_node → List Rw_event
  | [] => []
  | c :: cs =>
    if c.type = .cond then while_events cs
    else if c.type = .stmts then stmts_children_events c.children ++ while_events cs
    else []

/-- The writes and reads that `check_func_def` notes when no error ends it. -/
def func_def_events : List Lnast_node → Bool → List Rw_event
  | [], _ => []
  | c :: cs, is_first =>
    (if is_first then [Rw_event.written c.name] else []) ++
      (if c.type = .cstmts || c.type = .stmts then
        stmts_children_events c.children ++ func_def_events cs false
      else if c.type = .cond then func_def_events cs false
      else if c.type = .ref then func_def_events cs false
      else [])

/-- The reads that `check_func_call` notes when no error ends it. -/
def func_call_events : List Lnast_node → List Rw_event
  | [] => []
  | c :: cs => if c.type = .ref then .read c.name :: func_call_events cs else []

/-- The writes and reads that `check_top_stmt` notes when no error ends it. -/
def top_stmt_events (stmt : Lnast_node) : List Rw_event :=
  if is_primitive_op stmt.type then primitive_ops_events stmt stmt.type
  else if stmt.type = .if_ then if_op_events stmt
  else if stmt.type = .for_ then for_events stmt.children
  else if stmt.type = .while_ then while_events stmt.children
  else if stmt.type = .func_call then func_call_events stmt.children
  else if stmt.type = Lnast_ntype.func_def then func_def_events stmt.children true
  else []

/-- The writes and reads that `check_top_stmts` notes when no error ends it. -/
def top_stmts_events : List Lnast_node → List Rw_event
  | [] => []
  | stmt :: rest => top_stmt_events stmt ++ top_stmts_events rest

/-- The writes and reads that `semantic_check` notes, in order, when no error ends it. -/
def semantic_events (top : Lnast_node) : List Rw_event :=
  match top.children with
  | [] => []
  | stmts :: _ => top_stmts_events stmts.children

end Semantic_pass

/-- Two pass objects with the same `not_read_list` and `have_read_list`. -/
def Reads_eq (s t : Semantic_pass) : Prop :=
  s.not_read_list = t.not_read_list ∧ s.have_read_list = t.have_read_list

/-! ## FIRRTL input of the lowering

The lowering of `fir_tolnast.cpp` reads a FIRRTL circuit from its protobuf message and
appends nodes to an LNAST. A function that appends nodes to `parent_node` is embedded as a
step that yields the list of the nodes it appends, in order; the assertion
`I(lnast.get_data(parent_node).type.is_stmts())` at the head of the functions holds at
every call embedded here, the parent being the top `stmts` or the `stmts` of an `if`. -/

/-- The values of the field `op` of a `PrimOp` that `ListPrimOpInfo` names; `OP_UNKNOWN`
stands for every other value. -/
inductive Fir_op where
  | OP_ADD | OP_SUB | OP_TIMES | OP_DIVIDE | OP_REM
  | OP_DYNAMIC_SHIFT_LEFT | OP_DYNAMIC_SHIFT_RIGHT
  | OP_BIT_AND | OP_BIT_OR | OP_BIT_XOR
  | OP_LESS | OP_LESS_EQ | OP_GREATER | OP_GREATER_EQ | OP_EQUAL | OP_NOT_EQUAL
  | OP_TAIL | OP_HEAD | OP_SHIFT_LEFT | OP_SHIFT_RIGHT | OP_BIT_NOT | OP_CONCAT | OP_PAD
  | OP_NEG | OP_CONVERT | OP_EXTRACT_BITS
  | OP_AS_UINT | OP_AS_SINT | OP_AS_CLOCK | OP_AS_FIXED_POINT | OP_AS_ASYNC_RESET
  | OP_XOR_REDUCE | OP_AND_REDUCE | OP_OR_REDUCE
  | OP_INCREASE_PRECISION | OP_DECREASE_PRECISION | OP_SET_PRECISION
  | OP_WRAP | OP_CLIP | OP_SQUEEZE | OP_AS_INTERVAL
  | OP_UNKNOWN
  deriving DecidableEq, Repr

/-- A FIRRTL expression (`FirrtlPB_Expression`), with the fields that the lowering reads:
the literal values and the constants of a `PrimOp` are the strings of their `value()`. -/
inductive Fir_expression where
  | not_set
  | reference (id : String)
  | uint_literal (value : String)
  | sint_literal (value : String)
  | valid_if (condition value : Fir_expression)
  | mux (condition t_value f_value : Fir_expression)
  | sub_field (expression : Fir_expression) (field : String)
  | sub_index (expression : Fir_expression) (index : String)
  | sub_access (expression index : Fir_expression)
  | prim_op (op : Fir_op) (arg : List Fir_expression) (const_ : List String)
  | fixed_literal
  deriving Repr

mutual
/-- A FIRRTL type (`FirrtlPB_Type`), with the fields that the lowering reads. -/
inductive Fir_type where
  | not_set
  | uint_type (width : Nat)
  | sint_type (width : Nat)
  | clock_type
  | bundle_type (field : List Fir_field)
  | vector_type (type : Fir_type) (size : Nat)
  | fixed_type
  | analog_type (width : Nat)
  | async_reset_type
  | reset_type
/-- A field of a bundle type. -/
inductive Fir_field where
  | mk (id : String) (is_flipped : Bool) (type : Fir_type)
end

/-- The field `read_under_write` of a memory. -/
inductive Read_under_write where
  | UNDEFINED | OLD | NEW
  deriving DecidableEq, Repr

/-- The depth of a `Memory` statement (`depth_case`); a big integer is its byte array. -/
inductive Mem_depth where
  | not_set
  | uint_depth (depth : Nat)
  | bigint_depth (bytes : List Nat)

/-- The type of a `CMemory` statement (`type_case`). -/
inductive Cmem_type where
  | not_set
  | vector_type (type : Fir_type) (size : Nat)
  | type_and_depth (data_type : Fir_type) (depth : List Nat)

/-- The field `direction` of a `MemoryPort` statement; `OTHER` stands for every value
that `HandleMemPortPre` does not name. -/
inductive Mport_direction where
  | MEMORY_PORT_DIRECTION_INFER
  | MEMORY_PORT_DIRECTION_READ
  | MEMORY_PORT_DIRECTION_WRITE
  | MEMORY_PORT_DIRECTION_READ_WRITE
  | OTHER
  deriving DecidableEq, Repr

/-- A FIRRTL statement (`FirrtlPB_Statement`), with the fields that the lowering reads. -/
inductive Fir_statement where
  | not_set
  | wire (id : String) (type : Fir_type)
  | register_ (id : String) (type : Fir_type) (clock reset init : Fir_expression)
  | memory (id : String) (type : Fir_type) (depth : Mem_depth)
      (read_latency write_latency : Nat) (read_under_write : Read_under_write)
      (reader_id writer_id readwriter_id : List String)
  | cmemory (id : String) (type : Cmem_type) (read_under_write : Read_under_write)
      (sync_read : Bool)
  | instance_ (id : String) (module_id : String)
  | node (id : String) (expression : Fir_expression)
  | when (predicate : Fir_expression) (consequent otherwise : List Fir_statement)
  | stop (en clk : Fir_expression) (return_value : Int)
  | printf (en clk : Fir_expression) (value : String) (arg : List Fir_expression)
  | skip
  | connect (location expression : Fir_expression)
  | partial_connect (location expression : Fir_expression)
  | is_invalid
  | memory_port (id : String) (memory_id : String) (expression memory_index : Fir_expression)
      (direction : Mport_direction)
  | attach

/-! ## State of the lowering -/

/-- The direction recorded for a memory port in `late_assign_ports`. -/
inductive Mem_dir where
  | READ | WRITE | READ_WRITE | READP | WRITEP | READ_WRITEP
  | READI | WRITEI | READ_WRITEI | INFER
  deriving DecidableEq, Repr

/-- The members of `Inou_firrtl` that the lowering of a module reads and writes; sets are
lists of their elements, maps are lists of key and value, looked up from the front. -/
structure Inou_firrtl where
  temp_var_count : Nat
  seq_counter : Nat
  input_names : List String
  output_names : List String
  register_names : List String
  memory_names : List String
  async_rst_names : List String
  inst_to_mod_map : List (String × String)
  mem_props_map : List (String × (Bool × String × String))
  dangling_ports_map : List (String × String)
  late_assign_ports : List (String × Mem_dir)
  mod_to_io_dir_map : List ((String × String) × Nat)
  emod_to_param_map : List (String × List (String × String))
  deriving Repr

/-- The state at the start of a module when nothing is recorded yet. -/
def Inou_firrtl.empty : Inou_firrtl :=
  { temp_var_count := 0, seq_counter := 0, input_names := [], output_names := [],
    register_names := [], memory_names := [], async_rst_names := [], inst_to_mod_map := [],
    mem_props_map := [], dangling_ports_map := [], late_assign_ports := [],
    mod_to_io_dir_map := [], emod_to_param_map := [] }

/-- What ends the lowering early: a call of `Pass::error` (modelled from the spec as
fatal, §7), a failed assertion `I(...)`, an element of a repeated field asked for beyond
its size, or the recursion budget of the model running out. -/
inductive Fir_error where
  | pass_error (text : String)
  | assertion (text : String)
  | out_of_range (field : String)
  | out_of_fuel
  deriving DecidableEq, Repr

/-- The result of a lowering step: a value, the state after the step and the nodes that
the step appended to its parent node, in order; or the error that ended it. -/
inductive Lowered (α : Type) where
  | ok (val : α) (st : Inou_firrtl) (emitted : List Lnast_node)
  | error (err : Fir_error)

/-- A lowering step, run from a state. -/
def Lower (α : Type) : Type := Inou_firrtl → Lowered α

namespace Lower

/-- A step that does nothing and yields `a`. -/
def ret {α : Type} (a : α) : Lower α := fun st => .ok a st []

/-- Two steps in sequence: the nodes of the second follow those of the first. -/
def seq {α β : Type} (m : Lower α) (f : α → Lower β) : Lower β := fun st =>
  match m st with
  | .error e => .error e
  | .ok a st1 out1 =>
    match f a st1 with
    | .error e => .error e
    | .ok b st2 out2 => .ok b st2 (out1 ++ out2)

instance : Monad Lower where
  pure := ret
  bind := seq

/-- The call `lnast.add_child(parent_node, node)` with the finished node. -/
def emit (node : Lnast_node) : Lower Unit := fun st => .ok () st [node]

/-- The step that ends the lowering with an error. -/
def fail {α : Type} (e : Fir_error) : Lower α := fun _ => .error e

/-- The current state. -/
def get : Lower Inou_firrtl := fun st => .ok st st []

/-- A change of the state. -/
def modify (f : Inou_firrtl → Inou_firrtl) : Lower Unit := fun st => .ok () (f st) []

/-- The step `m` run with a new node as parent: its nodes are handed back as the children
of that node, and nothing is appended to the current parent. -/
def children_of (m : Lower Unit) : Lower (List Lnast_node) := fun st =>
  match m st with
  | .error e => .error e
  | .ok _ st1 out => .ok out st1 []

/-- A loop over a list, in order. -/
def for_each {α : Type} : List α → (α → Lower Unit) → Lower Unit
  | [], _ => ret ()
  | a :: rest, f => seq (f a) (fun _ => for_each rest f)

end Lower

/-! ## Strings of the lowering -/

/-- The value `std::string::npos`. -/
def npos : Nat := 2 ^ 64 - 1

/-- Embedding of `s.find(c, start)`: the position of the first `c` at or after `start`,
or `npos`. -/
def str_find (s : String) (c : Char) (start : Nat) : Nat :=
  match (s.data.drop start).indexOf? c with
  | some i => start + i
  | none => npos

/-- Embedding of `s.find_first_of(cs)`: the position of the first character of `s` that
is in `cs`, or `npos`. -/
def str_find_first_of (s : String) (cs : List Char) : Nat :=
  match s.data.findIdx? (fun c => cs.contains c) with
  | some i => i
  | none => npos

/-- Embedding of `s.substr(pos, len)`. -/
def str_substr (s : String) (pos len : Nat) : String :=
  ⟨(s.data.drop pos).take len⟩

/-- Embedding of `s.substr(pos)`. -/
def str_substr_from (s : String) (pos : Nat) : String :=
  ⟨s.data.drop pos⟩

/-- Embedding of `s[0]`; the character at the end of an empty string is the null
character. -/
def str_first (s : String) : Char :=
  s.data.headD (Char.ofNat 0)

/-- Embedding of `replace(s.begin(), s.end(), a, b)`. -/
def str_replace_char (s : String) (a b : Char) : String :=
  ⟨s.data.map fun c => if c = a then b else c⟩

/-- Embedding of `std::to_string(n)` and of `absl::StrCat` on an unsigned number. -/
def nat_to_string (n : Nat) : String := toString n

/-- Embedding of `map.contains(key)` / `map.count(key)`. -/
def map_contains {β : Type} (m : List (String × β)) (key : String) : Bool :=
  m.any fun kv => kv.1 = key

/-- Embedding of `map[key] = value`. -/
def map_insert {β : Type} (m : List (String × β)) (key : String) (value : β) :
    List (String × β) :=
  if map_contains m key then m.map fun kv => if kv.1 = key then (key, value) else kv
  else m ++ [(key, value)]

/-- Embedding of `map[key]` read as a value: a key that the map does not hold is entered
with the default value. -/
def map_at {κ β : Type} [DecidableEq κ] (m : List (κ × β)) (key : κ) (dflt : β) :
    β × List (κ × β) :=
  match m.lookup key with
  | some v => (v, m)
  | none => (dflt, m ++ [(key, dflt)])

/-- Embedding of `s.replace(pos, len, r)`. -/
def str_replace (s : String) (pos len : Nat) (r : String) : String :=
  ⟨s.data.take pos ++ r.data ++ s.data.drop (pos + min len (s.length - pos))⟩

/-! ## Helper functions of the lowering -/

namespace Inou_firrtl

/-- Embedding of `Inou_firrtl::create_temp_var`. -/
def create_temp_var : Lower String := fun st =>
  .ok ("___F" ++ nat_to_string st.temp_var_count)
    { st with temp_var_count := st.temp_var_count + 1 } []

/-- Embedding of `Inou_firrtl::get_new_seq_name`. -/
def get_new_seq_name : Lower String := fun st =>
  .ok ("SEQ" ++ nat_to_string st.seq_counter) { st with seq_counter := st.seq_counter + 1 } []

/-- Modelled from the spec: the value `late_assign_ports[key]`. The enumeration of the
directions is not among the sources; a key that the map does not hold is entered by
`operator[]` with the enumerator named first in `PerformLateMemAssigns`, `READ`. -/
def late_assign_ports_at (st : Inou_firrtl) (key : String) : Mem_dir × Inou_firrtl :=
  match st.late_assign_ports.lookup key with
  | some d => (d, st)
  | none => (.READ, { st with late_assign_ports := st.late_assign_ports ++ [(key, .READ)] })

/-- Embedding of `Inou_firrtl::PortDirInference`. -/
def PortDirInference (port_name mem_name : String) (is_rhs : Bool) : Lower Unit := fun st =>
  let key := mem_name ++ "." ++ port_name
  let (d, st1) := late_assign_ports_at st key
  if is_rhs then
    if d = .INFER then
      .ok () { st1 with late_assign_ports := map_insert st1.late_assign_ports key .READI } []
    else if d = .WRITEI then
      .ok () { st1 with late_assign_ports := map_insert st1.late_assign_ports key .READ_WRITEI } []
    else .ok () st1 []
  else
    if d = .INFER then
      .ok () { st1 with late_assign_ports := map_insert st1.late_assign_ports key .WRITEI } []
    else if d = .READI then
      .ok () { st1 with late_assign_ports := map_insert st1.late_assign_ports key .READ_WRITEI } []
    else .ok () st1 []

/-- Embedding of `Inou_firrtl::AttachExprStrToNode`: the child that it adds. -/
def AttachExprStrToNode (access_str : String) : Lnast_node :=
  let first_char := str_first access_str
  if first_char.isDigit || first_char = '-' || first_char = '+' then const_node access_str
  else ref_node access_str

/-- The loop of `CreateDotsSelsFromStr` that separates a name at every `'.'`. -/
def split_dots : List Char → List Char → List String
  | [], cur => [⟨cur.reverse⟩]
  | c :: rest, cur =>
    if c = '.' then ⟨cur.reverse⟩ :: split_dots rest [] else split_dots rest (c :: cur)

/-- The inner loop of `CreateDotsSelsFromStr` over the selectors `[...]` of one element;
every round shortens `elem`, `fuel` bounds the rounds. -/
def split_sels : Nat → String → List String
  | 0, _ => []
  | fuel + 1, elem =>
    if str_find elem '[' 0 ≠ npos then
      let elem1 := str_substr_from elem ((str_find elem '[' 0 + 1) % 2 ^ 64)
      ("[" ++ str_substr elem1 0 (str_find elem1 ']' 0) ++ "]") :: split_sels fuel elem1
    else []

/-- The second loop of `CreateDotsSelsFromStr`: the queue `flat_queue`. -/
def flat_queue_of : List String → List String
  | [] => []
  | elem :: rest =>
    (if str_find elem '[' 0 ≠ npos then
      str_substr elem 0 (str_find elem '[' 0) :: split_sels elem.length elem
    else [elem]) ++ flat_queue_of rest

/-- The call `ln.add_child(ln_node, child)` on a node that is in the tree already. -/
def add_child (node : Lnast_node) (child : Lnast_node) : Lnast_node :=
  .mk node.type node.name (node.children ++ [child])

/-- The third loop of `CreateDotsSelsFromStr` after the first element: `ln_node` is the
node made last and `done` the nodes made before it, in order. -/
def dots_sels_loop : List String → Bool → String → List Lnast_node → Option Lnast_node →
    Lower (Option Lnast_node × List Lnast_node)
  | [], _, _, done, ln_node => pure (ln_node, done)
  | elem0 :: rest, sel_was_last, bund_name, done, ln_node => do
    let st ← Lower.get
    let elem :=
      if str_substr elem0 0 2 = "_T" && !map_contains st.dangling_ports_map elem0 then
        "_." ++ elem0
      else elem0
    let flushed := match ln_node with
      | some n => done ++ [n]
      | none => done
    if str_first elem = '[' then
      let temp_var_name ← create_temp_var
      let sel_str := str_substr elem 1 (elem.length - 2)
      let third := if (str_first sel_str).isDigit then const_node sel_str else ref_node sel_str
      dots_sels_loop rest true temp_var_name flushed
        (some (.mk .select "" [ref_node temp_var_name, ref_node bund_name, third]))
    else if sel_was_last then
      let temp_var_name ← create_temp_var
      dots_sels_loop rest false temp_var_name flushed
        (some (.mk .dot "" [ref_node temp_var_name, ref_node bund_name, ref_node elem]))
    else
      match ln_node with
      | some n => dots_sels_loop rest sel_was_last bund_name done (some (add_child n (ref_node elem)))
      | none => Lower.fail (.assertion "ln_node")

/-- Embedding of `Inou_firrtl::CreateDotsSelsFromStr`: the dot and select nodes are
appended to the parent, the value is the name of the first child of the last of them. -/
def CreateDotsSelsFromStr (flattened_str : String) : Lower String := do
  if str_find flattened_str '.' 0 = npos && str_find flattened_str '[' 0 = npos then
    Lower.fail (.assertion "CreateDotsSelsFromStr: no '.' and no '['")
  else
    let st ← Lower.get
    match flat_queue_of (split_dots flattened_str.data []) with
    | [] => Lower.fail (.assertion "ln_node")
    | elem0 :: rest =>
      let bund_name :=
        if str_substr elem0 0 2 = "_T" && !map_contains st.dangling_ports_map elem0 then
          "_." ++ elem0
        else elem0
      let (ln_node, done) ← dots_sels_loop rest true bund_name [] none
      match ln_node with
      | none => Lower.fail (.assertion "ln_node")
      | some n =>
        Lower.for_each (done ++ [n]) Lower.emit
        match n.children with
        | first :: _ => pure first.name
        | [] => Lower.fail (.assertion "ln_node")

/-- Embedding of `Inou_firrtl::get_full_name`. -/
def get_full_name (term : String) (is_rhs : Bool) : Lower String := do
  let st ← Lower.get
  if st.input_names.contains term then pure ("$" ++ term)
  else if st.output_names.contains term then pure ("%" ++ term)
  else if st.register_names.contains term then
    if is_rhs then CreateDotsSelsFromStr ("#" ++ term ++ ".__q_pin")
    else pure ("#" ++ term)
  else if map_contains st.dangling_ports_map term then
    let mem_name := (st.dangling_ports_map.lookup term).getD ""
    PortDirInference term mem_name is_rhs
    pure term
  else if str_substr term 0 2 = "_T" then pure ("_." ++ term)
  else if str_substr term 0 4 = "_GEN" then pure ("_." ++ term)
  else pure term

/-- Embedding of `Inou_firrtl::create_bitwidth_dot_node`. -/
def create_bitwidth_dot_node (bitwidth : Nat) (port_id : String) (is_signed : Bool) :
    Lower Unit := do
  if bitwidth ≤ 0 then pure ()
  else
    let bit_acc_name ←
      if is_signed then CreateDotsSelsFromStr (port_id ++ ".__sbits")
      else CreateDotsSelsFromStr (port_id ++ ".__ubits")
    Lower.emit (.mk .assign "" [ref_node bit_acc_name, const_node (nat_to_string bitwidth)])

end Inou_firrtl

/-! ## Lowering of expressions -/

namespace Inou_firrtl

/-- The callee of the `func_call` that `HandleTwoExprPrimOp` makes for `op`, if any. -/
def two_expr_callee : Fir_op → Option String
  | .OP_ADD => some "__fir_add"
  | .OP_SUB => some "__fir_sub"
  | .OP_TIMES => some "__fir_mul"
  | .OP_DIVIDE => some "__fir_div"
  | .OP_REM => some "__fir_rem"
  | .OP_DYNAMIC_SHIFT_LEFT => some "__fir_dshl"
  | .OP_DYNAMIC_SHIFT_RIGHT => some "__fir_dshr"
  | .OP_BIT_AND => some "__fir_and"
  | .OP_BIT_OR => some "__fir_or"
  | .OP_BIT_XOR => some "__fir_xor"
  | .OP_LESS => some "__fir_lt"
  | .OP_LESS_EQ => some "__fir_leq"
  | .OP_GREATER => some "__fir_gt"
  | .OP_GREATER_EQ => some "__fir_geq"
  | .OP_EQUAL => some "__fir_eq"
  | .OP_NOT_EQUAL => some "__fir_neq"
  | _ => none

/-- The loop of `HandleBundVecAcc` that writes `0` for every index between brackets;
`fuel` bounds the rounds, one for each `'['`. -/
def zero_indices : Nat → String → Nat → String
  | 0, alter_flat_str, _ => alter_flat_str
  | fuel + 1, alter_flat_str, end_pos =>
    let pos := str_find alter_flat_str '[' end_pos
    if pos ≠ npos then
      let end_pos1 := str_find alter_flat_str ']' pos
      zero_indices fuel
        (str_replace alter_flat_str (pos + 1) ((end_pos1 + 2 ^ 64 - pos - 1) % 2 ^ 64) "0")
        (pos + 2)
    else alter_flat_str

/-- The part of `HandleBundVecAcc` that computes `alter_full_str`. -/
def bund_vec_full_str (alter_flat_str : String) (is_rhs : Bool) : Lower String := do
  let delim_loc := str_find_first_of alter_flat_str ['.', '[']
  let st ← Lower.get
  if map_contains st.dangling_ports_map (str_substr alter_flat_str 0 delim_loc) then do
    let por_name := str_substr alter_flat_str 0 delim_loc
    let mem_name := (st.dangling_ports_map.lookup por_name).getD ""
    let en_str := str_substr_from mem_name 1 ++ "_" ++ por_name ++ "_en"
    Lower.emit (.mk .assign "dpo" [ref_node en_str, const_node "1"])
    PortDirInference por_name mem_name is_rhs
    if is_rhs then
      pure ("#" ++ mem_name ++ "." ++ por_name ++ ".__data" ++
        str_substr_from alter_flat_str delim_loc)
    else
      pure (str_substr_from mem_name 1 ++ "_" ++ por_name ++ "_data" ++
        str_substr_from alter_flat_str delim_loc)
  else get_full_name alter_flat_str false

/-- The last two statements of `HandleBundVecAcc`: the assertion
`I(flattened_str.find(".") || flattened_str.find("["))` and the call of
`CreateDotsSelsFromStr`. -/
def bund_vec_create (flattened_str : String) : Lower String :=
  if str_find flattened_str '.' 0 = 0 && str_find flattened_str '[' 0 = 0 then
    Lower.fail (.assertion "flattened_str.find")
  else CreateDotsSelsFromStr flattened_str

/-- The branch of `HandleBundVecAcc` for an access to a port of a memory. -/
def bund_vec_memory (flattened_str alter_full_str : String) (is_rhs : Bool) : Lower String :=
  let per1 := str_find alter_full_str '.' 0
  let per2 := str_find alter_full_str '.' ((per1 + 1) % 2 ^ 64)
  let mem_name := "#" ++ str_substr alter_full_str 0 per1
  let port_name :=
    str_substr alter_full_str ((per1 + 1) % 2 ^ 64) ((per2 + 2 ^ 64 - per1 - 1) % 2 ^ 64)
  let field_name := str_substr_from alter_full_str ((per2 + 1) % 2 ^ 64)
  if str_substr field_name 0 4 = "data" && is_rhs then
    bund_vec_create (mem_name ++ "." ++ port_name ++ ".__data")
  else if str_substr field_name 0 5 = "rdata" && is_rhs then
    bund_vec_create (mem_name ++ "." ++ port_name ++ ".__data")
  else pure (str_replace_char flattened_str '.' '_')

/-- The branch of `HandleBundVecAcc` for an access to a port of a module instance. -/
def bund_vec_instance (flattened_str alter_full_str : String) : Lower String := do
  let st ← Lower.get
  let first_dot := str_find alter_full_str '.' 0
  let inst_name0 := str_substr alter_full_str 0 first_dot
  let inst_name := if str_substr inst_name0 0 2 = "_T" then "_." ++ inst_name0 else inst_name0
  let str_without_inst := str_substr_from alter_full_str ((first_dot + 1) % 2 ^ 64)
  let inst := map_at st.inst_to_mod_map inst_name ""
  let dir := map_at st.mod_to_io_dir_map (inst.1, str_without_inst) 0
  Lower.modify fun s => { s with inst_to_mod_map := inst.2, mod_to_io_dir_map := dir.2 }
  if dir.1 = 1 then bund_vec_create ("inp_" ++ flattened_str)
  else if dir.1 = 2 then bund_vec_create ("out_" ++ flattened_str)
  else Lower.fail (.pass_error ("direction unknown of " ++ flattened_str ++ "\n"))

/-- The part of `HandleBundVecAcc` after the name is flattened. -/
def HandleBundVecAcc_flat (flattened_str : String) (is_rhs : Bool) : Lower String := do
  let alter_flat_str := zero_indices flattened_str.length flattened_str 0
  let alter_full_str ← bund_vec_full_str alter_flat_str is_rhs
  let st ← Lower.get
  let first_dot := str_find alter_full_str '.' 0
  if str_first alter_full_str = '$' then
    bund_vec_create ("$inp_" ++ flattened_str)
  else if str_first alter_full_str = '%' then
    bund_vec_create ("%out_" ++ flattened_str)
  else if str_first alter_full_str = '#' then
    if is_rhs then bund_vec_create (flattened_str ++ ".__q_pin")
    else bund_vec_create ("#" ++ flattened_str)
  else if st.memory_names.contains (str_substr alter_full_str 0 first_dot) then
    bund_vec_memory flattened_str alter_full_str is_rhs
  else if map_contains st.inst_to_mod_map (str_substr alter_full_str 0 first_dot) then
    bund_vec_instance flattened_str alter_full_str
  else bund_vec_create flattened_str

/-- The nodes that the branches of `InitialExprAdd` for a reference, a literal and a
sub-field end with: a `dp_assign` when `lhs` starts with the output sigil, an `assign`
otherwise. -/
def assign_or_dp_assign (lhs : String) (rhs : Lnast_node) : Lower Unit :=
  if str_substr lhs 0 1 = "%" then Lower.emit (.mk .dp_assign "" [ref_node lhs, rhs])
  else Lower.emit (.mk .assign "" [ref_node lhs, rhs])

/-- The element `op.arg(i)` of a repeated field. -/
def arg_at (arg : List Fir_expression) (i : Nat) : Lower Fir_expression :=
  match arg.get? i with
  | some e => pure e
  | none => Lower.fail (.out_of_range "arg")

/-- The element `op.const_(i).value()` of a repeated field. -/
def const_at (const_ : List String) (i : Nat) : Lower String :=
  match const_.get? i with
  | some c => pure c
  | none => Lower.fail (.out_of_range "const_")

/-- An assertion `I(cond)`. -/
def I (cond : Bool) (text : String) : Lower Unit :=
  if cond then pure () else Lower.fail (.assertion text)

/-- The type of `ReturnExprString` as the handlers below call it: the expression and
`is_rhs`. -/
abbrev Return_expr : Type := Fir_expression → Bool → Lower String

/-- The type of `InitialExprAdd` as the handlers below call it: the expression and the
left-hand side. -/
abbrev Initial_expr : Type := Fir_expression → String → Lower Unit

/-- Embedding of `Inou_firrtl::HandleMuxAssign`; `expr.mux()` is given by its fields, and
the first two parameters are the functions of these names, defined below. -/
def HandleMuxAssign (ReturnExprString : Return_expr) (InitialExprAdd : Initial_expr)
    (condition t_value f_value : Fir_expression) (lhs : String) : Lower Unit := do
  let lhs_full ← get_full_name lhs false
  Lower.emit (.mk .assign "" [ref_node lhs_full, const_node "0b?"])
  let cond_str ← ReturnExprString condition true
  let seq_tr ← get_new_seq_name
  let seq_f ← get_new_seq_name
  let stmt_tr ← Lower.children_of (InitialExprAdd t_value lhs)
  let stmt_f ← Lower.children_of (InitialExprAdd f_value lhs)
  Lower.emit (.mk .if_ "mux"
    [.mk .cond cond_str [], .mk .stmts seq_tr stmt_tr, .mk .stmts seq_f stmt_f])

/-- Embedding of `Inou_firrtl::HandleValidIfAssign`; `expr.valid_if()` is given by its
fields. -/
def HandleValidIfAssign (ReturnExprString : Return_expr) (InitialExprAdd : Initial_expr)
    (condition value : Fir_expression) (lhs : String) : Lower Unit := do
  InitialExprAdd value lhs
  let cond_str ← ReturnExprString condition true
  let seq_tr ← get_new_seq_name
  let stmt_tr ← Lower.children_of (InitialExprAdd value lhs)
  Lower.emit (.mk .if_ "validIf" [.mk .cond cond_str [], .mk .stmts seq_tr stmt_tr])

/-- Embedding of `HandleUnaryOp`, `HandleAndReducOp`, `HandleOrReducOp`,
`HandleXorReducOp`, `HandleNegateOp` and `HandleConvOp`, which differ in the callee
only. -/
def HandleUnaryOp (ReturnExprString : Return_expr) (callee : String)
    (arg : List Fir_expression) (lhs : String) : Lower Unit := do
  I (arg.length = 1) "op.arg_size() == 1"
  let e1 ← arg_at arg 0
  let e1_str ← ReturnExprString e1 true
  Lower.emit (.mk .func_call callee [ref_node lhs, ref_node e1_str])

/-- Embedding of `Inou_firrtl::HandleExtractBitsOp`. -/
def HandleExtractBitsOp (ReturnExprString : Return_expr) (arg : List Fir_expression)
    (const_ : List String) (lhs : String) : Lower Unit := do
  I (arg.length = 1 && const_.length = 2) "op.arg_size() == 1 && op.const__size() == 2"
  let e1 ← arg_at arg 0
  let e1_str ← ReturnExprString e1 true
  let c0 ← const_at const_ 0
  let c1 ← const_at const_ 1
  Lower.emit (.mk .func_call "__fir_bits"
    [ref_node lhs, ref_node e1_str, const_node c0, const_node c1])

/-- Embedding of `HandleHeadOp`, `HandleTailOp` and `HandlePadOp`, which differ in the
callee only. -/
def HandleHeadOp (ReturnExprString : Return_expr) (callee : String)
    (arg : List Fir_expression) (const_ : List String) (lhs : String) : Lower Unit := do
  I (arg.length = 1 && const_.length = 1) "op.arg_size() == 1 && op.const__size() == 1"
  let e1 ← arg_at arg 0
  let e1_str ← ReturnExprString e1 true
  let c0 ← const_at const_ 0
  Lower.emit (.mk .func_call callee [ref_node lhs, ref_node e1_str, const_node c0])

/-- Embedding of `Inou_firrtl::HandleConcatOp`. -/
def HandleConcatOp (ReturnExprString : Return_expr) (arg : List Fir_expression)
    (lhs : String) : Lower Unit := do
  I (arg.length = 2) "op.arg_size() == 2"
  let e1 ← arg_at arg 0
  let e1_str ← ReturnExprString e1 true
  let e2 ← arg_at arg 1
  let e2_str ← ReturnExprString e2 true
  Lower.emit (.mk .func_call "__fir_cat" [ref_node lhs, ref_node e1_str, ref_node e2_str])

/-- Embedding of `Inou_firrtl::HandleTwoExprPrimOp`. -/
def HandleTwoExprPrimOp (ReturnExprString : Return_expr) (op : Fir_op)
    (arg : List Fir_expression) (lhs : String) : Lower Unit := do
  I (arg.length = 2) "op.arg_size() == 2"
  let e1 ← arg_at arg 0
  let e1_str ← ReturnExprString e1 true
  let e2 ← arg_at arg 1
  let e2_str ← ReturnExprString e2 true
  match two_expr_callee op with
  | some callee =>
    Lower.emit (.mk .func_call callee
      [ref_node lhs, AttachExprStrToNode e1_str, AttachExprStrToNode e2_str])
  | none =>
    Lower.fail (.pass_error
      "expression directed into HandleTwoExprPrimOp that shouldn't have been.")

/-- The callee of the `func_call` that `HandleStaticShiftOp` makes for `op`, if any. -/
def static_shift_callee : Fir_op → Option String
  | .OP_SHIFT_LEFT => some "__fir_shl"
  | .OP_SHIFT_RIGHT => some "__fir_shr"
  | _ => none

/-- Embedding of `Inou_firrtl::HandleStaticShiftOp`. -/
def HandleStaticShiftOp (ReturnExprString : Return_expr) (op : Fir_op)
    (arg : List Fir_expression) (const_ : List String) (lhs : String) : Lower Unit := do
  I (arg.length = 1 || const_.length = 1) "op.arg_size() == 1 || op.const__size() == 1"
  let e1 ← arg_at arg 0
  let e1_str ← ReturnExprString e1 true
  match static_shift_callee op with
  | some callee => do
    let c0 ← const_at const_ 0
    Lower.emit (.mk .func_call callee [ref_node lhs, ref_node e1_str, const_node c0])
  | none =>
    Lower.fail (.pass_error
      "expression directed into HandleStaticShiftOp that shouldn't have been.")

/-- The callee of the `func_call` that `HandleTypeConvOp` makes for `op`, if any. -/
def type_conv_callee : Fir_op → Option String
  | .OP_AS_UINT => some "__fir_as_uint"
  | .OP_AS_SINT => some "__fir_as_sint"
  | _ => none

/-- Embedding of `Inou_firrtl::HandleTypeConvOp`. -/
def HandleTypeConvOp (ReturnExprString : Return_expr) (op : Fir_op)
    (arg : List Fir_expression) (const_ : List String) (lhs : String) : Lower Unit := do
  I (arg.length = 1 && const_.length = 0) "op.arg_size() == 1 && op.const__size() == 0"
  let e1 ← arg_at arg 0
  let e1_str ← ReturnExprString e1 true
  match type_conv_callee op with
  | some callee => do
    let c0 ← const_at const_ 0
    Lower.emit (.mk .func_call callee [ref_node lhs, ref_node e1_str, const_node c0])
  | none => Lower.fail (.pass_error "as_clock, as_fixed, as_async not yet implemented")

/-- Embedding of `Inou_firrtl::ListPrimOpInfo`; the `PrimOp` is given by its fields. -/
def ListPrimOpInfo (ReturnExprString : Return_expr) (op : Fir_op)
    (arg : List Fir_expression) (const_ : List String) (lhs : String) : Lower Unit :=
  match op with
  | .OP_ADD | .OP_SUB | .OP_TIMES | .OP_DIVIDE | .OP_REM | .OP_DYNAMIC_SHIFT_LEFT
  | .OP_DYNAMIC_SHIFT_RIGHT | .OP_BIT_AND | .OP_BIT_OR | .OP_BIT_XOR | .OP_LESS
  | .OP_LESS_EQ | .OP_GREATER | .OP_GREATER_EQ | .OP_EQUAL | .OP_NOT_EQUAL =>
    HandleTwoExprPrimOp ReturnExprString op arg lhs
  | .OP_TAIL => HandleHeadOp ReturnExprString "__fir_tail" arg const_ lhs
  | .OP_HEAD => HandleHeadOp ReturnExprString "__fir_head" arg const_ lhs
  | .OP_SHIFT_LEFT | .OP_SHIFT_RIGHT => HandleStaticShiftOp ReturnExprString op arg const_ lhs
  | .OP_BIT_NOT => HandleUnaryOp ReturnExprString "__fir_not" arg lhs
  | .OP_CONCAT => HandleConcatOp ReturnExprString arg lhs
  | .OP_PAD => HandleHeadOp ReturnExprString "__fir_pad" arg const_ lhs
  | .OP_NEG => HandleUnaryOp ReturnExprString "__fir_neg" arg lhs
  | .OP_CONVERT => HandleUnaryOp ReturnExprString "__fir_cvt" arg lhs
  | .OP_EXTRACT_BITS => HandleExtractBitsOp ReturnExprString arg const_ lhs
  | .OP_AS_UINT | .OP_AS_SINT | .OP_AS_CLOCK | .OP_AS_FIXED_POINT | .OP_AS_ASYNC_RESET =>
    HandleTypeConvOp ReturnExprString op arg const_ lhs
  | .OP_XOR_REDUCE => HandleUnaryOp ReturnExprString "__fir_xorr" arg lhs
  | .OP_AND_REDUCE => HandleUnaryOp ReturnExprString "__fir_andr" arg lhs
  | .OP_OR_REDUCE => HandleUnaryOp ReturnExprString "__fir_orr" arg lhs
  | .OP_INCREASE_PRECISION | .OP_DECREASE_PRECISION | .OP_SET_PRECISION =>
    Lower.fail (.pass_error "PrimOp: not yet supported (related to FloatingPoint type)")
  | .OP_WRAP | .OP_CLIP | .OP_SQUEEZE | .OP_AS_INTERVAL =>
    Lower.fail (.pass_error "PrimOp: not yet supported (related to Interavls)")
  | .OP_UNKNOWN => Lower.fail (.pass_error "Unknown PrimaryOp")

/-- Embedding of `Inou_firrtl::FlattenExpression`. -/
def FlattenExpression (ReturnExprString : Return_expr) : Fir_expression → Lower String
  | .sub_field expression field => do
    let s ← FlattenExpression ReturnExprString expression
    pure (s ++ "." ++ field)
  | .sub_access expression index => do
    let idx_str ← ReturnExprString index true
    let s ← FlattenExpression ReturnExprString expression
    pure (s ++ "[" ++ idx_str ++ "]")
  | .sub_index expression index => do
    let s ← FlattenExpression ReturnExprString expression
    pure (s ++ "[" ++ index ++ "]")
  | .reference id => pure id
  | _ => Lower.fail (.assertion "FlattenExpression")

/-- Embedding of `Inou_firrtl::HandleBundVecAcc`. -/
def HandleBundVecAcc (ReturnExprString : Return_expr) (expr : Fir_expression)
    (is_rhs : Bool) : Lower String := do
  let flattened_str ← FlattenExpression ReturnExprString expr
  HandleBundVecAcc_flat flattened_str is_rhs

/-- The branch of `InitialExprAdd` for a reference. -/
def initial_reference (id lhs : String) : Lower Unit := do
  let st ← Lower.get
  if map_contains st.dangling_ports_map id then do
    let mem_name := (st.dangling_ports_map.lookup id).getD ""
    let en_str := mem_name ++ "_" ++ id ++ "_en"
    Lower.emit (.mk .assign "dpo" [ref_node en_str, const_node "1"])
    PortDirInference id mem_name true
    let expr_string ← CreateDotsSelsFromStr ("#" ++ mem_name ++ "." ++ id ++ ".__data")
    assign_or_dp_assign lhs (ref_node expr_string)
  else do
    let expr_string ← get_full_name id true
    assign_or_dp_assign lhs (ref_node expr_string)

/-- The branch of `ReturnExprString` for a reference. -/
def return_reference (id : String) (is_rhs : Bool) : Lower String := do
  let expr_string ← get_full_name id is_rhs
  let st ← Lower.get
  if map_contains st.dangling_ports_map expr_string then do
    let mem_name := (st.dangling_ports_map.lookup expr_string).getD ""
    let en_str := mem_name ++ "_" ++ expr_string ++ "_en"
    Lower.emit (.mk .assign "dpo" [ref_node en_str, const_node "1"])
    PortDirInference expr_string mem_name is_rhs
    if !is_rhs then pure (mem_name ++ "_" ++ expr_string ++ "_data")
    else CreateDotsSelsFromStr ("#" ++ mem_name ++ "." ++ expr_string ++ ".__data")
  else pure expr_string

mutual
/-- Embedding of `Inou_firrtl::InitialExprAdd`; `fuel` is the budget of the recursion
through `ReturnExprString` and `InitialExprAdd`. -/
def InitialExprAdd : Nat → Fir_expression → String → Lower Unit
  | 0, _, _ => Lower.fail .out_of_fuel
  | fuel + 1, expr, lhs_noprefixes => do
    let lhs ← get_full_name lhs_noprefixes false
    match expr with
    | .reference id => initial_reference id lhs
    | .uint_literal value => assign_or_dp_assign lhs (const_node (value ++ "u"))
    | .sint_literal value => assign_or_dp_assign lhs (const_node (value ++ "s"))
    | .valid_if condition value =>
      HandleValidIfAssign (ReturnExprString fuel) (InitialExprAdd fuel) condition value lhs
    | .mux condition t_value f_value =>
      HandleMuxAssign (ReturnExprString fuel) (InitialExprAdd fuel) condition t_value f_value lhs
    | .sub_field _ _ => do
      let rhs ← HandleBundVecAcc (ReturnExprString fuel) expr true
      assign_or_dp_assign lhs (ref_node rhs)
    | .sub_index expression index => do
      let expr_name ← ReturnExprString fuel expression true
      let temp_var_name ← create_temp_var
      Lower.emit (.mk .select "selectSI"
        [ref_node temp_var_name, AttachExprStrToNode expr_name, const_node index])
      Lower.emit (.mk .assign "selectSI_asg" [ref_node lhs, ref_node temp_var_name])
    | .sub_access expression index => do
      let expr_name ← ReturnExprString fuel expression true
      let index_name ← ReturnExprString fuel index true
      let temp_var_name ← create_temp_var
      Lower.emit (.mk .select "selectSA"
        [ref_node temp_var_name, AttachExprStrToNode expr_name, AttachExprStrToNode index_name])
      Lower.emit (.mk .assign "selectSA_asg" [ref_node lhs, ref_node temp_var_name])
    | .prim_op op arg const_ => ListPrimOpInfo (ReturnExprString fuel) op arg const_ lhs
    | .fixed_literal => Lower.fail (.assertion "FixedLiteral")
    | .not_set =>
      Lower.fail (.pass_error "In InitialExprAdd, found unknown expression type")
/-- Embedding of `Inou_firrtl::ReturnExprString`. -/
def ReturnExprString : Nat → Fir_expression → Bool → Lower String
  | 0, _, _ => Lower.fail .out_of_fuel
  | fuel + 1, expr, is_rhs =>
    match expr with
    | .reference id => return_reference id is_rhs
    | .uint_literal value => pure (value ++ "u")
    | .sint_literal value => pure (value ++ "s")
    | .valid_if condition value => do
      let expr_string ← create_temp_var
      HandleValidIfAssign (ReturnExprString fuel) (InitialExprAdd fuel) condition value expr_string
      pure expr_string
    | .mux condition t_value f_value => do
      let expr_string ← create_temp_var
      HandleMuxAssign (ReturnExprString fuel) (InitialExprAdd fuel) condition t_value f_value
        expr_string
      pure expr_string
    | .sub_field _ _ | .sub_index _ _ | .sub_access _ _ =>
      HandleBundVecAcc (ReturnExprString fuel) expr is_rhs
    | .prim_op op arg const_ => do
      let expr_string ← create_temp_var
      ListPrimOpInfo (ReturnExprString fuel) op arg const_ expr_string
      pure expr_string
    | .fixed_literal => Lower.fail (.assertion "FixedLiteral")
    | .not_set => Lower.fail (.pass_error "provided invalid expression number")
end

end Inou_firrtl

/-! ## Lowering of statements -/

namespace Inou_firrtl

/-- Embedding of `set.insert(name)`. -/
def set_insert (s : List String) (name : String) : List String :=
  if s.contains name then s else s ++ [name]

/-- Embedding of `Inou_firrtl::get_bit_count`. -/
def get_bit_count : Fir_type → Lower Nat
  | .uint_type width => pure width
  | .sint_type width => pure width
  | .clock_type => pure 1
  | .bundle_type _ => Lower.fail (.assertion "get_bit_count: bundle")
  | .vector_type _ _ => Lower.fail (.assertion "get_bit_count: vector")
  | .fixed_type => Lower.fail (.assertion "get_bit_count: fixed")
  | .analog_type width => pure width
  | .async_reset_type => pure 1
  | .reset_type => pure 1
  | .not_set => Lower.fail (.pass_error "Unknown port type.")

mutual
/-- Embedding of `Inou_firrtl::init_wire_dots`. -/
def init_wire_dots : Fir_type → String → Lower Unit
  | .bundle_type field, id => init_wire_dots_fields field id
  | .vector_type type size, id =>
    Lower.for_each (List.range size) fun i =>
      init_wire_dots type (id ++ "[" ++ nat_to_string i ++ "]")
  | .fixed_type, _ => Lower.fail (.assertion "init_wire_dots: fixed")
  | .async_reset_type, id => do
    let wire_bits ← get_bit_count .async_reset_type
    create_bitwidth_dot_node wire_bits id false
    Lower.modify fun s => { s with async_rst_names := set_insert s.async_rst_names id }
  | .sint_type width, id => do
    let wire_bits ← get_bit_count (.sint_type width)
    create_bitwidth_dot_node wire_bits id true
  | .uint_type width, id => do
    let wire_bits ← get_bit_count (.uint_type width)
    create_bitwidth_dot_node wire_bits id false
  | .clock_type, id => do
    let wire_bits ← get_bit_count .clock_type
    create_bitwidth_dot_node wire_bits id false
  | .analog_type width, id => do
    let wire_bits ← get_bit_count (.analog_type width)
    create_bitwidth_dot_node wire_bits id false
  | .reset_type, id => do
    let wire_bits ← get_bit_count .reset_type
    create_bitwidth_dot_node wire_bits id false
  | .not_set, id => do
    let wire_bits ← get_bit_count .not_set
    create_bitwidth_dot_node wire_bits id false
/-- The loop of `init_wire_dots` over the fields of a bundle. -/
def init_wire_dots_fields : List Fir_field → String → Lower Unit
  | [], _ => pure ()
  | .mk field_id _ field_type :: rest, id => do
    init_wire_dots field_type (id ++ "." ++ field_id)
    init_wire_dots_fields rest id
end

/-- Embedding of `Inou_firrtl::init_reg_ref_dots`; `fuel` is the budget of the expression
lowering. -/
def init_reg_ref_dots (fuel : Nat) (id : String) (clocke resete _inite : Fir_expression)
    (bitwidth : Nat) (is_signed : Bool) : Lower Unit := do
  let _clk ← ReturnExprString fuel clocke true
  let _rst ← ReturnExprString fuel resete true
  Lower.modify fun s =>
    { s with register_names := set_insert s.register_names (str_substr id 1 (id.length - 1)) }
  if bitwidth > 0 then
    let acc_name_bw ←
      if is_signed then CreateDotsSelsFromStr (id ++ ".__sbits")
      else CreateDotsSelsFromStr (id ++ ".__ubits")
    Lower.emit (.mk .assign "" [ref_node acc_name_bw, const_node (nat_to_string bitwidth)])
  let has_path := match resete with
    | .reference _ | .sub_field _ _ | .sub_index _ _ | .sub_access _ _ | .prim_op _ _ _ => true
    | _ => false
  if has_path then
    let is_reset_async ← match resete with
      | .prim_op op _ _ => pure (decide (op = .OP_AS_ASYNC_RESET))
      | _ => do
        let flat ← FlattenExpression (ReturnExprString fuel) resete
        let st ← Lower.get
        pure (st.async_rst_names.contains flat)
    if is_reset_async then
      let acc_name_sy ← CreateDotsSelsFromStr (id ++ ".__reset_async")
      Lower.emit (.mk .assign "" [ref_node acc_name_sy, const_node "true"])

mutual
/-- Embedding of `Inou_firrtl::init_reg_dots`; the case of the signed type has no `break`
and runs into the default case. -/
def init_reg_dots (fuel : Nat) : Fir_type → String → Fir_expression → Fir_expression →
    Fir_expression → Lower Unit
  | .bundle_type field, id, clock, reset, init =>
    init_reg_dots_fields fuel field id clock reset init
  | .vector_type type size, id, clock, reset, init =>
    Lower.for_each (List.range size) fun i =>
      init_reg_dots fuel type (id ++ "[" ++ nat_to_string i ++ "]") clock reset init
  | .fixed_type, _, _, _, _ => Lower.fail (.assertion "init_reg_dots: fixed")
  | .async_reset_type, id, clock, reset, init => do
    let reg_bits ← get_bit_count .async_reset_type
    init_reg_ref_dots fuel id clock reset init reg_bits false
    Lower.modify fun s =>
      { s with async_rst_names := set_insert s.async_rst_names (str_substr_from id 1) }
  | .sint_type width, id, clock, reset, init => do
    let reg_bits ← get_bit_count (.sint_type width)
    init_reg_ref_dots fuel id clock reset init reg_bits true
    let reg_bits ← get_bit_count (.sint_type width)
    init_reg_ref_dots fuel id clock reset init reg_bits false
  | .uint_type width, id, clock, reset, init => do
    let reg_bits ← get_bit_count (.uint_type width)
    init_reg_ref_dots fuel id clock reset init reg_bits false
  | .clock_type, id, clock, reset, init => do
    let reg_bits ← get_bit_count .clock_type
    init_reg_ref_dots fuel id clock reset init reg_bits false
  | .analog_type width, id, clock, reset, init => do
    let reg_bits ← get_bit_count (.analog_type width)
    init_reg_ref_dots fuel id clock reset init reg_bits false
  | .reset_type, id, clock, reset, init => do
    let reg_bits ← get_bit_count .reset_type
    init_reg_ref_dots fuel id clock reset init reg_bits false
  | .not_set, id, clock, reset, init => do
    let reg_bits ← get_bit_count .not_set
    init_reg_ref_dots fuel id clock reset init reg_bits false
/-- The loop of `init_reg_dots` over the fields of a bundle. -/
def init_reg_dots_fields (fuel : Nat) : List Fir_field → String → Fir_expression →
    Fir_expression → Fir_expression → Lower Unit
  | [], _, _, _, _ => pure ()
  | .mk field_id _ field_type :: rest, id, clock, reset, init => do
    init_reg_dots fuel field_type (id ++ "." ++ field_id) clock reset init
    init_reg_dots_fields fuel rest id clock reset init
end

/-- Embedding of `Inou_firrtl::HandleMemPort`. -/
def HandleMemPort (fuel : Nat) (id memory_id : String) (expression memory_index : Fir_expression) :
    Lower Unit := do
  let st ← Lower.get
  I (map_contains st.dangling_ports_map id) "dangling_ports_map.contains(mport.id())"
  let clk_str ← ReturnExprString fuel expression true
  let adr_str ← ReturnExprString fuel memory_index true
  let lhs_start := memory_id ++ "_" ++ id ++ "_"
  Lower.emit (.mk .assign "" [ref_node (lhs_start ++ "addr"), AttachExprStrToNode adr_str])
  Lower.emit (.mk .assign "" [ref_node (lhs_start ++ "clk"), AttachExprStrToNode clk_str])

/-- Embedding of `Inou_firrtl::create_module_inst`. -/
def create_module_inst (id module_id : String) : Lower Unit := do
  let temp_var_name ← create_temp_var
  let st ← Lower.get
  let temp_var_name2 := "F" ++ nat_to_string st.temp_var_count
  Lower.modify fun s => { s with temp_var_count := s.temp_var_count + 1 }
  let inst_name := if str_substr id 0 2 = "_T" then "_." ++ id else id
  let inp_name := "inp_" ++ inst_name
  let out_name := "out_" ++ inst_name
  Lower.emit (.mk .dot "" [ref_node temp_var_name, ref_node inp_name, ref_node "__last_value"])
  Lower.emit (.mk .assign "" [ref_node temp_var_name2, ref_node temp_var_name])
  Lower.emit (.mk .func_call "" [ref_node out_name, ref_node module_id, ref_node temp_var_name2])
  Lower.modify fun s => { s with inst_to_mod_map := map_insert s.inst_to_mod_map id module_id }
  let st ← Lower.get
  let (params, param_map) := map_at st.emod_to_param_map module_id []
  Lower.modify fun s => { s with emod_to_param_map := param_map }
  Lower.for_each params fun param => do
    let temp_var_name_p ← create_temp_var
    Lower.emit (.mk .dot "param"
      [ref_node temp_var_name_p, ref_node inp_name, ref_node param.1])
    Lower.emit (.mk .assign "param" [ref_node temp_var_name_p,
      if (str_first param.2).isDigit then const_node param.2 else ref_node param.2])

/-- A loop that gathers the values of its steps, in order. -/
def map_each {α β : Type} : List α → (α → Lower β) → Lower (List β)
  | [], _ => pure []
  | a :: rest, f => do
    let b ← f a
    let bs ← map_each rest f
    pure (b :: bs)

/-- Embedding of `Inou_firrtl::ListStatementInfo`; a memory and a memory type are
handled by the pre-traversal, not here. -/
def ListStatementInfo : Nat → Fir_statement → Lower Unit
  | 0, _ => Lower.fail .out_of_fuel
  | fuel + 1, stmt =>
    match stmt with
    | .wire id type => init_wire_dots type id
    | .register_ id type clock reset init => do
      Lower.modify fun s => { s with register_names := set_insert s.register_names id }
      init_reg_dots fuel type ("#" ++ id) clock reset init
    | .memory _ _ _ _ _ _ _ _ _ => pure ()
    | .cmemory _ _ _ _ => pure ()
    | .instance_ id module_id => create_module_inst id module_id
    | .node id expression => InitialExprAdd fuel expression id
    | .when predicate consequent otherwise => do
      let cond_str ← ReturnExprString fuel predicate true
      let seq_t ← get_new_seq_name
      let stmts_t ← Lower.children_of (Lower.for_each consequent (ListStatementInfo fuel))
      if otherwise.length > 0 then
        let seq_f ← get_new_seq_name
        let stmts_f ← Lower.children_of (Lower.for_each otherwise (ListStatementInfo fuel))
        Lower.emit (.mk .if_ "when"
          [.mk .cond cond_str [], .mk .stmts seq_t stmts_t, .mk .stmts seq_f stmts_f])
      else
        Lower.emit (.mk .if_ "when" [.mk .cond cond_str [], .mk .stmts seq_t stmts_t])
    | .stop en clk return_value => do
      let stop_cond ← ReturnExprString fuel en true
      let stop_clk ← ReturnExprString fuel clk true
      Lower.emit (.mk .if_ "stop"
        [.mk .cond stop_cond [],
         .mk .if_ "stop"
          [.mk .func_call "stop"
            [ref_node "null", ref_node "stop", ref_node stop_clk,
             ref_node (toString return_value)]]])
    | .printf en clk value arg => do
      let printf_cond ← ReturnExprString fuel en true
      let printf_clk ← ReturnExprString fuel clk true
      let arg_list ← map_each arg fun a => ReturnExprString fuel a true
      Lower.emit (.mk .if_ "printf"
        [.mk .cond printf_cond [],
         .mk .if_ "printf"
          [.mk .func_call "printf"
            ([ref_node "null", ref_node "printf", ref_node printf_clk, ref_node value] ++
              arg_list.map ref_node)]])
    | .skip => pure ()
    | .connect location expression => do
      let lhs_string ← ReturnExprString fuel location false
      InitialExprAdd fuel expression lhs_string
    | .partial_connect location expression => do
      let lhs_string ← ReturnExprString fuel location false
      InitialExprAdd fuel expression lhs_string
    | .is_invalid => pure ()
    | .memory_port id memory_id expression memory_index _ =>
      HandleMemPort fuel id memory_id expression memory_index
    | .attach =>
      Lower.fail (.pass_error "Attach statement not yet supported due to bidirectionality.")
    | .not_set => Lower.fail (.pass_error "Unknown statement type.")

/-- The loop of `ListUserModuleInfo` over the statements of a module, without the
pre-traversal for memories: the nodes are the children of the top `stmts`. -/
def lower_statements (fuel : Nat) (statement : List Fir_statement) : Lower Unit :=
  Lower.for_each statement (ListStatementInfo fuel)

end Inou_firrtl

/-! ## Shapes of the emitted nodes -/

/-- The types of the children of a node, in order. -/
def child_types (n : Lnast_node) : List Lnast_ntype :=
  n.children.map fun c => c.type

/-- The shape of an `if` node: no child is a `cstmts`; the children of an `if` named
`mux` are a cond and two stmts, those of an `if` named `validIf` a cond and one stmts,
those of an `if` named `when` a cond and one or two stmts. A node of another type has
the shape. -/
def if_node_ok (n : Lnast_node) : Bool :=
  if n.type = .if_ then
    !(child_types n).contains .cstmts &&
    (if n.name = "mux" then child_types n = [.cond, .stmts, .stmts]
     else if n.name = "validIf" then child_types n = [.cond, .stmts]
     else if n.name = "when" then
       child_types n = [.cond, .stmts] || child_types n = [.cond, .stmts, .stmts]
     else true)
  else true

/-- The shape of a `func_call` node: at least two children, the first of type ref, every
other of type ref or const; the children of a `func_call` with the empty name, that of a
module instance, are three refs. A node of another type has the shape. -/
def func_call_ok (n : Lnast_node) : Bool :=
  if n.type = .func_call then
    (match child_types n with
      | first :: second :: rest =>
        first = .ref && (second :: rest).all fun t => t = .ref || t = .const
      | _ => false) &&
    (if n.name = "" then child_types n = [.ref, .ref, .ref] else true)
  else true

mutual
/-- Whether `p` holds of a node and of every node below it. -/
def all_ok (p : Lnast_node → Bool) : Lnast_node → Bool
  | .mk type name children => p (.mk type name children) && all_ok_list p children
/-- Whether `p` holds of every node of a list of trees. -/
def all_ok_list (p : Lnast_node → Bool) : List Lnast_node → Bool
  | [] => true
  | c :: cs => all_ok p c && all_ok_list p cs
end

/-- The nodes that a successful lowering step appended; none after an error. -/
def Lowered.nodes {α : Type} : Lowered α → List Lnast_node
  | .ok _ _ emitted => emitted
  | .error _ => []

/-- The error that ended a lowering step, if any. -/
def Lowered.err {α : Type} : Lowered α → Option Fir_error
  | .ok _ _ _ => none
  | .error e => some e

/-- The shape that the lowering keeps: that of an `if` and that of a `func_call`. -/
def node_ok (n : Lnast_node) : Bool := if_node_ok n && func_call_ok n

/-- A step keeps the shapes when every node that it appends has them, and its value
satisfies `Q`. -/
structure Emits {α : Type} (m : Lower α) (Q : α → Prop) : Prop where
  ok : ∀ st v st1 out, m st = .ok v st1 out → Q v ∧ all_ok_list node_ok out = true

/-- A dot or select node whose children are leaves of type ref or const. -/
def Plain (n : Lnast_node) : Prop :=
  (n.type = .dot ∨ n.type = .select) ∧
    ∀ c ∈ n.children, c.children = [] ∧ (c.type = .ref ∨ c.type = .const)

/-! ## Ports, memories and modules of the lowering -/

namespace Inou_firrtl

/-- The direction that `create_io_list` hands to a flipped field of a bundle, under the
assertion `I(new_dir != 0)`. -/
def flipped_dir (dir : Nat) : Lower Nat := do
  let new_dir := if dir = 1 then 2 else if dir = 2 then 1 else 0
  I (new_dir ≠ 0) "new_dir != 0"
  pure new_dir

mutual
/-- Embedding of `Inou_firrtl::create_io_list`: the value is the list of the entries
(name, direction, bits, sign) that the call appends to `vec`, in order. -/
def create_io_list : Fir_type → Nat → String → Lower (List (String × Nat × Nat × Bool))
  | .uint_type width, dir, port_id => pure [(port_id, dir, width, false)]
  | .sint_type width, dir, port_id => pure [(port_id, dir, width, true)]
  | .clock_type, dir, port_id => pure [(port_id, dir, 1, false)]
  | .bundle_type field, dir, port_id => create_io_list_fields field dir port_id
  | .vector_type type size, dir, port_id => do
    let rounds ← map_each (List.range size) fun i => do
      let elems ← create_io_list type dir (port_id ++ "[" ++ nat_to_string i ++ "]")
      pure ((port_id, dir, 0, false) :: elems)
    pure rounds.flatten
  | .fixed_type, _, _ => Lower.fail (.assertion "create_io_list: fixed")
  | .analog_type _, _, _ => Lower.fail (.assertion "create_io_list: analog")
  | .async_reset_type, dir, port_id => do
    Lower.modify fun s => { s with async_rst_names := set_insert s.async_rst_names port_id }
    pure [(port_id, dir, 1, false)]
  | .reset_type, dir, port_id => pure [(port_id, dir, 1, false)]
  | .not_set, _, _ => Lower.fail (.pass_error "Unknown port type.")
/-- The loop of `create_io_list` over the fields of a bundle. -/
def create_io_list_fields : List Fir_field → Nat → String →
    Lower (List (String × Nat × Nat × Bool))
  | [], _, _ => pure []
  | .mk field_id is_flipped field_type :: rest, dir, port_id => do
    let field_dir ← if is_flipped then flipped_dir dir else pure dir
    let first ← create_io_list field_type field_dir (port_id ++ "." ++ field_id)
    let others ← create_io_list_fields rest dir port_id
    pure (first ++ others)
end

/-- The byte `bigint.value()[i]` as a value of type `char`: where `char` is signed, a byte
above 127 is negative. -/
def char_of_byte (char_signed : Bool) (byte : Nat) : Int :=
  if char_signed && decide (128 ≤ byte % 256) then (byte % 256 : Nat) - 256
  else (byte % 256 : Nat)

/-- The conversion of an `int` to `char` in `bigint_char >>= 1`. -/
def int_to_char (char_signed : Bool) (x : Int) : Int :=
  if char_signed then (x + 128) % 256 - 128 else x % 256

/-- The inner loop of `ConvertBigIntToStr`, `rounds` rounds of it: `%` is the remainder
of C++, which has the sign of the dividend, and `>>` on a negative number keeps the
sign. -/
def bit_str_loop (char_signed : Bool) : Nat → Int → String → String
  | 0, _, bit_str => bit_str
  | rounds + 1, bigint_char, bit_str =>
    bit_str_loop char_signed rounds (int_to_char char_signed (bigint_char >>> 1))
      (if Int.tmod bigint_char 2 ≠ 0 then "1" ++ bit_str else "0" ++ bit_str)

/-- Embedding of `Inou_firrtl::ConvertBigIntToStr`; the argument is the byte array
`bigint.value()`, and `char_signed` tells whether `char` is a signed type. -/
def ConvertBigIntToStr (char_signed : Bool) (bigint : List Nat) : String :=
  if bigint.length = 0 then "0b" ++ nat_to_string 0 ++ "s1bit"
  else
    let bigint_val := bigint.foldl
      (fun acc byte => acc ++ bit_str_loop char_signed 8 (char_of_byte char_signed byte) "") ""
    "0b" ++ bigint_val ++ "s" ++ nat_to_string (bigint.length * 8) ++ "bits"

/-- The placeholder assignments of `InitMemory` for one port: the names
`<mem>_<port>_<suffix>` are assigned the constant 0. -/
def late_assign_zeros (name : String) (str_start : String) (suffixes : List String) :
    Lower Unit :=
  Lower.for_each suffixes fun suffix =>
    Lower.emit (.mk .assign name [ref_node (str_start ++ suffix), const_node "0"])

/-- The body of the three loops of `InitMemory` over the ports of one kind: the tuple of
the port, its entry in `late_assign_ports` and its placeholder assignments; the value is
the pair entered in `tup_ids`. -/
def init_memory_port (id : String) (tup_name asg_name : String) (lat : String) (fwd : Bool)
    (dir : Mem_dir) (suffixes : List String) (port_id : String) : Lower (String × String) := do
  let temp_var_t ← create_temp_var
  Lower.emit (.mk .tuple tup_name
    ([ref_node temp_var_t, .mk .assign tup_name [ref_node "__latency", const_node lat]] ++
      (if fwd then [.mk .assign "mem_ruw" [ref_node "__fwd", const_node "true"]] else [])))
  Lower.modify fun s =>
    { s with late_assign_ports := map_insert s.late_assign_ports (id ++ "." ++ port_id) dir }
  late_assign_zeros asg_name (id ++ "_" ++ port_id) suffixes
  pure (port_id, temp_var_t)

/-- The string `depth` of `InitMemory`: the switch over `mem.depth_case()`. -/
def memory_depth_str (char_signed : Bool) (depth : Mem_depth) : Lower String :=
  match depth with
  | .uint_depth d => pure (nat_to_string d)
  | .bigint_depth bytes => pure (ConvertBigIntToStr char_signed bytes)
  | .not_set => Lower.fail (.pass_error "Unspecified/incorrectly specified memory depth")

/-- Embedding of `Inou_firrtl::InitMemory`; the memory is given by its fields. -/
def InitMemory (char_signed : Bool) (id : String) (type : Fir_type) (depth : Mem_depth)
    (read_latency write_latency : Nat) (read_under_write : Read_under_write)
    (reader_id writer_id readwriter_id : List String) : Lower Unit := do
  let mem_name := "#" ++ id
  let depth_str ← memory_depth_str char_signed depth
  let temp_var_d ← create_temp_var
  Lower.emit (.mk .dot "mem" [ref_node temp_var_d, ref_node mem_name, ref_node "__size"])
  Lower.emit (.mk .assign "mem" [ref_node temp_var_d, const_node depth_str])
  let rd_lat := nat_to_string read_latency
  let wr_lat := nat_to_string write_latency
  let fwd := decide (read_under_write = .NEW)
  let tup_r ← map_each reader_id
    (init_memory_port id "mem_r" "mem_ra" rd_lat fwd .READ ["_addr", "_clk", "_en"])
  let tup_w ← map_each writer_id
    (init_memory_port id "mem_w" "mem_wa" wr_lat fwd .WRITE
      ["_addr", "_clk", "_en", "_data", "_mask"])
  let tup_b ← map_each readwriter_id
    (init_memory_port id "mem_b" "mem_rwa" wr_lat fwd .READ_WRITE
      ["_addr", "_clk", "_en", "_wdata", "_wmask"])
  let tup_ids := tup_r ++ tup_w ++ tup_b
  let temp_var_lhs ← create_temp_var
  Lower.emit (.mk .dot "memLHS" [ref_node temp_var_lhs, ref_node mem_name, ref_node "__port"])
  let temp_var_t ← create_temp_var
  Lower.emit (.mk .tuple "mem"
    (ref_node temp_var_t ::
      tup_ids.map fun port_temp => .mk .assign "" [ref_node port_temp.1, ref_node port_temp.2]))
  Lower.emit (.mk .assign "" [ref_node temp_var_lhs, ref_node temp_var_t])
  Lower.modify fun s =>
    { s with mem_props_map := map_insert s.mem_props_map id (fwd, rd_lat, wr_lat) }
  init_wire_dots type (mem_name ++ "[0]")

/-- The string `depth_str` and the type `type` of `InitCMemory`: the test of
`cmem.type_case()`. -/
def cmemory_depth_type (char_signed : Bool) (type : Cmem_type) : Lower (String × Fir_type) :=
  match type with
  | .vector_type t size => pure (nat_to_string size, t)
  | .type_and_depth t depth => pure (ConvertBigIntToStr char_signed depth, t)
  | .not_set => Lower.fail (.assertion "InitCMemory: type")

/-- Embedding of `Inou_firrtl::InitCMemory`; the memory is given by its fields. -/
def InitCMemory (char_signed : Bool) (id : String) (type : Cmem_type)
    (read_under_write : Read_under_write) (sync_read : Bool) : Lower Unit := do
  let cmem_name := "#" ++ id
  let depth_type ← cmemory_depth_type char_signed type
  let temp_var_s ← create_temp_var
  Lower.emit (.mk .dot "cmem" [ref_node temp_var_s, ref_node cmem_name, ref_node "__size"])
  Lower.emit (.mk .assign "cmem" [ref_node temp_var_s, const_node depth_type.1])
  let fwd := decide (read_under_write = .NEW)
  let rd_lat := if sync_read then "1" else "0"
  let wr_lat := "1"
  Lower.modify fun s =>
    { s with mem_props_map := map_insert s.mem_props_map id (fwd, rd_lat, wr_lat) }
  init_wire_dots depth_type.2 (cmem_name ++ "[0]")

/-- The entry of `late_assign_ports` and the attributes of the tuple that
`HandleMemPortPre` makes for a port of direction `direction`. -/
def mport_attributes (direction : Mport_direction) (rd_lat wr_lat : String) :
    Lower (Mem_dir × List Lnast_node) :=
  match direction with
  | .MEMORY_PORT_DIRECTION_READ =>
    pure (.READP, [.mk .assign "" [ref_node "__latency", const_node rd_lat]])
  | .MEMORY_PORT_DIRECTION_WRITE =>
    pure (.WRITEP, [.mk .assign "" [ref_node "__wrmask", const_node "0u"],
      .mk .assign "" [ref_node "__latency", const_node wr_lat]])
  | .MEMORY_PORT_DIRECTION_READ_WRITE =>
    pure (.READ_WRITEP, [.mk .assign "" [ref_node "__wrmask", const_node "0u"],
      .mk .assign "" [ref_node "__latency", const_node wr_lat]])
  | .MEMORY_PORT_DIRECTION_INFER => pure (.INFER, [])
  | .OTHER => Lower.fail (.assertion "HandleMemPortPre: direction")

/-- The list `suffix_list` of `HandleMemPortPre`. -/
def mport_suffix_list (direction : Mport_direction) : Lower (List String) :=
  match direction with
  | .MEMORY_PORT_DIRECTION_READ => pure ["addr", "clk", "en"]
  | .MEMORY_PORT_DIRECTION_WRITE => pure ["addr", "clk", "en", "data"]
  | .MEMORY_PORT_DIRECTION_READ_WRITE => pure ["addr", "clk", "en", "data"]
  | .MEMORY_PORT_DIRECTION_INFER => pure ["addr", "clk", "en", "data"]
  | .OTHER => Lower.fail (.assertion "HandleMemPortPre: direction")

/-- Embedding of `Inou_firrtl::HandleMemPortPre`; the port is given by its fields. -/
def HandleMemPortPre (id memory_id : String) (direction : Mport_direction) : Lower Unit := do
  Lower.modify fun s =>
    { s with dangling_ports_map := map_insert s.dangling_ports_map id memory_id }
  let mem_name := "#" ++ memory_id
  let port_name := id
  let st ← Lower.get
  let (mem_props, props_map) := map_at st.mem_props_map memory_id (false, "", "")
  Lower.modify fun s => { s with mem_props_map := props_map }
  let (dir, attributes) ← mport_attributes direction mem_props.2.1 mem_props.2.2
  Lower.modify fun s =>
    { s with late_assign_ports := map_insert s.late_assign_ports (memory_id ++ "." ++ id) dir }
  Lower.emit (.mk .tuple "mport"
    ([ref_node port_name,
      .mk .assign "" [ref_node "__fwd", const_node (if mem_props.1 then "true" else "false")]] ++
      attributes))
  let temp_var_L ← create_temp_var
  Lower.emit (.mk .dot "mport" [ref_node temp_var_L, ref_node mem_name, ref_node "__port"])
  let temp_var_R ← create_temp_var
  Lower.emit (.mk .dot "mport" [ref_node temp_var_R, ref_node mem_name, ref_node "__port"])
  Lower.emit (.mk .tuple_concat "mport"
    [ref_node temp_var_L, ref_node temp_var_R, ref_node port_name])
  let lhs_start := memory_id ++ "_" ++ id ++ "_"
  let suffix_list ← mport_suffix_list direction
  late_assign_zeros "" lhs_start suffix_list

mutual
/-- Embedding of `Inou_firrtl::PreCheckForMem`: the nodes are appended to the top `stmts`
whatever the depth of the statement. -/
def PreCheckForMem (char_signed : Bool) : Fir_statement → Lower Unit
  | .memory id type depth read_latency write_latency read_under_write reader_id writer_id
      readwriter_id => do
    Lower.modify fun s => { s with memory_names := set_insert s.memory_names id }
    InitMemory char_signed id type depth read_latency write_latency read_under_write
      reader_id writer_id readwriter_id
  | .cmemory id type read_under_write sync_read => do
    Lower.modify fun s => { s with memory_names := set_insert s.memory_names id }
    InitCMemory char_signed id type read_under_write sync_read
  | .memory_port id memory_id _ _ direction => HandleMemPortPre id memory_id direction
  | .when _ consequent otherwise => do
    PreCheckForMem_each char_signed consequent
    PreCheckForMem_each char_signed otherwise
  | _ => pure ()
/-- The loops of `PreCheckForMem` over the statements of a `when`. -/
def PreCheckForMem_each (char_signed : Bool) : List Fir_statement → Lower Unit
  | [] => pure ()
  | stmt :: rest => do
    PreCheckForMem char_signed stmt
    PreCheckForMem_each char_signed rest
end

/-- The string `rstr_prefix` of `PerformLateMemAssigns` for the port recorded in
`late_assign_ports` under `key`, the start of the placeholder names that it reads:
`port_name` is `"#"` followed by the key, and `rstr_prefix` is `port_name.substr(1)`
followed by `"_"`, with every `'.'` replaced by `'_'`. -/
def late_assign_rstr (key : String) : String :=
  str_replace_char (str_substr_from ("#" ++ key) 1 ++ "_") '.' '_'

/-- The body of the loop of `ListUserModuleInfo` over the statements of a module: the
pre-traversal for memories of the statement, then its lowering. -/
def list_statement (char_signed : Bool) (fuel : Nat) (stmt : Fir_statement) : Lower Unit := do
  PreCheckForMem char_signed stmt
  ListStatementInfo fuel stmt

/-- The loop of `ListUserModuleInfo` over the statements of a module: the nodes are the
children of the top `stmts`. -/
def list_statements (char_signed : Bool) (fuel : Nat) (statement : List Fir_statement) :
    Lower Unit :=
  Lower.for_each statement (list_statement char_signed fuel)

end Inou_firrtl

/-! ## The lowering in the words of the specification -/

/-- The value of a successful lowering step. -/
def Lowered.value {α : Type} : Lowered α → Option α
  | .ok val _ _ => some val
  | .error _ => none

namespace Inou_firrtl

/-- The result of `get_full_name` in the words of the specification: the name that stands
for `term` and the nodes appended to the parent for it. -/
def get_full_name_spec (st : Inou_firrtl) (term : String) (is_rhs : Bool) :
    String × List Lnast_node :=
  if st.input_names.contains term then ("$" ++ term, [])
  else if st.output_names.contains term then ("%" ++ term, [])
  else if st.register_names.contains term then
    if is_rhs then
      ("___F" ++ nat_to_string st.temp_var_count,
        [.mk .dot "" [ref_node ("___F" ++ nat_to_string st.temp_var_count),
          ref_node ("#" ++ term), ref_node "__q_pin"]])
    else ("#" ++ term, [])
  else if map_contains st.dangling_ports_map term then (term, [])
  else if ['_', 'T'] <+: term.data ∨ ['_', 'G', 'E', 'N'] <+: term.data then
    ("_." ++ term, [])
  else (term, [])

/-- One call of `PortDirInference` seen on the direction recorded for the port. -/
def infer_step (d : Mem_dir) (is_rhs : Bool) : Mem_dir :=
  if is_rhs then
    if d = .INFER then .READI else if d = .WRITEI then .READ_WRITEI else d
  else
    if d = .INFER then .WRITEI else if d = .READI then .READ_WRITEI else d

/-- The direction of a port declared `INFER` after the uses `uses` (`true` for a
right-hand use), in the words of the specification. -/
def inferred_dir (uses : List Bool) : Mem_dir :=
  if uses = [] then .INFER
  else if uses.all (fun r => r) then .READI
  else if uses.all (fun r => !r) then .WRITEI
  else .READ_WRITEI

/-- The two-operand primitive ops and the names of their callees, as the specification
lists them. -/
def two_operand_ops : List (Fir_op × String) :=
  [(.OP_ADD, "__fir_add"), (.OP_SUB, "__fir_sub"), (.OP_TIMES, "__fir_mul"),
   (.OP_DIVIDE, "__fir_div"), (.OP_REM, "__fir_rem"),
   (.OP_DYNAMIC_SHIFT_LEFT, "__fir_dshl"), (.OP_DYNAMIC_SHIFT_RIGHT, "__fir_dshr"),
   (.OP_BIT_AND, "__fir_and"), (.OP_BIT_OR, "__fir_or"), (.OP_BIT_XOR, "__fir_xor"),
   (.OP_LESS, "__fir_lt"), (.OP_LESS_EQ, "__fir_leq"), (.OP_GREATER, "__fir_gt"),
   (.OP_GREATER_EQ, "__fir_geq"), (.OP_EQUAL, "__fir_eq"), (.OP_NOT_EQUAL, "__fir_neq")]

mutual
/-- A port type built from UInt, SInt, Clock, Reset and AsyncReset leaves with bundles
and vectors. -/
def io_type_ok : Fir_type → Bool
  | .uint_type _ => true
  | .sint_type _ => true
  | .clock_type => true
  | .reset_type => true
  | .async_reset_type => true
  | .bundle_type field => io_fields_ok field
  | .vector_type type _ => io_type_ok type
  | .fixed_type => false
  | .analog_type _ => false
  | .not_set => false
/-- The fields of a bundle are of such types. -/
def io_fields_ok : List Fir_field → Bool
  | [] => true
  | .mk _ _ field_type :: rest => io_type_ok field_type && io_fields_ok rest
end

/-- The direction of a leaf below `flips` flipped bundle fields, in the words of the
specification: that of the port, inverted when `flips` is odd. -/
def leaf_dir (dir flips : Nat) : Nat :=
  if flips % 2 = 1 then (if dir = 1 then 2 else 1) else dir

mutual
/-- The scalar leaves of a port in the words of the specification: depth-first in the
order of the declaration, each with its path, its direction, its declared width (1 for
Clock, Reset and AsyncReset) and its sign; `flips` counts the flipped bundle fields on
the path so far. -/
def scalar_leaves : Fir_type → Nat → Nat → String → List (String × Nat × Nat × Bool)
  | .uint_type width, dir, flips, path => [(path, leaf_dir dir flips, width, false)]
  | .sint_type width, dir, flips, path => [(path, leaf_dir dir flips, width, true)]
  | .clock_type, dir, flips, path => [(path, leaf_dir dir flips, 1, false)]
  | .reset_type, dir, flips, path => [(path, leaf_dir dir flips, 1, false)]
  | .async_reset_type, dir, flips, path => [(path, leaf_dir dir flips, 1, false)]
  | .bundle_type field, dir, flips, path => scalar_leaves_fields field dir flips path
  | .vector_type type size, dir, flips, path =>
    ((List.range size).map fun i =>
      scalar_leaves type dir flips (path ++ "[" ++ nat_to_string i ++ "]")).flatten
  | .fixed_type, _, _, _ => []
  | .analog_type _, _, _, _ => []
  | .not_set, _, _, _ => []
/-- The scalar leaves of the fields of a bundle. -/
def scalar_leaves_fields : List Fir_field → Nat → Nat → String →
    List (String × Nat × Nat × Bool)
  | [], _, _, _ => []
  | .mk field_id is_flipped field_type :: rest, dir, flips, path =>
    scalar_leaves field_type dir (if is_flipped then flips + 1 else flips)
      (path ++ "." ++ field_id) ++
    scalar_leaves_fields rest dir flips path
end

/-- An entry of the form of the marker of a vector: 0 bits, unsigned. -/
def is_marker (entry : String × Nat × Nat × Bool) : Bool :=
  entry.2.2.1 = 0 && entry.2.2.2 = false

/-- Whether `vec` holds the entries `leaves` in their order, and between them only
entries of the form of a marker. -/
def leaves_among_markers :
    List (String × Nat × Nat × Bool) → List (String × Nat × Nat × Bool) → Bool
  | [], leaves => leaves.isEmpty
  | entry :: vec, [] => is_marker entry && leaves_among_markers vec []
  | entry :: vec, leaf :: leaves =>
    (entry = leaf && leaves_among_markers vec leaves) ||
    (is_marker entry && leaves_among_markers vec (leaf :: leaves))

/-- The 8 binary digits of a byte, most significant first. -/
def byte_digits (byte : Nat) : String :=
  ⟨[7, 6, 5, 4, 3, 2, 1, 0].map fun k => if byte / 2 ^ k % 2 = 1 then '1' else '0'⟩

/-- The bit string of a byte array: the digits of its bytes, in order. -/
def bit_string : List Nat → String
  | [] => ""
  | byte :: rest => byte_digits byte ++ bit_string rest

/-- Modelled from the spec: the re-parse of a literal `0b<bits>s<N>bits`, which takes the
digits between the `0b` at its start and the `s` of its width suffix. -/
def literal_digits (literal : String) : String :=
  ⟨(literal.data.drop 2).takeWhile fun c => c ≠ 's'⟩

mutual
/-- The Memory, CMemory and MemoryPort statements declared by a statement: the statement
itself, or those inside a `when` at any depth, in the order of the source. -/
def mem_decls : Fir_statement → List Fir_statement
  | .memory id type depth read_latency write_latency read_under_write reader_id writer_id
      readwriter_id =>
    [.memory id type depth read_latency write_latency read_under_write reader_id writer_id
      readwriter_id]
  | .cmemory id type read_under_write sync_read =>
    [.cmemory id type read_under_write sync_read]
  | .memory_port id memory_id expression memory_index direction =>
    [.memory_port id memory_id expression memory_index direction]
  | .when _ consequent otherwise => mem_decls_each consequent ++ mem_decls_each otherwise
  | _ => []
/-- The declarations of a list of statements. -/
def mem_decls_each : List Fir_statement → List Fir_statement
  | [] => []
  | stmt :: rest => mem_decls stmt ++ mem_decls_each rest
end

end Inou_firrtl

/-! ## The invariant of the memory ports -/

namespace Inou_firrtl

/-- The suffixes of the placeholder names that `PerformLateMemAssigns` may read for a
port recorded with the direction `dir`, now or after `PortDirInference` has changed an
inferred direction. -/
def late_cover : Mem_dir → List String
  | .READ | .READP => ["addr", "clk", "en"]
  | .WRITE => ["addr", "clk", "en", "data", "mask"]
  | .READ_WRITE => ["addr", "clk", "en", "wdata", "wmask"]
  | .WRITEP | .READ_WRITEP | .READI | .WRITEI | .READ_WRITEI | .INFER =>
    ["addr", "clk", "en", "data"]

/-- An identifier without `'.'`, as the identifiers of FIRRTL are. -/
def plain_id (id : String) : Bool := !id.data.contains '.'

/-- The identifiers that a Memory or MemoryPort statement declares hold no `'.'`. -/
def decl_ids_plain : Fir_statement → Bool
  | .memory id _ _ _ _ _ reader_id writer_id readwriter_id =>
    plain_id id && (reader_id ++ writer_id ++ readwriter_id).all plain_id
  | .memory_port id memory_id _ _ _ => plain_id id && plain_id memory_id
  | _ => true

/-- The name is assigned the const `0` by one of the nodes. -/
def zero_assigned (nodes : List Lnast_node) (name : String) : Prop :=
  ∃ asg_name, Lnast_node.mk .assign asg_name [ref_node name, const_node "0"] ∈ nodes

/-- The invariant of the memory ports: every port of `dangling_ports_map` is recorded in
`late_assign_ports` under the key of its memory, and for every port recorded in
`late_assign_ports` the placeholder names that may be read for its direction satisfy
`Z`. -/
structure Late_inv (Z : String → Prop) (st : Inou_firrtl) : Prop where
  known : ∀ port_id mem_id, st.dangling_ports_map.lookup port_id = some mem_id →
    map_contains st.late_assign_ports (mem_id ++ "." ++ port_id) = true
  covered : ∀ kd ∈ st.late_assign_ports, ∀ suffix ∈ late_cover kd.2,
    Z (late_assign_rstr kd.1 ++ suffix)

/-- A step keeps the invariant of the memory ports. -/
structure Frames {α : Type} (m : Lower α) : Prop where
  ok : ∀ (Z : String → Prop) st v st1 out, Late_inv Z st → m st = .ok v st1 out →
    Late_inv Z st1

/-- A step keeps the invariant of the memory ports when run from the state `st`. -/
structure Frames_at {α : Type} (st : Inou_firrtl) (m : Lower α) : Prop where
  ok : ∀ (Z : String → Prop) v st1 out, Late_inv Z st → m st = .ok v st1 out →
    Late_inv Z st1

/-- A step keeps the invariant of the memory ports when the names that its nodes assign
the const `0` are counted as satisfying `Z`. -/
structure Declares {α : Type} (m : Lower α) : Prop where
  ok : ∀ (Z : String → Prop) st v st1 out, Late_inv Z st → m st = .ok v st1 out →
    Late_inv (fun name => Z name ∨ zero_assigned out name) st1

end Inou_firrtl

/-! ## Keywords of Pyrope -/

/-- The constant `Pyrope_id_if` of `prp.hpp`. -/
def Pyrope_id_if : Nat := 128
/-- The constant `Pyrope_id_else` of `prp.hpp`. -/
def Pyrope_id_else : Nat := 129
/-- The constant `Pyrope_id_for` of `prp.hpp`. -/
def Pyrope_id_for : Nat := 130
/-- The constant `Pyrope_id_while` of `prp.hpp`. -/
def Pyrope_id_while : Nat := 131
/-- The constant `Pyrope_id_elif` of `prp.hpp`. -/
def Pyrope_id_elif : Nat := 132
/-- The constant `Pyrope_id_return` of `prp.hpp`. -/
def Pyrope_id_return : Nat := 133
/-- The constant `Pyrope_id_unique` of `prp.hpp`. -/
def Pyrope_id_unique : Nat := 134
/-- The constant `Pyrope_id_when` of `prp.hpp`. -/
def Pyrope_id_when : Nat := 135
/-- The constant `Pyrope_id_as` of `prp.hpp`. -/
def Pyrope_id_as : Nat := 136
/-- The constant `Pyrope_id_is` of `prp.hpp`. -/
def Pyrope_id_is : Nat := 137
/-- The constant `Pyrope_id_I` of `prp.hpp`. -/
def Pyrope_id_I : Nat := 138
/-- The constant `Pyrope_id_N` of `prp.hpp`. -/
def Pyrope_id_N : Nat := 139
/-- The constant `Pyrope_id_yield` of `prp.hpp`. -/
def Pyrope_id_yield : Nat := 140
/-- The constant `Pyrope_id_waitfor` of `prp.hpp`. -/
def Pyrope_id_waitfor : Nat := 141
/-- The constant `Pyrope_id_and` of `prp.hpp`. -/
def Pyrope_id_and : Nat := 142
/-- The constant `Pyrope_id_or` of `prp.hpp`. -/
def Pyrope_id_or : Nat := 143
/-- The constant `Pyrope_id_not` of `prp.hpp`. -/
def Pyrope_id_not : Nat := 144
/-- The constant `Pyrope_id_intersect` of `prp.hpp`. -/
def Pyrope_id_intersect : Nat := 145
/-- The constant `Pyrope_id_union` of `prp.hpp`. -/
def Pyrope_id_union : Nat := 145
/-- The constant `Pyrope_id_until` of `prp.hpp`. -/
def Pyrope_id_until : Nat := 146
/-- The constant `Pyrope_id_in` of `prp.hpp`. -/
def Pyrope_id_in : Nat := 147
/-- The constant `Pyrope_id_by` of `prp.hpp`. -/
def Pyrope_id_by : Nat := 148

/-- Embedding of the constructor `Prp::Prp()`: the member `pyrope_keyword` after the
assignments of the constructor, made in the order of the source on the empty map. The
type `Token_id` of the values is declared in a header that is not among the sources; the
values are the literals of `prp.hpp`. -/
def Prp.pyrope_keyword : List (String × Nat) :=
  let m : List (String × Nat) := []
  let m := map_insert m "if" Pyrope_id_if
  let m := map_insert m "else" Pyrope_id_else
  let m := map_insert m "for" Pyrope_id_for
  let m := map_insert m "while" Pyrope_id_while
  let m := map_insert m "elif" Pyrope_id_elif
  let m := map_insert m "return" Pyrope_id_return
  let m := map_insert m "unique" Pyrope_id_unique
  let m := map_insert m "when" Pyrope_id_when
  let m := map_insert m "as" Pyrope_id_as
  let m := map_insert m "is" Pyrope_id_is
  let m := map_insert m "and" Pyrope_id_and
  let m := map_insert m "or" Pyrope_id_or
  let m := map_insert m "not" Pyrope_id_not
  let m := map_insert m "I" Pyrope_id_I
  let m := map_insert m "N" Pyrope_id_N
  let m := map_insert m "yield" Pyrope_id_yield
  let m := map_insert m "waitfor" Pyrope_id_waitfor
  let m := map_insert m "intersect" Pyrope_id_intersect
  let m := map_insert m "union" Pyrope_id_union
  let m := map_insert m "until" Pyrope_id_until
  let m := map_insert m "in" Pyrope_id_in
  let m := map_insert m "by" Pyrope_id_by
  m

/-! ## Graph_library -/

/-- The fields of `Graph_library::Graph_attributes`. -/
structure Graph_attributes where
  name : String
  version : Int
  nopen : Int
  deriving DecidableEq, Repr

/-- Embedding of `Graph_library::get_version(uint32_t lgid)`; `attributes` is the vector
that the source names `attribute`. `none`: the read `attribute[lgid]` is outside the
bounds of the vector. -/
def Graph_library.get_version (attributes : List Graph_attributes) (lgid : Nat) : Option Int :=
  if attributes.length ≥ lgid then some 0
  else (attributes.get? lgid).map fun a => a.version

/-! ## Nodes below a node -/

/-- A node below `root`: a child of it, or a node below one of its children. -/
inductive Below (n : Lnast_node) : Lnast_node → Prop where
  | child (type : Lnast_ntype) (name : String) (children : List Lnast_node) :
    n ∈ children → Below n (.mk type name children)
  | deeper (type : Lnast_ntype) (name : String) (children : List Lnast_node)
      (c : Lnast_node) : c ∈ children → Below n c → Below n (.mk type name children)

mutual
/-- Whether two trees have the same types, names and children, in order. -/
def same_node : Lnast_node → Lnast_node → Bool
  | .mk type1 name1 children1, .mk type2 name2 children2 =>
    decide (type1 = type2) && decide (name1 = name2) && same_nodes children1 children2
/-- Whether two lists of trees are the same, tree by tree. -/
def same_nodes : List Lnast_node → List Lnast_node → Bool
  | [], [] => true
  | a :: rest1, b :: rest2 => same_node a b && same_nodes rest1 rest2
  | [], _ :: _ => false
  | _ :: _, [] => false
end

/-! ## Arithmetic lemmas -/

theorem to_int64_of_range (x : Int) (h1 : -(2 : Int) ^ 63 ≤ x) (h2 : x < 2 ^ 63) :
    to_int64 x = x := by
  unfold to_int64
  norm_num at h1 h2 ⊢
  omega

theorem to_uint64_of_range (x : Int) (h1 : 0 ≤ x) (h2 : x < 2 ^ 64) : to_uint64 x = x := by
  unfold to_uint64
  exact Int.emod_eq_of_lt h1 h2

theorem to_Bits_t_of_range (w : Nat) (x : Nat) (hw : 8 ≤ w) (hx : x < 256) :
    to_Bits_t w (x : Int) = x := by
  unfold to_Bits_t
  have h256 : (2 : Nat) ^ 8 ≤ 2 ^ w := Nat.pow_le_pow_right (by decide) hw
  have hlt : (x : Int) < 2 ^ w := by
    have : x < 2 ^ w := by omega
    exact_mod_cast this
  rw [Int.emod_eq_of_lt (by omega) hlt]
  simp

theorem neg_Bits_t_narrow (w x : Nat) (hw : w < 32) : neg_Bits_t w x = -(x : Int) := by
  unfold neg_Bits_t
  rw [if_pos hw]

theorem clz_from_add_size (k x : Nat) (h : x < 2 ^ k) : clz_from k x + Nat.size x = k := by
  induction k with
  | zero =>
    have hx : x = 0 := by simpa using h
    subst hx
    simp [clz_from]
  | succ k ih =>
    unfold clz_from
    by_cases hb : x / 2 ^ k % 2 = 1
    · rw [if_pos hb]
      have hge : 2 ^ k ≤ x := by
        by_contra hlt
        rw [Nat.div_eq_of_lt (Nat.lt_of_not_le hlt)] at hb
        simp at hb
      have h1 : Nat.size x ≤ k + 1 := Nat.size_le.mpr h
      have h2 : k < Nat.size x := Nat.lt_size.mpr hge
      omega
    · rw [if_neg hb]
      have hlt : x < 2 ^ k := by
        by_contra hge
        have hge : 2 ^ k ≤ x := Nat.le_of_not_lt hge
        have hq1 : 1 ≤ x / 2 ^ k := (Nat.one_le_div_iff (Nat.pos_pow_of_pos k (by decide))).mpr hge
        have hq2 : x / 2 ^ k < 2 := by
          rw [Nat.div_lt_iff_lt_mul (Nat.pos_pow_of_pos k (by decide))]
          rw [pow_succ] at h
          omega
        omega
      have := ih hlt
      omega

theorem size_eq_clog (m : Nat) : Nat.size m = Nat.clog 2 (m + 1) := by
  apply le_antisymm
  · rw [Nat.size_le]
    have := (Nat.le_pow_iff_clog_le (b := 2) (by decide) (x := m + 1)
      (y := Nat.clog 2 (m + 1))).mpr le_rfl
    omega
  · rw [← Nat.le_pow_iff_clog_le (by decide)]
    have := Nat.lt_size_self m
    omega

theorem size_half (n : Nat) (hn : n ≠ 0) : Nat.size n = Nat.size (n / 2) + 1 := by
  apply le_antisymm
  · rw [Nat.size_le, pow_succ]
    have := Nat.lt_size_self (n / 2)
    omega
  · have : Nat.size (n / 2) < Nat.size n := by
      rw [Nat.lt_size]
      by_cases h0 : n / 2 = 0
      · rw [h0]; simp; omega
      · have hs : 0 < Nat.size (n / 2) := Nat.size_pos.mpr (Nat.pos_of_ne_zero h0)
        have h1 : Nat.size (n / 2) - 1 < Nat.size (n / 2) := by omega
        rw [Nat.lt_size] at h1
        have h2 : 2 ^ Nat.size (n / 2) = 2 ^ (Nat.size (n / 2) - 1) * 2 := by
          rw [← pow_succ]; congr 1; omega
        omega
    omega

theorem bit_count_aux_eq_size (fuel n : Nat) (h : n ≤ fuel) :
    bit_count_aux fuel n = Nat.size n := by
  induction fuel generalizing n with
  | zero =>
    have : n = 0 := by omega
    subst this; simp [bit_count_aux]
  | succ f ih =>
    unfold bit_count_aux
    by_cases hn : n = 0
    · subst hn; simp
    · rw [if_neg hn, ih (n / 2) (by omega), size_half n hn]

theorem bit_count_eq_size (n : Nat) : bit_count n = Nat.size n :=
  bit_count_aux_eq_size n n le_rfl

theorem abs_max_eq (m : Int) (h1 : -(2 : Int) ^ 63 ≤ m) (h2 : m < 2 ^ 63) :
    Bitwidth_range.abs_max m = m.natAbs := by
  unfold Bitwidth_range.abs_max to_uint64 to_int64
  norm_num at h1 h2 ⊢
  rcases le_or_lt 0 m with h | h
  · rw [abs_of_nonneg h]; omega
  · rw [abs_of_neg h]; omega

theorem natAbs_lt_of_int64 (m : Int) (h1 : -(2 : Int) ^ 63 ≤ m) (h2 : m < 2 ^ 63) :
    m.natAbs < 2 ^ 64 := by
  norm_num at h1 h2 ⊢
  omega

theorem clzll_eq (x : Nat) (h : x < 2 ^ 64) :
    ((8 * 8 : Int) - (builtin_clzll x : Int)) = (Nat.size x : Int) := by
  have := clz_from_add_size 64 x h
  unfold builtin_clzll
  omega

theorem size_le_64 (x : Nat) (h : x < 2 ^ 64) : Nat.size x ≤ 64 := Nat.size_le.mpr h

theorem get_bits_exact (w Bits_max : Nat) (r : Bitwidth_range) (hw : 8 ≤ w)
    (hov : r.overflow = false) (h1 : -(2 : Int) ^ 63 ≤ r.max) (h2 : r.max < 2 ^ 63)
    (hB : exact_bits r < Bits_max) :
    Bitwidth_range.get_bits w Bits_max r = some (exact_bits r) := by
  have hs := size_le_64 _ (natAbs_lt_of_int64 r.max h1 h2)
  have hc := clzll_eq _ (natAbs_lt_of_int64 r.max h1 h2)
  unfold Bitwidth_range.get_bits
  unfold exact_bits at hB ⊢
  simp only [hov, Bool.false_eq_true, if_false]
  rw [abs_max_eq r.max h1 h2, hc]
  have e1 : to_Bits_t w 1 = 1 := to_Bits_t_of_range w 1 hw (by decide)
  have e2 : to_Bits_t w (Nat.size r.max.natAbs : Int) = Nat.size r.max.natAbs :=
    to_Bits_t_of_range w _ hw (by omega)
  rw [e1, e2]
  by_cases hm : r.max = 0
  · by_cases hn : r.min < 0
    · simp only [hm, hn, ne_eq, not_true_eq_false, if_false, if_true] at hB ⊢
      have e3 : to_Bits_t w ((1 : Nat) + 1 : Int) = 2 := to_Bits_t_of_range w 2 hw (by decide)
      have e4 : to_Bits_t w (((1 : Nat) : Int) + 1) = 2 := e3
      rw [e4]
      simp at hB ⊢
      omega
    · simp only [hm, hn, ne_eq, not_true_eq_false, if_false] at hB ⊢
      simp at hB ⊢
      omega
  · by_cases hn : r.min < 0
    · simp only [hm, hn, ne_eq, not_false_eq_true, if_false, if_true] at hB ⊢
      have e3 : to_Bits_t w ((Nat.size r.max.natAbs : Int) + 1) = Nat.size r.max.natAbs + 1 := by
        have := to_Bits_t_of_range w (Nat.size r.max.natAbs + 1) hw (by omega)
        simpa using this
      rw [e3]
      simp
      omega
    · simp only [hm, hn, ne_eq, not_false_eq_true, if_false, if_true] at hB ⊢
      simp at hB ⊢
      omega

theorem size_pow_sub_one (n : Nat) : Nat.size (2 ^ n - 1) = n := by
  have hp : 0 < 2 ^ n := Nat.pos_pow_of_pos n (by decide)
  apply le_antisymm
  · rw [Nat.size_le]; omega
  · rcases Nat.eq_zero_or_pos n with h0 | hpos
    · omega
    · have h : n - 1 < Nat.size (2 ^ n - 1) := by
        rw [Nat.lt_size]
        have h2 : 2 ^ n = 2 ^ (n - 1) * 2 := by
          rw [← pow_succ]; congr 1; omega
        have hp1 : 0 < 2 ^ (n - 1) := Nat.pos_pow_of_pos _ (by decide)
        omega
      omega

theorem int_pow_bounds (n : Nat) (h63 : n ≤ 63) :
    (1 : Int) ≤ 2 ^ n ∧ (2 : Int) ^ n ≤ 9223372036854775808 := by
  have h1 : (2 : Nat) ^ n ≤ 2 ^ 63 := Nat.pow_le_pow_right (by decide) h63
  have h0 : 0 < (2 : Nat) ^ n := Nat.pos_pow_of_pos n (by decide)
  have e : ((2 ^ n : Nat) : Int) = (2 : Int) ^ n := by push_cast; rfl
  rw [← e]
  norm_num at h1
  omega

theorem set_ubits_exact (Bits_max n : Nat) (h1 : 1 ≤ n) (h63 : n ≤ 63) (hB : n < Bits_max) :
    Bitwidth_range.set_ubits Bits_max n
      = some { max := 2 ^ n - 1, min := 0, overflow := false } := by
  obtain ⟨hp1, hp2⟩ := int_pow_bounds n h63
  unfold Bitwidth_range.set_ubits
  have e : to_int64 (to_uint64 (to_uint64 (1 * 2 ^ n) - 1)) = (2 : Int) ^ n - 1 := by
    generalize (2 : Int) ^ n = p at hp1 hp2 ⊢
    unfold to_int64 to_uint64
    norm_num
    omega
  rw [e]
  simp only [not_lt, gt_iff_lt]
  rw [if_neg (by omega), if_neg (by omega), if_neg (by omega)]

theorem set_sbits_exact (w Bits_max n : Nat) (h1 : 1 ≤ n) (h63 : n ≤ 63) (hB : n < Bits_max) :
    Bitwidth_range.set_sbits w Bits_max n
      = some { max := 2 ^ (n - 1) - 1, min := -2 ^ (n - 1), overflow := false } := by
  obtain ⟨hp1, hp2⟩ := int_pow_bounds (n - 1) (by omega)
  have hp3 : (2 : Int) ^ (n - 1) ≤ 4611686018427387904 := by
    have h1 : (2 : Nat) ^ (n - 1) ≤ 2 ^ 62 := Nat.pow_le_pow_right (by decide) (by omega)
    have e : ((2 ^ (n - 1) : Nat) : Int) = (2 : Int) ^ (n - 1) := by push_cast; rfl
    rw [← e]
    norm_num at h1
    omega
  unfold Bitwidth_range.set_sbits
  have e : to_int64 (to_uint64 (to_uint64 (1 * 2 ^ (n - 1)) - 1)) = (2 : Int) ^ (n - 1) - 1 := by
    generalize (2 : Int) ^ (n - 1) = p at hp1 hp2 hp3 ⊢
    unfold to_int64 to_uint64
    norm_num
    omega
  have e2 : to_int64 (to_uint64 (-(to_uint64 (1 * 2 ^ (n - 1))))) = -(2 : Int) ^ (n - 1) := by
    generalize (2 : Int) ^ (n - 1) = p at hp1 hp2 hp3 ⊢
    unfold to_int64 to_uint64
    norm_num
    omega
  rw [e, e2]
  simp only [not_lt, gt_iff_lt]
  rw [if_neg (by omega), if_neg (by omega), if_neg (by omega)]

theorem set_ubits_overflow (Bits_max n : Nat) (h63 : 63 < n) (hB : n < Bits_max) :
    Bitwidth_range.set_ubits Bits_max n = some { max := (n : Int), min := 0, overflow := true } := by
  unfold Bitwidth_range.set_ubits
  simp only [not_lt, gt_iff_lt]
  rw [if_neg (by omega), if_neg (by omega), if_pos (by omega)]

theorem set_sbits_overflow (w Bits_max n : Nat) (hw : w < 32) (h63 : 63 < n) (hB : n < Bits_max) :
    Bitwidth_range.set_sbits w Bits_max n
      = some { max := (n : Int) - 1, min := -((n : Int) - 1), overflow := true } := by
  unfold Bitwidth_range.set_sbits
  simp only [not_lt, gt_iff_lt]
  rw [if_neg (by omega), if_neg (by omega), if_pos (by omega), neg_Bits_t_narrow w _ hw]
  have : ((n - 1 : Nat) : Int) = (n : Int) - 1 := by omega
  rw [this]

/-! ## Theorems on Bitwidth_range -/

/-- C1: for every n with 1 ≤ n ≤ 63, a range on which `set_ubits(n)` has been called
(within its precondition `n < Bits_max`) returns n from `get_bits()`. -/
theorem set_ubits_get_bits (w Bits_max n : Nat) (hw : 8 ≤ w) (h1 : 1 ≤ n) (h63 : n ≤ 63)
    (hB : n < Bits_max) :
    (Bitwidth_range.set_ubits Bits_max n).bind (Bitwidth_range.get_bits w Bits_max) = some n := by
  obtain ⟨hp1, hp2⟩ := int_pow_bounds n h63
  rw [set_ubits_exact Bits_max n h1 h63 hB]
  have hmax : ((2 : Int) ^ n - 1).natAbs = 2 ^ n - 1 := by
    have e : ((2 ^ n : Nat) : Int) = (2 : Int) ^ n := by push_cast; rfl
    have h0 : 0 < (2 : Nat) ^ n := Nat.pos_pow_of_pos n (by decide)
    omega
  have hne : ¬ ((2 : Int) ^ n - 1 = 0) := by
    have h2 : (2 : Nat) ^ 1 ≤ 2 ^ n := Nat.pow_le_pow_right (by decide) h1
    have e : ((2 ^ n : Nat) : Int) = (2 : Int) ^ n := by push_cast; rfl
    omega
  have hx : exact_bits { max := 2 ^ n - 1, min := 0, overflow := false } = n := by
    unfold exact_bits
    simp only [hne, if_false, lt_self_iff_false, add_zero, hmax]
    exact size_pow_sub_one n
  have := get_bits_exact w Bits_max { max := 2 ^ n - 1, min := 0, overflow := false } hw rfl
    (by show -(2 : Int) ^ 63 ≤ 2 ^ n - 1; norm_num; omega)
    (by show (2 : Int) ^ n - 1 < 2 ^ 63; norm_num; omega) (by rw [hx]; exact hB)
  rw [hx] at this
  simpa using this

/-- Witness of `set_ubits_get_bits` at n = 7 with a 16-bit `Bits_t` and `Bits_max` = 32767. -/
theorem set_ubits_get_bits_witness :
    (Bitwidth_range.set_ubits 32767 7).bind (Bitwidth_range.get_bits 16 32767) = some 7 :=
  set_ubits_get_bits 16 32767 7 (by decide) (by decide) (by decide) (by decide)

/-- C2 (as stated, refuted): the exact range [0, 0] gets 1 bit from `get_bits()`, while
⌈log2(0 + 1)⌉ is 0. -/
theorem get_bits_nonneg_zero_counterexample :
    Bitwidth_range.get_bits 16 32767 { max := 0, min := 0, overflow := false } = some 1 ∧
    Bitwidth_range.get_bits 16 32767 { max := 0, min := 0, overflow := false }
      ≠ some (Nat.clog 2 ((0 : Int).toNat + 1)) := by
  constructor
  · decide
  · simp [Nat.clog]
    decide

/-- C2 (amended): in exact mode with 0 ≤ min ≤ max, `get_bits()` is ⌈log2(max+1)⌉ when
max ≥ 1, and 1 when max = 0. -/
theorem get_bits_exact_nonneg (w Bits_max : Nat) (r : Bitwidth_range) (hw : 8 ≤ w)
    (hB : 65 < Bits_max) (hov : r.overflow = false) (hmin : 0 ≤ r.min) (hle : r.min ≤ r.max)
    (h64 : r.max < 2 ^ 63) :
    Bitwidth_range.get_bits w Bits_max r
      = some (if r.max = 0 then 1 else Nat.clog 2 (r.max.toNat + 1)) := by
  have h1 : -(2 : Int) ^ 63 ≤ r.max := by norm_num; omega
  have hs := size_le_64 _ (natAbs_lt_of_int64 r.max h1 h64)
  have hx : exact_bits r = if r.max = 0 then 1 else Nat.clog 2 (r.max.toNat + 1) := by
    unfold exact_bits
    have hn : ¬ r.min < 0 := by omega
    have ht : r.max.toNat = r.max.natAbs := by omega
    simp only [hn, if_false, add_zero, ht, size_eq_clog]
  rw [← hx]
  apply get_bits_exact w Bits_max r hw hov h1 h64
  unfold exact_bits
  split_ifs <;> omega

/-- Witness of `get_bits_exact_nonneg` at the exact range [3, 15]. -/
theorem get_bits_exact_nonneg_witness :
    Bitwidth_range.get_bits 16 32767 { max := 15, min := 3, overflow := false }
      = some (if (15 : Int) = 0 then 1 else Nat.clog 2 ((15 : Int).toNat + 1)) :=
  get_bits_exact_nonneg 16 32767 { max := 15, min := 3, overflow := false } (by decide)
    (by decide) rfl (by decide) (by decide) (by decide)

/-- C3 (as stated, refuted): the exact range [-1, 0] gets 2 bits from `get_bits()`, while
⌈log2(|0| + 1)⌉ + 1 is 1. -/
theorem get_bits_neg_zero_counterexample :
    Bitwidth_range.get_bits 16 32767 { max := 0, min := -1, overflow := false } = some 2 ∧
    Bitwidth_range.get_bits 16 32767 { max := 0, min := -1, overflow := false }
      ≠ some (Nat.clog 2 ((0 : Int).natAbs + 1) + 1) := by
  constructor
  · decide
  · simp [Nat.clog]
    decide

/-- C3 (amended): in exact mode with min < 0 and min ≤ max, `get_bits()` is
⌈log2(|max|+1)⌉ + 1 when max ≠ 0, and 2 when max = 0. -/
theorem get_bits_exact_neg (w Bits_max : Nat) (r : Bitwidth_range) (hw : 8 ≤ w)
    (hB : 65 < Bits_max) (hov : r.overflow = false) (hmin : r.min < 0) (hle : r.min ≤ r.max)
    (hlo : -(2 : Int) ^ 63 ≤ r.min) (h64 : r.max < 2 ^ 63) :
    Bitwidth_range.get_bits w Bits_max r
      = some (if r.max = 0 then 2 else Nat.clog 2 (r.max.natAbs + 1) + 1) := by
  have h1 : -(2 : Int) ^ 63 ≤ r.max := le_trans hlo hle
  have hs := size_le_64 _ (natAbs_lt_of_int64 r.max h1 h64)
  have hx : exact_bits r = if r.max = 0 then 2 else Nat.clog 2 (r.max.natAbs + 1) + 1 := by
    unfold exact_bits
    simp only [hmin, if_true, size_eq_clog]
    split <;> rfl
  rw [← hx]
  apply get_bits_exact w Bits_max r hw hov h1 h64
  unfold exact_bits
  split_ifs <;> omega

/-- Witness of `get_bits_exact_neg` at the exact range [-9, 15]. -/
theorem get_bits_exact_neg_witness :
    Bitwidth_range.get_bits 16 32767 { max := 15, min := -9, overflow := false }
      = some (if (15 : Int) = 0 then 2 else Nat.clog 2 ((15 : Int).natAbs + 1) + 1) :=
  get_bits_exact_neg 16 32767 { max := 15, min := -9, overflow := false } (by decide)
    (by decide) rfl (by decide) (by decide) (by decide) (by decide)

/-- C4 (the code at the failing input): `set_range(-100, 1)` stores the exact range
[-100, 1], for which `get_bits()` returns 2, and -100 does not fit 2 signed bits. -/
theorem get_bits_undercounts_min :
    Bitwidth_range.set_range 16 (-100) 1 = some { max := 1, min := -100, overflow := false } ∧
    Bitwidth_range.get_bits 16 32767 { max := 1, min := -100, overflow := false } = some 2 ∧
    ¬ (-(2 : Int) ^ (2 - 1) ≤ -100) := by
  decide

/-- C5: for 1 ≤ n < Bits_max (and a `Bits_t` narrower than `int`), the bounds stored by
`set_ubits(n)` decode with `to_lconst` to [0, 2^n − 1] and those stored by `set_sbits(n)`
to [−2^(n−1), 2^(n−1) − 1]; the overflow flag is set exactly when n > 63, and then the
fields are max = n, min = 0 (unsigned), max = n−1, min = −(n−1) (signed). -/
theorem set_bits_full_range (w Bits_max n : Nat) (hw : w < 32) (h1 : 1 ≤ n) (hB : n < Bits_max) :
    (∃ r, Bitwidth_range.set_ubits Bits_max n = some r ∧
      Bitwidth_range.to_lconst r.overflow r.min = 0 ∧
      Bitwidth_range.to_lconst r.overflow r.max = 2 ^ n - 1 ∧
      (r.overflow = true ↔ 63 < n) ∧ (63 < n → r.max = n ∧ r.min = 0)) ∧
    (∃ r, Bitwidth_range.set_sbits w Bits_max n = some r ∧
      Bitwidth_range.to_lconst r.overflow r.min = -2 ^ (n - 1) ∧
      Bitwidth_range.to_lconst r.overflow r.max = 2 ^ (n - 1) - 1 ∧
      (r.overflow = true ↔ 63 < n) ∧ (63 < n → r.max = (n : Int) - 1 ∧ r.min = -((n : Int) - 1))) := by
  have hpn : (2 : Int) ≤ 2 ^ n := by
    have h2 : (2 : Nat) ^ 1 ≤ 2 ^ n := Nat.pow_le_pow_right (by decide) h1
    have e : ((2 ^ n : Nat) : Int) = (2 : Int) ^ n := by push_cast; rfl
    omega
  have hpm : (1 : Int) ≤ 2 ^ (n - 1) := by
    have h2 : 0 < (2 : Nat) ^ (n - 1) := Nat.pos_pow_of_pos _ (by decide)
    have e : ((2 ^ (n - 1) : Nat) : Int) = (2 : Int) ^ (n - 1) := by push_cast; rfl
    omega
  rcases Nat.lt_or_ge 63 n with h63 | h63
  · constructor
    · refine ⟨_, set_ubits_overflow Bits_max n h63 hB, ?_, ?_, ?_, ?_⟩
      · simp [Bitwidth_range.to_lconst]
      · have hn0 : ¬ ((n : Int) = 0) := by omega
        have hnp : (n : Int) > 0 := by omega
        simp [Bitwidth_range.to_lconst, hn0, hnp]
      · simp [h63]
      · intro _; exact ⟨rfl, rfl⟩
    · refine ⟨_, set_sbits_overflow w Bits_max n hw h63 hB, ?_, ?_, ?_, ?_⟩
      · have hn0 : ¬ (-((n : Int) - 1) = 0) := by omega
        have hnp : ¬ (-((n : Int) - 1) > 0) := by omega
        have ht : (-(-((n : Int) - 1))).toNat = n - 1 := by omega
        simp only [Bitwidth_range.to_lconst, hn0, hnp, if_false, ht]
        simp
      · have hn0 : ¬ ((n : Int) - 1 = 0) := by omega
        have hnp : (n : Int) - 1 > 0 := by omega
        have ht : ((n : Int) - 1).toNat = n - 1 := by omega
        simp only [Bitwidth_range.to_lconst, hn0, hnp, if_false, if_true, ht]
        simp
      · simp [h63]
      · intro _; exact ⟨rfl, rfl⟩
  · constructor
    · refine ⟨_, set_ubits_exact Bits_max n h1 h63 hB, ?_, ?_, ?_, ?_⟩
      · simp [Bitwidth_range.to_lconst]
      · have hn0 : ¬ ((2 : Int) ^ n - 1 = 0) := by omega
        simp [Bitwidth_range.to_lconst, hn0]
      · simp; omega
      · intro h; omega
    · refine ⟨_, set_sbits_exact w Bits_max n h1 h63 hB, ?_, ?_, ?_, ?_⟩
      · have hn0 : ¬ (-(2 : Int) ^ (n - 1) = 0) := by omega
        simp only [Bitwidth_range.to_lconst, hn0, if_false]
        simp
      · by_cases hz : (2 : Int) ^ (n - 1) - 1 = 0
        · simp only [Bitwidth_range.to_lconst, hz, if_true]
        · simp only [Bitwidth_range.to_lconst, hz, if_false]
          simp
      · simp; omega
      · intro h; omega

/-- Witness of `set_bits_full_range` at n = 100 with a 16-bit `Bits_t`. -/
theorem set_bits_full_range_witness :
    (∃ r, Bitwidth_range.set_ubits 32767 100 = some r ∧
      Bitwidth_range.to_lconst r.overflow r.min = 0 ∧
      Bitwidth_range.to_lconst r.overflow r.max = 2 ^ 100 - 1 ∧
      (r.overflow = true ↔ 63 < 100) ∧ (63 < 100 → r.max = (100 : Nat) ∧ r.min = 0)) ∧
    (∃ r, Bitwidth_range.set_sbits 16 32767 100 = some r ∧
      Bitwidth_range.to_lconst r.overflow r.min = -2 ^ (100 - 1) ∧
      Bitwidth_range.to_lconst r.overflow r.max = 2 ^ (100 - 1) - 1 ∧
      (r.overflow = true ↔ 63 < 100) ∧
      (63 < 100 → r.max = ((100 : Nat) : Int) - 1 ∧ r.min = -(((100 : Nat) : Int) - 1))) :=
  set_bits_full_range 16 32767 100 (by decide) (by decide) (by decide)

/-- C6 (as stated, refuted): `set_ubits(0)` stores min = 0 and `set_sbits(0)` stores
max = 326768, so neither leaves the stored bounds min = −32768, max = 32768. -/
theorem set_bits_zero_counterexample :
    Bitwidth_range.set_ubits 32767 0 ≠ some { max := 32768, min := -32768, overflow := true } ∧
    Bitwidth_range.set_sbits 16 32767 0
      ≠ some { max := 32768, min := -32768, overflow := true } := by
  decide

/-- C6 (amended): for n = 0, `set_ubits(0)` and `set_sbits(0)` leave the range in overflow
mode, with stored min = 0 after `set_ubits(0)` and min = −32768 after `set_sbits(0)`. -/
theorem set_bits_zero_unknown (w Bits_max : Nat) (hB : 0 < Bits_max) :
    (∃ r, Bitwidth_range.set_ubits Bits_max 0 = some r ∧ r.overflow = true ∧ r.min = 0) ∧
    (∃ r, Bitwidth_range.set_sbits w Bits_max 0 = some r ∧ r.overflow = true ∧
      r.min = -32768) := by
  constructor
  · refine ⟨{ max := 326768, min := 0, overflow := true }, ?_, rfl, rfl⟩
    unfold Bitwidth_range.set_ubits
    simp [hB]
  · refine ⟨{ max := 326768, min := -32768, overflow := true }, ?_, rfl, rfl⟩
    unfold Bitwidth_range.set_sbits
    simp [hB]

/-- Witness of `set_bits_zero_unknown` with a 16-bit `Bits_t` and `Bits_max` = 32767. -/
theorem set_bits_zero_unknown_witness :
    (∃ r, Bitwidth_range.set_ubits 32767 0 = some r ∧ r.overflow = true ∧ r.min = 0) ∧
    (∃ r, Bitwidth_range.set_sbits 16 32767 0 = some r ∧ r.overflow = true ∧
      r.min = -32768) :=
  set_bits_zero_unknown 16 32767 (by decide)

/-- C7 (as stated, refuted): after `set_ubits(100)` the range is in overflow mode with
the bit counts max = 100, min = 0; `set_narrower_range(0, 1000)` then fails its assertion
`max >= 1000` although the range is not in exact mode, while `set_range(0, 1000)`
succeeds. -/
theorem set_narrower_range_overflow_counterexample :
    Bitwidth_range.set_ubits 32767 100 = some { max := 100, min := 0, overflow := true } ∧
    Bitwidth_range.set_narrower_range 16 { max := 100, min := 0, overflow := true } 0 1000
      = none ∧
    Bitwidth_range.set_range 16 0 1000 = some { max := 1000, min := 0, overflow := false } := by
  decide

theorem set_range_ne_none (w : Nat) (lo hi : Int) (h : lo ≤ hi) :
    Bitwidth_range.set_range w lo hi ≠ none := by
  unfold Bitwidth_range.set_range
  rw [if_neg (by simpa using h)]
  split_ifs <;> simp

theorem to_i_of_is_i (v : Int) (h : Lconst.is_i v = true) : Lconst.to_i v = v := by
  simp only [Lconst.is_i, decide_eq_true_eq] at h
  exact to_int64_of_range v h.1 h.2

/-- C7 (amended): for every state and every lo ≤ hi, `set_narrower_range(lo, hi)` fails an
assertion if and only if lo and hi are machine integers and hi is above the stored max
or lo below the stored min, whatever the mode of the current range; in every other case
it behaves exactly like `set_range(lo, hi)`. -/
theorem set_narrower_range_asserts_iff (w : Nat) (self : Bitwidth_range) (lo hi : Int)
    (h : lo ≤ hi) :
    (Bitwidth_range.set_narrower_range w self lo hi = none ↔
      (Lconst.is_i lo = true ∧ Lconst.is_i hi = true ∧ (self.max < hi ∨ lo < self.min))) ∧
    (Bitwidth_range.set_narrower_range w self lo hi ≠ none →
      Bitwidth_range.set_narrower_range w self lo hi = Bitwidth_range.set_range w lo hi) := by
  have hsr := set_range_ne_none w lo hi h
  unfold Bitwidth_range.set_narrower_range
  by_cases hi_i : (Lconst.is_i hi && Lconst.is_i lo) = true
  · rw [if_pos hi_i]
    simp only [Bool.and_eq_true] at hi_i
    rw [to_i_of_is_i hi hi_i.1, to_i_of_is_i lo hi_i.2]
    by_cases h1 : self.max ≥ hi
    · rw [if_neg (not_not.mpr h1)]
      by_cases h2 : self.min ≤ lo
      · rw [if_neg (not_not.mpr h2)]
        refine ⟨⟨fun hn => absurd hn hsr, ?_⟩, fun _ => rfl⟩
        rintro ⟨_, _, h3 | h3⟩ <;> omega
      · rw [if_pos h2]
        refine ⟨⟨fun _ => ⟨hi_i.2, hi_i.1, Or.inr (by omega)⟩, fun _ => rfl⟩, ?_⟩
        intro hn
        exact absurd rfl hn
    · rw [if_pos h1]
      refine ⟨⟨fun _ => ⟨hi_i.2, hi_i.1, Or.inl (by omega)⟩, fun _ => rfl⟩, ?_⟩
      intro hn
      exact absurd rfl hn
  · rw [if_neg hi_i]
    refine ⟨⟨fun hn => absurd hn hsr, ?_⟩, fun _ => rfl⟩
    rintro ⟨a, b, _⟩
    simp [a, b] at hi_i

/-- Witness of `set_narrower_range_asserts_iff` at the overflow-mode range of
`set_ubits(100)` and the bounds [0, 1000]. -/
theorem set_narrower_range_asserts_iff_witness :
    (Bitwidth_range.set_narrower_range 16 { max := 100, min := 0, overflow := true } 0 1000
        = none ↔
      (Lconst.is_i 0 = true ∧ Lconst.is_i 1000 = true ∧
        ((100 : Int) < 1000 ∨ (0 : Int) < 0))) ∧
    (Bitwidth_range.set_narrower_range 16 { max := 100, min := 0, overflow := true } 0 1000
        ≠ none →
      Bitwidth_range.set_narrower_range 16 { max := 100, min := 0, overflow := true } 0 1000
        = Bitwidth_range.set_range 16 0 1000) :=
  set_narrower_range_asserts_iff 16 { max := 100, min := 0, overflow := true } 0 1000
    (by decide)

theorem encode_bound_mono (w : Nat) (hw : w < 32) (lo hi : Int) (h : lo ≤ hi) :
    Bitwidth_range.encode_bound w lo ≤ Bitwidth_range.encode_bound w hi := by
  unfold Bitwidth_range.encode_bound Lconst.is_negative Lconst.get_bits
  simp only [neg_Bits_t_narrow _ _ hw, bit_count_eq_size, decide_eq_true_eq]
  by_cases hl0 : lo = 0
  · by_cases hh0 : hi = 0
    · simp [hl0, hh0]
    · have hp : ¬ hi < 0 := by omega
      simp [hl0, hh0, hp]
  · by_cases hh0 : hi = 0
    · have hn : lo < 0 := by omega
      simp only [hl0, hh0, hn, if_true, if_false]
      omega
    · by_cases hln : lo < 0
      · by_cases hhn : hi < 0
        · have hs : Nat.size hi.natAbs ≤ Nat.size lo.natAbs := Nat.size_le_size (by omega)
          simp only [hl0, hh0, hln, hhn, if_true, if_false]
          omega
        · simp only [hl0, hh0, hln, hhn, if_true, if_false]
          omega
      · have hhn : ¬ hi < 0 := by omega
        have hs : Nat.size lo.natAbs ≤ Nat.size hi.natAbs := Nat.size_le_size (by omega)
        simp only [hl0, hh0, hln, hhn, if_false]
        omega

theorem set_range_min_le_max (w : Nat) (hw : w < 32) (lo hi : Int) (h : lo ≤ hi) :
    ∃ r, Bitwidth_range.set_range w lo hi = some r ∧ r.min ≤ r.max := by
  unfold Bitwidth_range.set_range
  rw [if_neg (by simpa using h)]
  by_cases hi_i : (Lconst.is_i hi && Lconst.is_i lo) = true
  · rw [if_pos hi_i]
    refine ⟨_, rfl, ?_⟩
    simp only [Bool.and_eq_true, Lconst.is_i, decide_eq_true_eq] at hi_i
    obtain ⟨⟨a1, a2⟩, b1, b2⟩ := hi_i
    show Lconst.to_i lo ≤ Lconst.to_i hi
    unfold Lconst.to_i
    rw [to_int64_of_range lo b1 b2, to_int64_of_range hi a1 a2]
    exact h
  · rw [if_neg hi_i]
    exact ⟨_, rfl, encode_bound_mono w hw lo hi h⟩

/-- C8: every way of building or updating a range within its preconditions (from a
constant, `set_ubits(n)` and `set_sbits(n)` with n < Bits_max, `set_range(lo, hi)` and the
two-bound constructor with lo ≤ hi) succeeds and leaves the stored fields with min ≤ max,
in exact and in overflow mode alike (for a `Bits_t` narrower than `int`). -/
theorem stored_min_le_max (w Bits_max n : Nat) (v lo hi : Lconst) (hw : w < 32)
    (hn : n < Bits_max) (hle : lo ≤ hi) :
    (Bitwidth_range.of_const w v).min ≤ (Bitwidth_range.of_const w v).max ∧
    (∃ r, Bitwidth_range.set_ubits Bits_max n = some r ∧ r.min ≤ r.max) ∧
    (∃ r, Bitwidth_range.set_sbits w Bits_max n = some r ∧ r.min ≤ r.max) ∧
    (∃ r, Bitwidth_range.set_range w lo hi = some r ∧ r.min ≤ r.max) ∧
    (∃ r, Bitwidth_range.of_range w lo hi = some r ∧ r.min ≤ r.max) := by
  refine ⟨?_, ?_, ?_, set_range_min_le_max w hw lo hi hle, set_range_min_le_max w hw lo hi hle⟩
  · unfold Bitwidth_range.of_const
    split_ifs <;> exact le_rfl
  · rcases Nat.eq_zero_or_pos n with h0 | hpos
    · subst h0
      refine ⟨{ max := 326768, min := 0, overflow := true }, ?_, by decide⟩
      unfold Bitwidth_range.set_ubits
      simp [hn]
    · rcases Nat.lt_or_ge 63 n with h63 | h63
      · exact ⟨_, set_ubits_overflow Bits_max n h63 hn, by show (0 : Int) ≤ n; omega⟩
      · refine ⟨_, set_ubits_exact Bits_max n hpos h63 hn, ?_⟩
        have := (int_pow_bounds n h63).1
        show (0 : Int) ≤ 2 ^ n - 1
        omega
  · rcases Nat.eq_zero_or_pos n with h0 | hpos
    · subst h0
      refine ⟨{ max := 326768, min := -32768, overflow := true }, ?_, by decide⟩
      unfold Bitwidth_range.set_sbits
      simp [hn]
    · rcases Nat.lt_or_ge 63 n with h63 | h63
      · refine ⟨_, set_sbits_overflow w Bits_max n hw h63 hn, ?_⟩
        show -((n : Int) - 1) ≤ (n : Int) - 1
        omega
      · refine ⟨_, set_sbits_exact w Bits_max n hpos h63 hn, ?_⟩
        have := (int_pow_bounds (n - 1) (by omega)).1
        show -(2 : Int) ^ (n - 1) ≤ 2 ^ (n - 1) - 1
        omega

/-- Witness of `stored_min_le_max`: a 16-bit `Bits_t`, n = 100, the constant −2^70 and
the range [−2^70, 5], which does not fit machine integers. -/
theorem stored_min_le_max_witness :
    (Bitwidth_range.of_const 16 (-2 ^ 70)).min ≤ (Bitwidth_range.of_const 16 (-2 ^ 70)).max ∧
    (∃ r, Bitwidth_range.set_ubits 32767 100 = some r ∧ r.min ≤ r.max) ∧
    (∃ r, Bitwidth_range.set_sbits 16 32767 100 = some r ∧ r.min ≤ r.max) ∧
    (∃ r, Bitwidth_range.set_range 16 (-2 ^ 70) 5 = some r ∧ r.min ≤ r.max) ∧
    (∃ r, Bitwidth_range.of_range 16 (-2 ^ 70) 5 = some r ∧ r.min ≤ r.max) :=
  stored_min_le_max 16 32767 100 (-2 ^ 70) (-2 ^ 70) 5 (by decide) (by decide) (by decide)

/-- With a 32-bit `Bits_t` the negation in `set_sbits` is unsigned: the stored min of
`set_sbits(100)` is 2^32 − 99, above the stored max 99. -/
theorem set_sbits_32_bit_Bits_t :
    Bitwidth_range.set_sbits 32 131071 100
      = some { max := 99, min := 4294967197, overflow := true } := by
  decide


/-! ## Lemmas on the semantic validator -/

namespace Semantic_pass

theorem temp_inv_mono {α : Type} (n : String) (s : Semantic_pass) (b b2 : Nat) (r : Outcome α)
    (h : Temp_inv n s b r) (hb : b ≤ b2) : Temp_inv n s b2 r := by
  cases r with
  | ok s1 v => exact ⟨h.1, le_trans h.2 (by omega)⟩
  | error s1 e =>
    intro he
    obtain ⟨h1, h2⟩ := h he
    exact ⟨h1, by omega⟩

theorem temp_inv_msg {α : Type} (n : String) (s s1 : Semantic_pass) (b : Nat) (text : String) :
    Temp_inv (α := α) n s b (.error s1 (.msg text)) := by
  intro he
  cases he

theorem temp_inv_invalid {α : Type} (n : String) (s s1 : Semantic_pass) (b : Nat) :
    Temp_inv (α := α) n s b (.error s1 .invalid_nid) := by
  intro he
  cases he

theorem temp_inv_ok {α : Type} (n : String) (s s1 : Semantic_pass) (b : Nat) (v : α)
    (h : s1.temp_list = s.temp_list) : Temp_inv n s b (.ok s1 v) := by
  have e : temp_mark n s1 = temp_mark n s := by
    unfold temp_mark
    rw [h]
  show temp_mark n s ≤ temp_mark n s1 ∧ temp_mark n s1 ≤ temp_mark n s + b
  rw [e]
  exact ⟨le_rfl, by omega⟩

/-- Sequencing: a first step from `s` with budget `b1` that reaches `s1`, followed by a
second step from `s1` with budget `b2`. -/
theorem temp_inv_step {α : Type} (n : String) (s s1 : Semantic_pass) (b1 b2 : Nat)
    (r : Outcome α)
    (h1 : temp_mark n s ≤ temp_mark n s1 ∧ temp_mark n s1 ≤ temp_mark n s + b1)
    (h2 : Temp_inv n s1 b2 r) : Temp_inv n s (b1 + b2) r := by
  cases r with
  | ok s2 v =>
    obtain ⟨a1, a2⟩ := h2
    exact ⟨by omega, by omega⟩
  | error s2 e =>
    intro he
    obtain ⟨a1, a2⟩ := h2 he
    exact ⟨a1, by omega⟩

theorem check_for_not_read_temp (s : Semantic_pass) (m : String) :
    (check_for_not_read s m).temp_list = s.temp_list := by
  unfold check_for_not_read
  split_ifs <;> rfl

theorem note_written_temp (s : Semantic_pass) (m : String) :
    (note_written s m).temp_list = s.temp_list := by
  unfold note_written
  split_ifs
  · exact check_for_not_read_temp s m
  · rfl

theorem note_read_temp (s : Semantic_pass) (m : String) :
    (note_read s m).temp_list = s.temp_list := by
  unfold note_read
  split_ifs
  · exact check_for_not_read_temp s m
  · rfl

theorem temp_mark_congr (n : String) (s s1 : Semantic_pass) (h : s1.temp_list = s.temp_list) :
    temp_mark n s1 = temp_mark n s := by
  unfold temp_mark
  rw [h]

theorem check_for_temp_var_inv (n : String) (s : Semantic_pass) (m : String) :
    Temp_inv n s (if m = n then 1 else 0) (check_for_temp_var s m) := by
  unfold check_for_temp_var
  by_cases ht : is_temp_var m = true
  · rw [if_pos ht]
    by_cases hin : m ∈ s.temp_list
    · have : (!in_temp_list s m) = false := by simp [in_temp_list, hin]
      rw [this]
      simp only [Bool.false_eq_true, if_false]
      intro he
      have hmn : m = n := by injection he
      subst hmn
      refine ⟨ht, ?_⟩
      simp [temp_mark, hin]
    · have : (!in_temp_list s m) = true := by simp [in_temp_list, hin]
      rw [this]
      simp only [if_true]
      show temp_mark n s ≤ temp_mark n { s with temp_list := s.temp_list ++ [m] } ∧
        temp_mark n { s with temp_list := s.temp_list ++ [m] }
          ≤ temp_mark n s + (if m = n then 1 else 0)
      unfold temp_mark
      simp only [List.mem_append, List.mem_singleton]
      by_cases hn : n ∈ s.temp_list
      · simp [hn]
      · by_cases hmn : m = n
        · simp [hn, hmn]
        · have : ¬ n = m := fun h => hmn h.symm
          simp [hn, hmn, this]
  · rw [if_neg ht]
    exact temp_inv_ok n s s _ () rfl

end Semantic_pass

namespace Semantic_pass

theorem temp_inv_ok_of {α β : Type} (n : String) (s s1 s2 : Semantic_pass) (b : Nat) (v : α)
    (v2 : β) (h : Temp_inv n s b (.ok s1 v)) (e : s2.temp_list = s1.temp_list) :
    Temp_inv n s b (.ok s2 v2) := by
  have e2 := temp_mark_congr n s1 s2 e
  show temp_mark n s ≤ temp_mark n s2 ∧ temp_mark n s2 ≤ temp_mark n s + b
  rw [e2]
  exact h

theorem temp_inv_error_of {α β : Type} (n : String) (s s1 : Semantic_pass) (b : Nat)
    (e : Pass_error) (h : Temp_inv (α := α) n s b (.error s1 e)) :
    Temp_inv (α := β) n s b (.error s1 e) := h

theorem names_it_eq (n : String) (c : Lnast_node) :
    (if c.name = n then 1 else 0) = names_it n c := rfl

theorem check_unary_inv (n : String) (s : Semantic_pass) (children : List Lnast_node) :
    Temp_inv n s (first_child_write n children) (check_unary s children) := by
  match children with
  | [] => exact temp_inv_invalid n s s _
  | [_] => exact temp_inv_invalid n s s _
  | lhs :: rhs :: more =>
    rw [check_unary]
    by_cases h1 : lhs.type ≠ .ref
    · rw [if_pos h1]; exact temp_inv_msg n s s _ _
    · rw [if_neg h1]
      by_cases h2 : (decide (rhs.type ≠ .ref) && decide (rhs.type ≠ .const)) = true
      · rw [if_pos h2]; exact temp_inv_msg n s s _ _
      · rw [if_neg h2]
        have hinv := check_for_temp_var_inv n s lhs.name
        rw [names_it_eq] at hinv
        cases hc : check_for_temp_var s lhs.name with
        | error s1 e =>
          rw [hc] at hinv
          exact hinv
        | ok s1 v =>
          rw [hc] at hinv
          refine temp_inv_ok_of n s s1 _ _ v () hinv ?_
          rw [note_read_temp, note_written_temp]

theorem check_nary_rest_inv (n : String) (cs : List Lnast_node) :
    ∀ s : Semantic_pass, Temp_inv n s 0 (check_nary_children s cs false) := by
  induction cs with
  | nil => intro s; exact temp_inv_ok n s s _ () rfl
  | cons c cs ih =>
    intro s
    unfold check_nary_children
    simp only [Bool.false_eq_true, if_false]
    by_cases h2 : (decide (c.type ≠ .ref) && decide (c.type ≠ .const)) = true
    · rw [if_pos h2]; exact temp_inv_msg n s s _ _
    · rw [if_neg h2]
      have := ih (note_read s c.name)
      have hm := temp_mark_congr n s _ (note_read_temp s c.name)
      have := temp_inv_step n s (note_read s c.name) 0 0 _ ⟨by omega, by omega⟩ this
      simpa using this

theorem check_nary_children_inv (n : String) (s : Semantic_pass) (cs : List Lnast_node) :
    Temp_inv n s (first_child_write n cs) (check_nary_children s cs true) := by
  match cs with
  | [] => exact temp_inv_ok n s s _ () rfl
  | c :: cs =>
    unfold check_nary_children
    simp only [if_true]
    by_cases h1 : c.type ≠ .ref
    · rw [if_pos h1]; exact temp_inv_msg n s s _ _
    · rw [if_neg h1]
      have hinv := check_for_temp_var_inv n s c.name
      rw [names_it_eq] at hinv
      cases hc : check_for_temp_var s c.name with
      | error s1 e =>
        rw [hc] at hinv
        exact hinv
      | ok s1 v =>
        rw [hc] at hinv
        have hrest := check_nary_rest_inv n cs (note_written s1 c.name)
        have hm := temp_mark_congr n s1 _ (note_written_temp s1 c.name)
        have h3 := temp_inv_step n s (note_written s1 c.name) (names_it n c) 0 _
          (by rw [hm]; exact hinv) hrest
        simpa [first_child_write] using h3

theorem tuple_verdict_inv (n : String) (s : Semantic_pass) (r a : Nat) :
    Temp_inv n s 0 (tuple_verdict s r a) := by
  unfold tuple_verdict
  split_ifs
  · exact temp_inv_msg n s s _ _
  · exact temp_inv_msg n s s _ _
  · exact temp_inv_ok n s s _ () rfl

theorem tuple_ref_writes_cons (n : String) (c : Lnast_node) (cs : List Lnast_node) :
    tuple_ref_writes n (c :: cs)
      = (if c.type = .ref ∧ c.name = n then 1 else 0) + tuple_ref_writes n cs := by
  unfold tuple_ref_writes
  by_cases h : c.type = .ref ∧ c.name = n
  · simp [List.filter_cons, h]; omega
  · simp only [List.filter_cons, h, decide_False, if_false]
    simp

theorem own_writes_unary (n : String) (t : Lnast_ntype) (cs : List Lnast_node)
    (h : unary_branch t = true) : own_writes n t cs = first_child_write n cs := by
  unfold own_writes
  simp [h]

theorem own_writes_nary (n : String) (t : Lnast_ntype) (cs : List Lnast_node)
    (h : nary_branch t = true) : own_writes n t cs = first_child_write n cs := by
  unfold own_writes
  simp [h]

theorem own_writes_tuple (n : String) (cs : List Lnast_node) :
    own_writes n .tuple cs = tuple_ref_writes n cs := by
  unfold own_writes
  have h1 : unary_branch .tuple = false := by decide
  have h2 : nary_branch .tuple = false := by decide
  simp [h1, h2]

theorem write_count_mk (n : String) (t : Lnast_ntype) (nm : String) (cs : List Lnast_node) :
    write_count n (.mk t nm cs) = own_writes n t cs + write_count_list n cs := by
  rw [write_count]

theorem write_count_list_cons (n : String) (c : Lnast_node) (cs : List Lnast_node) :
    write_count_list n (c :: cs) = write_count n c + write_count_list n cs := by
  rw [write_count_list]

theorem write_count_children_le (n : String) (c : Lnast_node) :
    write_count_list n c.children ≤ write_count n c := by
  cases c with
  | mk t nm cs =>
    rw [write_count_mk]
    show write_count_list n cs ≤ _
    omega

mutual
theorem check_primitive_ops_inv (n : String) :
    ∀ (x : Lnast_node) (s : Semantic_pass),
      Temp_inv n s (write_count n x) (check_primitive_ops s x x.type)
  | .mk t nm cs, s => by
    rw [write_count_mk]
    show Temp_inv n s _ (check_primitive_ops s (.mk t nm cs) t)
    rw [check_primitive_ops]
    by_cases hs : (!has_single_child cs) = true
    · rw [if_pos hs]
      by_cases hu : unary_branch t = true
      · rw [if_pos hu, own_writes_unary n t cs hu]
        exact temp_inv_mono n s _ _ _ (check_unary_inv n s cs) (by omega)
      · rw [if_neg hu]
        by_cases hn : nary_branch t = true
        · rw [if_pos hn, own_writes_nary n t cs hn]
          exact temp_inv_mono n s _ _ _ (check_nary_children_inv n s cs) (by omega)
        · rw [if_neg hn]
          by_cases ht : t = .tuple
          · subst ht
            rw [if_pos rfl, own_writes_tuple]
            have hl := check_tuple_children_inv n cs s 0 0
            cases hc : check_tuple_children s cs 0 0 with
            | error s1 e =>
              rw [hc] at hl
              exact hl
            | ok s1 v =>
              rw [hc] at hl
              obtain ⟨r, a⟩ := v
              have hv := tuple_verdict_inv n s1 r a
              have := temp_inv_step n s s1 _ 0 _ hl hv
              simpa using this
          · rw [if_neg ht]
            exact temp_inv_msg n s s _ _
    · rw [if_neg hs]
      exact temp_inv_msg n s s _ _
theorem check_tuple_children_inv (n : String) :
    ∀ (cs : List Lnast_node) (s : Semantic_pass) (r a : Nat),
      Temp_inv n s (tuple_ref_writes n cs + write_count_list n cs)
        (check_tuple_children s cs r a)
  | [], s, r, a => by
    rw [check_tuple_children]
    exact temp_inv_ok n s s _ _ rfl
  | c :: cs, s, r, a => by
    rw [check_tuple_children, tuple_ref_writes_cons, write_count_list_cons]
    by_cases h1 : c.type = .ref
    · rw [if_pos h1]
      have hinv := check_for_temp_var_inv n s c.name
      cases hc : check_for_temp_var s c.name with
      | error s1 e =>
        rw [hc] at hinv
        simp only [h1, true_and]
        exact temp_inv_mono n s _ _ _ hinv (by omega)
      | ok s1 v =>
        rw [hc] at hinv
        have hrest := check_tuple_children_inv n cs (note_written s1 c.name) (r + 1) a
        have hm := temp_mark_congr n s1 _ (note_written_temp s1 c.name)
        have h3 := temp_inv_step n s (note_written s1 c.name) _ _ _
          (by rw [hm]; exact hinv) hrest
        simp only [h1, true_and]
        exact temp_inv_mono n s _ _ _ h3 (by omega)
    · rw [if_neg h1]
      by_cases h2 : c.type = .assign
      · rw [if_pos h2]
        have hinv := check_primitive_ops_inv n c s
        cases hc : check_primitive_ops s c c.type with
        | error s1 e =>
          rw [hc] at hinv
          exact temp_inv_mono n s _ _ _ hinv (by omega)
        | ok s1 v =>
          rw [hc] at hinv
          have hrest := check_tuple_children_inv n cs s1 r (a + 1)
          have h3 := temp_inv_step n s s1 _ _ _ hinv hrest
          exact temp_inv_mono n s _ _ _ h3 (by omega)
      · rw [if_neg h2]
        have hrest := check_tuple_children_inv n cs s r a
        exact temp_inv_mono n s _ _ _ hrest (by omega)
end

end Semantic_pass

namespace Semantic_pass

theorem check_if_cond_inv (n : String) (s : Semantic_pass) (cs : List Lnast_node) :
    Temp_inv n s 0 (check_if_cond s cs) := by
  unfold check_if_cond
  split_ifs
  · match cs with
    | [] => exact temp_inv_invalid n s s _
    | cc :: rest =>
      show Temp_inv n s 0 (if cc.type ≠ .ref then _ else _)
      split_ifs
      · exact temp_inv_msg n s s _ _
      · exact temp_inv_ok n s _ _ () (note_read_temp s cc.name)
  · exact temp_inv_msg n s s _ _

theorem if_verdict_inv (n : String) (s : Semantic_pass) (a b c : Bool) :
    Temp_inv n s 0 (if_verdict s a b c) := by
  unfold if_verdict
  split_ifs
  · exact temp_inv_msg n s s _ _
  · exact temp_inv_msg n s s _ _
  · exact temp_inv_msg n s s _ _
  · exact temp_inv_ok n s s _ () rfl

mutual
theorem check_if_op_inv (n : String) :
    ∀ (x : Lnast_node) (s : Semantic_pass), Temp_inv n s (write_count n x) (check_if_op s x)
  | .mk t nm cs, s => by
    rw [write_count_mk, check_if_op]
    have hl := check_if_children_inv n cs s false false false
    cases hc : check_if_children s cs false false false with
    | error s1 e =>
      rw [hc] at hl
      exact temp_inv_mono n s _ _ _ hl (by omega)
    | ok s1 v =>
      rw [hc] at hl
      obtain ⟨a, b, c⟩ := v
      have hv := if_verdict_inv n s1 a b c
      have := temp_inv_step n s s1 _ 0 _ hl hv
      exact temp_inv_mono n s _ _ _ this (by omega)
theorem check_if_children_inv (n : String) :
    ∀ (cs : List Lnast_node) (s : Semantic_pass) (a b c : Bool),
      Temp_inv n s (write_count_list n cs) (check_if_children s cs a b c)
  | [], s, a, b, c => by
    rw [check_if_children]
    exact temp_inv_ok n s s _ _ rfl
  | .mk ct cn gcs :: cs, s, a, b, c => by
    rw [check_if_children, write_count_list_cons, write_count_mk]
    by_cases h1 : (decide (ct = .cstmts) || decide (ct = .stmts)) = true
    · rw [if_pos h1]
      have hinv := check_stmts_children_inv n gcs s
      cases hc : check_stmts_children s gcs with
      | error s1 e =>
        rw [hc] at hinv
        exact temp_inv_mono n s _ _ _ hinv (by omega)
      | ok s1 v =>
        rw [hc] at hinv
        by_cases h2 : ct = .cstmts
        · simp only [h2, if_true]
          have hrest := check_if_children_inv n cs s1 true b c
          have h3 := temp_inv_step n s s1 _ _ _ hinv hrest
          exact temp_inv_mono n s _ _ _ h3 (by omega)
        · simp only [h2, if_false]
          have hrest := check_if_children_inv n cs s1 a b true
          have h3 := temp_inv_step n s s1 _ _ _ hinv hrest
          exact temp_inv_mono n s _ _ _ h3 (by omega)
    · rw [if_neg h1]
      by_cases h2 : ct = .cond
      · rw [if_pos h2]
        have hinv := check_if_cond_inv n s gcs
        cases hc : check_if_cond s gcs with
        | error s1 e =>
          rw [hc] at hinv
          exact temp_inv_mono n s _ _ _ hinv (by omega)
        | ok s1 v =>
          rw [hc] at hinv
          have hrest := check_if_children_inv n cs s1 a true c
          have h3 := temp_inv_step n s s1 _ _ _ hinv hrest
          exact temp_inv_mono n s _ _ _ h3 (by omega)
      · rw [if_neg h2]
        exact temp_inv_msg n s s _ _
theorem check_stmts_children_inv (n : String) :
    ∀ (cs : List Lnast_node) (s : Semantic_pass),
      Temp_inv n s (write_count_list n cs) (check_stmts_children s cs)
  | [], s => by
    rw [check_stmts_children]
    exact temp_inv_ok n s s _ _ rfl
  | c :: cs, s => by
    rw [check_stmts_children, write_count_list_cons]
    by_cases h1 : is_primitive_op c.type = true
    · rw [if_pos h1]
      have hinv := check_primitive_ops_inv n c s
      cases hc : check_primitive_ops s c c.type with
      | error s1 e =>
        rw [hc] at hinv
        exact temp_inv_mono n s _ _ _ hinv (by omega)
      | ok s1 v =>
        rw [hc] at hinv
        have hrest := check_stmts_children_inv n cs s1
        exact temp_inv_step n s s1 _ _ _ hinv hrest
    · rw [if_neg h1]
      by_cases h2 : is_tree_structs c.type = true
      · rw [if_pos h2]
        have hinv := check_if_op_inv n c s
        cases hc : check_if_op s c with
        | error s1 e =>
          rw [hc] at hinv
          exact temp_inv_mono n s _ _ _ hinv (by omega)
        | ok s1 v =>
          rw [hc] at hinv
          have hrest := check_stmts_children_inv n cs s1
          exact temp_inv_step n s s1 _ _ _ hinv hrest
      · rw [if_neg h2]
        have hrest := check_stmts_children_inv n cs s
        exact temp_inv_mono n s _ _ _ hrest (by omega)
end

theorem stmts_of_child_inv (n : String) (c : Lnast_node) (s : Semantic_pass) :
    Temp_inv n s (write_count n c) (check_stmts_children s c.children) :=
  temp_inv_mono n s _ _ _ (check_stmts_children_inv n c.children s)
    (write_count_children_le n c)

theorem check_for_children_inv (n : String) (cs : List Lnast_node) :
    ∀ (s : Semantic_pass) (st : Bool) (k : Nat),
      Temp_inv n s (write_count_list n cs) (check_for_children s cs st k) := by
  induction cs with
  | nil => intro s st k; exact temp_inv_ok n s s _ _ rfl
  | cons c cs ih =>
    intro s st k
    rw [check_for_children, write_count_list_cons]
    by_cases h1 : c.type = .stmts
    · rw [if_pos h1]
      have hinv := stmts_of_child_inv n c s
      cases hc : check_stmts_children s c.children with
      | error s1 e =>
        rw [hc] at hinv
        exact temp_inv_mono n s _ _ _ hinv (by omega)
      | ok s1 v =>
        rw [hc] at hinv
        exact temp_inv_step n s s1 _ _ _ hinv (ih s1 true k)
    · rw [if_neg h1]
      by_cases h2 : c.type = .ref
      · rw [if_pos h2]
        have hm := temp_mark_congr n s _ (note_read_temp s c.name)
        have := temp_inv_step n s (note_read s c.name) 0 _ _ ⟨by omega, by omega⟩
          (ih (note_read s c.name) st (k + 1))
        exact temp_inv_mono n s _ _ _ this (by omega)
      · rw [if_neg h2]
        exact temp_inv_msg n s s _ _

theorem check_for_op_inv (n : String) (x : Lnast_node) (s : Semantic_pass) :
    Temp_inv n s (write_count n x) (check_for_op s x) := by
  unfold check_for_op
  have hl := temp_inv_mono n s _ _ _ (check_for_children_inv n x.children s false 0)
    (write_count_children_le n x)
  cases hc : check_for_children s x.children false 0 with
  | error s1 e =>
    rw [hc] at hl
    exact hl
  | ok s1 v =>
    rw [hc] at hl
    obtain ⟨st, k⟩ := v
    show Temp_inv n s _ (if k < 2 then _ else if (!st) = true then _ else _)
    split_ifs
    · exact temp_inv_msg n s s1 _ _
    · exact temp_inv_msg n s s1 _ _
    · exact temp_inv_ok_of n s s1 s1 _ _ () hl rfl

theorem check_while_cond_inv (n : String) (s : Semantic_pass) (cs : List Lnast_node) :
    Temp_inv n s 0 (check_while_cond s cs) := by
  unfold check_while_cond
  split_ifs
  · match cs with
    | [] => exact temp_inv_invalid n s s _
    | cc :: rest =>
      show Temp_inv n s 0 (if cc.type ≠ .ref then _ else _)
      split_ifs
      · exact temp_inv_msg n s s _ _
      · exact temp_inv_ok n s _ _ () rfl
  · exact temp_inv_msg n s s _ _

theorem check_while_children_inv (n : String) (cs : List Lnast_node) :
    ∀ (s : Semantic_pass) (a b : Bool),
      Temp_inv n s (write_count_list n cs) (check_while_children s cs a b) := by
  induction cs with
  | nil => intro s a b; exact temp_inv_ok n s s _ _ rfl
  | cons c cs ih =>
    intro s a b
    rw [check_while_children, write_count_list_cons]
    by_cases h1 : c.type = .cond
    · rw [if_pos h1]
      have hinv := check_while_cond_inv n s c.children
      cases hc : check_while_cond s c.children with
      | error s1 e =>
        rw [hc] at hinv
        exact temp_inv_mono n s _ _ _ hinv (by omega)
      | ok s1 v =>
        rw [hc] at hinv
        have := temp_inv_step n s s1 _ _ _ hinv (ih s1 true b)
        exact temp_inv_mono n s _ _ _ this (by omega)
    · rw [if_neg h1]
      by_cases h2 : c.type = .stmts
      · rw [if_pos h2]
        have hinv := stmts_of_child_inv n c s
        cases hc : check_stmts_children s c.children with
        | error s1 e =>
          rw [hc] at hinv
          exact temp_inv_mono n s _ _ _ hinv (by omega)
        | ok s1 v =>
          rw [hc] at hinv
          exact temp_inv_step n s s1 _ _ _ hinv (ih s1 a true)
      · rw [if_neg h2]
        exact temp_inv_msg n s s _ _

theorem check_while_op_inv (n : String) (x : Lnast_node) (s : Semantic_pass) :
    Temp_inv n s (write_count n x) (check_while_op s x) := by
  unfold check_while_op
  have hl := temp_inv_mono n s _ _ _ (check_while_children_inv n x.children s false false)
    (write_count_children_le n x)
  cases hc : check_while_children s x.children false false with
  | error s1 e =>
    rw [hc] at hl
    exact hl
  | ok s1 v =>
    rw [hc] at hl
    obtain ⟨a, b⟩ := v
    show Temp_inv n s _ (if (!a) = true then _ else if (!b) = true then _ else _)
    split_ifs
    · exact temp_inv_msg n s s1 _ _
    · exact temp_inv_msg n s s1 _ _
    · exact temp_inv_ok_of n s s1 s1 _ _ () hl rfl

theorem check_func_def_cond_inv (n : String) (s : Semantic_pass) (cs : List Lnast_node) :
    Temp_inv n s 0 (check_func_def_cond s cs) := by
  unfold check_func_def_cond
  split_ifs
  · match cs with
    | [] => exact temp_inv_invalid n s s _
    | cc :: rest =>
      show Temp_inv n s 0 (if (decide (cc.type ≠ .const) && decide (cc.type ≠ .ref)) = true
        then _ else _)
      split_ifs
      · exact temp_inv_msg n s s _ _
      · exact temp_inv_ok n s _ _ () rfl
  · exact temp_inv_msg n s s _ _

theorem check_func_def_children_inv (n : String) (cs : List Lnast_node) :
    ∀ (s : Semantic_pass) (f : Bool) (k : Nat) (a b : Bool),
      Temp_inv n s (write_count_list n cs) (check_func_def_children s cs f k a b) := by
  induction cs with
  | nil => intro s f k a b; exact temp_inv_ok n s s _ _ rfl
  | cons c cs ih =>
    intro s f k a b
    rw [check_func_def_children, write_count_list_cons]
    have hs : (if f = true then note_written s c.name else s).temp_list = s.temp_list := by
      split_ifs
      · exact note_written_temp s c.name
      · rfl
    have hm := temp_mark_congr n s _ hs
    generalize (if f = true then note_written s c.name else s) = s0 at hm ⊢
    generalize (if f = true then k + 1 else k) = k0
    have lift : ∀ (b0 : Nat) (r : Outcome (Nat × Bool × Bool)), Temp_inv n s0 b0 r →
        Temp_inv n s b0 r := by
      intro b0 r h
      have := temp_inv_step n s s0 0 b0 r ⟨by omega, by omega⟩ h
      simpa using this
    by_cases h1 : (decide (c.type = .cstmts) || decide (c.type = .stmts)) = true
    · rw [if_pos h1]
      have hinv := stmts_of_child_inv n c s0
      cases hc : check_stmts_children s0 c.children with
      | error s1 e =>
        rw [hc] at hinv
        exact lift _ _ (temp_inv_mono n s0 _ _ _ hinv (by omega))
      | ok s1 v =>
        rw [hc] at hinv
        exact lift _ _ (temp_inv_step n s0 s1 _ _ _ hinv (ih s1 false k0 a _))
    · rw [if_neg h1]
      by_cases h2 : c.type = .cond
      · rw [if_pos h2]
        have hinv := check_func_def_cond_inv n s0 c.children
        cases hc : check_func_def_cond s0 c.children with
        | error s1 e =>
          rw [hc] at hinv
          exact lift _ _ (temp_inv_mono n s0 _ _ _ hinv (by omega))
        | ok s1 v =>
          rw [hc] at hinv
          have := temp_inv_step n s0 s1 _ _ _ hinv (ih s1 false k0 true b)
          exact lift _ _ (temp_inv_mono n s0 _ _ _ this (by omega))
      · rw [if_neg h2]
        by_cases h3 : c.type = .ref
        · rw [if_pos h3]
          exact lift _ _ (temp_inv_mono n s0 _ _ _ (ih s0 false (k0 + 1) a b) (by omega))
        · rw [if_neg h3]
          exact temp_inv_msg n s s0 _ _

theorem check_func_def_inv (n : String) (x : Lnast_node) (s : Semantic_pass) :
    Temp_inv n s (write_count n x) (check_func_def s x) := by
  unfold check_func_def
  have hl := temp_inv_mono n s _ _ _
    (check_func_def_children_inv n x.children s true 0 false false)
    (write_count_children_le n x)
  cases hc : check_func_def_children s x.children true 0 false false with
  | error s1 e =>
    rw [hc] at hl
    exact hl
  | ok s1 v =>
    rw [hc] at hl
    obtain ⟨k, a, b⟩ := v
    show Temp_inv n s _ (if k < 1 then _ else if (!a) = true then _
      else if (!b) = true then _ else _)
    split_ifs
    · exact temp_inv_msg n s s1 _ _
    · exact temp_inv_msg n s s1 _ _
    · exact temp_inv_msg n s s1 _ _
    · exact temp_inv_ok_of n s s1 s1 _ _ () hl rfl

theorem check_func_call_children_inv (n : String) (cs : List Lnast_node) :
    ∀ (s : Semantic_pass) (k : Nat),
      Temp_inv n s 0 (check_func_call_children s cs k) := by
  induction cs with
  | nil => intro s k; exact temp_inv_ok n s s _ _ rfl
  | cons c cs ih =>
    intro s k
    rw [check_func_call_children]
    by_cases h2 : c.type = .ref
    · rw [if_pos h2]
      have hm := temp_mark_congr n s _ (note_read_temp s c.name)
      have := temp_inv_step n s (note_read s c.name) 0 _ _ ⟨by omega, by omega⟩
        (ih (note_read s c.name) (k + 1))
      exact temp_inv_mono n s _ _ _ this (by omega)
    · rw [if_neg h2]
      exact temp_inv_msg n s s _ _

theorem check_func_call_inv (n : String) (x : Lnast_node) (s : Semantic_pass) :
    Temp_inv n s (write_count n x) (check_func_call s x) := by
  unfold check_func_call
  have hl := temp_inv_mono n s _ (write_count n x) _
    (check_func_call_children_inv n x.children s 0) (by omega)
  cases hc : check_func_call_children s x.children 0 with
  | error s1 e =>
    rw [hc] at hl
    exact hl
  | ok s1 k =>
    rw [hc] at hl
    show Temp_inv n s _ (if k ≠ 3 then _ else _)
    split_ifs
    · exact temp_inv_msg n s s1 _ _
    · exact temp_inv_ok_of n s s1 s1 _ _ () hl rfl

theorem check_top_stmt_inv (n : String) (x : Lnast_node) (s : Semantic_pass) :
    Temp_inv n s (write_count n x) (check_top_stmt s x) := by
  unfold check_top_stmt
  split_ifs
  · exact check_primitive_ops_inv n x s
  · exact check_if_op_inv n x s
  · exact check_for_op_inv n x s
  · exact check_while_op_inv n x s
  · exact check_func_call_inv n x s
  · exact check_func_def_inv n x s
  · exact temp_inv_ok n s s _ () rfl

theorem check_top_stmts_nil (s : Semantic_pass) : check_top_stmts s [] = .ok s () := rfl

theorem check_top_stmts_cons (s : Semantic_pass) (c : Lnast_node) (cs : List Lnast_node) :
    check_top_stmts s (c :: cs) = match check_top_stmt s c with
      | .error s1 e => .error s1 e
      | .ok s1 _ => check_top_stmts s1 cs := rfl

theorem check_top_stmts_inv (n : String) (cs : List Lnast_node) :
    ∀ s : Semantic_pass, Temp_inv n s (write_count_list n cs) (check_top_stmts s cs) := by
  induction cs with
  | nil =>
    intro s
    rw [check_top_stmts_nil]
    exact temp_inv_ok n s s _ _ rfl
  | cons c cs ih =>
    intro s
    rw [check_top_stmts_cons, write_count_list_cons]
    have hinv := check_top_stmt_inv n c s
    cases hc : check_top_stmt s c with
    | error s1 e =>
      rw [hc] at hinv
      exact temp_inv_mono n s _ _ _ hinv (by omega)
    | ok s1 v =>
      rw [hc] at hinv
      exact temp_inv_step n s s1 _ _ _ hinv (ih s1)

theorem semantic_check_inv (n : String) (top : Lnast_node) (s : Semantic_pass) :
    Temp_inv n s (write_count n top) (semantic_check s top) := by
  cases top with
  | mk t nm cs =>
    match cs with
    | [] => exact temp_inv_invalid n s s _
    | st :: rest =>
      show Temp_inv n s _ (match check_top_stmts s st.children with
        | .error s1 e => .error s1 e
        | .ok s1 _ => .ok s1 (never_read_warning s1))
      have hb : write_count_list n st.children ≤ write_count n (.mk t nm (st :: rest)) := by
        rw [write_count_mk, write_count_list_cons]
        have := write_count_children_le n st
        omega
      have hinv := temp_inv_mono n s _ _ _ (check_top_stmts_inv n st.children s) hb
      cases hc : check_top_stmts s st.children with
      | error s1 e =>
        rw [hc] at hinv
        exact hinv
      | ok s1 v =>
        rw [hc] at hinv
        exact temp_inv_ok_of n s s1 s1 _ _ _ hinv rfl

end Semantic_pass

namespace Semantic_pass

theorem check_top_stmts_append (xs ys : List Lnast_node) :
    ∀ s : Semantic_pass, check_top_stmts s (xs ++ ys) =
      match check_top_stmts s xs with
      | .error s1 e => .error s1 e
      | .ok s1 _ => check_top_stmts s1 ys := by
  induction xs with
  | nil => intro s; rfl
  | cons x xs ih =>
    intro s
    rw [List.cons_append, check_top_stmts_cons, check_top_stmts_cons]
    cases check_top_stmt s x with
    | error s1 e => rfl
    | ok s1 v => exact ih s1

theorem check_top_stmt_assign (s : Semantic_pass) (t : Lnast_ntype) (nm : String)
    (lhs rhs : Lnast_node) (more : List Lnast_node) (ht : t = .assign ∨ t = .dp_assign)
    (hl : lhs.type = .ref) (hr : rhs.type = .ref ∨ rhs.type = .const) :
    check_top_stmt s (.mk t nm (lhs :: rhs :: more)) =
      match check_for_temp_var s lhs.name with
      | .error s1 e => .error s1 e
      | .ok s1 _ => .ok (note_read (note_written s1 lhs.name) rhs.name) () := by
  have hp : is_primitive_op t = true := by rcases ht with h | h <;> subst h <;> decide
  have hu : unary_branch t = true := by rcases ht with h | h <;> subst h <;> decide
  have hs : (!has_single_child (lhs :: rhs :: more)) = true := by
    simp [has_single_child]
  have h1 : ¬ (lhs.type ≠ .ref) := by simp [hl]
  have h2 : ¬ ((decide (rhs.type ≠ .ref) && decide (rhs.type ≠ .const)) = true) := by
    rcases hr with h | h <;> simp [h]
  unfold check_top_stmt
  show (if is_primitive_op t = true then check_primitive_ops s (.mk t nm (lhs :: rhs :: more)) t
    else _) = _
  rw [if_pos hp, check_primitive_ops, if_pos hs, if_pos hu, check_unary, if_neg h1, if_neg h2]

theorem check_for_temp_var_ok_mem (s s1 : Semantic_pass) (name : String) (v : Unit)
    (ht : is_temp_var name = true) (h : check_for_temp_var s name = .ok s1 v) :
    name ∈ s1.temp_list := by
  unfold check_for_temp_var at h
  rw [if_pos ht] at h
  by_cases hin : (!in_temp_list s name) = true
  · rw [if_pos hin] at h
    injection h with h1 h2
    rw [← h1]
    simp
  · rw [if_neg hin] at h
    cases h

theorem check_for_temp_var_mem (s : Semantic_pass) (name : String)
    (ht : is_temp_var name = true) (hin : name ∈ s.temp_list) :
    check_for_temp_var s name = .error s (.temp_var name) := by
  unfold check_for_temp_var
  have : (!in_temp_list s name) = false := by simp [in_temp_list, hin]
  rw [if_pos ht, this]
  rfl

theorem temp_mark_eq_one (n : String) (s : Semantic_pass) :
    temp_mark n s = 1 ↔ n ∈ s.temp_list := by
  unfold temp_mark
  split_ifs with h
  · simp [h]
  · simp [h]

end Semantic_pass

/-! ## Theorems on the semantic validator -/

/-- C9 (as stated, refuted): the top-level statements hold two assigns to `___t`, but the
`func_call` before them has only two `ref` children; its error ends the check, and the
Temporary Variable Error is not raised. -/
theorem double_write_after_error_counterexample :
    (Semantic_pass.semantic_check .fresh (lnast_of_stmts
      [.mk .func_call "" [ref_node "f", ref_node "g"],
       .mk .assign "" [ref_node "___t", ref_node "x"],
       .mk .assign "" [ref_node "___t", ref_node "y"]])).err
      = some (.msg "Func Call Operation Error: Missing Reference Node(s)\n") ∧
    (Semantic_pass.semantic_check .fresh (lnast_of_stmts
      [.mk .func_call "" [ref_node "f", ref_node "g"],
       .mk .assign "" [ref_node "___t", ref_node "x"],
       .mk .assign "" [ref_node "___t", ref_node "y"]])).err
      ≠ some (.temp_var "___t") := by
  decide

/-- C9 (amended): when the top-level stmts contains two assign (or dp_assign) nodes with
the same ___-prefixed ref as first child and a ref or const as second child, and the
check of the statements before the second of them raises no error, `semantic_check` on
a fresh `Semantic_pass` raises "Temporary Variable Error: <name> must be written to only
once" for that name. -/
theorem double_write_reported (name : String) (pre mid post others : List Lnast_node)
    (t1 t2 tt st : Lnast_ntype) (n1 n2 tn sn : String) (lhs1 rhs1 lhs2 rhs2 : Lnast_node)
    (more1 more2 : List Lnast_node)
    (htemp : Semantic_pass.is_temp_var name = true)
    (ht1 : t1 = .assign ∨ t1 = .dp_assign) (ht2 : t2 = .assign ∨ t2 = .dp_assign)
    (hl1 : lhs1.type = .ref ∧ lhs1.name = name) (hl2 : lhs2.type = .ref ∧ lhs2.name = name)
    (hr1 : rhs1.type = .ref ∨ rhs1.type = .const) (hr2 : rhs2.type = .ref ∨ rhs2.type = .const)
    (hpre : (Semantic_pass.check_top_stmts .fresh
      (pre ++ .mk t1 n1 (lhs1 :: rhs1 :: more1) :: mid)).err = none) :
    (Semantic_pass.semantic_check .fresh (.mk tt tn (.mk st sn
      (pre ++ .mk t1 n1 (lhs1 :: rhs1 :: more1) :: mid ++ .mk t2 n2 (lhs2 :: rhs2 :: more2) :: post)
        :: others))).err = some (.temp_var name) ∧
    (Pass_error.temp_var name).message
      = "Temporary Variable Error: " ++ name ++ " must be written to only once\n" := by
  refine ⟨?_, rfl⟩
  open Semantic_pass in
  have key : ∀ s2, check_top_stmts .fresh (pre ++ .mk t1 n1 (lhs1 :: rhs1 :: more1) :: mid)
      = .ok s2 () → name ∈ s2.temp_list := by
    intro s2 h
    rw [check_top_stmts_append] at h
    cases hp : check_top_stmts .fresh pre with
    | error s0 e0 => rw [hp] at h; cases h
    | ok s0 v0 =>
      rw [hp] at h
      simp only [] at h
      rw [check_top_stmts_cons,
        check_top_stmt_assign s0 t1 n1 lhs1 rhs1 more1 ht1 hl1.1 hr1, hl1.2] at h
      cases hc : check_for_temp_var s0 name with
      | error s1 e1 => rw [hc] at h; cases h
      | ok s1 v1 =>
        rw [hc] at h
        simp only [] at h
        have hmem := check_for_temp_var_ok_mem s0 s1 name v1 htemp hc
        have hm1 : temp_mark name (note_read (note_written s1 name) rhs1.name) = 1 := by
          rw [temp_mark_congr name s1 _ (by rw [note_read_temp, note_written_temp])]
          exact (temp_mark_eq_one name s1).mpr hmem
        have hinv := check_top_stmts_inv name mid (note_read (note_written s1 name) rhs1.name)
        rw [h] at hinv
        have h2 : temp_mark name s2 = 1 := by
          have := hinv.1
          have hle : temp_mark name s2 ≤ 1 := by
            unfold temp_mark; split_ifs <;> omega
          omega
        exact (temp_mark_eq_one name s2).mp h2
  open Semantic_pass in
  cases hq : check_top_stmts .fresh (pre ++ .mk t1 n1 (lhs1 :: rhs1 :: more1) :: mid) with
  | error s2 e2 => rw [hq] at hpre; cases hpre
  | ok s2 v2 =>
    have hmem := key s2 hq
    have e : pre ++ .mk t1 n1 (lhs1 :: rhs1 :: more1) :: mid ++
        .mk t2 n2 (lhs2 :: rhs2 :: more2) :: post
        = (pre ++ .mk t1 n1 (lhs1 :: rhs1 :: more1) :: mid) ++
          (.mk t2 n2 (lhs2 :: rhs2 :: more2) :: post) := by simp
    have hall : check_top_stmts .fresh (pre ++ .mk t1 n1 (lhs1 :: rhs1 :: more1) :: mid ++
        .mk t2 n2 (lhs2 :: rhs2 :: more2) :: post) = .error s2 (.temp_var name) := by
      rw [e, check_top_stmts_append, hq]
      simp only []
      rw [check_top_stmts_cons, check_top_stmt_assign s2 t2 n2 lhs2 rhs2 more2 ht2 hl2.1 hr2,
        hl2.2, check_for_temp_var_mem s2 name htemp hmem]
    simp only [semantic_check, Lnast_node.children, hall, Outcome.err]

/-- Witness of `double_write_reported`: `stmts(assign(x, 1), assign(___t, x), assign(___t, y))`. -/
theorem double_write_reported_witness :
    (Semantic_pass.semantic_check .fresh (.mk .top "top" (.mk .stmts "stmts"
      ([Lnast_node.mk .assign "" [ref_node "x", const_node "1"]] ++
        Lnast_node.mk .assign "" (ref_node "___t" :: ref_node "x" :: []) :: [] ++
        Lnast_node.mk .assign "" (ref_node "___t" :: ref_node "y" :: []) :: [])
        :: []))).err = some (.temp_var "___t") ∧
    (Pass_error.temp_var "___t").message
      = "Temporary Variable Error: " ++ "___t" ++ " must be written to only once\n" :=
  double_write_reported "___t" [.mk .assign "" [ref_node "x", const_node "1"]] [] [] []
    .assign .assign .top .stmts "" "" "top" "stmts" (ref_node "___t") (ref_node "x")
    (ref_node "___t") (ref_node "y") [] [] (by decide) (Or.inl rfl) (Or.inl rfl)
    ⟨rfl, rfl⟩ ⟨rfl, rfl⟩ (Or.inl rfl) (Or.inl rfl) (by decide)

/-- C10 (as stated, refuted): `___t` is the first child of one `dot` node and the
left-hand side of one `assign`, of no other assign/dp_assign, and `semantic_check` on a
fresh `Semantic_pass` raises the Temporary Variable Error for it. -/
theorem dot_then_assign_counterexample :
    (Semantic_pass.semantic_check .fresh (lnast_of_stmts
      [.mk .dot "" [ref_node "___t", ref_node "a", ref_node "b"],
       .mk .assign "" [ref_node "___t", ref_node "x"]])).err = some (.temp_var "___t") ∧
    assign_lhs_count "___t" (lnast_of_stmts
      [.mk .dot "" [ref_node "___t", ref_node "a", ref_node "b"],
       .mk .assign "" [ref_node "___t", ref_node "x"]]) = 1 := by
  decide

/-- C10 (amended): `semantic_check` on a fresh `Semantic_pass` raises the Temporary
Variable Error for a name only if the name has the ___ prefix and the tree holds at least
two write positions of it, a write position being the first child of an assign,
dp_assign, not, logical_not, as or N-ary node (dot and select among them) or a ref child
of a tuple. -/
theorem temp_error_only_if_written_twice (lnast : Lnast_node) (name : String)
    (h : (Semantic_pass.semantic_check .fresh lnast).err = some (.temp_var name)) :
    Semantic_pass.is_temp_var name = true ∧ 2 ≤ write_count name lnast := by
  have hinv := Semantic_pass.semantic_check_inv name lnast .fresh
  cases hc : Semantic_pass.semantic_check .fresh lnast with
  | ok s1 v => rw [hc] at h; cases h
  | error s1 e =>
    rw [hc] at h hinv
    have he : e = .temp_var name := by
      simpa [Outcome.err] using h
    obtain ⟨a, b⟩ := hinv he
    refine ⟨a, ?_⟩
    have : temp_mark name Semantic_pass.fresh = 0 := by
      simp [temp_mark, Semantic_pass.fresh]
    omega

/-- Witness of `temp_error_only_if_written_twice`: `stmts(dot(___t, a, b), assign(___t, x))`. -/
theorem temp_error_only_if_written_twice_witness :
    Semantic_pass.is_temp_var "___t" = true ∧ 2 ≤ write_count "___t" (lnast_of_stmts
      [.mk .dot "" [ref_node "___t", ref_node "a", ref_node "b"],
       .mk .assign "" [ref_node "___t", ref_node "x"]]) :=
  temp_error_only_if_written_twice _ "___t" (by decide)

/-! ## Shapes accepted by the validator: theorems -/

namespace Semantic_pass

theorem check_for_temp_var_fresh_name (s : Semantic_pass) (name : String)
    (h : name ∉ s.temp_list) : (check_for_temp_var s name).err = none := by
  unfold check_for_temp_var
  have hin : (!in_temp_list s name) = true := by simp [in_temp_list, h]
  rw [hin]
  simp only [if_true]
  split_ifs <;> rfl

theorem check_unary_no_error_iff (s : Semantic_pass) (lhs rhs : Lnast_node)
    (more : List Lnast_node) (h : lhs.name ∉ s.temp_list) :
    (check_unary s (lhs :: rhs :: more)).err = none ↔
      (lhs.type = .ref ∧ (rhs.type = .ref ∨ rhs.type = .const)) := by
  rw [check_unary]
  by_cases h1 : lhs.type = .ref
  · by_cases h2 : rhs.type = .ref ∨ rhs.type = .const
    · have h3 : ¬ ((decide (rhs.type ≠ .ref) && decide (rhs.type ≠ .const)) = true) := by
        rcases h2 with h2 | h2 <;> simp [h2]
      rw [if_neg (by simp [h1]), if_neg h3]
      have hf := check_for_temp_var_fresh_name s lhs.name h
      cases hc : check_for_temp_var s lhs.name with
      | error s1 e => rw [hc] at hf; cases hf
      | ok s1 v => simp [Outcome.err, h1, h2]
    · have h3 : (decide (rhs.type ≠ .ref) && decide (rhs.type ≠ .const)) = true := by
        simp only [not_or] at h2
        simp [h2.1, h2.2]
      rw [if_neg (by simp [h1]), if_pos h3]
      simp [Outcome.err, h2]
  · rw [if_pos h1]
    simp [Outcome.err, h1]

end Semantic_pass

/-- C11: for every top-level assign, dp_assign, not, logical_not or as node with at least
two children whose left-hand name has not been written before (it is not in `temp_list`),
`check_primitive_ops`, to which `semantic_check` hands the node, raises no error if and
only if the first child is a ref and the second child is a ref or a const. -/
theorem unary_op_no_error_iff (s : Semantic_pass) (t : Lnast_ntype) (nm : String)
    (lhs rhs : Lnast_node) (more : List Lnast_node)
    (ht : t = .assign ∨ t = .dp_assign ∨ t = .not_ ∨ t = .logical_not ∨ t = .as_)
    (hnew : lhs.name ∉ s.temp_list) :
    Semantic_pass.check_top_stmt s (.mk t nm (lhs :: rhs :: more))
      = Semantic_pass.check_primitive_ops s (.mk t nm (lhs :: rhs :: more)) t ∧
    ((Semantic_pass.check_primitive_ops s (.mk t nm (lhs :: rhs :: more)) t).err = none ↔
      (lhs.type = .ref ∧ (rhs.type = .ref ∨ rhs.type = .const))) := by
  have hp : Semantic_pass.is_primitive_op t = true := by
    rcases ht with h | h | h | h | h <;> subst h <;> decide
  have hu : Semantic_pass.unary_branch t = true := by
    rcases ht with h | h | h | h | h <;> subst h <;> decide
  have hs : (!has_single_child (lhs :: rhs :: more)) = true := by
    simp [has_single_child]
  constructor
  · unfold Semantic_pass.check_top_stmt
    show (if Semantic_pass.is_primitive_op t = true then _ else _) = _
    rw [if_pos hp]
    rfl
  · rw [Semantic_pass.check_primitive_ops, if_pos hs, if_pos hu]
    exact Semantic_pass.check_unary_no_error_iff s lhs rhs more hnew

/-- Witness of `unary_op_no_error_iff`: `assign(x, 1)` on a fresh `Semantic_pass`. -/
theorem unary_op_no_error_iff_witness :
    Semantic_pass.check_top_stmt .fresh (.mk .assign "" (ref_node "x" :: const_node "1" :: []))
      = Semantic_pass.check_primitive_ops .fresh
          (.mk .assign "" (ref_node "x" :: const_node "1" :: [])) .assign ∧
    ((Semantic_pass.check_primitive_ops .fresh
        (.mk .assign "" (ref_node "x" :: const_node "1" :: [])) .assign).err = none ↔
      ((ref_node "x").type = .ref ∧
        ((const_node "1").type = .ref ∨ (const_node "1").type = .const))) :=
  unary_op_no_error_iff .fresh .assign "" (ref_node "x") (const_node "1") []
    (Or.inl rfl) (by decide)

/-- C13 (the code at the failing input): a tuple with one ref child and three well-formed
assign children raises "Tuple Operation Error: Missing Assign Node(s)", while the same
tuple with two assign children raises no error. -/
theorem tuple_three_assigns_rejected :
    (Semantic_pass.check_primitive_ops .fresh (.mk .tuple ""
      [ref_node "t", .mk .assign "" [ref_node "a", const_node "1"],
       .mk .assign "" [ref_node "b", const_node "2"],
       .mk .assign "" [ref_node "c", const_node "3"]]) .tuple).err
      = some (.msg "Tuple Operation Error: Missing Assign Node(s)\n") ∧
    (Semantic_pass.check_primitive_ops .fresh (.mk .tuple ""
      [ref_node "t", .mk .assign "" [ref_node "a", const_node "1"],
       .mk .assign "" [ref_node "b", const_node "2"]]) .tuple).err = none := by
  decide

/-- C14 (the code at the failing input): a func_def whose children are just a cond (with
a ref child) and a stmts raises no error. -/
theorem func_def_without_ref_accepted :
    (Semantic_pass.check_func_def .fresh (.mk Lnast_ntype.func_def ""
      [.mk .cond "" [ref_node "c"], .mk .stmts "" []])).err = none := by
  decide

namespace Semantic_pass

theorem err_none_iff_ok {α : Type} (r : Outcome α) :
    r.err = none ↔ ∃ s v, r = .ok s v := by
  cases r with
  | ok s v => simp [Outcome.err]
  | error s e => simp [Outcome.err]

theorem check_if_cond_ok_iff (s : Semantic_pass) (gcs : List Lnast_node) :
    (check_if_cond s gcs).err = none ↔
      (match gcs with
        | [r] => decide (r.type = .ref)
        | _ => false) = true := by
  unfold check_if_cond
  match gcs with
  | [] => simp [has_single_child, Outcome.err]
  | [r] =>
    by_cases h : r.type = .ref
    · simp [has_single_child, Outcome.err, h]
    · simp [has_single_child, Outcome.err, h]
  | _ :: _ :: _ => simp [has_single_child, Outcome.err]

theorem count_type_cons (t : Lnast_ntype) (c : Lnast_node) (cs : List Lnast_node) :
    count_type t (c :: cs) = (if c.type = t then 1 else 0) + count_type t cs := by
  unfold count_type
  by_cases h : c.type = t
  · simp [List.filter_cons, h]; omega
  · simp [List.filter_cons, h]

/-- The loop of `check_if_op` when the statements below every cstmts and stmts child
raise no error in the pass state in which the loop reaches them: it ends without error
exactly when every child is accepted, and then each flag is set when it was set before or
a child of its type occurs. -/
theorem check_if_children_reached (cs : List Lnast_node) :
    ∀ (s : Semantic_pass) (a b c : Bool),
      (∀ (pre : List Lnast_node) (x : Lnast_node) (post : List Lnast_node),
        cs = pre ++ x :: post → (x.type = .cstmts ∨ x.type = .stmts) →
        (check_if_children s pre a b c).err = none →
        (check_stmts_children (check_if_children s pre a b c).pass_after x.children).err
          = none) →
      ((∀ x ∈ cs, if_child_ok x = true) →
        ∃ s1, check_if_children s cs a b c = .ok s1
          (a || decide (1 ≤ count_type .cstmts cs), b || decide (1 ≤ count_type .cond cs),
            c || decide (1 ≤ count_type .stmts cs))) ∧
      ((¬ ∀ x ∈ cs, if_child_ok x = true) →
        ∃ s1 e, check_if_children s cs a b c = .error s1 e) := by
  induction cs with
  | nil =>
    intro s a b c _
    constructor
    · intro _
      refine ⟨s, ?_⟩
      rw [check_if_children]
      simp [count_type]
    · intro h
      exact absurd (by simp) h
  | cons x cs ih =>
    intro s a b c hstm
    cases x with
    | mk ct cn gcs =>
      rw [check_if_children]
      simp only [count_type_cons, List.forall_mem_cons]
      show (_ ∧ _) 
      by_cases h1 : (decide (ct = .cstmts) || decide (ct = .stmts)) = true
      · rw [if_pos h1]
        have hhead : if_child_ok (.mk ct cn gcs) = true := by
          unfold if_child_ok
          simp only [Lnast_node.type]
          simp only [Bool.or_eq_true, decide_eq_true_eq] at h1
          rcases h1 with h | h <;> simp [h]
        have hok := hstm [] (.mk ct cn gcs) cs rfl
          (by simpa [Lnast_node.type] using h1) (by rw [check_if_children]; rfl)
        rw [check_if_children] at hok
        simp only [Outcome.pass_after] at hok
        obtain ⟨s1, v, hs1⟩ := (err_none_iff_ok _).mp hok
        simp only [Lnast_node.children] at hs1
        rw [hs1]
        simp only []
        by_cases h2 : ct = .cstmts
        · subst h2
          simp only [if_true, Lnast_node.type]
          have hstm_tail : ∀ (pre : List Lnast_node) (y : Lnast_node) (post : List Lnast_node),
              cs = pre ++ y :: post → (y.type = .cstmts ∨ y.type = .stmts) →
              (check_if_children s1 pre true b c).err = none →
              (check_stmts_children (check_if_children s1 pre true b c).pass_after
                y.children).err = none := by
            intro pre y post hy ht
            have hrun : check_if_children s (.mk .cstmts cn gcs :: pre) a b c =
                check_if_children s1 pre true b c := by
              rw [check_if_children, if_pos h1, hs1]
              simp
            have := hstm (.mk .cstmts cn gcs :: pre) y post (by rw [hy]; rfl) ht
            rw [hrun] at this
            exact this
          obtain ⟨i1, i2⟩ := ih s1 true b c hstm_tail
          constructor
          · intro hall
            obtain ⟨s2, hs2⟩ := i1 hall.2
            refine ⟨s2, ?_⟩
            rw [hs2]
            simp
          · intro hn
            exact i2 (fun hall => hn ⟨hhead, hall⟩)
        · have h3 : ct = .stmts := by
            simp only [Bool.or_eq_true, decide_eq_true_eq] at h1
            rcases h1 with h | h
            · exact absurd h h2
            · exact h
          subst h3
          simp only [Lnast_node.type]
          rw [if_neg (by decide)]
          have hstm_tail : ∀ (pre : List Lnast_node) (y : Lnast_node) (post : List Lnast_node),
              cs = pre ++ y :: post → (y.type = .cstmts ∨ y.type = .stmts) →
              (check_if_children s1 pre a b true).err = none →
              (check_stmts_children (check_if_children s1 pre a b true).pass_after
                y.children).err = none := by
            intro pre y post hy ht
            have hrun : check_if_children s (.mk .stmts cn gcs :: pre) a b c =
                check_if_children s1 pre a b true := by
              rw [check_if_children, if_pos h1, hs1]
              simp
            have := hstm (.mk .stmts cn gcs :: pre) y post (by rw [hy]; rfl) ht
            rw [hrun] at this
            exact this
          obtain ⟨i1, i2⟩ := ih s1 a b true hstm_tail
          constructor
          · intro hall
            obtain ⟨s2, hs2⟩ := i1 hall.2
            refine ⟨s2, ?_⟩
            rw [hs2]
            simp
          · intro hn
            exact i2 (fun hall => hn ⟨hhead, hall⟩)
      · rw [if_neg h1]
        have h1b := h1
        simp only [Bool.or_eq_true, decide_eq_true_eq, not_or] at h1
        by_cases h2 : ct = .cond
        · subst h2
          rw [if_pos rfl]
          have hiff := check_if_cond_ok_iff s gcs
          have hhead : if_child_ok (.mk .cond cn gcs) = true ↔
              (check_if_cond s gcs).err = none := by
            rw [hiff]
            unfold if_child_ok
            simp [Lnast_node.type, Lnast_node.children]
          cases hc : check_if_cond s gcs with
          | error s1 e =>
            rw [hc] at hhead
            simp only [Outcome.err] at hhead
            constructor
            · intro hall
              exact absurd (hhead.mp hall.1) (by simp)
            · intro _
              exact ⟨s1, e, rfl⟩
          | ok s1 v =>
            rw [hc] at hhead
            simp only [Outcome.err, iff_true] at hhead
            simp only [Lnast_node.type]
            have hstm_tail : ∀ (pre : List Lnast_node) (y : Lnast_node)
                (post : List Lnast_node),
                cs = pre ++ y :: post → (y.type = .cstmts ∨ y.type = .stmts) →
                (check_if_children s1 pre a true c).err = none →
                (check_stmts_children (check_if_children s1 pre a true c).pass_after
                  y.children).err = none := by
              intro pre y post hy ht
              have hrun : check_if_children s (.mk .cond cn gcs :: pre) a b c =
                  check_if_children s1 pre a true c := by
                rw [check_if_children, if_neg h1b, if_pos rfl, hc]
              have := hstm (.mk .cond cn gcs :: pre) y post (by rw [hy]; rfl) ht
              rw [hrun] at this
              exact this
            obtain ⟨i1, i2⟩ := ih s1 a true c hstm_tail
            constructor
            · intro hall
              obtain ⟨s2, hs2⟩ := i1 hall.2
              refine ⟨s2, ?_⟩
              rw [hs2]
              simp
            · intro hn
              exact i2 (fun hall => hn ⟨hhead, hall⟩)
        · rw [if_neg h2]
          have hhead : ¬ (if_child_ok (.mk ct cn gcs) = true) := by
            unfold if_child_ok
            simp [Lnast_node.type, h1.1, h1.2, h2]
          constructor
          · intro hall
            exact absurd hall.1 hhead
          · intro _
            exact ⟨s, _, rfl⟩

theorem if_verdict_ok_iff (s : Semantic_pass) (a b c : Bool) :
    (if_verdict s a b c).err = none ↔ (a = true ∧ b = true ∧ c = true) := by
  unfold if_verdict
  cases a <;> cases b <;> cases c <;> simp [Outcome.err]

end Semantic_pass

theorem forall_split_nil {α : Type} (P : List α → α → Prop) :
    (∀ (pre : List α) (x : α) (post : List α), ([] : List α) = pre ++ x :: post → P pre x) := by
  intro pre x post h
  simp at h

theorem forall_split_cons {α : Type} (P : List α → α → Prop) (y : α) (l : List α)
    (h0 : P [] y)
    (ht : ∀ (pre : List α) (x : α) (post : List α), l = pre ++ x :: post → P (y :: pre) x) :
    ∀ (pre : List α) (x : α) (post : List α), y :: l = pre ++ x :: post → P pre x := by
  intro pre x post h
  cases pre with
  | nil =>
    simp only [List.nil_append, List.cons.injEq] at h
    rw [← h.1]
    exact h0
  | cons p pre =>
    simp only [List.cons_append, List.cons.injEq] at h
    rw [← h.1]
    exact ht pre x post h.2

/-- C12 (as stated, refuted): an if node with the children cstmts, cond(ref c), stmts,
stmts has two stmts children, and `check_if_op` raises no error on it. -/
theorem if_with_two_stmts_counterexample :
    (Semantic_pass.check_if_op .fresh (.mk .if_ ""
      [.mk .cstmts "" [], .mk .cond "" [ref_node "c"], .mk .stmts "" [],
       .mk .stmts "" []])).err = none ∧
    count_type .stmts
      [.mk .cstmts "" [], .mk .cond "" [ref_node "c"], .mk .stmts "" [],
       .mk .stmts "" []] = 2 := by
  decide

/-- C12 (amended): for every if node whose cstmts and stmts children contain only
statements that raise no error when the loop of `check_if_op` reaches them (each body is
checked in the pass state that the children before it leave), `check_if_op` raises no
error if and only if every child is a cstmts, a stmts or a cond with a single child of
type ref, and there is at least one cstmts, at least one cond and at least one stmts
among them. -/
theorem if_op_no_error_iff (s : Semantic_pass) (t : Lnast_ntype) (nm : String)
    (children : List Lnast_node)
    (hstm : ∀ (pre : List Lnast_node) (x : Lnast_node) (post : List Lnast_node),
      children = pre ++ x :: post → (x.type = .cstmts ∨ x.type = .stmts) →
      (Semantic_pass.check_if_children s pre false false false).err = none →
      (Semantic_pass.check_stmts_children
        (Semantic_pass.check_if_children s pre false false false).pass_after
        x.children).err = none) :
    (Semantic_pass.check_if_op s (.mk t nm children)).err = none ↔
      ((∀ x ∈ children, if_child_ok x = true) ∧ 1 ≤ count_type .cstmts children ∧
        1 ≤ count_type .cond children ∧ 1 ≤ count_type .stmts children) := by
  obtain ⟨i1, i2⟩ := Semantic_pass.check_if_children_reached children s false false false hstm
  rw [Semantic_pass.check_if_op]
  by_cases hall : ∀ x ∈ children, if_child_ok x = true
  · obtain ⟨s1, hs1⟩ := i1 hall
    rw [hs1]
    simp only [Bool.false_or]
    rw [Semantic_pass.if_verdict_ok_iff]
    simp only [decide_eq_true_eq]
    exact ⟨fun h => ⟨hall, h⟩, fun h => h.2⟩
  · obtain ⟨s1, e, hs1⟩ := i2 hall
    rw [hs1]
    simp [Outcome.err, hall]

/-- Witness of `if_op_no_error_iff`: an if node with the children cstmts, cond, stmts,
stmts whose bodies write the temporaries `___a`, `___b` and `___c`, the last one in an if
node inside; started from a fresh pass, every body is error-free when it is reached and
the node raises no error, while the first body alone raises the temporary variable error
in a pass that has already seen `___a`. -/
theorem if_op_no_error_iff_witness :
    ((Semantic_pass.check_if_op .fresh (.mk .if_ ""
      [.mk .cstmts "" [.mk .assign "" [ref_node "___a", ref_node "$x"]],
       .mk .cond "" [ref_node "___a"],
       .mk .stmts "" [.mk .assign "" [ref_node "___b", const_node "1"],
         .mk .assign "" [ref_node "%y", ref_node "___b"]],
       .mk .stmts "" [.mk .if_ ""
         [.mk .cstmts "" [.mk .assign "" [ref_node "___c", ref_node "$x"]],
          .mk .cond "" [ref_node "___c"],
          .mk .stmts "" [.mk .assign "" [ref_node "%y", const_node "2"]]]]])).err = none ↔
      ((∀ x ∈ [Lnast_node.mk .cstmts "" [.mk .assign "" [ref_node "___a", ref_node "$x"]],
          .mk .cond "" [ref_node "___a"],
          .mk .stmts "" [.mk .assign "" [ref_node "___b", const_node "1"],
            .mk .assign "" [ref_node "%y", ref_node "___b"]],
          .mk .stmts "" [.mk .if_ ""
            [.mk .cstmts "" [.mk .assign "" [ref_node "___c", ref_node "$x"]],
             .mk .cond "" [ref_node "___c"],
             .mk .stmts "" [.mk .assign "" [ref_node "%y", const_node "2"]]]]],
          if_child_ok x = true) ∧
        1 ≤ count_type .cstmts
          [Lnast_node.mk .cstmts "" [.mk .assign "" [ref_node "___a", ref_node "$x"]],
          .mk .cond "" [ref_node "___a"],
          .mk .stmts "" [.mk .assign "" [ref_node "___b", const_node "1"],
            .mk .assign "" [ref_node "%y", ref_node "___b"]],
          .mk .stmts "" [.mk .if_ ""
            [.mk .cstmts "" [.mk .assign "" [ref_node "___c", ref_node "$x"]],
             .mk .cond "" [ref_node "___c"],
             .mk .stmts "" [.mk .assign "" [ref_node "%y", const_node "2"]]]]] ∧
        1 ≤ count_type .cond
          [Lnast_node.mk .cstmts "" [.mk .assign "" [ref_node "___a", ref_node "$x"]],
          .mk .cond "" [ref_node "___a"],
          .mk .stmts "" [.mk .assign "" [ref_node "___b", const_node "1"],
            .mk .assign "" [ref_node "%y", ref_node "___b"]],
          .mk .stmts "" [.mk .if_ ""
            [.mk .cstmts "" [.mk .assign "" [ref_node "___c", ref_node "$x"]],
             .mk .cond "" [ref_node "___c"],
             .mk .stmts "" [.mk .assign "" [ref_node "%y", const_node "2"]]]]] ∧
        1 ≤ count_type .stmts
          [Lnast_node.mk .cstmts "" [.mk .assign "" [ref_node "___a", ref_node "$x"]],
          .mk .cond "" [ref_node "___a"],
          .mk .stmts "" [.mk .assign "" [ref_node "___b", const_node "1"],
            .mk .assign "" [ref_node "%y", ref_node "___b"]],
          .mk .stmts "" [.mk .if_ ""
            [.mk .cstmts "" [.mk .assign "" [ref_node "___c", ref_node "$x"]],
             .mk .cond "" [ref_node "___c"],
             .mk .stmts "" [.mk .assign "" [ref_node "%y", const_node "2"]]]]])) ∧
    (Semantic_pass.check_if_op .fresh (.mk .if_ ""
      [.mk .cstmts "" [.mk .assign "" [ref_node "___a", ref_node "$x"]],
       .mk .cond "" [ref_node "___a"],
       .mk .stmts "" [.mk .assign "" [ref_node "___b", const_node "1"],
         .mk .assign "" [ref_node "%y", ref_node "___b"]],
       .mk .stmts "" [.mk .if_ ""
         [.mk .cstmts "" [.mk .assign "" [ref_node "___c", ref_node "$x"]],
          .mk .cond "" [ref_node "___c"],
          .mk .stmts "" [.mk .assign "" [ref_node "%y", const_node "2"]]]]])).err = none ∧
    (Semantic_pass.check_stmts_children
      { temp_list := ["___a"], not_read_list := [], have_read_list := [] }
      [.mk .assign "" [ref_node "___a", ref_node "$x"]]).err =
        some (.temp_var "___a") :=
  ⟨if_op_no_error_iff .fresh .if_ "" _ (by
    refine forall_split_cons _ _ _ ?_ (forall_split_cons _ _ _ ?_ (forall_split_cons _ _ _ ?_
      (forall_split_cons _ _ _ ?_ (forall_split_nil _))))
    all_goals decide), by decide, by decide⟩

/-! ## Running the validator twice -/

namespace Semantic_pass

theorem same_temp_ok {α : Type} (s1 s2 : Semantic_pass) (v : α)
    (h : s1.temp_list = s2.temp_list) : Same_temp (.ok s1 v) (.ok s2 v) := ⟨h, rfl⟩

theorem same_temp_error {α : Type} (s1 s2 : Semantic_pass) (e : Pass_error)
    (h : s1.temp_list = s2.temp_list) :
    Same_temp (α := α) (.error s1 e) (.error s2 e) := ⟨h, rfl⟩

theorem check_for_temp_var_same (s1 s2 : Semantic_pass) (m : String)
    (h : s1.temp_list = s2.temp_list) :
    Same_temp (check_for_temp_var s1 m) (check_for_temp_var s2 m) := by
  unfold check_for_temp_var in_temp_list
  rw [h]
  split_ifs
  · exact same_temp_ok _ _ _ (by simp [h])
  · exact same_temp_error _ _ _ h
  · exact same_temp_ok _ _ _ h

theorem note_written_rel (s1 s2 : Semantic_pass) (m : String)
    (h : s1.temp_list = s2.temp_list) :
    (note_written s1 m).temp_list = (note_written s2 m).temp_list := by
  rw [note_written_temp, note_written_temp, h]

theorem note_read_rel (s1 s2 : Semantic_pass) (m : String)
    (h : s1.temp_list = s2.temp_list) :
    (note_read s1 m).temp_list = (note_read s2 m).temp_list := by
  rw [note_read_temp, note_read_temp, h]

theorem check_unary_same (s1 s2 : Semantic_pass) (cs : List Lnast_node)
    (h : s1.temp_list = s2.temp_list) :
    Same_temp (check_unary s1 cs) (check_unary s2 cs) := by
  match cs with
  | [] => exact same_temp_error _ _ _ h
  | [_] => exact same_temp_error _ _ _ h
  | lhs :: rhs :: more =>
    rw [check_unary, check_unary]
    split_ifs
    · exact same_temp_error _ _ _ h
    · exact same_temp_error _ _ _ h
    · have ih := check_for_temp_var_same s1 s2 lhs.name h
      revert ih
      cases check_for_temp_var s1 lhs.name <;> cases check_for_temp_var s2 lhs.name <;>
        intro ih
      · exact same_temp_ok _ _ _ (note_read_rel _ _ _ (note_written_rel _ _ _ ih.1))
      · exact ih.elim
      · exact ih.elim
      · exact ih

theorem check_nary_children_same (cs : List Lnast_node) :
    ∀ (s1 s2 : Semantic_pass) (f : Bool), s1.temp_list = s2.temp_list →
      Same_temp (check_nary_children s1 cs f) (check_nary_children s2 cs f) := by
  induction cs with
  | nil => intro s1 s2 f h; exact same_temp_ok _ _ _ h
  | cons c cs ih =>
    intro s1 s2 f h
    rw [check_nary_children, check_nary_children]
    split_ifs
    · exact same_temp_error _ _ _ h
    · have i1 := check_for_temp_var_same s1 s2 c.name h
      revert i1
      cases check_for_temp_var s1 c.name <;> cases check_for_temp_var s2 c.name <;>
        intro i1
      · exact ih _ _ _ (note_written_rel _ _ _ i1.1)
      · exact i1.elim
      · exact i1.elim
      · exact i1
    · exact same_temp_error _ _ _ h
    · exact ih _ _ _ (note_read_rel _ _ _ h)

theorem tuple_verdict_same (s1 s2 : Semantic_pass) (r a : Nat)
    (h : s1.temp_list = s2.temp_list) :
    Same_temp (tuple_verdict s1 r a) (tuple_verdict s2 r a) := by
  unfold tuple_verdict
  split_ifs
  · exact same_temp_error _ _ _ h
  · exact same_temp_error _ _ _ h
  · exact same_temp_ok _ _ _ h

mutual
theorem check_primitive_ops_same :
    ∀ (x : Lnast_node) (t : Lnast_ntype) (s1 s2 : Semantic_pass),
      s1.temp_list = s2.temp_list →
      Same_temp (check_primitive_ops s1 x t) (check_primitive_ops s2 x t)
  | .mk t0 nm cs, t, s1, s2, h => by
    rw [check_primitive_ops, check_primitive_ops]
    split_ifs
    · exact check_unary_same s1 s2 cs h
    · exact check_nary_children_same cs s1 s2 true h
    · have i1 := check_tuple_children_same cs s1 s2 0 0 h
      revert i1
      cases check_tuple_children s1 cs 0 0 <;> cases check_tuple_children s2 cs 0 0 <;>
        intro i1
      · obtain ⟨ht, hv⟩ := i1
        subst hv
        exact tuple_verdict_same _ _ _ _ ht
      · exact i1.elim
      · exact i1.elim
      · exact i1
    · exact same_temp_error _ _ _ h
    · exact same_temp_error _ _ _ h
theorem check_tuple_children_same :
    ∀ (cs : List Lnast_node) (s1 s2 : Semantic_pass) (r a : Nat),
      s1.temp_list = s2.temp_list →
      Same_temp (check_tuple_children s1 cs r a) (check_tuple_children s2 cs r a)
  | [], s1, s2, r, a, h => by
    rw [check_tuple_children, check_tuple_children]
    exact same_temp_ok _ _ _ h
  | c :: cs, s1, s2, r, a, h => by
    rw [check_tuple_children, check_tuple_children]
    split_ifs
    · have i1 := check_for_temp_var_same s1 s2 c.name h
      revert i1
      cases check_for_temp_var s1 c.name <;> cases check_for_temp_var s2 c.name <;>
        intro i1
      · exact check_tuple_children_same cs _ _ _ _ (note_written_rel _ _ _ i1.1)
      · exact i1.elim
      · exact i1.elim
      · exact i1
    · have i1 := check_primitive_ops_same c c.type s1 s2 h
      revert i1
      cases check_primitive_ops s1 c c.type <;> cases check_primitive_ops s2 c c.type <;>
        intro i1
      · exact check_tuple_children_same cs _ _ _ _ i1.1
      · exact i1.elim
      · exact i1.elim
      · exact i1
    · exact check_tuple_children_same cs _ _ _ _ h
end

end Semantic_pass

namespace Semantic_pass

theorem check_if_cond_same (s1 s2 : Semantic_pass) (cs : List Lnast_node)
    (h : s1.temp_list = s2.temp_list) :
    Same_temp (check_if_cond s1 cs) (check_if_cond s2 cs) := by
  unfold check_if_cond
  split_ifs
  · match cs with
    | [] => exact same_temp_error _ _ _ h
    | cc :: rest =>
      show Same_temp (if cc.type ≠ .ref then _ else _) (if cc.type ≠ .ref then _ else _)
      split_ifs
      · exact same_temp_error _ _ _ h
      · exact same_temp_ok _ _ _ (note_read_rel _ _ _ h)
  · exact same_temp_error _ _ _ h

theorem if_verdict_same (s1 s2 : Semantic_pass) (a b c : Bool)
    (h : s1.temp_list = s2.temp_list) :
    Same_temp (if_verdict s1 a b c) (if_verdict s2 a b c) := by
  unfold if_verdict
  split_ifs
  · exact same_temp_error _ _ _ h
  · exact same_temp_error _ _ _ h
  · exact same_temp_error _ _ _ h
  · exact same_temp_ok _ _ _ h

mutual
theorem check_if_op_same :
    ∀ (x : Lnast_node) (s1 s2 : Semantic_pass), s1.temp_list = s2.temp_list →
      Same_temp (check_if_op s1 x) (check_if_op s2 x)
  | .mk t nm cs, s1, s2, h => by
    rw [check_if_op, check_if_op]
    have i1 := check_if_children_same cs s1 s2 false false false h
    revert i1
    cases check_if_children s1 cs false false false <;>
      cases check_if_children s2 cs false false false <;> intro i1
    · obtain ⟨ht, hv⟩ := i1
      subst hv
      exact if_verdict_same _ _ _ _ _ ht
    · exact i1.elim
    · exact i1.elim
    · exact i1
theorem check_if_children_same :
    ∀ (cs : List Lnast_node) (s1 s2 : Semantic_pass) (a b c : Bool),
      s1.temp_list = s2.temp_list →
      Same_temp (check_if_children s1 cs a b c) (check_if_children s2 cs a b c)
  | [], s1, s2, a, b, c, h => by
    rw [check_if_children, check_if_children]
    exact same_temp_ok _ _ _ h
  | .mk ct cn gcs :: cs, s1, s2, a, b, c, h => by
    rw [check_if_children, check_if_children]
    split_ifs with h1 h2
    · have i1 := check_stmts_children_same gcs s1 s2 h
      revert i1
      cases check_stmts_children s1 gcs <;> cases check_stmts_children s2 gcs <;> intro i1
      · simp only [h2, if_true]
        exact check_if_children_same cs _ _ _ _ _ i1.1
      · exact i1.elim
      · exact i1.elim
      · exact i1
    · have i1 := check_stmts_children_same gcs s1 s2 h
      revert i1
      cases check_stmts_children s1 gcs <;> cases check_stmts_children s2 gcs <;> intro i1
      · simp only [h2, if_false]
        exact check_if_children_same cs _ _ _ _ _ i1.1
      · exact i1.elim
      · exact i1.elim
      · exact i1
    · have i1 := check_if_cond_same s1 s2 gcs h
      revert i1
      cases check_if_cond s1 gcs <;> cases check_if_cond s2 gcs <;> intro i1
      · exact check_if_children_same cs _ _ _ _ _ i1.1
      · exact i1.elim
      · exact i1.elim
      · exact i1
    · exact same_temp_error _ _ _ h
theorem check_stmts_children_same :
    ∀ (cs : List Lnast_node) (s1 s2 : Semantic_pass), s1.temp_list = s2.temp_list →
      Same_temp (check_stmts_children s1 cs) (check_stmts_children s2 cs)
  | [], s1, s2, h => by
    rw [check_stmts_children, check_stmts_children]
    exact same_temp_ok _ _ _ h
  | c :: cs, s1, s2, h => by
    rw [check_stmts_children, check_stmts_children]
    split_ifs
    · have i1 := check_primitive_ops_same c c.type s1 s2 h
      revert i1
      cases check_primitive_ops s1 c c.type <;> cases check_primitive_ops s2 c c.type <;>
        intro i1
      · exact check_stmts_children_same cs _ _ i1.1
      · exact i1.elim
      · exact i1.elim
      · exact i1
    · have i1 := check_if_op_same c s1 s2 h
      revert i1
      cases check_if_op s1 c <;> cases check_if_op s2 c <;> intro i1
      · exact check_stmts_children_same cs _ _ i1.1
      · exact i1.elim
      · exact i1.elim
      · exact i1
    · exact check_stmts_children_same cs _ _ h
end

theorem check_for_children_same (cs : List Lnast_node) :
    ∀ (s1 s2 : Semantic_pass) (st : Bool) (k : Nat), s1.temp_list = s2.temp_list →
      Same_temp (check_for_children s1 cs st k) (check_for_children s2 cs st k) := by
  induction cs with
  | nil => intro s1 s2 st k h; exact same_temp_ok _ _ _ h
  | cons c cs ih =>
    intro s1 s2 st k h
    rw [check_for_children, check_for_children]
    split_ifs
    · have i1 := check_stmts_children_same c.children s1 s2 h
      revert i1
      cases check_stmts_children s1 c.children <;>
        cases check_stmts_children s2 c.children <;> intro i1
      · exact ih _ _ _ _ i1.1
      · exact i1.elim
      · exact i1.elim
      · exact i1
    · exact ih _ _ _ _ (note_read_rel _ _ _ h)
    · exact same_temp_error _ _ _ h

theorem check_for_op_same (x : Lnast_node) (s1 s2 : Semantic_pass)
    (h : s1.temp_list = s2.temp_list) :
    Same_temp (check_for_op s1 x) (check_for_op s2 x) := by
  unfold check_for_op
  have i1 := check_for_children_same x.children s1 s2 false 0 h
  revert i1
  cases check_for_children s1 x.children false 0 <;>
    cases check_for_children s2 x.children false 0 <;> intro i1
  · obtain ⟨ht, hv⟩ := i1
    subst hv
    rename_i v _
    obtain ⟨st, k⟩ := v
    show Same_temp (if k < 2 then _ else if (!st) = true then _ else _)
      (if k < 2 then _ else if (!st) = true then _ else _)
    split_ifs
    · exact same_temp_error _ _ _ ht
    · exact same_temp_error _ _ _ ht
    · exact same_temp_ok _ _ _ ht
  · exact i1.elim
  · exact i1.elim
  · exact i1

theorem check_while_cond_same (s1 s2 : Semantic_pass) (cs : List Lnast_node)
    (h : s1.temp_list = s2.temp_list) :
    Same_temp (check_while_cond s1 cs) (check_while_cond s2 cs) := by
  unfold check_while_cond
  split_ifs
  · match cs with
    | [] => exact same_temp_error _ _ _ h
    | cc :: rest =>
      show Same_temp (if cc.type ≠ .ref then _ else _) (if cc.type ≠ .ref then _ else _)
      split_ifs
      · exact same_temp_error _ _ _ h
      · exact same_temp_ok _ _ _ h
  · exact same_temp_error _ _ _ h

theorem check_while_children_same (cs : List Lnast_node) :
    ∀ (s1 s2 : Semantic_pass) (a b : Bool), s1.temp_list = s2.temp_list →
      Same_temp (check_while_children s1 cs a b) (check_while_children s2 cs a b) := by
  induction cs with
  | nil => intro s1 s2 a b h; exact same_temp_ok _ _ _ h
  | cons c cs ih =>
    intro s1 s2 a b h
    rw [check_while_children, check_while_children]
    split_ifs
    · have i1 := check_while_cond_same s1 s2 c.children h
      revert i1
      cases check_while_cond s1 c.children <;> cases check_while_cond s2 c.children <;>
        intro i1
      · exact ih _ _ _ _ i1.1
      · exact i1.elim
      · exact i1.elim
      · exact i1
    · have i1 := check_stmts_children_same c.children s1 s2 h
      revert i1
      cases check_stmts_children s1 c.children <;>
        cases check_stmts_children s2 c.children <;> intro i1
      · exact ih _ _ _ _ i1.1
      · exact i1.elim
      · exact i1.elim
      · exact i1
    · exact same_temp_error _ _ _ h

theorem check_while_op_same (x : Lnast_node) (s1 s2 : Semantic_pass)
    (h : s1.temp_list = s2.temp_list) :
    Same_temp (check_while_op s1 x) (check_while_op s2 x) := by
  unfold check_while_op
  have i1 := check_while_children_same x.children s1 s2 false false h
  revert i1
  cases check_while_children s1 x.children false false <;>
    cases check_while_children s2 x.children false false <;> intro i1
  · obtain ⟨ht, hv⟩ := i1
    subst hv
    rename_i v _
    obtain ⟨a, b⟩ := v
    show Same_temp (if (!a) = true then _ else if (!b) = true then _ else _)
      (if (!a) = true then _ else if (!b) = true then _ else _)
    split_ifs
    · exact same_temp_error _ _ _ ht
    · exact same_temp_error _ _ _ ht
    · exact same_temp_ok _ _ _ ht
  · exact i1.elim
  · exact i1.elim
  · exact i1

theorem check_func_def_cond_same (s1 s2 : Semantic_pass) (cs : List Lnast_node)
    (h : s1.temp_list = s2.temp_list) :
    Same_temp (check_func_def_cond s1 cs) (check_func_def_cond s2 cs) := by
  unfold check_func_def_cond
  split_ifs
  · match cs with
    | [] => exact same_temp_error _ _ _ h
    | cc :: rest =>
      show Same_temp
        (if (decide (cc.type ≠ .const) && decide (cc.type ≠ .ref)) = true then _ else _)
        (if (decide (cc.type ≠ .const) && decide (cc.type ≠ .ref)) = true then _ else _)
      split_ifs
      · exact same_temp_error _ _ _ h
      · exact same_temp_ok _ _ _ h
  · exact same_temp_error _ _ _ h

theorem check_func_def_children_same (cs : List Lnast_node) :
    ∀ (s1 s2 : Semantic_pass) (f : Bool) (k : Nat) (a b : Bool),
      s1.temp_list = s2.temp_list →
      Same_temp (check_func_def_children s1 cs f k a b)
        (check_func_def_children s2 cs f k a b) := by
  induction cs with
  | nil => intro s1 s2 f k a b h; exact same_temp_ok _ _ _ h
  | cons c cs ih =>
    intro s1 s2 f k a b h
    rw [check_func_def_children, check_func_def_children]
    have hs : (if f = true then note_written s1 c.name else s1).temp_list
        = (if f = true then note_written s2 c.name else s2).temp_list := by
      split_ifs
      · exact note_written_rel _ _ _ h
      · exact h
    generalize (if f = true then note_written s1 c.name else s1) = t1 at hs ⊢
    generalize (if f = true then note_written s2 c.name else s2) = t2 at hs ⊢
    generalize (if f = true then k + 1 else k) = k0
    split_ifs
    · have i1 := check_stmts_children_same c.children t1 t2 hs
      revert i1
      cases check_stmts_children t1 c.children <;>
        cases check_stmts_children t2 c.children <;> intro i1
      · exact ih _ _ _ _ _ _ i1.1
      · exact i1.elim
      · exact i1.elim
      · exact i1
    · have i1 := check_stmts_children_same c.children t1 t2 hs
      revert i1
      cases check_stmts_children t1 c.children <;>
        cases check_stmts_children t2 c.children <;> intro i1
      · exact ih _ _ _ _ _ _ i1.1
      · exact i1.elim
      · exact i1.elim
      · exact i1
    · have i1 := check_func_def_cond_same t1 t2 c.children hs
      revert i1
      cases check_func_def_cond t1 c.children <;>
        cases check_func_def_cond t2 c.children <;> intro i1
      · exact ih _ _ _ _ _ _ i1.1
      · exact i1.elim
      · exact i1.elim
      · exact i1
    · exact ih _ _ _ _ _ _ hs
    · exact same_temp_error _ _ _ hs

theorem check_func_def_same (x : Lnast_node) (s1 s2 : Semantic_pass)
    (h : s1.temp_list = s2.temp_list) :
    Same_temp (check_func_def s1 x) (check_func_def s2 x) := by
  unfold check_func_def
  have i1 := check_func_def_children_same x.children s1 s2 true 0 false false h
  revert i1
  cases check_func_def_children s1 x.children true 0 false false <;>
    cases check_func_def_children s2 x.children true 0 false false <;> intro i1
  · obtain ⟨ht, hv⟩ := i1
    subst hv
    rename_i v _
    obtain ⟨k, a, b⟩ := v
    show Same_temp
      (if k < 1 then _ else if (!a) = true then _ else if (!b) = true then _ else _)
      (if k < 1 then _ else if (!a) = true then _ else if (!b) = true then _ else _)
    split_ifs
    · exact same_temp_error _ _ _ ht
    · exact same_temp_error _ _ _ ht
    · exact same_temp_error _ _ _ ht
    · exact same_temp_ok _ _ _ ht
  · exact i1.elim
  · exact i1.elim
  · exact i1

theorem check_func_call_children_same (cs : List Lnast_node) :
    ∀ (s1 s2 : Semantic_pass) (k : Nat), s1.temp_list = s2.temp_list →
      Same_temp (check_func_call_children s1 cs k) (check_func_call_children s2 cs k) := by
  induction cs with
  | nil => intro s1 s2 k h; exact same_temp_ok _ _ _ h
  | cons c cs ih =>
    intro s1 s2 k h
    rw [check_func_call_children, check_func_call_children]
    split_ifs
    · exact ih _ _ _ (note_read_rel _ _ _ h)
    · exact same_temp_error _ _ _ h

theorem check_func_call_same (x : Lnast_node) (s1 s2 : Semantic_pass)
    (h : s1.temp_list = s2.temp_list) :
    Same_temp (check_func_call s1 x) (check_func_call s2 x) := by
  unfold check_func_call
  have i1 := check_func_call_children_same x.children s1 s2 0 h
  revert i1
  cases check_func_call_children s1 x.children 0 <;>
    cases check_func_call_children s2 x.children 0 <;> intro i1
  · obtain ⟨ht, hv⟩ := i1
    subst hv
    rename_i k _
    show Same_temp (if k ≠ 3 then _ else _) (if k ≠ 3 then _ else _)
    split_ifs
    · exact same_temp_error _ _ _ ht
    · exact same_temp_ok _ _ _ ht
  · exact i1.elim
  · exact i1.elim
  · exact i1

theorem check_top_stmt_same (x : Lnast_node) (s1 s2 : Semantic_pass)
    (h : s1.temp_list = s2.temp_list) :
    Same_temp (check_top_stmt s1 x) (check_top_stmt s2 x) := by
  unfold check_top_stmt
  split_ifs
  · exact check_primitive_ops_same x x.type s1 s2 h
  · exact check_if_op_same x s1 s2 h
  · exact check_for_op_same x s1 s2 h
  · exact check_while_op_same x s1 s2 h
  · exact check_func_call_same x s1 s2 h
  · exact check_func_def_same x s1 s2 h
  · exact same_temp_ok _ _ _ h

theorem check_top_stmts_same (cs : List Lnast_node) :
    ∀ (s1 s2 : Semantic_pass), s1.temp_list = s2.temp_list →
      Same_temp (check_top_stmts s1 cs) (check_top_stmts s2 cs) := by
  induction cs with
  | nil => intro s1 s2 h; exact same_temp_ok _ _ _ h
  | cons c cs ih =>
    intro s1 s2 h
    rw [check_top_stmts_cons, check_top_stmts_cons]
    have i1 := check_top_stmt_same c s1 s2 h
    revert i1
    cases check_top_stmt s1 c <;> cases check_top_stmt s2 c <;> intro i1
    · exact ih _ _ i1.1
    · exact i1.elim
    · exact i1.elim
    · exact i1

/-- The error of `semantic_check` and the `temp_list` it leaves depend on the pass object
only through `temp_list`. -/
theorem semantic_check_same (top : Lnast_node) (s1 s2 : Semantic_pass)
    (h : s1.temp_list = s2.temp_list) :
    (semantic_check s1 top).err = (semantic_check s2 top).err ∧
    (semantic_check s1 top).pass_after.temp_list
      = (semantic_check s2 top).pass_after.temp_list := by
  unfold semantic_check
  match top.children with
  | [] => exact ⟨rfl, h⟩
  | st :: _ =>
    simp only []
    have i1 := check_top_stmts_same st.children s1 s2 h
    revert i1
    cases check_top_stmts s1 st.children <;> cases check_top_stmts s2 st.children <;>
      intro i1
    · exact ⟨rfl, i1.1⟩
    · exact i1.elim
    · exact i1.elim
    · obtain ⟨ht, he⟩ := i1
      subst he
      exact ⟨rfl, ht⟩

end Semantic_pass

/-- C15 (as stated, refuted): on `stmts(assign(___t, x))` the first run of
`semantic_check` raises no error and warns about `___t`; the second run on the same
`Semantic_pass` raises the Temporary Variable Error for `___t`. On
`stmts(assign(z, x), assign(x, y))`, without temporaries, the first run warns about `z`
and `x`, the second about `z` only. -/
theorem second_run_differs_counterexample :
    Semantic_pass.semantic_check .fresh
        (lnast_of_stmts [.mk .assign "" [ref_node "___t", ref_node "x"]])
      = .ok { temp_list := ["___t"], not_read_list := ["___t"], have_read_list := [] }
          (some ["___t"]) ∧
    (Semantic_pass.semantic_check
        { temp_list := ["___t"], not_read_list := ["___t"], have_read_list := [] }
        (lnast_of_stmts [.mk .assign "" [ref_node "___t", ref_node "x"]])).err
      = some (.temp_var "___t") ∧
    Semantic_pass.semantic_check .fresh
        (lnast_of_stmts [.mk .assign "" [ref_node "z", ref_node "x"],
          .mk .assign "" [ref_node "x", ref_node "y"]])
      = .ok { temp_list := [], not_read_list := ["z", "x"], have_read_list := [] }
          (some ["z", "x"]) ∧
    Semantic_pass.semantic_check
        { temp_list := [], not_read_list := ["z", "x"], have_read_list := [] }
        (lnast_of_stmts [.mk .assign "" [ref_node "z", ref_node "x"],
          .mk .assign "" [ref_node "x", ref_node "y"]])
      = .ok { temp_list := [], not_read_list := ["z"], have_read_list := ["x"] }
          (some ["z"]) := by
  refine ⟨by rfl, by decide, by rfl, by rfl⟩

/-- C15 (amended): when the first run of `semantic_check` leaves `temp_list` as it found
it, a second run on the same `Semantic_pass` and LNAST raises the same error as the
first, or none as the first. -/
theorem second_run_same_error (s : Semantic_pass) (lnast : Lnast_node)
    (h : (Semantic_pass.semantic_check s lnast).pass_after.temp_list = s.temp_list) :
    (Semantic_pass.semantic_check (Semantic_pass.semantic_check s lnast).pass_after lnast).err
      = (Semantic_pass.semantic_check s lnast).err :=
  (Semantic_pass.semantic_check_same lnast _ _ h).1

/-- Witness of `second_run_same_error`: `stmts(assign(z, x), assign(x, y))` on a fresh
`Semantic_pass`. -/
theorem second_run_same_error_witness :
    (Semantic_pass.semantic_check (Semantic_pass.semantic_check .fresh
        (lnast_of_stmts [.mk .assign "" [ref_node "z", ref_node "x"],
          .mk .assign "" [ref_node "x", ref_node "y"]])).pass_after
      (lnast_of_stmts [.mk .assign "" [ref_node "z", ref_node "x"],
          .mk .assign "" [ref_node "x", ref_node "y"]])).err
      = (Semantic_pass.semantic_check .fresh
        (lnast_of_stmts [.mk .assign "" [ref_node "z", ref_node "x"],
          .mk .assign "" [ref_node "x", ref_node "y"]])).err :=
  second_run_same_error .fresh _ (by decide)

/-! ## The warning at the end of the check -/

namespace Semantic_pass

theorem reads_eq_refl (s : Semantic_pass) : Reads_eq s s := ⟨rfl, rfl⟩

theorem reads_eq_trans {a b c : Semantic_pass} (h1 : Reads_eq a b) (h2 : Reads_eq b c) :
    Reads_eq a c := ⟨h1.1.trans h2.1, h1.2.trans h2.2⟩

theorem check_for_not_read_reads (s t : Semantic_pass) (m : String) (h : Reads_eq s t) :
    Reads_eq (check_for_not_read s m) (check_for_not_read t m) := by
  obtain ⟨h1, h2⟩ := h
  unfold check_for_not_read in_not_read_list in_have_read_list
  rw [h1, h2]
  split_ifs <;> simp [Reads_eq, h1, h2]

theorem note_written_reads (s t : Semantic_pass) (m : String) (h : Reads_eq s t) :
    Reads_eq (note_written s m) (note_written t m) := by
  have hc := check_for_not_read_reads s t m h
  unfold note_written in_not_read_list
  rw [h.1]
  split_ifs
  · exact hc
  · exact h

theorem note_read_reads (s t : Semantic_pass) (m : String) (h : Reads_eq s t) :
    Reads_eq (note_read s m) (note_read t m) := by
  have hc := check_for_not_read_reads s t m h
  unfold note_read in_not_read_list
  rw [h.1]
  split_ifs
  · exact hc
  · exact h

theorem note_event_reads (s t : Semantic_pass) (e : Rw_event) (h : Reads_eq s t) :
    Reads_eq (note_event s e) (note_event t e) := by
  cases e with
  | written m => exact note_written_reads s t m h
  | read m => exact note_read_reads s t m h

theorem note_events_reads (evs : List Rw_event) :
    ∀ (s t : Semantic_pass), Reads_eq s t → Reads_eq (note_events s evs) (note_events t evs) := by
  induction evs with
  | nil => intro s t h; exact h
  | cons e evs ih =>
    intro s t h
    exact ih _ _ (note_event_reads s t e h)

theorem note_events_append (s : Semantic_pass) (a b : List Rw_event) :
    note_events s (a ++ b) = note_events (note_events s a) b := by
  unfold note_events
  rw [List.foldl_append]

theorem note_events_nil (s : Semantic_pass) : note_events s [] = s := rfl

theorem note_events_cons (s : Semantic_pass) (e : Rw_event) (evs : List Rw_event) :
    note_events s (e :: evs) = note_events (note_event s e) evs := rfl

/-- Chaining: the first part of a check notes `a`, the rest notes `b`. -/
theorem reads_chain {s s1 s2 : Semantic_pass} {a b : List Rw_event}
    (h1 : Reads_eq s1 (note_events s a)) (h2 : Reads_eq s2 (note_events s1 b)) :
    Reads_eq s2 (note_events s (a ++ b)) := by
  rw [note_events_append]
  exact reads_eq_trans h2 (note_events_reads b _ _ h1)

theorem check_for_temp_var_reads (s s1 : Semantic_pass) (m : String) (v : Unit)
    (h : check_for_temp_var s m = .ok s1 v) : Reads_eq s1 s := by
  unfold check_for_temp_var at h
  split_ifs at h
  · cases h; exact ⟨rfl, rfl⟩
  · cases h; exact ⟨rfl, rfl⟩

end Semantic_pass

namespace Semantic_pass

theorem check_unary_trace (s s' : Semantic_pass) (cs : List Lnast_node) (v : Unit)
    (h : check_unary s cs = .ok s' v) : Reads_eq s' (note_events s (unary_events cs)) := by
  match cs, h with
  | [], h => cases h
  | [_], h => cases h
  | lhs :: rhs :: more, h =>
    rw [check_unary] at h
    split_ifs at h
    cases hc : check_for_temp_var s lhs.name with
    | error s1 e => rw [hc] at h; cases h
    | ok s1 u =>
      rw [hc] at h
      cases h
      have h1 := check_for_temp_var_reads s s1 lhs.name u hc
      exact note_read_reads _ _ _ (note_written_reads _ _ _ h1)

theorem check_nary_children_trace (cs : List Lnast_node) :
    ∀ (s s' : Semantic_pass) (f : Bool) (v : Unit),
      check_nary_children s cs f = .ok s' v →
      Reads_eq s' (note_events s (nary_events cs f)) := by
  induction cs with
  | nil => intro s s' f v h; cases h; exact reads_eq_refl _
  | cons c cs ih =>
    intro s s' f v h
    rw [check_nary_children] at h
    cases f with
    | true =>
      simp only [if_true] at h
      split_ifs at h
      cases hc : check_for_temp_var s c.name with
      | error s1 e => rw [hc] at h; cases h
      | ok s1 u =>
        rw [hc] at h
        have h1 := check_for_temp_var_reads s s1 c.name u hc
        have h2 := ih _ _ _ _ h
        exact reads_eq_trans h2 (note_events_reads _ _ _ (note_written_reads _ _ _ h1))
    | false =>
      simp only [Bool.false_eq_true, if_false] at h
      split_ifs at h
      exact ih _ _ _ _ h

mutual
theorem check_primitive_ops_trace :
    ∀ (x : Lnast_node) (t : Lnast_ntype) (s s' : Semantic_pass) (v : Unit),
      check_primitive_ops s x t = .ok s' v →
      Reads_eq s' (note_events s (primitive_ops_events x t))
  | .mk ty nm cs, t, s, s', v, h => by
    rw [check_primitive_ops] at h
    rw [primitive_ops_events]
    split_ifs at h ⊢ with h0 h1 h2 h3
    · exact check_unary_trace _ _ _ _ h
    · exact check_nary_children_trace _ _ _ _ _ h
    · cases hc : check_tuple_children s cs 0 0 with
      | error s1 e => rw [hc] at h; cases h
      | ok s1 u =>
        rw [hc] at h
        have h4 := check_tuple_children_trace cs 0 0 s s1 u hc
        obtain ⟨r, a⟩ := u
        simp only [tuple_verdict] at h
        split_ifs at h
        cases h
        exact h4
theorem check_tuple_children_trace :
    ∀ (cs : List Lnast_node) (r a : Nat) (s s' : Semantic_pass) (v : Nat × Nat),
      check_tuple_children s cs r a = .ok s' v →
      Reads_eq s' (note_events s (tuple_events cs))
  | [], r, a, s, s', v, h => by
    rw [check_tuple_children] at h
    cases h
    exact reads_eq_refl _
  | c :: cs, r, a, s, s', v, h => by
    rw [check_tuple_children] at h
    rw [tuple_events]
    split_ifs at h ⊢ with h0 h1
    · cases hc : check_for_temp_var s c.name with
      | error s1 e => rw [hc] at h; cases h
      | ok s1 u =>
        rw [hc] at h
        have h1 := check_for_temp_var_reads s s1 c.name u hc
        have h2 := check_tuple_children_trace cs _ _ _ _ _ h
        exact reads_eq_trans h2 (note_events_reads _ _ _ (note_written_reads _ _ _ h1))
    · cases hc : check_primitive_ops s c c.type with
      | error s1 e => rw [hc] at h; cases h
      | ok s1 u =>
        rw [hc] at h
        have h2 := check_primitive_ops_trace c c.type s s1 u hc
        have h3 := check_tuple_children_trace cs _ _ _ _ _ h
        exact reads_chain h2 h3
    · exact check_tuple_children_trace cs _ _ _ _ _ h
end

end Semantic_pass

namespace Semantic_pass

theorem check_if_cond_trace (s s' : Semantic_pass) (cs : List Lnast_node) (v : Unit)
    (h : check_if_cond s cs = .ok s' v) : Reads_eq s' (note_events s (if_cond_events cs)) := by
  unfold check_if_cond at h
  split_ifs at h
  match cs, h with
  | [], h => cases h
  | cc :: rest, h =>
    simp only [] at h
    split_ifs at h
    cases h
    exact reads_eq_refl _

mutual
theorem check_if_op_trace :
    ∀ (x : Lnast_node) (s s' : Semantic_pass) (v : Unit),
      check_if_op s x = .ok s' v → Reads_eq s' (note_events s (if_op_events x))
  | .mk t nm cs, s, s', v, h => by
    rw [check_if_op] at h
    rw [if_op_events]
    cases hc : check_if_children s cs false false false with
    | error s1 e => rw [hc] at h; cases h
    | ok s1 u =>
      rw [hc] at h
      have h4 := check_if_children_trace cs false false false s s1 u hc
      obtain ⟨a, b, c⟩ := u
      simp only [if_verdict] at h
      split_ifs at h
      cases h
      exact h4
theorem check_if_children_trace :
    ∀ (cs : List Lnast_node) (a b c : Bool) (s s' : Semantic_pass) (v : Bool × Bool × Bool),
      check_if_children s cs a b c = .ok s' v →
      Reads_eq s' (note_events s (if_children_events cs))
  | [], a, b, c, s, s', v, h => by
    rw [check_if_children] at h
    cases h
    exact reads_eq_refl _
  | .mk ct cn gcs :: cs, a, b, c, s, s', v, h => by
    rw [check_if_children] at h
    rw [if_children_events]
    split_ifs at h ⊢ with h0 h1 h2
    · cases hc : check_stmts_children s gcs with
      | error s1 e => rw [hc] at h; cases h
      | ok s1 u =>
        rw [hc] at h
        have h2 := check_stmts_children_trace gcs s s1 u hc
        have h3 := check_if_children_trace cs _ _ _ _ _ _ h
        exact reads_chain h2 h3
    · cases hc : check_stmts_children s gcs with
      | error s1 e => rw [hc] at h; cases h
      | ok s1 u =>
        rw [hc] at h
        have h2 := check_stmts_children_trace gcs s s1 u hc
        have h3 := check_if_children_trace cs _ _ _ _ _ _ h
        exact reads_chain h2 h3
    · cases hc : check_if_cond s gcs with
      | error s1 e => rw [hc] at h; cases h
      | ok s1 u =>
        rw [hc] at h
        have h2 := check_if_cond_trace s s1 gcs u hc
        have h3 := check_if_children_trace cs _ _ _ _ _ _ h
        exact reads_chain h2 h3
theorem check_stmts_children_trace :
    ∀ (cs : List Lnast_node) (s s' : Semantic_pass) (v : Unit),
      check_stmts_children s cs = .ok s' v →
      Reads_eq s' (note_events s (stmts_children_events cs))
  | [], s, s', v, h => by
    rw [check_stmts_children] at h
    cases h
    exact reads_eq_refl _
  | c :: cs, s, s', v, h => by
    rw [check_stmts_children] at h
    rw [stmts_children_events]
    split_ifs at h ⊢ with h0 h1
    · cases hc : check_primitive_ops s c c.type with
      | error s1 e => rw [hc] at h; cases h
      | ok s1 u =>
        rw [hc] at h
        have h2 := check_primitive_ops_trace c c.type s s1 u hc
        have h3 := check_stmts_children_trace cs _ _ _ h
        exact reads_chain h2 h3
    · cases hc : check_if_op s c with
      | error s1 e => rw [hc] at h; cases h
      | ok s1 u =>
        rw [hc] at h
        have h2 := check_if_op_trace c s s1 u hc
        have h3 := check_stmts_children_trace cs _ _ _ h
        exact reads_chain h2 h3
    · exact check_stmts_children_trace cs _ _ _ h
end

theorem check_for_children_trace (cs : List Lnast_node) :
    ∀ (s s' : Semantic_pass) (st : Bool) (k : Nat) (v : Bool × Nat),
      check_for_children s cs st k = .ok s' v →
      Reads_eq s' (note_events s (for_events cs)) := by
  induction cs with
  | nil => intro s s' st k v h; cases h; exact reads_eq_refl _
  | cons c cs ih =>
    intro s s' st k v h
    rw [check_for_children] at h
    rw [for_events]
    split_ifs at h ⊢ with h0 h1
    · cases hc : check_stmts_children s c.children with
      | error s1 e => rw [hc] at h; cases h
      | ok s1 u =>
        rw [hc] at h
        exact reads_chain (check_stmts_children_trace _ _ _ _ hc) (ih _ _ _ _ _ h)
    · exact ih _ _ _ _ _ h

theorem check_for_op_trace (x : Lnast_node) (s s' : Semantic_pass) (v : Unit)
    (h : check_for_op s x = .ok s' v) : Reads_eq s' (note_events s (for_events x.children)) := by
  unfold check_for_op at h
  cases hc : check_for_children s x.children false 0 with
  | error s1 e => rw [hc] at h; cases h
  | ok s1 u =>
    rw [hc] at h
    have h4 := check_for_children_trace _ _ _ _ _ _ hc
    obtain ⟨a, b⟩ := u
    simp only [] at h
    split_ifs at h
    cases h
    exact h4

theorem check_while_cond_trace (s s' : Semantic_pass) (cs : List Lnast_node) (v : Unit)
    (h : check_while_cond s cs = .ok s' v) : s' = s := by
  unfold check_while_cond at h
  split_ifs at h
  match cs, h with
  | [], h => cases h
  | cc :: rest, h =>
    simp only [] at h
    split_ifs at h
    cases h
    rfl

theorem check_while_children_trace (cs : List Lnast_node) :
    ∀ (s s' : Semantic_pass) (a b : Bool) (v : Bool × Bool),
      check_while_children s cs a b = .ok s' v →
      Reads_eq s' (note_events s (while_events cs)) := by
  induction cs with
  | nil => intro s s' a b v h; cases h; exact reads_eq_refl _
  | cons c cs ih =>
    intro s s' a b v h
    rw [check_while_children] at h
    rw [while_events]
    split_ifs at h ⊢ with h0 h1
    · cases hc : check_while_cond s c.children with
      | error s1 e => rw [hc] at h; cases h
      | ok s1 u =>
        rw [hc] at h
        have h2 := check_while_cond_trace _ _ _ _ hc
        subst h2
        exact ih _ _ _ _ _ h
    · cases hc : check_stmts_children s c.children with
      | error s1 e => rw [hc] at h; cases h
      | ok s1 u =>
        rw [hc] at h
        exact reads_chain (check_stmts_children_trace _ _ _ _ hc) (ih _ _ _ _ _ h)

theorem check_while_op_trace (x : Lnast_node) (s s' : Semantic_pass) (v : Unit)
    (h : check_while_op s x = .ok s' v) :
    Reads_eq s' (note_events s (while_events x.children)) := by
  unfold check_while_op at h
  cases hc : check_while_children s x.children false false with
  | error s1 e => rw [hc] at h; cases h
  | ok s1 u =>
    rw [hc] at h
    have h4 := check_while_children_trace _ _ _ _ _ _ hc
    obtain ⟨a, b⟩ := u
    simp only [] at h
    split_ifs at h
    cases h
    exact h4

theorem check_func_def_cond_trace (s s' : Semantic_pass) (cs : List Lnast_node) (v : Unit)
    (h : check_func_def_cond s cs = .ok s' v) : s' = s := by
  unfold check_func_def_cond at h
  split_ifs at h
  match cs, h with
  | [], h => cases h
  | cc :: rest, h =>
    simp only [] at h
    split_ifs at h
    cases h
    rfl

theorem check_func_def_children_trace (cs : List Lnast_node) :
    ∀ (s s' : Semantic_pass) (f : Bool) (k : Nat) (a b : Bool) (v : Nat × Bool × Bool),
      check_func_def_children s cs f k a b = .ok s' v →
      Reads_eq s' (note_events s (func_def_events cs f)) := by
  induction cs with
  | nil => intro s s' f k a b v h; cases h; exact reads_eq_refl _
  | cons c cs ih =>
    intro s s' f k a b v h
    rw [check_func_def_children] at h
    rw [func_def_events]
    have key : ∀ t : Semantic_pass, ∀ k0 : Nat,
        (if (c.type = .cstmts || c.type = .stmts) = true then
          match check_stmts_children t c.children with
          | .error s1 e => Outcome.error s1 e
          | .ok s1 _ =>
            check_func_def_children s1 cs false k0 a (if c.type = .stmts then true else b)
        else if c.type = .cond then
          match check_func_def_cond t c.children with
          | .error s1 e => .error s1 e
          | .ok s1 _ => check_func_def_children s1 cs false k0 true b
        else if c.type = .ref then check_func_def_children t cs false (k0 + 1) a b
        else .error t (.msg "Func Def Operation Error: Not a Valid Node Type\n")) = .ok s' v →
        Reads_eq s' (note_events t
          (if (c.type = .cstmts || c.type = .stmts) = true then
            stmts_children_events c.children ++ func_def_events cs false
          else if c.type = .cond then func_def_events cs false
          else if c.type = .ref then func_def_events cs false
          else [])) := by
      intro t k0 h
      split_ifs at h ⊢ with h0 h1 h2 h3
      · cases hc : check_stmts_children t c.children with
        | error s1 e => rw [hc] at h; cases h
        | ok s1 u =>
          rw [hc] at h
          exact reads_chain (check_stmts_children_trace _ _ _ _ hc) (ih _ _ _ _ _ _ _ h)
      · cases hc : check_stmts_children t c.children with
        | error s1 e => rw [hc] at h; cases h
        | ok s1 u =>
          rw [hc] at h
          exact reads_chain (check_stmts_children_trace _ _ _ _ hc) (ih _ _ _ _ _ _ _ h)
      · cases hc : check_func_def_cond t c.children with
        | error s1 e => rw [hc] at h; cases h
        | ok s1 u =>
          rw [hc] at h
          have h2 := check_func_def_cond_trace _ _ _ _ hc
          subst h2
          exact ih _ _ _ _ _ _ _ h
      · exact ih _ _ _ _ _ _ _ h
    cases f with
    | true =>
      have := key (note_written s c.name) (k + 1) h
      rw [if_pos rfl, note_events_append]
      exact this
    | false =>
      have := key s k h
      simpa using this

theorem check_func_def_trace (x : Lnast_node) (s s' : Semantic_pass) (v : Unit)
    (h : check_func_def s x = .ok s' v) :
    Reads_eq s' (note_events s (func_def_events x.children true)) := by
  unfold check_func_def at h
  cases hc : check_func_def_children s x.children true 0 false false with
  | error s1 e => rw [hc] at h; cases h
  | ok s1 u =>
    rw [hc] at h
    have h4 := check_func_def_children_trace _ _ _ _ _ _ _ _ hc
    obtain ⟨a, b, c⟩ := u
    simp only [] at h
    split_ifs at h
    cases h
    exact h4

theorem check_func_call_children_trace (cs : List Lnast_node) :
    ∀ (s s' : Semantic_pass) (k : Nat) (v : Nat),
      check_func_call_children s cs k = .ok s' v →
      Reads_eq s' (note_events s (func_call_events cs)) := by
  induction cs with
  | nil => intro s s' k v h; cases h; exact reads_eq_refl _
  | cons c cs ih =>
    intro s s' k v h
    rw [check_func_call_children] at h
    rw [func_call_events]
    split_ifs at h ⊢ with h0
    exact ih _ _ _ _ h

theorem check_func_call_trace (x : Lnast_node) (s s' : Semantic_pass) (v : Unit)
    (h : check_func_call s x = .ok s' v) :
    Reads_eq s' (note_events s (func_call_events x.children)) := by
  unfold check_func_call at h
  cases hc : check_func_call_children s x.children 0 with
  | error s1 e => rw [hc] at h; cases h
  | ok s1 u =>
    rw [hc] at h
    have h4 := check_func_call_children_trace _ _ _ _ _ hc
    simp only [] at h
    split_ifs at h
    cases h
    exact h4

theorem check_top_stmt_trace (x : Lnast_node) (s s' : Semantic_pass) (v : Unit)
    (h : check_top_stmt s x = .ok s' v) :
    Reads_eq s' (note_events s (top_stmt_events x)) := by
  unfold check_top_stmt at h
  unfold top_stmt_events
  split_ifs at h ⊢
  · exact check_primitive_ops_trace _ _ _ _ _ h
  · exact check_if_op_trace _ _ _ _ h
  · exact check_for_op_trace _ _ _ _ h
  · exact check_while_op_trace _ _ _ _ h
  · exact check_func_call_trace _ _ _ _ h
  · exact check_func_def_trace _ _ _ _ h
  · cases h; exact reads_eq_refl _

theorem check_top_stmts_trace (cs : List Lnast_node) :
    ∀ (s s' : Semantic_pass) (v : Unit), check_top_stmts s cs = .ok s' v →
      Reads_eq s' (note_events s (top_stmts_events cs)) := by
  induction cs with
  | nil => intro s s' v h; cases h; exact reads_eq_refl _
  | cons c cs ih =>
    intro s s' v h
    rw [check_top_stmts_cons] at h
    rw [top_stmts_events]
    cases hc : check_top_stmt s c with
    | error s1 e => rw [hc] at h; cases h
    | ok s1 u =>
      rw [hc] at h
      exact reads_chain (check_top_stmt_trace _ _ _ _ hc) (ih _ _ _ h)

/-- When no error ends `semantic_check`, the read lists it leaves are those that the
noted writes and reads of the tree produce, in order. -/
theorem semantic_check_trace (top : Lnast_node) (s s' : Semantic_pass)
    (w : Option (List String)) (h : semantic_check s top = .ok s' w) :
    Reads_eq s' (note_events s (semantic_events top)) ∧ w = never_read_warning s' := by
  unfold semantic_check at h
  unfold semantic_events
  match htc : top.children, h with
  | [], h => cases h
  | st :: _, h =>
    simp only [] at h
    cases hc : check_top_stmts s st.children with
    | error s1 e => rw [hc] at h; cases h
    | ok s1 u =>
      rw [hc] at h
      cases h
      exact ⟨check_top_stmts_trace _ _ _ _ hc, rfl⟩

end Semantic_pass

namespace Semantic_pass

theorem erase_read_fst_mem (n m : String) (l : List String) :
    ∀ h : List String, m ∈ (erase_read n l h).1 ↔ (m ∈ l ∧ m ≠ n) := by
  induction l with
  | nil => intro h; simp [erase_read]
  | cons x l ih =>
    intro h
    rw [erase_read]
    by_cases hx : x = n
    · rw [if_pos hx, ih]
      subst hx
      constructor
      · rintro ⟨h1, h2⟩; exact ⟨List.mem_cons_of_mem _ h1, h2⟩
      · rintro ⟨h1, h2⟩
        rcases List.mem_cons.mp h1 with h3 | h3
        · exact absurd h3 h2
        · exact ⟨h3, h2⟩
    · rw [if_neg hx]
      simp only [List.mem_cons, ih]
      constructor
      · rintro (h1 | ⟨h1, h2⟩)
        · subst h1; exact ⟨Or.inl rfl, hx⟩
        · exact ⟨Or.inr h1, h2⟩
      · rintro ⟨h1 | h1, h2⟩
        · exact Or.inl h1
        · exact Or.inr ⟨h1, h2⟩

theorem erase_read_snd_mem (n m : String) (l : List String) :
    ∀ h : List String, m ∈ (erase_read n l h).2 ↔ (m ∈ h ∨ (m = n ∧ n ∈ l)) := by
  induction l with
  | nil => intro h; simp [erase_read]
  | cons x l ih =>
    intro h
    rw [erase_read]
    by_cases hx : x = n
    · rw [if_pos hx, ih]
      subst hx
      simp only [List.mem_append, List.mem_singleton, List.mem_cons, true_or, and_true]
      tauto
    · rw [if_neg hx]
      simp only [ih, List.mem_cons]
      constructor
      · rintro (h1 | ⟨h1, h2⟩)
        · exact Or.inl h1
        · exact Or.inr ⟨h1, Or.inr h2⟩
      · rintro (h1 | ⟨h1, h2 | h2⟩)
        · exact Or.inl h1
        · exact absurd h2.symm hx
        · exact Or.inr ⟨h1, h2⟩

theorem note_written_not_read_mem (s : Semantic_pass) (n m : String) :
    m ∈ (note_written s n).not_read_list ↔
      (m ∈ s.not_read_list ∨
        (m = n ∧ n ∉ s.not_read_list ∧ n ∉ s.have_read_list ∧ n.data.head? ≠ some '%')) := by
  unfold note_written check_for_not_read in_not_read_list in_have_read_list
  by_cases h1 : n ∈ s.not_read_list
  · simp [h1]
  · by_cases h2 : n ∈ s.have_read_list
    · simp [h1, h2]
    · by_cases h3 : n.data.head? = some '%'
      · simp [h1, h2, h3]
      · simp [h1, h2, h3]

theorem note_written_have_read (s : Semantic_pass) (n : String) :
    (note_written s n).have_read_list = s.have_read_list := by
  unfold note_written check_for_not_read in_not_read_list in_have_read_list
  by_cases h1 : n ∈ s.not_read_list
  · simp [h1]
  · simp only [h1, decide_False, Bool.not_false, if_true, Bool.false_eq_true, if_false]
    split_ifs <;> rfl

theorem note_read_not_read_mem (s : Semantic_pass) (n m : String) :
    m ∈ (note_read s n).not_read_list ↔ (m ∈ s.not_read_list ∧ m ≠ n) := by
  unfold note_read check_for_not_read in_not_read_list
  by_cases h1 : n ∈ s.not_read_list
  · simp only [h1, decide_True, if_true]
    exact erase_read_fst_mem _ _ _ _
  · simp only [h1, decide_False, Bool.false_eq_true, if_false]
    constructor
    · intro h; exact ⟨h, fun e => h1 (e ▸ h)⟩
    · intro h; exact h.1

theorem note_read_have_read_mem (s : Semantic_pass) (n m : String) :
    m ∈ (note_read s n).have_read_list ↔
      (m ∈ s.have_read_list ∨ (m = n ∧ n ∈ s.not_read_list)) := by
  unfold note_read check_for_not_read in_not_read_list
  by_cases h1 : n ∈ s.not_read_list
  · simp only [h1, decide_True, if_true]
    rw [erase_read_snd_mem]
    simp [h1]
  · simp [h1]

theorem first_write_unread_written (n : String) (evs : List Rw_event)
    (h : first_write_unread n evs = true) : Rw_event.written n ∈ evs := by
  induction evs with
  | nil => simp [first_write_unread] at h
  | cons e evs ih =>
    cases e with
    | written m =>
      rw [first_write_unread] at h
      by_cases hm : m = n
      · subst hm; exact List.mem_cons_self _ _
      · rw [if_neg hm] at h
        exact List.mem_cons_of_mem _ (ih h)
    | read m =>
      rw [first_write_unread] at h
      exact List.mem_cons_of_mem _ (ih h)

theorem first_write_unread_snoc_written (n m : String) (evs : List Rw_event) :
    first_write_unread n (evs ++ [.written m]) =
      if m = n then (if Rw_event.written n ∈ evs then first_write_unread n evs else true)
      else first_write_unread n evs := by
  induction evs with
  | nil =>
    by_cases hm : m = n
    · simp [first_write_unread, hm]
    · simp [first_write_unread, hm]
  | cons e evs ih =>
    cases e with
    | written k =>
      rw [List.cons_append, first_write_unread, first_write_unread]
      by_cases hk : k = n
      · subst hk
        simp
      · rw [if_neg hk, if_neg hk, ih]
        have : ¬ (Rw_event.written n = Rw_event.written k) := by
          intro e; injection e with e; exact hk e.symm
        simp [this]
    | read k =>
      rw [List.cons_append, first_write_unread, first_write_unread, ih]
      simp

theorem first_write_unread_snoc_read (n m : String) (evs : List Rw_event) :
    first_write_unread n (evs ++ [.read m]) =
      if m = n then (false) else first_write_unread n evs := by
  induction evs with
  | nil => simp [first_write_unread]
  | cons e evs ih =>
    cases e with
    | written k =>
      rw [List.cons_append, first_write_unread, first_write_unread]
      by_cases hk : k = n
      · subst hk
        by_cases hm : m = k
        · subst hm; simp
        · have : ¬ (Rw_event.read k = Rw_event.read m) := by
            intro e; injection e with e; exact hm e.symm
          simp [hm, this]
      · rw [if_neg hk, if_neg hk, ih]
    | read k =>
      rw [List.cons_append, first_write_unread, first_write_unread, ih]

theorem note_events_snoc (s : Semantic_pass) (evs : List Rw_event) (e : Rw_event) :
    note_events s (evs ++ [e]) = note_event (note_events s evs) e := by
  rw [note_events_append]
  rfl

/-- The read lists after a sequence of noted writes and reads, started from empty lists. -/
theorem note_events_fresh_mem (evs : List Rw_event) (n : String) :
    (n ∈ (note_events .fresh evs).not_read_list ↔
      (n.data.head? ≠ some '%' ∧ first_write_unread n evs = true)) ∧
    (n ∈ (note_events .fresh evs).have_read_list ↔
      (n.data.head? ≠ some '%' ∧ Rw_event.written n ∈ evs ∧
        first_write_unread n evs = false)) := by
  induction evs using List.reverseRecOn generalizing n with
  | nil => simp [note_events, fresh, first_write_unread]
  | append_singleton evs e ih =>
    rw [note_events_snoc]
    cases e with
    | written m =>
      show (n ∈ (note_written _ m).not_read_list ↔ _) ∧
        (n ∈ (note_written _ m).have_read_list ↔ _)
      rw [note_written_not_read_mem, note_written_have_read, first_write_unread_snoc_written]
      have hn := ih n
      have hm := ih m
      have hw := first_write_unread_written n evs
      by_cases hmn : m = n
      · subst hmn
        rw [hn.1, hn.2]
        simp only [if_true, List.mem_append, List.mem_singleton, or_true, true_and]
        by_cases hp : m.data.head? = some '%'
        · simp [hp]
        · by_cases hwm : Rw_event.written m ∈ evs
          · simp only [hp, hwm, if_true, not_false_eq_true, true_and, ne_eq]
            cases hu : first_write_unread m evs <;> simp
          · have hu : first_write_unread m evs = false := by
              cases hu : first_write_unread m evs
              · rfl
              · exact absurd (hw hu) hwm
            simp [hp, hwm, hu]
      · have h1 : ¬ (n = m) := fun e => hmn e.symm
        have h2 : ¬ (Rw_event.written n = Rw_event.written m) := by
          intro e; injection e with e; exact h1 e
        rw [hn.1, hn.2]
        simp [hmn, h1, h2]
    | read m =>
      show (n ∈ (note_read _ m).not_read_list ↔ _) ∧
        (n ∈ (note_read _ m).have_read_list ↔ _)
      rw [note_read_not_read_mem, note_read_have_read_mem, first_write_unread_snoc_read]
      have hn := ih n
      have hw := first_write_unread_written n evs
      by_cases hmn : m = n
      · subst hmn
        rw [hn.1, hn.2]
        simp only [if_true, List.mem_append, List.mem_singleton, ne_eq, not_true_eq_false,
          and_false, false_iff, true_and]
        constructor
        · simp
        · by_cases hp : m.data.head? = some '%'
          · simp [hp]
          · cases hu : first_write_unread m evs
            · simp [hp]
            · simp [hp, hw hu]
      · have h1 : ¬ (n = m) := fun e => hmn e.symm
        rw [hn.1, hn.2]
        simp [hmn, h1]

end Semantic_pass

/-- C16 (as stated, refuted): on `stmts(assign(x, y))` the warning at the end of
`semantic_check` lists `x`, a name without the `___` prefix. -/
theorem warning_lists_plain_name_counterexample :
    Semantic_pass.semantic_check .fresh
        (lnast_of_stmts [.mk .assign "" [ref_node "x", ref_node "y"]])
      = .ok { temp_list := [], not_read_list := ["x"], have_read_list := [] } (some ["x"]) ∧
    Semantic_pass.is_temp_var "x" = false := by
  refine ⟨by rfl, by decide⟩

/-- C16 (amended): when `semantic_check`, run on a fresh `Semantic_pass`, raises no error,
the names of the "written but never read" warning are exactly the names that do not start
with the output sigil `%`, are noted as written in the tree, and are not noted as read
after their first write, whether they have the `___` prefix or not. -/
theorem warning_lists_unread_writes (lnast : Lnast_node) (s' : Semantic_pass)
    (w : Option (List String)) (node_name : String)
    (h : Semantic_pass.semantic_check .fresh lnast = .ok s' w) :
    node_name ∈ w.getD [] ↔
      (node_name.data.head? ≠ some '%' ∧
        first_write_unread node_name (Semantic_pass.semantic_events lnast) = true) := by
  obtain ⟨h1, h2⟩ := Semantic_pass.semantic_check_trace lnast _ _ _ h
  have h3 : w.getD [] = s'.not_read_list := by
    rw [h2]
    unfold Semantic_pass.never_read_warning
    split_ifs with h4
    · rfl
    · simp only [ne_eq, List.length_eq_zero, not_not] at h4
      simp [h4]
  rw [h3, h1.1]
  exact (Semantic_pass.note_events_fresh_mem _ _).1

/-- Witness of `warning_lists_unread_writes`: in
`stmts(assign(x, a), assign(b, x), assign(x, c))` the name `b` is listed, and `x`, read
after its first write, is not. -/
theorem warning_lists_unread_writes_witness :
    ("b" ∈ (some ["b"] : Option (List String)).getD [] ↔
      (("b" : String).data.head? ≠ some '%' ∧
        first_write_unread "b" (Semantic_pass.semantic_events
          (lnast_of_stmts [.mk .assign "" [ref_node "x", ref_node "a"],
            .mk .assign "" [ref_node "b", ref_node "x"],
            .mk .assign "" [ref_node "x", ref_node "c"]])) = true)) :=
  warning_lists_unread_writes
    (lnast_of_stmts [.mk .assign "" [ref_node "x", ref_node "a"],
      .mk .assign "" [ref_node "b", ref_node "x"],
      .mk .assign "" [ref_node "x", ref_node "c"]])
    { temp_list := [], not_read_list := ["b"], have_read_list := ["x"] }
    (some ["b"]) "b" (by rfl)

/-! ## Lemmas on the shapes of the emitted nodes -/

theorem all_ok_list_append (p : Lnast_node → Bool) (a b : List Lnast_node) :
    all_ok_list p (a ++ b) = (all_ok_list p a && all_ok_list p b) := by
  induction a with
  | nil => simp [all_ok_list]
  | cons x xs ih => simp [all_ok_list, ih, Bool.and_assoc]

namespace Emits

theorem pure_ok {α : Type} (a : α) (Q : α → Prop) (h : Q a) : Emits (pure a : Lower α) Q := by
  refine ⟨fun st v st1 out hm => ?_⟩
  cases hm
  exact ⟨h, rfl⟩

theorem ret_ok {α : Type} (a : α) (Q : α → Prop) (h : Q a) : Emits (Lower.ret a) Q :=
  pure_ok a Q h

theorem fail_ok {α : Type} (e : Fir_error) (Q : α → Prop) : Emits (Lower.fail e : Lower α) Q := by
  refine ⟨fun st v st1 out hm => ?_⟩
  cases hm

theorem get_ok : Emits Lower.get fun _ => True := by
  refine ⟨fun st v st1 out hm => ?_⟩
  cases hm
  exact ⟨trivial, rfl⟩

theorem modify_ok (f : Inou_firrtl → Inou_firrtl) : Emits (Lower.modify f) fun _ => True := by
  refine ⟨fun st v st1 out hm => ?_⟩
  cases hm
  exact ⟨trivial, rfl⟩

theorem emit_ok (n : Lnast_node) (h : all_ok node_ok n = true) :
    Emits (Lower.emit n) fun _ => True := by
  refine ⟨fun st v st1 out hm => ?_⟩
  cases hm
  exact ⟨trivial, by simp [all_ok_list, h]⟩

theorem seq_ok {α β : Type} {m : Lower α} {f : α → Lower β} {Q : α → Prop} {R : β → Prop}
    (hm : Emits m Q) (hf : ∀ a, Q a → Emits (f a) R) : Emits (Lower.seq m f) R := by
  refine ⟨fun st v st1 out h => ?_⟩
  unfold Lower.seq at h
  cases h1 : m st with
  | error e => rw [h1] at h; cases h
  | ok a st2 out1 =>
    rw [h1] at h
    dsimp only at h
    obtain ⟨qa, o1⟩ := hm.ok st a st2 out1 h1
    cases h2 : f a st2 with
    | error e => rw [h2] at h; cases h
    | ok b st3 out2 =>
      rw [h2] at h
      cases h
      obtain ⟨rb, o2⟩ := (hf a qa).ok _ _ _ _ h2
      exact ⟨rb, by rw [all_ok_list_append, o1, o2]; rfl⟩

theorem bind_ok {α β : Type} {m : Lower α} {f : α → Lower β} {Q : α → Prop} {R : β → Prop}
    (hm : Emits m Q) (hf : ∀ a, Q a → Emits (f a) R) : Emits (m >>= f) R :=
  seq_ok hm hf

theorem weaken {α : Type} {m : Lower α} {Q R : α → Prop} (hm : Emits m Q)
    (h : ∀ a, Q a → R a) : Emits m R := by
  refine ⟨fun st v st1 out hv => ?_⟩
  obtain ⟨q, o⟩ := hm.ok st v st1 out hv
  exact ⟨h v q, o⟩

theorem children_of_ok {m : Lower Unit} {Q : Unit → Prop} (hm : Emits m Q) :
    Emits (Lower.children_of m) fun v => all_ok_list node_ok v = true := by
  refine ⟨fun st v st1 out h => ?_⟩
  unfold Lower.children_of at h
  cases h1 : m st with
  | error e => rw [h1] at h; cases h
  | ok a st2 out1 =>
    rw [h1] at h
    cases h
    exact ⟨(hm.ok _ _ _ _ h1).2, rfl⟩

theorem for_each_ok {α : Type} (l : List α) (f : α → Lower Unit)
    (hf : ∀ a ∈ l, Emits (f a) fun _ => True) : Emits (Lower.for_each l f) fun _ => True := by
  induction l with
  | nil => exact ret_ok _ _ trivial
  | cons a rest ih =>
    rw [Lower.for_each]
    exact seq_ok (hf a (List.mem_cons_self _ _))
      fun _ _ => ih fun b hb => hf b (List.mem_cons_of_mem _ hb)

end Emits

theorem all_ok_leaves (cs : List Lnast_node)
    (h : ∀ c ∈ cs, c.children = [] ∧ (c.type = .ref ∨ c.type = .const)) :
    all_ok_list node_ok cs = true := by
  induction cs with
  | nil => rfl
  | cons c cs ih =>
    obtain ⟨t, n, k⟩ := c
    have hc := h (.mk t n k) (List.mem_cons_self _ _)
    simp only [Lnast_node.children, Lnast_node.type] at hc
    obtain ⟨hk, ht⟩ := hc
    subst hk
    have ih1 := ih fun c hc => h c (List.mem_cons_of_mem _ hc)
    rw [all_ok_list, all_ok, ih1]
    rcases ht with ht | ht <;> subst ht <;> rfl

theorem plain_ok (n : Lnast_node) (h : Plain n) : all_ok node_ok n = true := by
  obtain ⟨t, nm, k⟩ := n
  obtain ⟨ht, hk⟩ := h
  simp only [Lnast_node.children, Lnast_node.type] at ht hk
  rw [all_ok, all_ok_leaves k hk]
  rcases ht with ht | ht <;> subst ht <;> rfl

theorem ref_node_leaf (x : String) :
    (ref_node x).children = [] ∧ ((ref_node x).type = .ref ∨ (ref_node x).type = .const) :=
  ⟨rfl, Or.inl rfl⟩

theorem const_node_leaf (x : String) :
    (const_node x).children = [] ∧
      ((const_node x).type = .ref ∨ (const_node x).type = .const) :=
  ⟨rfl, Or.inr rfl⟩

namespace Inou_firrtl

theorem AttachExprStrToNode_leaf (s : String) :
    (AttachExprStrToNode s).children = [] ∧
      ((AttachExprStrToNode s).type = .ref ∨ (AttachExprStrToNode s).type = .const) := by
  unfold AttachExprStrToNode
  dsimp only
  split_ifs
  · exact const_node_leaf s
  · exact ref_node_leaf s

theorem add_child_plain (n : Lnast_node) (x : String) (h : Plain n) :
    Plain (add_child n (ref_node x)) := by
  obtain ⟨t, nm, k⟩ := n
  obtain ⟨ht, hk⟩ := h
  refine ⟨ht, ?_⟩
  intro c hc
  simp only [add_child, Lnast_node.children, List.mem_append, List.mem_singleton] at hc
  rcases hc with hc | hc
  · exact hk c hc
  · subst hc; exact ref_node_leaf x

theorem create_temp_var_ok : Emits create_temp_var fun _ => True := by
  refine ⟨fun st v st1 out h => ?_⟩
  cases h
  exact ⟨trivial, rfl⟩

theorem get_new_seq_name_ok : Emits get_new_seq_name fun _ => True := by
  refine ⟨fun st v st1 out h => ?_⟩
  cases h
  exact ⟨trivial, rfl⟩

theorem PortDirInference_ok (p m : String) (r : Bool) :
    Emits (PortDirInference p m r) fun _ => True := by
  refine ⟨fun st v st1 out h => ?_⟩
  unfold PortDirInference at h
  dsimp only at h
  split_ifs at h <;> cases h <;> exact ⟨trivial, rfl⟩

theorem I_ok (c : Bool) (t : String) : Emits (I c t) fun _ => True := by
  unfold I
  split_ifs
  · exact Emits.pure_ok _ _ trivial
  · exact Emits.fail_ok _ _

theorem arg_at_ok (arg : List Fir_expression) (i : Nat) : Emits (arg_at arg i) fun _ => True := by
  unfold arg_at
  split
  · exact Emits.pure_ok _ _ trivial
  · exact Emits.fail_ok _ _

theorem const_at_ok (c : List String) (i : Nat) : Emits (const_at c i) fun _ => True := by
  unfold const_at
  split
  · exact Emits.pure_ok _ _ trivial
  · exact Emits.fail_ok _ _

theorem dots_sels_loop_ok (q : List String) :
    ∀ (sel : Bool) (bund : String) (done : List Lnast_node) (ln_node : Option Lnast_node),
      (∀ n ∈ done, Plain n) → (∀ n, ln_node = some n → Plain n) →
      Emits (dots_sels_loop q sel bund done ln_node) fun v =>
        (∀ n ∈ v.2, Plain n) ∧ (∀ n, v.1 = some n → Plain n) := by
  induction q with
  | nil =>
    intro sel bund done ln_node hd hl
    rw [dots_sels_loop]
    exact Emits.pure_ok _ _ ⟨hd, hl⟩
  | cons elem0 rest ih =>
    intro sel bund done ln_node hd hl
    unfold dots_sels_loop
    refine Emits.bind_ok Emits.get_ok ?_
    intro st _
    dsimp only
    have hfl : ∀ n ∈ (match ln_node with
        | some n => done ++ [n]
        | none => done), Plain n := by
      cases ln_node with
      | none => exact hd
      | some n0 =>
        intro n hn
        simp only [List.mem_append, List.mem_singleton] at hn
        rcases hn with hn | hn
        · exact hd n hn
        · subst hn; exact hl _ rfl
    split_ifs
    all_goals first
      | (refine Emits.bind_ok create_temp_var_ok ?_
         intro tv _
         apply ih _ _ _ _ hfl
         intro n hn
         cases hn
         refine ⟨by first | exact Or.inr rfl | exact Or.inl rfl, ?_⟩
         intro c hc
         simp only [Lnast_node.children, List.mem_cons, List.mem_singleton, List.not_mem_nil,
           or_false] at hc
         rcases hc with hc | hc | hc <;> subst hc <;>
           first | exact ref_node_leaf _ | exact const_node_leaf _)
      | (cases ln_node with
         | none => exact Emits.fail_ok _ _
         | some n0 =>
           apply ih _ _ _ _ hd
           intro n hn
           cases hn
           exact add_child_plain _ _ (hl _ rfl))

theorem CreateDotsSelsFromStr_ok (s : String) :
    Emits (CreateDotsSelsFromStr s) fun _ => True := by
  unfold CreateDotsSelsFromStr
  split_ifs
  · exact Emits.fail_ok _ _
  · refine Emits.bind_ok Emits.get_ok ?_
    intro st _
    split
    · exact Emits.fail_ok _ _
    · refine Emits.bind_ok
        (dots_sels_loop_ok _ _ _ _ _ (fun _ h => absurd h (List.not_mem_nil _))
          (fun _ h => by cases h)) ?_
      rintro ⟨ln_node, done⟩ ⟨h1, h2⟩
      dsimp only
      cases ln_node with
      | none => exact Emits.fail_ok _ _
      | some n =>
        dsimp only
        refine Emits.bind_ok (Emits.for_each_ok _ _ ?_) ?_
        · intro a ha
          apply Emits.emit_ok
          apply plain_ok
          simp only [List.mem_append, List.mem_singleton] at ha
          rcases ha with ha | ha
          · exact h1 a ha
          · subst ha; exact h2 _ rfl
        · intro _ _
          split
          · exact Emits.pure_ok _ _ trivial
          · exact Emits.fail_ok _ _

end Inou_firrtl

theorem node_leaves_ok (t : Lnast_ntype) (nm : String) (cs : List Lnast_node)
    (h1 : t ≠ .if_) (h2 : t ≠ .func_call)
    (h : ∀ c ∈ cs, c.children = [] ∧ (c.type = .ref ∨ c.type = .const)) :
    all_ok node_ok (.mk t nm cs) = true := by
  rw [all_ok, all_ok_leaves cs h]
  simp [node_ok, if_node_ok, func_call_ok, Lnast_node.type, h1, h2]

theorem leaves_cons (c : Lnast_node) (cs : List Lnast_node)
    (hc : c.children = [] ∧ (c.type = .ref ∨ c.type = .const))
    (h : ∀ x ∈ cs, x.children = [] ∧ (x.type = .ref ∨ x.type = .const)) :
    ∀ x ∈ c :: cs, x.children = [] ∧ (x.type = .ref ∨ x.type = .const) := by
  intro x hx
  rcases List.mem_cons.mp hx with hx | hx
  · subst hx; exact hc
  · exact h x hx

theorem leaves_nil :
    ∀ x ∈ ([] : List Lnast_node), x.children = [] ∧ (x.type = .ref ∨ x.type = .const) :=
  fun _ h => absurd h (List.not_mem_nil _)

theorem func_call_leaves_ok (nm lhs : String) (second : Lnast_node) (rest : List Lnast_node)
    (hn : nm ≠ "")
    (h : ∀ c ∈ second :: rest, c.children = [] ∧ (c.type = .ref ∨ c.type = .const)) :
    all_ok node_ok (.mk .func_call nm (ref_node lhs :: second :: rest)) = true := by
  rw [all_ok, all_ok_leaves _ (leaves_cons _ _ (ref_node_leaf lhs) h)]
  simp only [node_ok, if_node_ok, func_call_ok, child_types, Lnast_node.type,
    Lnast_node.children, Lnast_node.name, List.map_cons, ref_node, hn]
  simp only [reduceCtorEq, if_false, if_true, Bool.true_and, Bool.and_true, decide_True,
    List.all_cons, Bool.and_eq_true, Bool.or_eq_true, decide_eq_true_eq, List.all_eq_true,
    List.mem_map, forall_exists_index, and_imp, forall_apply_eq_imp_iff₂]
  exact ⟨(h second (List.mem_cons_self _ _)).2,
    fun a ha => (h a (List.mem_cons_of_mem _ ha)).2⟩

namespace Inou_firrtl

theorem two_expr_callee_ne (op : Fir_op) (callee : String)
    (h : two_expr_callee op = some callee) : callee ≠ "" := by
  cases op <;> simp [two_expr_callee] at h <;> subst h <;> decide

theorem static_shift_callee_ne (op : Fir_op) (callee : String)
    (h : static_shift_callee op = some callee) : callee ≠ "" := by
  cases op <;> simp [static_shift_callee] at h <;> subst h <;> decide

theorem type_conv_callee_ne (op : Fir_op) (callee : String)
    (h : type_conv_callee op = some callee) : callee ≠ "" := by
  cases op <;> simp [type_conv_callee] at h <;> subst h <;> decide


theorem get_full_name_ok (term : String) (r : Bool) :
    Emits (get_full_name term r) fun _ => True := by
  unfold get_full_name
  with_reducible repeat' first
    | exact Emits.pure_ok _ _ trivial
    | exact Emits.get_ok
    | exact PortDirInference_ok _ _ _
    | exact CreateDotsSelsFromStr_ok _
    | (apply Emits.bind_ok (Q := fun _ => True))
    | intro _
    | split_ifs

theorem create_bitwidth_dot_node_ok (bw : Nat) (id : String) (s : Bool) :
    Emits (create_bitwidth_dot_node bw id s) fun _ => True := by
  unfold create_bitwidth_dot_node
  with_reducible repeat' first
    | exact Emits.pure_ok _ _ trivial
    | exact CreateDotsSelsFromStr_ok _
    | exact ref_node_leaf _
    | exact const_node_leaf _
    | exact leaves_nil
    | apply leaves_cons
    | (apply node_leaves_ok _ _ _ (by decide) (by decide))
    | apply Emits.emit_ok
    | (apply Emits.bind_ok (Q := fun _ => True))
    | intro _
    | split_ifs

theorem assign_or_dp_assign_ok (lhs : String) (rhs : Lnast_node)
    (h : rhs.children = [] ∧ (rhs.type = .ref ∨ rhs.type = .const)) :
    Emits (assign_or_dp_assign lhs rhs) fun _ => True := by
  unfold assign_or_dp_assign
  split_ifs
  all_goals
    apply Emits.emit_ok
    exact node_leaves_ok _ _ _ (by decide) (by decide)
      (leaves_cons _ _ (ref_node_leaf _) (leaves_cons _ _ h leaves_nil))

theorem bund_vec_full_str_ok (s : String) (r : Bool) :
    Emits (bund_vec_full_str s r) fun _ => True := by
  unfold bund_vec_full_str
  with_reducible repeat' first
    | exact Emits.pure_ok _ _ trivial
    | exact Emits.get_ok
    | exact PortDirInference_ok _ _ _
    | exact get_full_name_ok _ _
    | exact ref_node_leaf _
    | exact const_node_leaf _
    | exact leaves_nil
    | apply leaves_cons
    | (apply node_leaves_ok _ _ _ (by decide) (by decide))
    | apply Emits.emit_ok
    | (apply Emits.bind_ok (Q := fun _ => True))
    | intro _
    | split_ifs

theorem bund_vec_create_ok (s : String) :
    Emits (bund_vec_create s) fun _ => True := by
  unfold bund_vec_create
  with_reducible repeat' first
    | exact Emits.fail_ok _ _
    | exact CreateDotsSelsFromStr_ok _
    | split_ifs

theorem bund_vec_memory_ok (s full : String) (r : Bool) :
    Emits (bund_vec_memory s full r) fun _ => True := by
  unfold bund_vec_memory
  with_reducible repeat' first
    | exact Emits.pure_ok _ _ trivial
    | exact bund_vec_create_ok _
    | split_ifs
    | dsimp only

theorem bund_vec_instance_ok (s full : String) :
    Emits (bund_vec_instance s full) fun _ => True := by
  unfold bund_vec_instance
  with_reducible repeat' first
    | exact Emits.fail_ok _ _
    | exact Emits.get_ok
    | exact Emits.modify_ok _
    | exact bund_vec_create_ok _
    | (apply Emits.bind_ok (Q := fun _ => True))
    | intro _
    | split_ifs

theorem HandleBundVecAcc_flat_ok (s : String) (r : Bool) :
    Emits (HandleBundVecAcc_flat s r) fun _ => True := by
  unfold HandleBundVecAcc_flat
  with_reducible repeat' first
    | exact Emits.get_ok
    | exact bund_vec_full_str_ok _ _
    | exact bund_vec_memory_ok _ _ _
    | exact bund_vec_instance_ok _ _
    | exact bund_vec_create_ok _
    | (apply Emits.bind_ok (Q := fun _ => True))
    | intro _
    | split_ifs
    | dsimp only

theorem initial_reference_ok (id lhs : String) :
    Emits (initial_reference id lhs) fun _ => True := by
  unfold initial_reference
  with_reducible repeat' first
    | exact Emits.get_ok
    | exact PortDirInference_ok _ _ _
    | exact CreateDotsSelsFromStr_ok _
    | exact get_full_name_ok _ _
    | exact assign_or_dp_assign_ok _ _ (ref_node_leaf _)
    | exact ref_node_leaf _
    | exact const_node_leaf _
    | exact leaves_nil
    | apply leaves_cons
    | (apply node_leaves_ok _ _ _ (by decide) (by decide))
    | apply Emits.emit_ok
    | (apply Emits.bind_ok (Q := fun _ => True))
    | intro _
    | split_ifs

theorem return_reference_ok (id : String) (r : Bool) :
    Emits (return_reference id r) fun _ => True := by
  unfold return_reference
  with_reducible repeat' first
    | exact Emits.pure_ok _ _ trivial
    | exact Emits.get_ok
    | exact PortDirInference_ok _ _ _
    | exact CreateDotsSelsFromStr_ok _
    | exact get_full_name_ok _ _
    | exact ref_node_leaf _
    | exact const_node_leaf _
    | exact leaves_nil
    | apply leaves_cons
    | (apply node_leaves_ok _ _ _ (by decide) (by decide))
    | apply Emits.emit_ok
    | (apply Emits.bind_ok (Q := fun _ => True))
    | intro _
    | split_ifs

theorem HandleMuxAssign_ok (ret : Return_expr) (hret : ∀ e r, Emits (ret e r) fun _ => True)
    (init : Initial_expr) (hinit : ∀ e l, Emits (init e l) fun _ => True)
    (c t f : Fir_expression) (lhs : String) :
    Emits (HandleMuxAssign ret init c t f lhs) fun _ => True := by
  unfold HandleMuxAssign
  refine Emits.bind_ok (get_full_name_ok _ _) ?_
  intro lhs_full _
  refine Emits.bind_ok (Emits.emit_ok _ ?_) ?_
  · exact node_leaves_ok _ _ _ (by decide) (by decide)
      (leaves_cons _ _ (ref_node_leaf _) (leaves_cons _ _ (const_node_leaf _) leaves_nil))
  intro _ _
  refine Emits.bind_ok (hret _ _) ?_
  intro cond_str _
  refine Emits.bind_ok get_new_seq_name_ok ?_
  intro seq_tr _
  refine Emits.bind_ok get_new_seq_name_ok ?_
  intro seq_f _
  refine Emits.bind_ok (Emits.children_of_ok (hinit _ _)) ?_
  intro stmt_tr h1
  refine Emits.bind_ok (Emits.children_of_ok (hinit _ _)) ?_
  intro stmt_f h2
  apply Emits.emit_ok
  simp [all_ok, all_ok_list, node_ok, if_node_ok, func_call_ok, child_types, Lnast_node.type,
    Lnast_node.name, Lnast_node.children, h1, h2]

theorem HandleValidIfAssign_ok (ret : Return_expr) (hret : ∀ e r, Emits (ret e r) fun _ => True)
    (init : Initial_expr) (hinit : ∀ e l, Emits (init e l) fun _ => True)
    (c v : Fir_expression) (lhs : String) :
    Emits (HandleValidIfAssign ret init c v lhs) fun _ => True := by
  unfold HandleValidIfAssign
  refine Emits.bind_ok (hinit _ _) ?_
  intro _ _
  refine Emits.bind_ok (hret _ _) ?_
  intro cond_str _
  refine Emits.bind_ok get_new_seq_name_ok ?_
  intro seq_tr _
  refine Emits.bind_ok (Emits.children_of_ok (hinit _ _)) ?_
  intro stmt_tr h1
  apply Emits.emit_ok
  simp [all_ok, all_ok_list, node_ok, if_node_ok, func_call_ok, child_types, Lnast_node.type,
    Lnast_node.name, Lnast_node.children, h1]

theorem HandleUnaryOp_ok (ret : Return_expr) (hret : ∀ e r, Emits (ret e r) fun _ => True)
    (callee : String) (arg : List Fir_expression) (lhs : String) (hn : callee ≠ "") :
    Emits (HandleUnaryOp ret callee arg lhs) fun _ => True := by
  unfold HandleUnaryOp
  with_reducible repeat' first
    | exact I_ok _ _
    | exact arg_at_ok _ _
    | exact hret _ _
    | exact ref_node_leaf _
    | exact const_node_leaf _
    | exact leaves_nil
    | apply leaves_cons
    | (apply func_call_leaves_ok _ _ _ _ (by assumption))
    | apply Emits.emit_ok
    | (apply Emits.bind_ok (Q := fun _ => True))
    | intro _

theorem HandleExtractBitsOp_ok (ret : Return_expr) (hret : ∀ e r, Emits (ret e r) fun _ => True)
    (arg : List Fir_expression) (cs : List String) (lhs : String) :
    Emits (HandleExtractBitsOp ret arg cs lhs) fun _ => True := by
  unfold HandleExtractBitsOp
  with_reducible repeat' first
    | exact I_ok _ _
    | exact arg_at_ok _ _
    | exact const_at_ok _ _
    | exact hret _ _
    | exact ref_node_leaf _
    | exact const_node_leaf _
    | exact leaves_nil
    | apply leaves_cons
    | (apply func_call_leaves_ok _ _ _ _ (by decide))
    | apply Emits.emit_ok
    | (apply Emits.bind_ok (Q := fun _ => True))
    | intro _

theorem HandleHeadOp_ok (ret : Return_expr) (hret : ∀ e r, Emits (ret e r) fun _ => True)
    (callee : String) (arg : List Fir_expression) (cs : List String) (lhs : String) (hn : callee ≠ "") :
    Emits (HandleHeadOp ret callee arg cs lhs) fun _ => True := by
  unfold HandleHeadOp
  with_reducible repeat' first
    | exact I_ok _ _
    | exact arg_at_ok _ _
    | exact const_at_ok _ _
    | exact hret _ _
    | exact ref_node_leaf _
    | exact const_node_leaf _
    | exact leaves_nil
    | apply leaves_cons
    | (apply func_call_leaves_ok _ _ _ _ (by assumption))
    | apply Emits.emit_ok
    | (apply Emits.bind_ok (Q := fun _ => True))
    | intro _

theorem HandleConcatOp_ok (ret : Return_expr) (hret : ∀ e r, Emits (ret e r) fun _ => True)
    (arg : List Fir_expression) (lhs : String) :
    Emits (HandleConcatOp ret arg lhs) fun _ => True := by
  unfold HandleConcatOp
  with_reducible repeat' first
    | exact I_ok _ _
    | exact arg_at_ok _ _
    | exact hret _ _
    | exact ref_node_leaf _
    | exact const_node_leaf _
    | exact leaves_nil
    | apply leaves_cons
    | (apply func_call_leaves_ok _ _ _ _ (by decide))
    | apply Emits.emit_ok
    | (apply Emits.bind_ok (Q := fun _ => True))
    | intro _

theorem HandleTwoExprPrimOp_ok (ret : Return_expr) (hret : ∀ e r, Emits (ret e r) fun _ => True)
    (op : Fir_op) (arg : List Fir_expression) (lhs : String) :
    Emits (HandleTwoExprPrimOp ret op arg lhs) fun _ => True := by
  unfold HandleTwoExprPrimOp
  with_reducible repeat' first
    | exact Emits.fail_ok _ _
    | exact I_ok _ _
    | exact arg_at_ok _ _
    | exact hret _ _
    | exact ref_node_leaf _
    | exact const_node_leaf _
    | exact AttachExprStrToNode_leaf _
    | exact leaves_nil
    | apply leaves_cons
    | (apply func_call_leaves_ok _ _ _ _ (two_expr_callee_ne _ _ (by assumption)))
    | apply Emits.emit_ok
    | (apply Emits.bind_ok (Q := fun _ => True))
    | intro _
    | split

theorem HandleStaticShiftOp_ok (ret : Return_expr) (hret : ∀ e r, Emits (ret e r) fun _ => True)
    (op : Fir_op) (arg : List Fir_expression) (cs : List String) (lhs : String) :
    Emits (HandleStaticShiftOp ret op arg cs lhs) fun _ => True := by
  unfold HandleStaticShiftOp
  with_reducible repeat' first
    | exact Emits.fail_ok _ _
    | exact I_ok _ _
    | exact arg_at_ok _ _
    | exact const_at_ok _ _
    | exact hret _ _
    | exact ref_node_leaf _
    | exact const_node_leaf _
    | exact leaves_nil
    | apply leaves_cons
    | (apply func_call_leaves_ok _ _ _ _ (static_shift_callee_ne _ _ (by assumption)))
    | apply Emits.emit_ok
    | (apply Emits.bind_ok (Q := fun _ => True))
    | intro _
    | split

theorem HandleTypeConvOp_ok (ret : Return_expr) (hret : ∀ e r, Emits (ret e r) fun _ => True)
    (op : Fir_op) (arg : List Fir_expression) (cs : List String) (lhs : String) :
    Emits (HandleTypeConvOp ret op arg cs lhs) fun _ => True := by
  unfold HandleTypeConvOp
  with_reducible repeat' first
    | exact Emits.fail_ok _ _
    | exact I_ok _ _
    | exact arg_at_ok _ _
    | exact const_at_ok _ _
    | exact hret _ _
    | exact ref_node_leaf _
    | exact const_node_leaf _
    | exact leaves_nil
    | apply leaves_cons
    | (apply func_call_leaves_ok _ _ _ _ (type_conv_callee_ne _ _ (by assumption)))
    | apply Emits.emit_ok
    | (apply Emits.bind_ok (Q := fun _ => True))
    | intro _
    | split

theorem ListPrimOpInfo_ok (ret : Return_expr) (hret : ∀ e r, Emits (ret e r) fun _ => True)
    (op : Fir_op) (arg : List Fir_expression) (cs : List String) (lhs : String) :
    Emits (ListPrimOpInfo ret op arg cs lhs) fun _ => True := by
  unfold ListPrimOpInfo
  cases op
  all_goals dsimp only
  all_goals with_reducible first
    | exact HandleTwoExprPrimOp_ok ret hret _ _ _
    | exact HandleHeadOp_ok ret hret _ _ _ _ (by decide)
    | exact HandleStaticShiftOp_ok ret hret _ _ _ _
    | exact HandleUnaryOp_ok ret hret _ _ _ (by decide)
    | exact HandleConcatOp_ok ret hret _ _
    | exact HandleExtractBitsOp_ok ret hret _ _ _
    | exact HandleTypeConvOp_ok ret hret _ _ _ _
    | exact Emits.fail_ok _ _

theorem FlattenExpression_ok (ret : Return_expr) (hret : ∀ e r, Emits (ret e r) fun _ => True) :
    ∀ e : Fir_expression, Emits (FlattenExpression ret e) fun _ => True
  | .sub_field e f => by
    rw [FlattenExpression]
    exact Emits.bind_ok (FlattenExpression_ok ret hret e) fun _ _ => Emits.pure_ok _ _ trivial
  | .sub_access e i => by
    rw [FlattenExpression]
    exact Emits.bind_ok (hret _ _) fun _ _ =>
      Emits.bind_ok (FlattenExpression_ok ret hret e) fun _ _ => Emits.pure_ok _ _ trivial
  | .sub_index e i => by
    rw [FlattenExpression]
    exact Emits.bind_ok (FlattenExpression_ok ret hret e) fun _ _ => Emits.pure_ok _ _ trivial
  | .reference id => by
    rw [FlattenExpression]
    exact Emits.pure_ok _ _ trivial
  | .not_set => Emits.fail_ok _ _
  | .uint_literal _ => Emits.fail_ok _ _
  | .sint_literal _ => Emits.fail_ok _ _
  | .valid_if _ _ => Emits.fail_ok _ _
  | .mux _ _ _ => Emits.fail_ok _ _
  | .prim_op _ _ _ => Emits.fail_ok _ _
  | .fixed_literal => Emits.fail_ok _ _

theorem HandleBundVecAcc_ok (ret : Return_expr) (hret : ∀ e r, Emits (ret e r) fun _ => True)
    (e : Fir_expression) (r : Bool) : Emits (HandleBundVecAcc ret e r) fun _ => True := by
  unfold HandleBundVecAcc
  exact Emits.bind_ok (FlattenExpression_ok ret hret e) fun _ _ => HandleBundVecAcc_flat_ok _ _

/-- The shapes hold for every node that the lowering of an expression appends. -/
theorem expr_lowering_ok (fuel : Nat) :
    (∀ e lhs, Emits (InitialExprAdd fuel e lhs) fun _ => True) ∧
    (∀ e r, Emits (ReturnExprString fuel e r) fun _ => True) := by
  induction fuel with
  | zero =>
    constructor
    · intro e lhs; rw [InitialExprAdd]; exact Emits.fail_ok _ _
    · intro e r; rw [ReturnExprString]; exact Emits.fail_ok _ _
  | succ fuel ih =>
    constructor
    · intro e lhs
      rw [InitialExprAdd]
      refine Emits.bind_ok (get_full_name_ok _ _) ?_
      intro lhs1 _
      cases e
      all_goals with_reducible repeat' first
        | exact Emits.pure_ok _ _ trivial
        | exact Emits.fail_ok _ _
        | exact create_temp_var_ok
        | exact assign_or_dp_assign_ok _ _ (ref_node_leaf _)
        | exact assign_or_dp_assign_ok _ _ (const_node_leaf _)
        | exact initial_reference_ok _ _
        | exact return_reference_ok _ _
        | exact HandleValidIfAssign_ok _ ih.2 _ ih.1 _ _ _
        | exact HandleMuxAssign_ok _ ih.2 _ ih.1 _ _ _ _
        | exact HandleBundVecAcc_ok _ ih.2 _ _
        | exact ListPrimOpInfo_ok _ ih.2 _ _ _ _
        | exact ih.2 _ _
        | exact ref_node_leaf _
        | exact const_node_leaf _
        | exact AttachExprStrToNode_leaf _
        | exact leaves_nil
        | apply leaves_cons
        | (apply node_leaves_ok _ _ _ (by decide) (by decide))
        | apply Emits.emit_ok
        | (apply Emits.bind_ok (Q := fun _ => True))
        | intro _
    · intro e r
      cases e
      all_goals rw [ReturnExprString]
      all_goals with_reducible repeat' first
        | exact Emits.pure_ok _ _ trivial
        | exact Emits.fail_ok _ _
        | exact create_temp_var_ok
        | exact assign_or_dp_assign_ok _ _ (ref_node_leaf _)
        | exact assign_or_dp_assign_ok _ _ (const_node_leaf _)
        | exact initial_reference_ok _ _
        | exact return_reference_ok _ _
        | exact HandleValidIfAssign_ok _ ih.2 _ ih.1 _ _ _
        | exact HandleMuxAssign_ok _ ih.2 _ ih.1 _ _ _ _
        | exact HandleBundVecAcc_ok _ ih.2 _ _
        | exact ListPrimOpInfo_ok _ ih.2 _ _ _ _
        | exact ih.2 _ _
        | exact ref_node_leaf _
        | exact const_node_leaf _
        | exact AttachExprStrToNode_leaf _
        | exact leaves_nil
        | apply leaves_cons
        | apply Emits.emit_ok
        | (apply Emits.bind_ok (Q := fun _ => True))
        | intro _

end Inou_firrtl

namespace Inou_firrtl

theorem get_bit_count_ok (t : Fir_type) : Emits (get_bit_count t) fun _ => True := by
  cases t <;> first | exact Emits.pure_ok _ _ trivial | exact Emits.fail_ok _ _

theorem range_for_each_ok (n : Nat) (f : Nat → Lower Unit)
    (hf : ∀ i, Emits (f i) fun _ => True) :
    Emits (Lower.for_each (List.range n) f) fun _ => True :=
  Emits.for_each_ok _ _ fun i _ => hf i

mutual
theorem init_wire_dots_ok : ∀ (t : Fir_type) (id : String),
    Emits (init_wire_dots t id) fun _ => True
  | .bundle_type field, id => by
    rw [init_wire_dots]
    exact init_wire_dots_fields_ok field id
  | .vector_type type size, id => by
    rw [init_wire_dots]
    exact range_for_each_ok _ _ fun i => init_wire_dots_ok type _
  | .fixed_type, id => by
    rw [init_wire_dots]
    exact Emits.fail_ok _ _
  | .async_reset_type, id => by
    rw [init_wire_dots]
    with_reducible repeat' first
      | exact Emits.modify_ok _
      | exact create_bitwidth_dot_node_ok _ _ _
      | exact get_bit_count_ok _
      | (apply Emits.bind_ok (Q := fun _ => True))
      | intro _
  | .sint_type width, id => by
    rw [init_wire_dots]
    with_reducible repeat' first
      | exact Emits.modify_ok _
      | exact create_bitwidth_dot_node_ok _ _ _
      | exact get_bit_count_ok _
      | (apply Emits.bind_ok (Q := fun _ => True))
      | intro _
  | .uint_type width, id => by
    rw [init_wire_dots]
    with_reducible repeat' first
      | exact Emits.modify_ok _
      | exact create_bitwidth_dot_node_ok _ _ _
      | exact get_bit_count_ok _
      | (apply Emits.bind_ok (Q := fun _ => True))
      | intro _
  | .clock_type, id => by
    rw [init_wire_dots]
    with_reducible repeat' first
      | exact Emits.modify_ok _
      | exact create_bitwidth_dot_node_ok _ _ _
      | exact get_bit_count_ok _
      | (apply Emits.bind_ok (Q := fun _ => True))
      | intro _
  | .analog_type width, id => by
    rw [init_wire_dots]
    with_reducible repeat' first
      | exact Emits.modify_ok _
      | exact create_bitwidth_dot_node_ok _ _ _
      | exact get_bit_count_ok _
      | (apply Emits.bind_ok (Q := fun _ => True))
      | intro _
  | .reset_type, id => by
    rw [init_wire_dots]
    with_reducible repeat' first
      | exact Emits.modify_ok _
      | exact create_bitwidth_dot_node_ok _ _ _
      | exact get_bit_count_ok _
      | (apply Emits.bind_ok (Q := fun _ => True))
      | intro _
  | .not_set, id => by
    rw [init_wire_dots]
    with_reducible repeat' first
      | exact Emits.modify_ok _
      | exact create_bitwidth_dot_node_ok _ _ _
      | exact get_bit_count_ok _
      | (apply Emits.bind_ok (Q := fun _ => True))
      | intro _
theorem init_wire_dots_fields_ok : ∀ (fields : List Fir_field) (id : String),
    Emits (init_wire_dots_fields fields id) fun _ => True
  | [], id => by
    rw [init_wire_dots_fields]
    exact Emits.pure_ok _ _ trivial
  | .mk field_id flip field_type :: rest, id => by
    rw [init_wire_dots_fields]
    exact Emits.bind_ok (init_wire_dots_ok field_type _) fun _ _ =>
      init_wire_dots_fields_ok rest id
end

theorem init_reg_ref_dots_ok (fuel : Nat) (id : String) (c r i : Fir_expression) (bw : Nat) (s : Bool) :
    Emits (init_reg_ref_dots fuel id c r i bw s) fun _ => True := by
  unfold init_reg_ref_dots
  with_reducible repeat' first
    | exact Emits.pure_ok _ _ trivial
    | exact Emits.get_ok
    | exact Emits.modify_ok _
    | exact CreateDotsSelsFromStr_ok _
    | exact (expr_lowering_ok _).2 _ _
    | exact FlattenExpression_ok _ (expr_lowering_ok _).2 _
    | exact ref_node_leaf _
    | exact const_node_leaf _
    | exact leaves_nil
    | apply leaves_cons
    | (apply node_leaves_ok _ _ _ (by decide) (by decide))
    | apply Emits.emit_ok
    | (apply Emits.bind_ok (Q := fun _ => True))
    | intro _
    | split_ifs
    | split
    | dsimp only

mutual
theorem init_reg_dots_ok (fuel : Nat) : ∀ (t : Fir_type) (id : String) (c r i : Fir_expression),
    Emits (init_reg_dots fuel t id c r i) fun _ => True
  | .bundle_type field, id, c, r, i => by
    rw [init_reg_dots]
    exact init_reg_dots_fields_ok fuel field id c r i
  | .vector_type type size, id, c, r, i => by
    rw [init_reg_dots]
    exact range_for_each_ok _ _ fun k => init_reg_dots_ok fuel type _ c r i
  | .fixed_type, id, c, r, i => by
    rw [init_reg_dots]
    exact Emits.fail_ok _ _
  | .async_reset_type, id, c, r, i => by
    rw [init_reg_dots]
    with_reducible repeat' first
      | exact Emits.modify_ok _
      | exact get_bit_count_ok _
      | exact init_reg_ref_dots_ok _ _ _ _ _ _ _
      | (apply Emits.bind_ok (Q := fun _ => True))
      | intro _
  | .sint_type width, id, c, r, i => by
    rw [init_reg_dots]
    with_reducible repeat' first
      | exact Emits.modify_ok _
      | exact get_bit_count_ok _
      | exact init_reg_ref_dots_ok _ _ _ _ _ _ _
      | (apply Emits.bind_ok (Q := fun _ => True))
      | intro _
  | .uint_type width, id, c, r, i => by
    rw [init_reg_dots]
    with_reducible repeat' first
      | exact Emits.modify_ok _
      | exact get_bit_count_ok _
      | exact init_reg_ref_dots_ok _ _ _ _ _ _ _
      | (apply Emits.bind_ok (Q := fun _ => True))
      | intro _
  | .clock_type, id, c, r, i => by
    rw [init_reg_dots]
    with_reducible repeat' first
      | exact Emits.modify_ok _
      | exact get_bit_count_ok _
      | exact init_reg_ref_dots_ok _ _ _ _ _ _ _
      | (apply Emits.bind_ok (Q := fun _ => True))
      | intro _
  | .analog_type width, id, c, r, i => by
    rw [init_reg_dots]
    with_reducible repeat' first
      | exact Emits.modify_ok _
      | exact get_bit_count_ok _
      | exact init_reg_ref_dots_ok _ _ _ _ _ _ _
      | (apply Emits.bind_ok (Q := fun _ => True))
      | intro _
  | .reset_type, id, c, r, i => by
    rw [init_reg_dots]
    with_reducible repeat' first
      | exact Emits.modify_ok _
      | exact get_bit_count_ok _
      | exact init_reg_ref_dots_ok _ _ _ _ _ _ _
      | (apply Emits.bind_ok (Q := fun _ => True))
      | intro _
  | .not_set, id, c, r, i => by
    rw [init_reg_dots]
    with_reducible repeat' first
      | exact Emits.modify_ok _
      | exact get_bit_count_ok _
      | exact init_reg_ref_dots_ok _ _ _ _ _ _ _
      | (apply Emits.bind_ok (Q := fun _ => True))
      | intro _
theorem init_reg_dots_fields_ok (fuel : Nat) :
    ∀ (fields : List Fir_field) (id : String) (c r i : Fir_expression),
    Emits (init_reg_dots_fields fuel fields id c r i) fun _ => True
  | [], id, c, r, i => by
    rw [init_reg_dots_fields]
    exact Emits.pure_ok _ _ trivial
  | .mk field_id flip field_type :: rest, id, c, r, i => by
    rw [init_reg_dots_fields]
    exact Emits.bind_ok (init_reg_dots_ok fuel field_type _ c r i) fun _ _ =>
      init_reg_dots_fields_ok fuel rest id c r i
end

theorem HandleMemPort_ok (fuel : Nat) (id mem : String) (e m : Fir_expression) :
    Emits (HandleMemPort fuel id mem e m) fun _ => True := by
  unfold HandleMemPort
  with_reducible repeat' first
    | exact Emits.get_ok
    | exact I_ok _ _
    | exact (expr_lowering_ok _).2 _ _
    | exact ref_node_leaf _
    | exact const_node_leaf _
    | exact AttachExprStrToNode_leaf _
    | exact leaves_nil
    | apply leaves_cons
    | (apply node_leaves_ok _ _ _ (by decide) (by decide))
    | apply Emits.emit_ok
    | (apply Emits.bind_ok (Q := fun _ => True))
    | intro _

theorem create_module_inst_ok (id module_id : String) :
    Emits (create_module_inst id module_id) fun _ => True := by
  unfold create_module_inst
  refine Emits.bind_ok create_temp_var_ok ?_
  intro tv _
  refine Emits.bind_ok Emits.get_ok ?_
  intro st _
  refine Emits.bind_ok (Emits.modify_ok _) ?_
  intro _ _
  refine Emits.bind_ok (Emits.emit_ok _ ?_) ?_
  · exact node_leaves_ok _ _ _ (by decide) (by decide)
      (leaves_cons _ _ (ref_node_leaf _) (leaves_cons _ _ (ref_node_leaf _)
        (leaves_cons _ _ (ref_node_leaf _) leaves_nil)))
  intro _ _
  refine Emits.bind_ok (Emits.emit_ok _ ?_) ?_
  · exact node_leaves_ok _ _ _ (by decide) (by decide)
      (leaves_cons _ _ (ref_node_leaf _) (leaves_cons _ _ (ref_node_leaf _) leaves_nil))
  intro _ _
  refine Emits.bind_ok (Emits.emit_ok _ ?_) ?_
  · rfl
  intro _ _
  refine Emits.bind_ok (Emits.modify_ok _) ?_
  intro _ _
  refine Emits.bind_ok Emits.get_ok ?_
  intro st2 _
  refine Emits.bind_ok (Emits.modify_ok _) ?_
  intro _ _
  refine Emits.for_each_ok _ _ ?_
  intro param _
  refine Emits.bind_ok create_temp_var_ok ?_
  intro tp _
  refine Emits.bind_ok (Emits.emit_ok _ ?_) ?_
  · exact node_leaves_ok _ _ _ (by decide) (by decide)
      (leaves_cons _ _ (ref_node_leaf _) (leaves_cons _ _ (ref_node_leaf _)
        (leaves_cons _ _ (ref_node_leaf _) leaves_nil)))
  intro _ _
  apply Emits.emit_ok
  refine node_leaves_ok _ _ _ (by decide) (by decide)
      (leaves_cons _ _ (ref_node_leaf _) (leaves_cons _ _ ?_ leaves_nil))
  split_ifs
  · exact const_node_leaf _
  · exact ref_node_leaf _

theorem map_each_ok {α β : Type} (l : List α) (f : α → Lower β)
    (hf : ∀ a, Emits (f a) fun _ => True) : Emits (map_each l f) fun _ => True := by
  induction l with
  | nil => exact Emits.pure_ok _ _ trivial
  | cons a rest ih =>
    rw [map_each]
    exact Emits.bind_ok (hf a) fun _ _ => Emits.bind_ok ih fun _ _ => Emits.pure_ok _ _ trivial

theorem map_ref_node_leaves (l : List String) :
    ∀ x ∈ l.map ref_node, x.children = [] ∧ (x.type = .ref ∨ x.type = .const) := by
  intro x hx
  obtain ⟨s, _, rfl⟩ := List.mem_map.mp hx
  exact ref_node_leaf s

theorem stop_node_ok (cond_str clk rv : String) :
    all_ok node_ok (.mk .if_ "stop"
      [.mk .cond cond_str [],
       .mk .if_ "stop"
        [.mk .func_call "stop" [ref_node "null", ref_node "stop", ref_node clk, ref_node rv]]])
      = true := by
  rfl

theorem printf_node_ok (cond_str clk value : String) (args : List String) :
    all_ok node_ok (.mk .if_ "printf"
      [.mk .cond cond_str [],
       .mk .if_ "printf"
        [.mk .func_call "printf"
          ([ref_node "null", ref_node "printf", ref_node clk, ref_node value] ++
            args.map ref_node)]])
      = true := by
  have h := func_call_leaves_ok "printf" "null" (ref_node "printf")
    (ref_node clk :: ref_node value :: args.map ref_node) (by decide)
    (leaves_cons _ _ (ref_node_leaf _) (leaves_cons _ _ (ref_node_leaf _)
      (leaves_cons _ _ (ref_node_leaf _) (map_ref_node_leaves args))))
  have h2 : ([ref_node "null", ref_node "printf", ref_node clk, ref_node value] ++
      args.map ref_node) = ref_node "null" :: ref_node "printf" :: ref_node clk ::
        ref_node value :: args.map ref_node := rfl
  rw [h2]
  rw [all_ok, all_ok_list, all_ok, all_ok_list, all_ok_list, all_ok, all_ok_list, all_ok_list, h]
  rfl

/-- The shapes hold for every node that the lowering of a statement appends. -/
theorem ListStatementInfo_ok (fuel : Nat) :
    ∀ stmt, Emits (ListStatementInfo fuel stmt) fun _ => True := by
  induction fuel with
  | zero => intro stmt; rw [ListStatementInfo]; exact Emits.fail_ok _ _
  | succ fuel ih =>
    intro stmt
    cases stmt with
    | not_set =>
      rw [ListStatementInfo]
      exact Emits.fail_ok _ _
    | wire id type =>
      rw [ListStatementInfo]
      exact init_wire_dots_ok _ _
    | register_ id type clock reset init =>
      rw [ListStatementInfo]
      exact Emits.bind_ok (Emits.modify_ok _) fun _ _ => init_reg_dots_ok _ _ _ _ _ _
    | memory =>
      rw [ListStatementInfo]
      exact Emits.pure_ok _ _ trivial
    | cmemory =>
      rw [ListStatementInfo]
      exact Emits.pure_ok _ _ trivial
    | instance_ id module_id =>
      rw [ListStatementInfo]
      exact create_module_inst_ok _ _
    | node id expression =>
      rw [ListStatementInfo]
      exact (expr_lowering_ok _).1 _ _
    | when predicate consequent otherwise =>
      rw [ListStatementInfo]
      refine Emits.bind_ok ((expr_lowering_ok _).2 _ _) ?_
      intro cond_str _
      refine Emits.bind_ok get_new_seq_name_ok ?_
      intro seq_t _
      refine Emits.bind_ok
        (Emits.children_of_ok (Emits.for_each_ok _ _ fun s _ => ih s)) ?_
      intro stmts_t h1
      split_ifs
      · refine Emits.bind_ok get_new_seq_name_ok ?_
        intro seq_f _
        refine Emits.bind_ok
          (Emits.children_of_ok (Emits.for_each_ok _ _ fun s _ => ih s)) ?_
        intro stmts_f h2
        apply Emits.emit_ok
        simp [all_ok, all_ok_list, node_ok, if_node_ok, func_call_ok, child_types,
          Lnast_node.type, Lnast_node.name, Lnast_node.children, h1, h2]
      · apply Emits.emit_ok
        simp [all_ok, all_ok_list, node_ok, if_node_ok, func_call_ok, child_types,
          Lnast_node.type, Lnast_node.name, Lnast_node.children, h1]
    | stop en clk return_value =>
      rw [ListStatementInfo]
      refine Emits.bind_ok ((expr_lowering_ok _).2 _ _) ?_
      intro stop_cond _
      refine Emits.bind_ok ((expr_lowering_ok _).2 _ _) ?_
      intro stop_clk _
      exact Emits.emit_ok _ (stop_node_ok _ _ _)
    | printf en clk value arg =>
      rw [ListStatementInfo]
      refine Emits.bind_ok ((expr_lowering_ok _).2 _ _) ?_
      intro printf_cond _
      refine Emits.bind_ok ((expr_lowering_ok _).2 _ _) ?_
      intro printf_clk _
      refine Emits.bind_ok (map_each_ok _ _ fun a => (expr_lowering_ok _).2 _ _) ?_
      intro arg_list _
      exact Emits.emit_ok _ (printf_node_ok _ _ _ _)
    | skip =>
      rw [ListStatementInfo]
      exact Emits.pure_ok _ _ trivial
    | connect location expression =>
      rw [ListStatementInfo]
      exact Emits.bind_ok ((expr_lowering_ok _).2 _ _) fun _ _ => (expr_lowering_ok _).1 _ _
    | partial_connect location expression =>
      rw [ListStatementInfo]
      exact Emits.bind_ok ((expr_lowering_ok _).2 _ _) fun _ _ => (expr_lowering_ok _).1 _ _
    | is_invalid =>
      rw [ListStatementInfo]
      exact Emits.pure_ok _ _ trivial
    | memory_port id memory_id expression memory_index direction =>
      rw [ListStatementInfo]
      exact HandleMemPort_ok _ _ _ _ _
    | attach =>
      rw [ListStatementInfo]
      exact Emits.fail_ok _ _

/-- The shapes hold for every node that the lowering of the statements of a module
appends to the top `stmts`. -/
theorem lower_statements_ok (fuel : Nat) (statement : List Fir_statement) :
    Emits (lower_statements fuel statement) fun _ => True :=
  Emits.for_each_ok _ _ fun s _ => ListStatementInfo_ok fuel s

end Inou_firrtl

/-! ## Theorems on the lowering -/

mutual
theorem all_ok_and (p q : Lnast_node → Bool) :
    ∀ n, all_ok (fun x => p x && q x) n = true → all_ok p n = true ∧ all_ok q n = true
  | .mk t nm cs => by
    intro h
    rw [all_ok, Bool.and_eq_true, Bool.and_eq_true] at h
    have h1 := all_ok_list_and p q cs h.2
    rw [all_ok, all_ok, h1.1, h1.2, h.1.1, h.1.2]
    exact ⟨rfl, rfl⟩
theorem all_ok_list_and (p q : Lnast_node → Bool) :
    ∀ l, all_ok_list (fun x => p x && q x) l = true →
      all_ok_list p l = true ∧ all_ok_list q l = true
  | [] => by
    intro _
    exact ⟨rfl, rfl⟩
  | c :: cs => by
    intro h
    rw [all_ok_list, Bool.and_eq_true] at h
    have h1 := all_ok_and p q c h.1
    have h2 := all_ok_list_and p q cs h.2
    rw [all_ok_list, all_ok_list, h1.1, h1.2, h2.1, h2.2]
    exact ⟨rfl, rfl⟩
end

/-- C17 (the code at the failing input): for `node n = add(mux(c, a, b), d)` in a module
with the inputs a, b, c and d, `ReturnExprString` makes the temporary `___F0` for the mux
operand and `HandleMuxAssign` assigns it three times: the pre-assignment and one
assignment in each branch. For `node m = not(validif(c, a))` the temporary `___F0` is
assigned twice. -/
theorem mux_operand_temp_assigned_thrice :
    (Inou_firrtl.lower_statements 4
      [.node "n" (.prim_op .OP_ADD
        [.mux (.reference "c") (.reference "a") (.reference "b"), .reference "d"] [])]
      { Inou_firrtl.empty with input_names := ["a", "b", "c", "d"] }).nodes
      = [.mk .assign "" [ref_node "___F0", const_node "0b?"],
         .mk .if_ "mux"
          [.mk .cond "$c" [],
           .mk .stmts "SEQ0" [.mk .assign "" [ref_node "___F0", ref_node "$a"]],
           .mk .stmts "SEQ1" [.mk .assign "" [ref_node "___F0", ref_node "$b"]]],
         .mk .func_call "__fir_add" [ref_node "n", ref_node "___F0", ref_node "$d"]] ∧
    assign_lhs_count_list "___F0"
      (Inou_firrtl.lower_statements 4
        [.node "n" (.prim_op .OP_ADD
          [.mux (.reference "c") (.reference "a") (.reference "b"), .reference "d"] [])]
        { Inou_firrtl.empty with input_names := ["a", "b", "c", "d"] }).nodes = 3 ∧
    assign_lhs_count_list "___F0"
      (Inou_firrtl.lower_statements 4
        [.node "m" (.prim_op .OP_BIT_NOT [.valid_if (.reference "c") (.reference "a")] [])]
        { Inou_firrtl.empty with input_names := ["a", "b", "c", "d"] }).nodes = 2 := by
  refine ⟨by rfl, by rfl, by rfl⟩

/-- C18 (as stated, refuted): the `if` node that lowering emits for
`when c : node n = a` has two children, a cond and a stmts, and no cstmts. -/
theorem when_if_without_cstmts_counterexample :
    (Inou_firrtl.lower_statements 3 [.when (.reference "c") [.node "n" (.reference "a")] []]
      { Inou_firrtl.empty with input_names := ["a", "c"] }).nodes
      = [.mk .if_ "when"
          [.mk .cond "$c" [],
           .mk .stmts "SEQ0" [.mk .assign "" [ref_node "n", ref_node "$a"]]]] := by
  rfl

/-- C18 (amended): in the nodes that the lowering of the statements of a module appends,
no `if` node has a cstmts child, and the children of every `if` node named `when`, `mux`
or `validIf` are a cond followed by stmts: two stmts for `mux`, one for `validIf`, one or
two for `when`. -/
theorem emitted_if_shape (fuel : Nat) (statement : List Fir_statement) (st st1 : Inou_firrtl)
    (emitted : List Lnast_node)
    (h : Inou_firrtl.lower_statements fuel statement st = .ok () st1 emitted) :
    all_ok_list if_node_ok emitted = true :=
  (all_ok_list_and if_node_ok func_call_ok emitted
    ((Inou_firrtl.lower_statements_ok fuel statement).ok st () st1 emitted h).2).1

/-- Witness of `emitted_if_shape`: a `when` with both parts around a connect of a mux. -/
theorem emitted_if_shape_witness :
    all_ok_list if_node_ok
      [.mk .if_ "when"
        [.mk .cond "$c" [],
         .mk .stmts "SEQ0"
          [.mk .assign "" [ref_node "%out", const_node "0b?"],
           .mk .if_ "mux"
            [.mk .cond "$c" [],
             .mk .stmts "SEQ1" [.mk .dp_assign "" [ref_node "%out", ref_node "$a"]],
             .mk .stmts "SEQ2" [.mk .dp_assign "" [ref_node "%out", ref_node "$b"]]]],
         .mk .stmts "SEQ3" [.mk .assign "" [ref_node "n", ref_node "$a"]]]] = true :=
  emitted_if_shape 4
    [.when (.reference "c")
      [.connect (.reference "out") (.mux (.reference "c") (.reference "a") (.reference "b"))]
      [.node "n" (.reference "a")]]
    { Inou_firrtl.empty with input_names := ["a", "b", "c"], output_names := ["out"] }
    _ _ (by rfl)

/-- C19 (as stated, refuted): the `func_call` that lowering emits for `node n = not(a)`
has two children; the one for `stop(clk, c, 1)` has four. -/
theorem not_func_call_two_children_counterexample :
    (Inou_firrtl.lower_statements 3 [.node "n" (.prim_op .OP_BIT_NOT [.reference "a"] [])]
      { Inou_firrtl.empty with input_names := ["a", "c"] }).nodes
      = [.mk .func_call "__fir_not" [ref_node "n", ref_node "$a"]] ∧
    (Inou_firrtl.lower_statements 3 [.stop (.reference "c") (.reference "clk") 1]
      { Inou_firrtl.empty with input_names := ["a", "c"] }).nodes
      = [.mk .if_ "stop"
          [.mk .cond "$c" [],
           .mk .if_ "stop"
            [.mk .func_call "stop"
              [ref_node "null", ref_node "stop", ref_node "clk", ref_node "1"]]]] := by
  refine ⟨by rfl, by rfl⟩

/-- C19 (amended): in the nodes that the lowering of the statements of a module appends,
every `func_call` node has at least two children, the first of type ref and every other
of type ref or const; the `func_call` of a module instance, the one with the empty name,
has exactly three children, all of type ref. -/
theorem emitted_func_call_shape (fuel : Nat) (statement : List Fir_statement)
    (st st1 : Inou_firrtl) (emitted : List Lnast_node)
    (h : Inou_firrtl.lower_statements fuel statement st = .ok () st1 emitted) :
    all_ok_list func_call_ok emitted = true :=
  (all_ok_list_and if_node_ok func_call_ok emitted
    ((Inou_firrtl.lower_statements_ok fuel statement).ok st () st1 emitted h).2).2

/-- Witness of `emitted_func_call_shape`: a module instance and `node n = bits(a, 3, 0)`. -/
theorem emitted_func_call_shape_witness :
    all_ok_list func_call_ok
      [.mk .dot "" [ref_node "___F0", ref_node "inp_u", ref_node "__last_value"],
       .mk .assign "" [ref_node "F1", ref_node "___F0"],
       .mk .func_call "" [ref_node "out_u", ref_node "Mod", ref_node "F1"],
       .mk .func_call "__fir_bits"
        [ref_node "n", ref_node "$a", const_node "3", const_node "0"]] = true :=
  emitted_func_call_shape 3
    [.instance_ "u" "Mod", .node "n" (.prim_op .OP_EXTRACT_BITS [.reference "a"] ["3", "0"])]
    { Inou_firrtl.empty with input_names := ["a"] }
    _ _ (by rfl)

/-- C20 (the code at the failing input): for `out <= mux(c, a, b)` with the output port
`out`, the pre-assignment of `HandleMuxAssign` is an `assign` to `%out`, while the
assignments in the branches are `dp_assign`; for `out <= a[3]` the assignment of the
selected element is an `assign` to `%out`. -/
theorem assign_to_output_emitted :
    (Inou_firrtl.lower_statements 3
      [.connect (.reference "out") (.mux (.reference "c") (.reference "a") (.reference "b"))]
      { Inou_firrtl.empty with input_names := ["a", "b", "c"], output_names := ["out"] }).nodes
      = [.mk .assign "" [ref_node "%out", const_node "0b?"],
         .mk .if_ "mux"
          [.mk .cond "$c" [],
           .mk .stmts "SEQ0" [.mk .dp_assign "" [ref_node "%out", ref_node "$a"]],
           .mk .stmts "SEQ1" [.mk .dp_assign "" [ref_node "%out", ref_node "$b"]]]] ∧
    (Inou_firrtl.lower_statements 3
      [.connect (.reference "out") (.sub_index (.reference "a") "3")]
      { Inou_firrtl.empty with input_names := ["a", "b", "c"], output_names := ["out"] }).nodes
      = [.mk .select "selectSI" [ref_node "___F0", ref_node "$a", const_node "3"],
         .mk .assign "selectSI_asg" [ref_node "%out", ref_node "___F0"]] := by
  refine ⟨by rfl, by rfl⟩

/-! ## Lemmas on names, directions and operators -/

namespace Inou_firrtl

theorem map_contains_of_lookup {β : Type} (m : List (String × β)) (key : String) (v : β)
    (h : m.lookup key = some v) : map_contains m key = true := by
  induction m with
  | nil => simp at h
  | cons kv rest ih =>
    obtain ⟨k, w⟩ := kv
    unfold map_contains
    rw [List.any_cons]
    by_cases hk : key = k
    · subst hk; simp
    · have hk2 : (key == k) = false := by simpa using hk
      rw [List.lookup_cons, hk2] at h
      have := ih h
      unfold map_contains at this
      simp [this]

theorem lookup_map_replace {β : Type} (m : List (String × β)) (key : String) (v w : β)
    (h : m.lookup key = some w) :
    (m.map fun kv => if kv.1 = key then (key, v) else kv).lookup key = some v := by
  induction m with
  | nil => simp at h
  | cons kv rest ih =>
    obtain ⟨k, u⟩ := kv
    by_cases hk : key = k
    · subst hk; simp [List.lookup_cons]
    · have hk2 : (key == k) = false := by simpa using hk
      rw [List.lookup_cons, hk2] at h
      have hk3 : ¬ k = key := fun e => hk e.symm
      simp only [List.map_cons, hk3, if_false, List.lookup_cons, hk2]
      exact ih h

theorem lookup_map_insert {β : Type} (m : List (String × β)) (key : String) (v w : β)
    (h : m.lookup key = some w) : (map_insert m key v).lookup key = some v := by
  unfold map_insert
  rw [map_contains_of_lookup m key w h]
  simp only [if_true]
  exact lookup_map_replace m key v w h

theorem PortDirInference_lookup (port_name mem_name : String) (is_rhs : Bool)
    (st : Inou_firrtl) (d : Mem_dir)
    (h : st.late_assign_ports.lookup (mem_name ++ "." ++ port_name) = some d) :
    ∃ st1, PortDirInference port_name mem_name is_rhs st = .ok () st1 [] ∧
      st1.late_assign_ports.lookup (mem_name ++ "." ++ port_name)
        = some (infer_step d is_rhs) := by
  unfold PortDirInference late_assign_ports_at infer_step
  simp only [h]
  cases is_rhs <;> simp only [Bool.false_eq_true, if_false, if_true]
  all_goals
    split_ifs
    all_goals first
      | exact ⟨_, rfl, lookup_map_insert _ _ _ _ h⟩
      | exact ⟨_, rfl, h⟩

theorem PortDirInference_uses (port_name mem_name : String) (uses : List Bool) :
    ∀ (st : Inou_firrtl) (d : Mem_dir),
      st.late_assign_ports.lookup (mem_name ++ "." ++ port_name) = some d →
      ∃ st1, Lower.for_each uses (PortDirInference port_name mem_name) st = .ok () st1 [] ∧
        st1.late_assign_ports.lookup (mem_name ++ "." ++ port_name)
          = some (uses.foldl infer_step d) := by
  induction uses with
  | nil => intro st d h; exact ⟨st, rfl, h⟩
  | cons r rest ih =>
    intro st d h
    obtain ⟨st1, h1, h2⟩ := PortDirInference_lookup port_name mem_name r st d h
    obtain ⟨st2, h3, h4⟩ := ih st1 (infer_step d r) h2
    refine ⟨st2, ?_, h4⟩
    simp only [Lower.for_each, Lower.seq, h1, h3, List.nil_append]

theorem foldl_infer_step_fixed (d : Mem_dir) (hd : d ≠ .INFER) (h1 : d ≠ .READI)
    (h2 : d ≠ .WRITEI) (uses : List Bool) : uses.foldl infer_step d = d := by
  induction uses with
  | nil => rfl
  | cons r rest ih =>
    have : infer_step d r = d := by
      cases r <;> simp [infer_step, hd, h1, h2]
    rw [List.foldl_cons, this, ih]

theorem foldl_infer_step_READI (uses : List Bool) :
    uses.foldl infer_step .READI
      = if uses.all (fun r => r) then .READI else .READ_WRITEI := by
  induction uses with
  | nil => rfl
  | cons r rest ih =>
    cases r
    · rw [List.foldl_cons]
      have : infer_step .READI false = .READ_WRITEI := by decide
      rw [this, foldl_infer_step_fixed _ (by decide) (by decide) (by decide)]
      simp
    · rw [List.foldl_cons]
      have : infer_step .READI true = .READI := by decide
      rw [this, ih]
      simp

theorem foldl_infer_step_WRITEI (uses : List Bool) :
    uses.foldl infer_step .WRITEI
      = if uses.all (fun r => !r) then .WRITEI else .READ_WRITEI := by
  induction uses with
  | nil => rfl
  | cons r rest ih =>
    cases r
    · rw [List.foldl_cons]
      have : infer_step .WRITEI false = .WRITEI := by decide
      rw [this, ih]
      simp
    · rw [List.foldl_cons]
      have : infer_step .WRITEI true = .READ_WRITEI := by decide
      rw [this, foldl_infer_step_fixed _ (by decide) (by decide) (by decide)]
      simp

theorem foldl_infer_step_INFER (uses : List Bool) :
    uses.foldl infer_step .INFER = inferred_dir uses := by
  cases uses with
  | nil => rfl
  | cons r rest =>
    cases r
    · rw [List.foldl_cons]
      have : infer_step .INFER false = .WRITEI := by decide
      rw [this, foldl_infer_step_WRITEI]
      simp [inferred_dir]
    · rw [List.foldl_cons]
      have : infer_step .INFER true = .READI := by decide
      rw [this, foldl_infer_step_READI]
      simp only [inferred_dir, List.all_cons, Bool.true_and, Bool.not_true, Bool.false_and]
      simp

theorem split_dots_no_dot (r : List Char) (h : '.' ∉ r) :
    ∀ cur, split_dots r cur = [⟨cur.reverse ++ r⟩] := by
  induction r with
  | nil => intro cur; simp [split_dots]
  | cons c rest ih =>
    intro cur
    have hc : c ≠ '.' := fun e => h (by simp [e])
    have hr : '.' ∉ rest := fun e => h (by simp [e])
    rw [split_dots, if_neg hc, ih hr]
    simp

theorem split_dots_at_dot (t r : List Char) (h : '.' ∉ t) :
    ∀ cur, split_dots (t ++ '.' :: r) cur = ⟨cur.reverse ++ t⟩ :: split_dots r [] := by
  induction t with
  | nil => intro cur; simp [split_dots]
  | cons c rest ih =>
    intro cur
    have hc : c ≠ '.' := fun e => h (by simp [e])
    have hr : '.' ∉ rest := fun e => h (by simp [e])
    rw [List.cons_append, split_dots, if_neg hc, ih hr]
    simp

theorem indexOf_none_of_not_mem (l : List Char) (c : Char) (h : c ∉ l) : l.indexOf? c = none := by
  unfold List.indexOf?
  rw [List.findIdx?_eq_none_iff]
  intro x hx
  have : ¬ x = c := fun e => h (e ▸ hx)
  simpa using this

theorem indexOf_some_at (t r : List Char) (c : Char) (h : c ∉ t) :
    (t ++ c :: r).indexOf? c = some t.length := by
  induction t with
  | nil => simp [List.indexOf?, List.findIdx?_cons]
  | cons d rest ih =>
    have hd : ¬ d = c := fun e => h (by simp [e])
    have hr : c ∉ rest := fun e => h (by simp [e])
    have := ih hr
    unfold List.indexOf? at this ⊢
    rw [List.cons_append, List.findIdx?_cons]
    simp [hd, this]

theorem str_find_not_mem (s : String) (c : Char) (h : c ∉ s.data) : str_find s c 0 = npos := by
  unfold str_find
  rw [List.drop_zero, indexOf_none_of_not_mem _ _ h]

theorem create_dots_q_pin (st : Inou_firrtl) (term : String)
    (hdot : '.' ∉ term.data) (hsel : '[' ∉ term.data) (hlen : term.length < 2 ^ 32) :
    CreateDotsSelsFromStr ("#" ++ term ++ ".__q_pin") st
      = .ok ("___F" ++ nat_to_string st.temp_var_count)
          { st with temp_var_count := st.temp_var_count + 1 }
          [.mk .dot "" [ref_node ("___F" ++ nat_to_string st.temp_var_count),
            ref_node ("#" ++ term), ref_node "__q_pin"]] := by
  have hdata : ("#" ++ term ++ ".__q_pin").data
      = ('#' :: term.data) ++ '.' :: ['_', '_', 'q', '_', 'p', 'i', 'n'] := by
    simp [String.data_append]
  have hdot1 : '.' ∉ '#' :: term.data := by simp [hdot]
  have hsel1 : '[' ∉ ("#" ++ term).data := by simp [String.data_append, hsel]
  have hfind : str_find ("#" ++ term ++ ".__q_pin") '.' 0 = term.length + 1 := by
    unfold str_find
    rw [List.drop_zero, hdata, indexOf_some_at _ _ _ hdot1]
    simp only [List.length_cons, String.length]
    omega
  have hne : ¬ (term.length + 1 = npos) := by
    unfold npos
    omega
  have hsplit : split_dots ("#" ++ term ++ ".__q_pin").data [] = ["#" ++ term, "__q_pin"] := by
    rw [hdata, split_dots_at_dot _ _ hdot1, split_dots_no_dot _ (by decide)]
    have h1 : (⟨'#' :: term.data⟩ : String) = "#" ++ term :=
      String.ext (by simp [String.data_append])
    rw [List.reverse_nil, List.nil_append, List.nil_append, h1]
  have hq : str_find "__q_pin" '[' 0 = npos := by rfl
  have hsub : ¬ (str_substr ("#" ++ term) 0 2 = "_T") := by
    rw [String.ext_iff]
    simp [str_substr, String.data_append]
  unfold CreateDotsSelsFromStr
  simp only [bind, Lower.seq, Lower.get, hfind, hne, hsplit, flat_queue_of,
    str_find_not_mem _ _ hsel1, hq, decide_False, Bool.false_and, Bool.false_eq_true, if_false,
    ne_eq, not_true_eq_false, List.append_nil, List.singleton_append, hsub]
  rfl

theorem PortDirInference_returns (port_name mem_name : String) (is_rhs : Bool)
    (st : Inou_firrtl) : ∃ st1, PortDirInference port_name mem_name is_rhs st = .ok () st1 [] := by
  unfold PortDirInference
  dsimp only
  split_ifs <;> exact ⟨_, rfl⟩

theorem str_substr_start (term : String) (n : Nat) (p : String) (hp : p.length = n) :
    str_substr term 0 n = p ↔ p.data <+: term.data := by
  rw [List.prefix_iff_eq_take, String.ext_iff]
  unfold str_substr
  rw [List.drop_zero]
  have hp2 : p.data.length = n := hp
  rw [hp2]
  exact eq_comm

theorem get_full_name_eq_spec (st : Inou_firrtl) (term : String) (is_rhs : Bool)
    (hterm : is_rhs = true → st.register_names.contains term = true →
      '.' ∉ term.data ∧ '[' ∉ term.data ∧ term.length < 2 ^ 32) :
    ∃ st1, get_full_name term is_rhs st
      = .ok (get_full_name_spec st term is_rhs).1 st1 (get_full_name_spec st term is_rhs).2 := by
  unfold get_full_name get_full_name_spec
  simp only [bind, Lower.seq, Lower.get]
  by_cases h1 : st.input_names.contains term = true
  · simp only [h1, if_true]
    exact ⟨_, rfl⟩
  simp only [h1, if_false, Bool.false_eq_true]
  by_cases h2 : st.output_names.contains term = true
  · simp only [h2, if_true]
    exact ⟨_, rfl⟩
  simp only [h2, if_false, Bool.false_eq_true]
  by_cases h3 : st.register_names.contains term = true
  · simp only [h3, if_true]
    cases is_rhs with
    | false => exact ⟨_, rfl⟩
    | true =>
      obtain ⟨hdot, hsel, hlen⟩ := hterm rfl h3
      simp only [if_true, create_dots_q_pin st term hdot hsel hlen, List.nil_append]
      exact ⟨_, rfl⟩
  simp only [h3, if_false, Bool.false_eq_true]
  by_cases h4 : map_contains st.dangling_ports_map term = true
  · simp only [h4, if_true]
    obtain ⟨st1, h5⟩ := PortDirInference_returns term
      ((st.dangling_ports_map.lookup term).getD "") is_rhs st
    simp only [Lower.seq, h5]
    exact ⟨_, rfl⟩
  simp only [h4, if_false, Bool.false_eq_true]
  by_cases h5 : str_substr term 0 2 = "_T"
  · have h5b : ['_', 'T'] <+: term.data := (str_substr_start term 2 "_T" rfl).1 h5
    simp only [h5, h5b, if_true, true_or]
    exact ⟨_, rfl⟩
  have h5b : ¬ ['_', 'T'] <+: term.data := fun e => h5 ((str_substr_start term 2 "_T" rfl).2 e)
  simp only [h5, h5b, if_false, false_or]
  by_cases h6 : str_substr term 0 4 = "_GEN"
  · have h6b : ['_', 'G', 'E', 'N'] <+: term.data := (str_substr_start term 4 "_GEN" rfl).1 h6
    simp only [h6, h6b, if_true]
    exact ⟨_, rfl⟩
  have h6b : ¬ ['_', 'G', 'E', 'N'] <+: term.data :=
    fun e => h6 ((str_substr_start term 4 "_GEN" rfl).2 e)
  simp only [h6, h6b, if_false]
  exact ⟨_, rfl⟩

theorem get_full_name_spec_lhs_nodes (st : Inou_firrtl) (term : String) :
    (get_full_name_spec st term false).2 = [] := by
  unfold get_full_name_spec
  split_ifs <;> first | rfl | contradiction

theorem get_full_name_lhs_nodes (st st1 : Inou_firrtl) (term v : String)
    (nodes : List Lnast_node) (h : get_full_name term false st = .ok v st1 nodes) :
    nodes = [] := by
  obtain ⟨st2, h2⟩ := get_full_name_eq_spec st term false (fun e => by cases e)
  rw [h2] at h
  cases h
  exact get_full_name_spec_lhs_nodes st term

theorem ListPrimOpInfo_two_expr (ReturnExprString : Return_expr) (op : Fir_op)
    (callee : String) (h : two_expr_callee op = some callee) (arg : List Fir_expression)
    (const_ : List String) (lhs : String) :
    ListPrimOpInfo ReturnExprString op arg const_ lhs
      = HandleTwoExprPrimOp ReturnExprString op arg lhs := by
  cases op <;> first | rfl | (exfalso; simp [two_expr_callee] at h)

theorem two_operand_ops_callee :
    ∀ p ∈ two_operand_ops, Inou_firrtl.two_expr_callee p.1 = some p.2 := by
  decide

theorem two_operand_ops_distinct :
    ∀ p ∈ two_operand_ops, ∀ q ∈ two_operand_ops, p.2 = q.2 → p.1 = q.1 := by
  decide

end Inou_firrtl

/-! ## Theorems on names, directions and operators -/

/-- C21: `get_full_name` returns, and its value and the nodes that it appends are those
of the specification: `$term` for a recorded input, else `%term` for a recorded output,
else for a recorded register `#term` on the left-hand side and on the right-hand side the
fresh temporary of an appended dot node over `#term` and `__q_pin`, else `term` for a
dangling memory port, else `_.term` when `term` starts with `_T` or `_GEN`, else `term`.
On the right-hand side the name of a register is a bare identifier: it has no `.` and no
`[`, and is shorter than 2^32 characters. -/
theorem get_full_name_result (st : Inou_firrtl) (term : String) (is_rhs : Bool)
    (hterm : is_rhs = true → st.register_names.contains term = true →
      '.' ∉ term.data ∧ '[' ∉ term.data ∧ term.length < 2 ^ 32) :
    ∃ st1, Inou_firrtl.get_full_name term is_rhs st
      = .ok (Inou_firrtl.get_full_name_spec st term is_rhs).1 st1 (Inou_firrtl.get_full_name_spec st term is_rhs).2 :=
  Inou_firrtl.get_full_name_eq_spec st term is_rhs hterm

/-- Witness of `get_full_name_result`: the register `r` read on the right-hand side. -/
theorem get_full_name_result_witness :
    ∃ st1, Inou_firrtl.get_full_name "r" true { Inou_firrtl.empty with register_names := ["r"] }
      = .ok "___F0" st1
          [.mk .dot "" [ref_node "___F0", ref_node "#r", ref_node "__q_pin"]] :=
  get_full_name_result { Inou_firrtl.empty with register_names := ["r"] } "r" true
    (fun _ _ => ⟨by decide, by decide, by decide⟩)

/-- C22: for a memory port recorded in `late_assign_ports` with the direction INFER or
with one of the declared directions READ, WRITE, READ_WRITE, READP, WRITEP and
READ_WRITEP, every finite sequence of `PortDirInference` calls on it (`true` for a
right-hand use) returns and appends no node; a port recorded as INFER is left with INFER
after no call, READI after right-hand uses only, WRITEI after left-hand uses only and
READ_WRITEI after uses of both kinds, whatever their order, and a port recorded with
another declared direction keeps it. -/
theorem port_dir_inference_result (port_name mem_name : String) (uses : List Bool)
    (st : Inou_firrtl) (d : Mem_dir)
    (h : st.late_assign_ports.lookup (mem_name ++ "." ++ port_name) = some d)
    (hd : d ∈ [Mem_dir.INFER, .READ, .WRITE, .READ_WRITE, .READP, .WRITEP, .READ_WRITEP]) :
    ∃ st1,
      Lower.for_each uses (Inou_firrtl.PortDirInference port_name mem_name) st
        = .ok () st1 [] ∧
      st1.late_assign_ports.lookup (mem_name ++ "." ++ port_name)
        = some (if d = .INFER then Inou_firrtl.inferred_dir uses else d) := by
  obtain ⟨st1, h1, h2⟩ := Inou_firrtl.PortDirInference_uses port_name mem_name uses st d h
  refine ⟨st1, h1, ?_⟩
  rw [h2]
  by_cases hi : d = .INFER
  · rw [if_pos hi, hi, Inou_firrtl.foldl_infer_step_INFER]
  · rw [if_neg hi, Inou_firrtl.foldl_infer_step_fixed d hi]
    all_goals
      simp only [List.mem_cons, List.mem_singleton, List.not_mem_nil, or_false] at hd
      rcases hd with hd | hd | hd | hd | hd | hd | hd <;> rw [hd] <;> decide

/-- Witness of `port_dir_inference_result`: the port `r` of the memory `m`, declared
INFER, after a right-hand, a left-hand and a right-hand use. -/
theorem port_dir_inference_result_witness :
    ∃ st1,
      Lower.for_each [true, false, true] (Inou_firrtl.PortDirInference "r" "m")
        { Inou_firrtl.empty with late_assign_ports := [("m.r", .INFER)] } = .ok () st1 [] ∧
      st1.late_assign_ports.lookup ("m" ++ "." ++ "r")
        = some (if Mem_dir.INFER = .INFER then Inou_firrtl.inferred_dir [true, false, true]
            else .INFER) :=
  port_dir_inference_result "r" "m" [true, false, true]
    { Inou_firrtl.empty with late_assign_ports := [("m.r", .INFER)] } .INFER (by rfl)
    (by decide)

/-- C23: `HandleMuxAssign`, called for an assignment to `lhs` of `Mux(c, t, f)`, appends
in order the assignment of the const `0b?` to the resolved `lhs` (the resolution of a
left-hand side appends no node), the nodes that compute `c`, and one `if` node named
`mux` whose children are the cond on `c` and two stmts, the first with exactly the nodes of
the lowering of `lhs ← t` and the second with exactly those of `lhs ← f`; it returns when
the lowerings of `c`, of `lhs ← t` and of `lhs ← f` do. -/
theorem mux_assign_lowering (fuel : Nat) (condition t_value f_value : Fir_expression)
    (lhs lhs_full cond_str : String) (st st1 st2 st3 st4 : Inou_firrtl)
    (nodes_l nodes_c nodes_t nodes_f : List Lnast_node)
    (hl : Inou_firrtl.get_full_name lhs false st = .ok lhs_full st1 nodes_l)
    (hc : Inou_firrtl.ReturnExprString fuel condition true st1 = .ok cond_str st2 nodes_c)
    (ht : Inou_firrtl.InitialExprAdd fuel t_value lhs
      { st2 with seq_counter := st2.seq_counter + 1 + 1 } = .ok () st3 nodes_t)
    (hf : Inou_firrtl.InitialExprAdd fuel f_value lhs st3 = .ok () st4 nodes_f) :
    nodes_l = [] ∧
    Inou_firrtl.HandleMuxAssign (Inou_firrtl.ReturnExprString fuel)
        (Inou_firrtl.InitialExprAdd fuel) condition t_value f_value lhs st
      = .ok () st4
          (.mk .assign "" [ref_node lhs_full, const_node "0b?"] :: (nodes_c ++
            [.mk .if_ "mux"
              [.mk .cond cond_str [],
               .mk .stmts ("SEQ" ++ nat_to_string st2.seq_counter) nodes_t,
               .mk .stmts ("SEQ" ++ nat_to_string (st2.seq_counter + 1)) nodes_f]])) := by
  have hn := Inou_firrtl.get_full_name_lhs_nodes st st1 lhs lhs_full nodes_l hl
  subst hn
  refine ⟨rfl, ?_⟩
  unfold Inou_firrtl.HandleMuxAssign
  simp only [bind, Lower.seq, hl, Lower.emit, hc, Inou_firrtl.get_new_seq_name,
    Lower.children_of, ht, hf, List.nil_append, List.append_nil, List.singleton_append,
    List.cons_append]

/-- Witness of `mux_assign_lowering`: `out <= mux(c, a, b)` with the output port `out`
and the input ports a, b and c. -/
theorem mux_assign_lowering_witness :
    (Inou_firrtl.HandleMuxAssign (Inou_firrtl.ReturnExprString 1)
        (Inou_firrtl.InitialExprAdd 1) (.reference "c") (.reference "a") (.reference "b")
        "out"
        { Inou_firrtl.empty with input_names := ["a", "b", "c"], output_names := ["out"] }).nodes
      = [.mk .assign "" [ref_node "%out", const_node "0b?"],
         .mk .if_ "mux"
          [.mk .cond "$c" [],
           .mk .stmts "SEQ0" [.mk .dp_assign "" [ref_node "%out", ref_node "$a"]],
           .mk .stmts "SEQ1" [.mk .dp_assign "" [ref_node "%out", ref_node "$b"]]]] := by
  have h := mux_assign_lowering 1 (.reference "c") (.reference "a") (.reference "b") "out" _ _
    { Inou_firrtl.empty with input_names := ["a", "b", "c"], output_names := ["out"] }
    _ _ _ _ _ _ _ _ (by rfl) (by rfl) (by rfl) (by rfl)
  exact congrArg Lowered.nodes h.2

/-- C24: for each of the 16 two-operand primitive ops, with the callee that the
specification lists for it, `ListPrimOpInfo` on the operands `e1` and `e2` appends the
nodes that compute `e1`, those that compute `e2`, and then exactly one `func_call` node
named by the callee whose children are a ref to the result name and the two operands in
order; it returns when the lowerings of the operands do, and no other of the 16 ops has
the same callee. -/
theorem two_expr_prim_op_lowering (fuel : Nat) (op : Fir_op) (callee : String)
    (e1 e2 : Fir_expression) (const_ : List String) (lhs e1_str e2_str : String)
    (st st1 st2 : Inou_firrtl) (nodes_1 nodes_2 : List Lnast_node)
    (hop : (op, callee) ∈ Inou_firrtl.two_operand_ops)
    (h1 : Inou_firrtl.ReturnExprString fuel e1 true st = .ok e1_str st1 nodes_1)
    (h2 : Inou_firrtl.ReturnExprString fuel e2 true st1 = .ok e2_str st2 nodes_2) :
    Inou_firrtl.ListPrimOpInfo (Inou_firrtl.ReturnExprString fuel) op [e1, e2] const_ lhs st
      = .ok () st2
          (nodes_1 ++ nodes_2 ++
            [.mk .func_call callee
              [ref_node lhs, Inou_firrtl.AttachExprStrToNode e1_str,
               Inou_firrtl.AttachExprStrToNode e2_str]]) ∧
    ∀ op2, (op2, callee) ∈ Inou_firrtl.two_operand_ops → op2 = op := by
  have hcallee : Inou_firrtl.two_expr_callee op = some callee :=
    Inou_firrtl.two_operand_ops_callee (op, callee) hop
  refine ⟨?_, fun op2 h => Inou_firrtl.two_operand_ops_distinct (op2, callee) h (op, callee) hop rfl⟩
  rw [Inou_firrtl.ListPrimOpInfo_two_expr _ op callee hcallee]
  unfold Inou_firrtl.HandleTwoExprPrimOp
  simp only [bind, Lower.seq, Inou_firrtl.I, Inou_firrtl.arg_at, List.length_cons,
    List.length_nil, List.get?_cons_zero, List.get?_cons_succ, pure, Lower.ret, h1, h2,
    hcallee, Lower.emit, List.nil_append, List.append_nil, decide_True, if_true,
    Nat.reduceAdd, List.append_assoc]

/-- Witness of `two_expr_prim_op_lowering`: `node n = add(a, 3)`, where the literal
becomes a const child. -/
theorem two_expr_prim_op_lowering_witness :
    (Inou_firrtl.ListPrimOpInfo (Inou_firrtl.ReturnExprString 1) .OP_ADD
        [.reference "a", .uint_literal "3"] [] "n"
        { Inou_firrtl.empty with input_names := ["a"] }).nodes
      = [.mk .func_call "__fir_add" [ref_node "n", ref_node "$a", const_node "3u"]] := by
  have h := two_expr_prim_op_lowering 1 .OP_ADD "__fir_add" (.reference "a")
    (.uint_literal "3") [] "n" _ _ { Inou_firrtl.empty with input_names := ["a"] } _ _ _ _
    (by decide) (by rfl) (by rfl)
  exact congrArg Lowered.nodes h.1

/-! ## Lemmas on ports and big integers -/

theorem leaf_dir_range (dir flips : Nat) (hd : dir = 1 ∨ dir = 2) :
    Inou_firrtl.leaf_dir dir flips = 1 ∨ Inou_firrtl.leaf_dir dir flips = 2 := by
  unfold Inou_firrtl.leaf_dir
  rcases hd with h | h <;> subst h <;> split_ifs <;> simp

theorem flipped_dir_leaf_dir (dir flips : Nat) (hd : dir = 1 ∨ dir = 2) (st : Inou_firrtl) :
    Inou_firrtl.flipped_dir (Inou_firrtl.leaf_dir dir flips) st
      = .ok (Inou_firrtl.leaf_dir dir (flips + 1)) st [] := by
  have h2 : flips % 2 = 0 ∨ flips % 2 = 1 := by omega
  unfold Inou_firrtl.flipped_dir Inou_firrtl.leaf_dir
  rcases hd with h | h <;> subst h <;> rcases h2 with e | e
  all_goals
    have e2 : (flips + 1) % 2 = 1 ∨ (flips + 1) % 2 = 0 := by omega
    rcases e2 with e2 | e2
    all_goals first
      | (exfalso; omega)
      | (simp only [e, e2]; rfl)

theorem leaves_among_markers_refl (leaves : List (String × Nat × Nat × Bool)) :
    Inou_firrtl.leaves_among_markers leaves leaves = true := by
  induction leaves with
  | nil => rfl
  | cons l rest ih => simp [Inou_firrtl.leaves_among_markers, ih]

theorem leaves_among_markers_marker (entry : String × Nat × Nat × Bool)
    (vec leaves : List (String × Nat × Nat × Bool))
    (hm : Inou_firrtl.is_marker entry = true)
    (h : Inou_firrtl.leaves_among_markers vec leaves = true) :
    Inou_firrtl.leaves_among_markers (entry :: vec) leaves = true := by
  cases leaves with
  | nil => simp [Inou_firrtl.leaves_among_markers, hm, h]
  | cons l rest => simp [Inou_firrtl.leaves_among_markers, hm, h]

theorem leaves_among_markers_append :
    ∀ (vec1 leaves1 vec2 leaves2 : List (String × Nat × Nat × Bool)),
      Inou_firrtl.leaves_among_markers vec1 leaves1 = true →
      Inou_firrtl.leaves_among_markers vec2 leaves2 = true →
      Inou_firrtl.leaves_among_markers (vec1 ++ vec2) (leaves1 ++ leaves2) = true := by
  intro vec1
  induction vec1 with
  | nil =>
    intro leaves1 vec2 leaves2 h1 h2
    cases leaves1 with
    | nil => simpa using h2
    | cons l rest => simp [Inou_firrtl.leaves_among_markers] at h1
  | cons e vec ih =>
    intro leaves1 vec2 leaves2 h1 h2
    cases leaves1 with
    | nil =>
      simp only [Inou_firrtl.leaves_among_markers, Bool.and_eq_true] at h1
      exact leaves_among_markers_marker e _ _ h1.1 (by simpa using ih [] vec2 leaves2 h1.2 h2)
    | cons l rest =>
      simp only [Inou_firrtl.leaves_among_markers, Bool.or_eq_true, Bool.and_eq_true,
        decide_eq_true_eq] at h1
      rcases h1 with ⟨he, h1⟩ | ⟨hm, h1⟩
      · have := ih rest vec2 leaves2 h1 h2
        simp [Inou_firrtl.leaves_among_markers, he, this]
      · exact leaves_among_markers_marker e _ _ hm (ih (l :: rest) vec2 leaves2 h1 h2)

theorem map_each_rounds {α β : Type} (f : α → Lower β) (P : α → β → Prop)
    (hf : ∀ a st, ∃ v st1, f a st = .ok v st1 [] ∧ P a v) :
    ∀ (l : List α) (st : Inou_firrtl),
      ∃ vs st1, Inou_firrtl.map_each l f st = .ok vs st1 [] ∧ List.Forall₂ P l vs := by
  intro l
  induction l with
  | nil => intro st; exact ⟨[], st, rfl, List.Forall₂.nil⟩
  | cons a rest ih =>
    intro st
    obtain ⟨v, st1, h1, hp⟩ := hf a st
    obtain ⟨vs, st2, h2, hps⟩ := ih st1
    refine ⟨v :: vs, st2, ?_, List.Forall₂.cons hp hps⟩
    simp only [Inou_firrtl.map_each, bind, Lower.seq, h1, h2, pure, Lower.ret,
      List.append_nil]

theorem leaves_among_markers_flatten {α : Type} (g : α → List (String × Nat × Nat × Bool)) :
    ∀ (l : List α) (vs : List (List (String × Nat × Nat × Bool))),
      List.Forall₂ (fun a v => Inou_firrtl.leaves_among_markers v (g a) = true) l vs →
      Inou_firrtl.leaves_among_markers vs.flatten (l.map g).flatten = true := by
  intro l vs h
  induction h with
  | nil => rfl
  | cons h1 _ ih =>
    rw [List.flatten_cons, List.map_cons, List.flatten_cons]
    exact leaves_among_markers_append _ _ _ _ h1 ih

mutual
theorem create_io_list_leaves :
    ∀ (type : Fir_type) (dir flips : Nat) (path : String) (st : Inou_firrtl),
      Inou_firrtl.io_type_ok type = true → (dir = 1 ∨ dir = 2) →
      ∃ vec st1,
        Inou_firrtl.create_io_list type (Inou_firrtl.leaf_dir dir flips) path st
          = .ok vec st1 [] ∧
        Inou_firrtl.leaves_among_markers vec
          (Inou_firrtl.scalar_leaves type dir flips path) = true
  | .uint_type width, dir, flips, path, st, _, _ =>
    ⟨_, st, rfl, leaves_among_markers_refl _⟩
  | .sint_type width, dir, flips, path, st, _, _ =>
    ⟨_, st, rfl, leaves_among_markers_refl _⟩
  | .clock_type, dir, flips, path, st, _, _ =>
    ⟨_, st, rfl, leaves_among_markers_refl _⟩
  | .reset_type, dir, flips, path, st, _, _ =>
    ⟨_, st, rfl, leaves_among_markers_refl _⟩
  | .async_reset_type, dir, flips, path, st, _, _ =>
    ⟨_, _, rfl, leaves_among_markers_refl _⟩
  | .bundle_type field, dir, flips, path, st, hok, hd => by
    rw [Inou_firrtl.io_type_ok] at hok
    obtain ⟨vec, st1, h1, h2⟩ := create_io_list_fields_leaves field dir flips path st hok hd
    refine ⟨vec, st1, ?_, ?_⟩
    · rw [Inou_firrtl.create_io_list]
      exact h1
    · rw [Inou_firrtl.scalar_leaves]
      exact h2
  | .vector_type type size, dir, flips, path, st, hok, hd => by
    rw [Inou_firrtl.io_type_ok] at hok
    obtain ⟨vs, st1, h1, h2⟩ := map_each_rounds
      (fun i => do
        let elems ← Inou_firrtl.create_io_list type (Inou_firrtl.leaf_dir dir flips)
          (path ++ "[" ++ nat_to_string i ++ "]")
        pure ((path, Inou_firrtl.leaf_dir dir flips, 0, false) :: elems))
      (fun i v => Inou_firrtl.leaves_among_markers v
        (Inou_firrtl.scalar_leaves type dir flips (path ++ "[" ++ nat_to_string i ++ "]")) = true)
      (fun i s => by
        obtain ⟨vec, s1, e1, e2⟩ := create_io_list_leaves type dir flips
          (path ++ "[" ++ nat_to_string i ++ "]") s hok hd
        refine ⟨(path, Inou_firrtl.leaf_dir dir flips, 0, false) :: vec, s1, ?_,
          leaves_among_markers_marker _ _ _ (by rfl) e2⟩
        simp only [bind, Lower.seq, e1, pure, Lower.ret, List.append_nil])
      (List.range size) st
    refine ⟨vs.flatten, st1, ?_, ?_⟩
    · rw [Inou_firrtl.create_io_list]
      simp only [bind, Lower.seq, pure, Lower.ret] at h1 ⊢
      simp only [h1, List.append_nil]
    · rw [Inou_firrtl.scalar_leaves]
      exact leaves_among_markers_flatten _ _ _ h2
  | .fixed_type, _, _, _, _, hok, _ => by
    rw [Inou_firrtl.io_type_ok] at hok
    cases hok
  | .analog_type _, _, _, _, _, hok, _ => by
    rw [Inou_firrtl.io_type_ok] at hok
    cases hok
  | .not_set, _, _, _, _, hok, _ => by
    rw [Inou_firrtl.io_type_ok] at hok
    cases hok
theorem create_io_list_fields_leaves :
    ∀ (field : List Fir_field) (dir flips : Nat) (path : String) (st : Inou_firrtl),
      Inou_firrtl.io_fields_ok field = true → (dir = 1 ∨ dir = 2) →
      ∃ vec st1,
        Inou_firrtl.create_io_list_fields field (Inou_firrtl.leaf_dir dir flips) path st
          = .ok vec st1 [] ∧
        Inou_firrtl.leaves_among_markers vec
          (Inou_firrtl.scalar_leaves_fields field dir flips path) = true
  | [], dir, flips, path, st, _, _ => ⟨[], st, rfl, rfl⟩
  | .mk field_id is_flipped field_type :: rest, dir, flips, path, st, hok, hd => by
    rw [Inou_firrtl.io_fields_ok, Bool.and_eq_true] at hok
    cases is_flipped with
    | false =>
      obtain ⟨v1, s1, e1, l1⟩ := create_io_list_leaves field_type dir flips
        (path ++ "." ++ field_id) st hok.1 hd
      obtain ⟨v2, s2, e2, l2⟩ := create_io_list_fields_leaves rest dir flips path s1 hok.2 hd
      refine ⟨v1 ++ v2, s2, ?_, ?_⟩
      · rw [Inou_firrtl.create_io_list_fields]
        simp only [bind, Lower.seq, pure, Lower.ret, Bool.false_eq_true, if_false, e1, e2,
          List.append_nil, List.nil_append]
      · rw [Inou_firrtl.scalar_leaves_fields]
        simp only [Bool.false_eq_true, if_false]
        exact leaves_among_markers_append _ _ _ _ l1 l2
    | true =>
      obtain ⟨v1, s1, e1, l1⟩ := create_io_list_leaves field_type dir (flips + 1)
        (path ++ "." ++ field_id) st hok.1 hd
      obtain ⟨v2, s2, e2, l2⟩ := create_io_list_fields_leaves rest dir flips path s1 hok.2 hd
      refine ⟨v1 ++ v2, s2, ?_, ?_⟩
      · rw [Inou_firrtl.create_io_list_fields]
        simp only [bind, Lower.seq, pure, Lower.ret, if_true, flipped_dir_leaf_dir dir flips hd,
          e1, e2, List.append_nil, List.nil_append]
      · rw [Inou_firrtl.scalar_leaves_fields]
        simp only [if_true]
        exact leaves_among_markers_append _ _ _ _ l1 l2
end

theorem map_each_pure {α β : Type} (g : α → β) :
    ∀ (l : List α) (st : Inou_firrtl),
      Inou_firrtl.map_each l (fun a => (pure (g a) : Lower β)) st = .ok (l.map g) st [] := by
  intro l
  induction l with
  | nil => intro st; rfl
  | cons a rest ih =>
    intro st
    simp only [Inou_firrtl.map_each, bind, Lower.seq, pure, Lower.ret, List.append_nil,
      List.map_cons]
    have := ih st
    simp only [pure, Lower.ret] at this
    rw [this]
    rfl

theorem create_io_list_vector_uint (width size dir : Nat) (port_id : String)
    (st : Inou_firrtl) :
    Inou_firrtl.create_io_list (.vector_type (.uint_type width) size) dir port_id st
      = .ok ((List.range size).map fun i =>
          [(port_id, dir, 0, false),
           (port_id ++ "[" ++ nat_to_string i ++ "]", dir, width, false)]).flatten st [] := by
  rw [Inou_firrtl.create_io_list]
  have h := map_each_pure
    (fun i => [(port_id, dir, 0, false),
      (port_id ++ "[" ++ nat_to_string i ++ "]", dir, width, false)])
    (List.range size) st
  have h2 : Inou_firrtl.map_each (List.range size) (fun i => do
      let elems ← Inou_firrtl.create_io_list (.uint_type width) dir
        (port_id ++ "[" ++ nat_to_string i ++ "]")
      pure ((port_id, dir, 0, false) :: elems)) st
      = .ok ((List.range size).map fun i =>
          [(port_id, dir, 0, false),
           (port_id ++ "[" ++ nat_to_string i ++ "]", dir, width, false)]) st [] := h
  simp only [bind, Lower.seq, pure, Lower.ret] at h2 ⊢
  simp only [h2, List.append_nil]

theorem flatten_pairs_length {α β : Type} (g h : α → β) (l : List α) :
    (l.map fun i => [g i, h i]).flatten.length = 2 * l.length := by
  induction l with
  | nil => rfl
  | cons a rest ih =>
    rw [List.map_cons, List.flatten_cons, List.length_append, ih, List.length_cons]
    simp only [List.length_cons, List.length_nil]
    omega

set_option maxRecDepth 100000 in
theorem bit_str_loop_byte (char_signed : Bool) :
    ∀ byte, byte < 256 →
      Inou_firrtl.bit_str_loop char_signed 8 (Inou_firrtl.char_of_byte char_signed byte) ""
        = Inou_firrtl.byte_digits byte := by
  cases char_signed <;> decide

theorem bigint_val_foldl (char_signed : Bool) (bytes : List Nat)
    (hb : ∀ b ∈ bytes, b < 256) :
    ∀ acc : String,
      bytes.foldl (fun acc byte => acc ++ Inou_firrtl.bit_str_loop char_signed 8
          (Inou_firrtl.char_of_byte char_signed byte) "") acc
        = acc ++ Inou_firrtl.bit_string bytes := by
  induction bytes with
  | nil => intro acc; simp [Inou_firrtl.bit_string]
  | cons b rest ih =>
    intro acc
    rw [List.foldl_cons, ih (fun x hx => hb x (List.mem_cons_of_mem _ hx)),
      bit_str_loop_byte char_signed b (hb b (List.mem_cons_self _ _)),
      Inou_firrtl.bit_string, String.append_assoc]

theorem ConvertBigIntToStr_eq (char_signed : Bool) (bytes : List Nat)
    (hb : ∀ b ∈ bytes, b < 256) :
    Inou_firrtl.ConvertBigIntToStr char_signed bytes
      = if bytes.length = 0 then "0b0s1bit"
        else "0b" ++ Inou_firrtl.bit_string bytes ++ "s" ++ nat_to_string (bytes.length * 8)
          ++ "bits" := by
  unfold Inou_firrtl.ConvertBigIntToStr
  split_ifs with h
  · rfl
  · rw [bigint_val_foldl char_signed bytes hb, String.empty_append]

theorem byte_digits_length (byte : Nat) : (Inou_firrtl.byte_digits byte).length = 8 := by
  rfl

theorem bit_string_length (bytes : List Nat) :
    (Inou_firrtl.bit_string bytes).length = 8 * bytes.length := by
  induction bytes with
  | nil => rfl
  | cons b rest ih =>
    rw [Inou_firrtl.bit_string, String.length_append, ih, byte_digits_length,
      List.length_cons]
    omega

theorem byte_digits_binary (byte : Nat) :
    ∀ c ∈ (Inou_firrtl.byte_digits byte).data, c = '0' ∨ c = '1' := by
  intro c hc
  unfold Inou_firrtl.byte_digits at hc
  simp only [List.mem_map] at hc
  obtain ⟨k, _, hk⟩ := hc
  split_ifs at hk
  · exact Or.inr hk.symm
  · exact Or.inl hk.symm

theorem bit_string_binary (bytes : List Nat) :
    ∀ c ∈ (Inou_firrtl.bit_string bytes).data, c = '0' ∨ c = '1' := by
  induction bytes with
  | nil => intro c hc; simp [Inou_firrtl.bit_string] at hc
  | cons b rest ih =>
    intro c hc
    rw [Inou_firrtl.bit_string, String.data_append, List.mem_append] at hc
    rcases hc with hc | hc
    · exact byte_digits_binary b c hc
    · exact ih c hc

theorem takeWhile_until (l r : List Char) (h : ∀ c ∈ l, c ≠ 's') :
    (l ++ 's' :: r).takeWhile (fun c => decide (c ≠ 's')) = l := by
  induction l with
  | nil => simp
  | cons a rest ih =>
    have ha : a ≠ 's' := h a (List.mem_cons_self _ _)
    rw [List.cons_append, List.takeWhile_cons]
    simp only [ha, ne_eq, not_false_eq_true, decide_True, if_true]
    rw [ih (fun c hc => h c (List.mem_cons_of_mem _ hc))]

theorem literal_digits_of (digits rest : String) (h : ∀ c ∈ digits.data, c = '0' ∨ c = '1') :
    Inou_firrtl.literal_digits ("0b" ++ digits ++ "s" ++ rest) = digits := by
  unfold Inou_firrtl.literal_digits
  have hd : ("0b" ++ digits ++ "s" ++ rest).data = '0' :: 'b' :: (digits.data ++ 's' :: rest.data) := by
    simp [String.data_append]
  rw [hd]
  simp only [List.drop_succ_cons, List.drop_zero]
  rw [takeWhile_until]
  intro c hc
  rcases h c hc with e | e <;> rw [e] <;> decide

/-! ## Theorems on ports and big integers -/

/-- C25: for a port type built from UInt, SInt, Clock, Reset and AsyncReset leaves with
bundles and vectors and a port direction in (1) or out (2), `create_io_list` returns,
appends no node, and its list holds the scalar leaves of the specification in their
order (depth-first, in the order of the declaration), each with its path, its declared
width and sign (width 1, unsigned for Clock, Reset and AsyncReset) and the direction of
the port inverted exactly when the number of flipped bundle fields on its path is odd;
the other entries of the list have the form of the marker of a vector. -/
theorem io_list_scalar_leaves (type : Fir_type) (dir : Nat) (port_id : String)
    (st : Inou_firrtl) (hok : Inou_firrtl.io_type_ok type = true) (hd : dir = 1 ∨ dir = 2) :
    ∃ vec st1, Inou_firrtl.create_io_list type dir port_id st = .ok vec st1 [] ∧
      Inou_firrtl.leaves_among_markers vec
        (Inou_firrtl.scalar_leaves type dir 0 port_id) = true :=
  create_io_list_leaves type dir 0 port_id st hok hd

/-- Witness of `io_list_scalar_leaves`: the input port `p` of the bundle type with the
fields `a : UInt<8>`, `flip b : SInt<4>` and `v : Clock[2]`. -/
theorem io_list_scalar_leaves_witness :
    ∃ vec st1,
      Inou_firrtl.create_io_list
        (.bundle_type [.mk "a" false (.uint_type 8), .mk "b" true (.sint_type 4),
          .mk "v" false (.vector_type .clock_type 2)]) 1 "p" Inou_firrtl.empty
        = .ok vec st1 [] ∧
      Inou_firrtl.leaves_among_markers vec
        [("p.a", 1, 8, false), ("p.b", 2, 4, true), ("p.v[0]", 1, 1, false),
         ("p.v[1]", 1, 1, false)] = true :=
  io_list_scalar_leaves
    (.bundle_type [.mk "a" false (.uint_type 8), .mk "b" true (.sint_type 4),
      .mk "v" false (.vector_type .clock_type 2)]) 1 "p" Inou_firrtl.empty (by rfl)
    (by decide)

/-- C26 (the code at the failing input): for a port `v` of type `UInt<8>[2]`,
`create_io_list` fills the list with the marker of the vector before each of the two
elements, 4 entries; for `UInt<8>[0]` the list stays empty, without a marker; for
`UInt<w>[n]` the list has the marker before each element, 2n entries. -/
theorem vector_marker_before_each_element :
    (Inou_firrtl.create_io_list (.vector_type (.uint_type 8) 2) 1 "v"
        Inou_firrtl.empty).value
      = some [("v", 1, 0, false), ("v[0]", 1, 8, false), ("v", 1, 0, false),
          ("v[1]", 1, 8, false)] ∧
    (Inou_firrtl.create_io_list (.vector_type (.uint_type 8) 0) 1 "v"
        Inou_firrtl.empty).value = some [] ∧
    ∀ (width size dir : Nat) (port_id : String) (st : Inou_firrtl),
      ∃ vec, (Inou_firrtl.create_io_list (.vector_type (.uint_type width) size) dir port_id
            st).value = some vec ∧
        vec = ((List.range size).map fun i =>
          [(port_id, dir, 0, false),
           (port_id ++ "[" ++ nat_to_string i ++ "]", dir, width, false)]).flatten ∧
        vec.length = 2 * size := by
  refine ⟨by rfl, by rfl, ?_⟩
  intro width size dir port_id st
  refine ⟨_, by rw [create_io_list_vector_uint]; rfl, rfl, ?_⟩
  rw [flatten_pairs_length, List.length_range]

/-- C27: for a byte array of n ≥ 1 bytes, each below 256, `ConvertBigIntToStr` returns
`0b`, the 8n binary digits of the bytes in order, each byte most significant bit first,
then `s`, the decimal 8n and `bits`, whether `char` is signed or not; for the empty
array it returns `0b0s1bit`. -/
theorem convert_bigint_to_str (char_signed : Bool) (bytes : List Nat)
    (hb : ∀ b ∈ bytes, b < 256) :
    Inou_firrtl.ConvertBigIntToStr char_signed bytes
      = (if bytes.length = 0 then "0b0s1bit"
        else "0b" ++ Inou_firrtl.bit_string bytes ++ "s" ++ nat_to_string (bytes.length * 8)
          ++ "bits") ∧
    (Inou_firrtl.bit_string bytes).length = 8 * bytes.length :=
  ⟨ConvertBigIntToStr_eq char_signed bytes hb, bit_string_length bytes⟩

/-- Witness of `convert_bigint_to_str`: the bytes 255, 128 and 1 with a signed `char`. -/
theorem convert_bigint_to_str_witness :
    Inou_firrtl.ConvertBigIntToStr true [255, 128, 1]
      = (if [255, 128, 1].length = 0 then "0b0s1bit"
        else "0b" ++ Inou_firrtl.bit_string [255, 128, 1] ++ "s"
          ++ nat_to_string ([255, 128, 1].length * 8) ++ "bits") ∧
    (Inou_firrtl.bit_string [255, 128, 1]).length = 8 * [255, 128, 1].length :=
  convert_bigint_to_str true [255, 128, 1] (by decide)

/-- C28 (as stated, refuted): for the empty byte array the digits between `0b` and `s`
of the literal are the one digit `0`, while the bit string of the array is empty. -/
theorem reparse_empty_counterexample :
    Inou_firrtl.literal_digits (Inou_firrtl.ConvertBigIntToStr true []) = "0" ∧
    Inou_firrtl.literal_digits (Inou_firrtl.ConvertBigIntToStr false []) = "0" ∧
    Inou_firrtl.bit_string [] = "" := by
  refine ⟨by rfl, by rfl, by rfl⟩

/-- C28 (amended): for a byte array of at least one byte, each below 256, the digits
between `0b` and the `s` of the width suffix of `ConvertBigIntToStr(b)` are exactly the bit
string of the array, the digits of its bytes in order, most significant bit first. -/
theorem reparse_gives_bit_string (char_signed : Bool) (bytes : List Nat)
    (hn : bytes ≠ []) (hb : ∀ b ∈ bytes, b < 256) :
    Inou_firrtl.literal_digits (Inou_firrtl.ConvertBigIntToStr char_signed bytes)
      = Inou_firrtl.bit_string bytes := by
  rw [ConvertBigIntToStr_eq char_signed bytes hb]
  have hl : ¬ bytes.length = 0 := by
    intro e
    exact hn (List.length_eq_zero.mp e)
  rw [if_neg hl, String.append_assoc _ "s" (nat_to_string (bytes.length * 8)),
    String.append_assoc _ ("s" ++ nat_to_string (bytes.length * 8)) "bits",
    String.append_assoc "s"]
  have := literal_digits_of (Inou_firrtl.bit_string bytes)
    (nat_to_string (bytes.length * 8) ++ "bits") (bit_string_binary bytes)
  rw [String.append_assoc _ "s"] at this
  exact this

/-- Witness of `reparse_gives_bit_string`: the bytes 255, 128 and 1. -/
theorem reparse_gives_bit_string_witness :
    Inou_firrtl.literal_digits (Inou_firrtl.ConvertBigIntToStr true [255, 128, 1])
      = Inou_firrtl.bit_string [255, 128, 1] :=
  reparse_gives_bit_string true [255, 128, 1] (by decide) (by decide)

/-! ## Lemmas on the pre-traversal for memories -/

theorem Lower.seq_inv {α β : Type} (m : Lower α) (f : α → Lower β) (st st2 : Inou_firrtl)
    (b : β) (out : List Lnast_node) (h : Lower.seq m f st = .ok b st2 out) :
    ∃ a st1 out1 out2, m st = .ok a st1 out1 ∧ f a st1 = .ok b st2 out2 ∧
      out = out1 ++ out2 := by
  unfold Lower.seq at h
  cases hm : m st with
  | error e => rw [hm] at h; cases h
  | ok a st1 out1 =>
    rw [hm] at h
    dsimp only at h
    cases hf : f a st1 with
    | error e => rw [hf] at h; cases h
    | ok b2 st3 out2 =>
      rw [hf] at h
      dsimp only at h
      cases h
      exact ⟨a, st1, out1, out2, rfl, hf, rfl⟩

theorem Lower.seq_eq_ok {α β : Type} (m : Lower α) (f : α → Lower β)
    (st st1 st2 : Inou_firrtl) (a : α) (b : β) (out1 out2 : List Lnast_node)
    (h1 : m st = .ok a st1 out1) (h2 : f a st1 = .ok b st2 out2) :
    Lower.seq m f st = .ok b st2 (out1 ++ out2) := by
  unfold Lower.seq
  rw [h1]
  dsimp only
  rw [h2]

theorem Lower.seq_assoc {α β γ : Type} (m : Lower α) (f : α → Lower β) (g : β → Lower γ) :
    Lower.seq (Lower.seq m f) g = Lower.seq m (fun a => Lower.seq (f a) g) := by
  funext st
  unfold Lower.seq
  cases m st with
  | error e => rfl
  | ok a st1 out1 =>
    dsimp only
    cases f a st1 with
    | error e => rfl
    | ok b st2 out2 =>
      dsimp only
      cases g b st2 with
      | error e => rfl
      | ok c st3 out3 =>
        dsimp only
        rw [List.append_assoc]

theorem Lower.seq_ret_right (m : Lower Unit) :
    Lower.seq m (fun _ => Lower.ret ()) = m := by
  funext st
  unfold Lower.seq Lower.ret
  cases m st with
  | error e => rfl
  | ok a st1 out1 =>
    dsimp only
    rw [List.append_nil]

theorem Lower.ret_seq {β : Type} (f : Unit → Lower β) :
    Lower.seq (Lower.ret ()) f = f () := by
  funext st
  unfold Lower.seq Lower.ret
  dsimp only
  cases f () st with
  | error e => rfl
  | ok b st2 out2 =>
    dsimp only
    rw [List.nil_append]

theorem Lower.for_each_append {α : Type} (f : α → Lower Unit) (l1 l2 : List α) :
    Lower.for_each (l1 ++ l2) f
      = Lower.seq (Lower.for_each l1 f) (fun _ => Lower.for_each l2 f) := by
  induction l1 with
  | nil =>
    rw [List.nil_append, Lower.for_each, Lower.ret_seq]
  | cons a rest ih =>
    rw [List.cons_append, Lower.for_each, Lower.for_each, ih, Lower.seq_assoc]

theorem Lower.for_each_single {α : Type} (f : α → Lower Unit) (a : α) :
    Lower.for_each [a] f = f a := by
  rw [Lower.for_each]
  exact Lower.seq_ret_right (f a)

mutual
theorem PreCheckForMem_decls (char_signed : Bool) :
    ∀ stmt : Fir_statement,
      Inou_firrtl.PreCheckForMem char_signed stmt
        = Lower.for_each (Inou_firrtl.mem_decls stmt) (Inou_firrtl.PreCheckForMem char_signed)
  | .memory _ _ _ _ _ _ _ _ _ => by
    rw [Inou_firrtl.mem_decls, Lower.for_each_single]
  | .cmemory _ _ _ _ => by
    rw [Inou_firrtl.mem_decls, Lower.for_each_single]
  | .memory_port _ _ _ _ _ => by
    rw [Inou_firrtl.mem_decls, Lower.for_each_single]
  | .when _ consequent otherwise => by
    rw [Inou_firrtl.mem_decls, Lower.for_each_append,
      ← PreCheckForMem_each_decls char_signed consequent,
      ← PreCheckForMem_each_decls char_signed otherwise, Inou_firrtl.PreCheckForMem]
    rfl
  | .not_set => rfl
  | .wire _ _ => rfl
  | .register_ _ _ _ _ _ => rfl
  | .instance_ _ _ => rfl
  | .node _ _ => rfl
  | .stop _ _ _ => rfl
  | .printf _ _ _ _ => rfl
  | .skip => rfl
  | .connect _ _ => rfl
  | .partial_connect _ _ => rfl
  | .is_invalid => rfl
  | .attach => rfl
theorem PreCheckForMem_each_decls (char_signed : Bool) :
    ∀ l : List Fir_statement,
      Inou_firrtl.PreCheckForMem_each char_signed l
        = Lower.for_each (Inou_firrtl.mem_decls_each l)
            (Inou_firrtl.PreCheckForMem char_signed)
  | [] => rfl
  | stmt :: rest => by
    rw [Inou_firrtl.mem_decls_each, Lower.for_each_append,
      ← PreCheckForMem_decls char_signed stmt, ← PreCheckForMem_each_decls char_signed rest,
      Inou_firrtl.PreCheckForMem_each]
    rfl
end

theorem list_statements_split (char_signed : Bool) (fuel : Nat)
    (before after : List Fir_statement) (stmt : Fir_statement) (st st_end : Inou_firrtl)
    (out : List Lnast_node)
    (h : Inou_firrtl.list_statements char_signed fuel (before ++ stmt :: after) st
      = .ok () st_end out) :
    ∃ sa sb sc nodes_a nodes_d nodes_n nodes_b,
      Inou_firrtl.list_statements char_signed fuel before st = .ok () sa nodes_a ∧
      Inou_firrtl.PreCheckForMem char_signed stmt sa = .ok () sb nodes_d ∧
      Inou_firrtl.ListStatementInfo fuel stmt sb = .ok () sc nodes_n ∧
      Inou_firrtl.list_statements char_signed fuel after sc = .ok () st_end nodes_b ∧
      out = nodes_a ++ nodes_d ++ nodes_n ++ nodes_b := by
  unfold Inou_firrtl.list_statements at h ⊢
  rw [Lower.for_each_append, Lower.for_each] at h
  obtain ⟨_, sa, nodes_a, o1, ha, h1, e1⟩ := Lower.seq_inv _ _ _ _ _ _ h
  obtain ⟨_, sc, o2, nodes_b, h2, hb, e2⟩ := Lower.seq_inv _ _ _ _ _ _ h1
  unfold Inou_firrtl.list_statement at h2
  obtain ⟨_, sb, nodes_d, nodes_n, hd, hn, e3⟩ := Lower.seq_inv _ _ _ _ _ _ h2
  refine ⟨sa, sb, sc, nodes_a, nodes_d, nodes_n, nodes_b, ha, hd, hn, hb, ?_⟩
  rw [e1, e2, e3]
  simp only [List.append_assoc]

theorem when_ends_with_if (fuel : Nat) (predicate : Fir_expression)
    (consequent otherwise : List Fir_statement) (st st1 : Inou_firrtl)
    (out : List Lnast_node)
    (h : Inou_firrtl.ListStatementInfo fuel (.when predicate consequent otherwise) st
      = .ok () st1 out) :
    ∃ nodes_c cond_str stmts, out = nodes_c ++ [.mk .if_ "when" (.mk .cond cond_str [] :: stmts)] := by
  cases fuel with
  | zero => cases h
  | succ fuel =>
    rw [Inou_firrtl.ListStatementInfo] at h
    obtain ⟨cond_str, s1, nodes_c, o1, _, h1, e1⟩ := Lower.seq_inv _ _ _ _ _ _ h
    obtain ⟨seq_t, s2, o2, o3, hs, h2, e2⟩ := Lower.seq_inv _ _ _ _ _ _ h1
    cases hs
    obtain ⟨stmts_t, s3, o4, o5, hc, h3, e3⟩ := Lower.seq_inv _ _ _ _ _ _ h2
    have ho4 : o4 = [] := by
      unfold Lower.children_of at hc
      split at hc
      · cases hc
      · cases hc; rfl
    split_ifs at h3
    · obtain ⟨seq_f, s4, o6, o7, hs2, h4, e4⟩ := Lower.seq_inv _ _ _ _ _ _ h3
      cases hs2
      obtain ⟨stmts_f, s5, o8, o9, hc2, h5, e5⟩ := Lower.seq_inv _ _ _ _ _ _ h4
      have ho8 : o8 = [] := by
        unfold Lower.children_of at hc2
        split at hc2
        · cases hc2
        · cases hc2; rfl
      cases h5
      rw [e1, e2, e3, e4, e5, ho4, ho8]
      exact ⟨nodes_c, cond_str, _, rfl⟩
    · cases h3
      rw [e1, e2, e3, ho4]
      exact ⟨nodes_c, cond_str, _, rfl⟩

theorem for_each_member {α : Type} (f : α → Lower Unit) (a : α) :
    ∀ (l : List α) (st st1 : Inou_firrtl) (out : List Lnast_node),
      Lower.for_each l f st = .ok () st1 out → a ∈ l →
      ∃ s s1 o, f a s = .ok () s1 o ∧ ∀ n ∈ o, n ∈ out := by
  intro l
  induction l with
  | nil => intro st st1 out _ ha; cases ha
  | cons b rest ih =>
    intro st st1 out h ha
    rw [Lower.for_each] at h
    obtain ⟨_, s1, o1, o2, h1, h2, e⟩ := Lower.seq_inv _ _ _ _ _ _ h
    rcases List.mem_cons.mp ha with hb | hr
    · subst hb
      exact ⟨st, s1, o1, h1, fun n hn => by rw [e]; exact List.mem_append_left _ hn⟩
    · obtain ⟨s, s2, o, hf, ho⟩ := ih s1 st1 o2 h2 hr
      exact ⟨s, s2, o, hf, fun n hn => by rw [e]; exact List.mem_append_right _ (ho n hn)⟩

theorem map_each_member {α β : Type} (f : α → Lower β) (a : α) :
    ∀ (l : List α) (st st1 : Inou_firrtl) (vs : List β) (out : List Lnast_node),
      Inou_firrtl.map_each l f st = .ok vs st1 out → a ∈ l →
      ∃ s s1 v o, f a s = .ok v s1 o ∧ ∀ n ∈ o, n ∈ out := by
  intro l
  induction l with
  | nil => intro st st1 vs out _ ha; cases ha
  | cons b rest ih =>
    intro st st1 vs out h ha
    rw [Inou_firrtl.map_each] at h
    obtain ⟨v, s1, o1, o2, h1, h2, e⟩ := Lower.seq_inv _ _ _ _ _ _ h
    obtain ⟨vs2, s2, o3, o4, h3, h4, e2⟩ := Lower.seq_inv _ _ _ _ _ _ h2
    cases h4
    rcases List.mem_cons.mp ha with hb | hr
    · subst hb
      exact ⟨st, s1, v, o1, h1, fun n hn => by rw [e]; exact List.mem_append_left _ hn⟩
    · obtain ⟨s, s3, w, o, hf, ho⟩ := ih s1 _ vs2 o3 h3 hr
      refine ⟨s, s3, w, o, hf, fun n hn => ?_⟩
      rw [e, e2]
      exact List.mem_append_right _ (List.mem_append_left _ (ho n hn))

theorem late_assign_zeros_nodes (name str_start : String) (suffixes : List String)
    (st : Inou_firrtl) :
    Inou_firrtl.late_assign_zeros name str_start suffixes st
      = .ok () st (suffixes.map fun suffix =>
          .mk .assign name [ref_node (str_start ++ suffix), const_node "0"]) := by
  unfold Inou_firrtl.late_assign_zeros
  induction suffixes with
  | nil => rfl
  | cons s rest ih =>
    rw [Lower.for_each, List.map_cons]
    exact Lower.seq_eq_ok _ _ st st st () () [_] _ rfl ih

theorem HandleMemPortPre_zeros (id memory_id : String) (direction : Mport_direction)
    (st st1 : Inou_firrtl) (out : List Lnast_node)
    (h : Inou_firrtl.HandleMemPortPre id memory_id direction st = .ok () st1 out) :
    ∀ suffix ∈ ["addr", "clk", "en"],
      Lnast_node.mk .assign "" [ref_node (memory_id ++ "_" ++ id ++ "_" ++ suffix),
        const_node "0"] ∈ out := by
  unfold Inou_firrtl.HandleMemPortPre at h
  cases direction
  all_goals
    simp only [bind, Lower.seq, Lower.modify, Lower.get, Inou_firrtl.mport_attributes,
      Inou_firrtl.mport_suffix_list, pure, Lower.ret, Lower.emit, Inou_firrtl.create_temp_var,
      late_assign_zeros_nodes, Lower.fail, List.map_cons, List.map_nil, List.append_nil,
      List.nil_append, List.cons_append, List.singleton_append] at h
  all_goals first
    | (cases h; intro suffix hs; simp only [List.mem_cons, List.mem_singleton,
        List.not_mem_nil, or_false] at hs; rcases hs with e | e | e <;> subst e <;> simp)
    | cases h

theorem init_memory_port_zeros (id tup_name asg_name lat : String) (fwd : Bool)
    (dir : Mem_dir) (suffixes : List String) (port_id : String) (st st1 : Inou_firrtl)
    (v : String × String) (out : List Lnast_node)
    (h : Inou_firrtl.init_memory_port id tup_name asg_name lat fwd dir suffixes port_id st
      = .ok v st1 out) :
    ∀ suffix ∈ suffixes,
      Lnast_node.mk .assign asg_name [ref_node (id ++ "_" ++ port_id ++ suffix),
        const_node "0"] ∈ out := by
  unfold Inou_firrtl.init_memory_port at h
  simp only [bind, Lower.seq, Lower.modify, pure, Lower.ret, Lower.emit,
    Inou_firrtl.create_temp_var, late_assign_zeros_nodes, List.append_nil, List.nil_append,
    List.singleton_append] at h
  cases h
  intro suffix hs
  exact List.mem_cons_of_mem _ (List.mem_map.mpr ⟨suffix, hs, rfl⟩)

theorem map_each_port_zeros (id tup_name asg_name lat : String) (fwd : Bool)
    (dir : Mem_dir) (suffixes : List String) (ports : List String) (st st1 : Inou_firrtl)
    (vs : List (String × String)) (out : List Lnast_node)
    (h : Inou_firrtl.map_each ports
      (Inou_firrtl.init_memory_port id tup_name asg_name lat fwd dir suffixes) st
        = .ok vs st1 out) :
    ∀ port ∈ ports, ∀ suffix ∈ suffixes,
      Lnast_node.mk .assign asg_name [ref_node (id ++ "_" ++ port ++ suffix),
        const_node "0"] ∈ out := by
  intro port hp suffix hs
  obtain ⟨s, s1, v, o, hf, ho⟩ := map_each_member _ port ports st st1 vs out h hp
  exact ho _ (init_memory_port_zeros id tup_name asg_name lat fwd dir suffixes port s s1 v o
    hf suffix hs)

theorem InitMemory_zeros (char_signed : Bool) (id : String) (type : Fir_type)
    (depth : Mem_depth) (read_latency write_latency : Nat)
    (read_under_write : Read_under_write) (reader_id writer_id readwriter_id : List String)
    (st st1 : Inou_firrtl) (out : List Lnast_node)
    (h : Inou_firrtl.InitMemory char_signed id type depth read_latency write_latency
      read_under_write reader_id writer_id readwriter_id st = .ok () st1 out) :
    ∀ port ∈ reader_id ++ writer_id ++ readwriter_id, ∀ suffix ∈ ["_addr", "_clk", "_en"],
      ∃ name, Lnast_node.mk .assign name [ref_node (id ++ "_" ++ port ++ suffix),
        const_node "0"] ∈ out := by
  unfold Inou_firrtl.InitMemory at h
  obtain ⟨_, _, o1, r1, _, h, e1⟩ := Lower.seq_inv _ _ _ _ _ _ h
  obtain ⟨_, _, o2, r2, _, h, e2⟩ := Lower.seq_inv _ _ _ _ _ _ h
  obtain ⟨_, _, o3, r3, _, h, e3⟩ := Lower.seq_inv _ _ _ _ _ _ h
  obtain ⟨_, _, o4, r4, _, h, e4⟩ := Lower.seq_inv _ _ _ _ _ _ h
  obtain ⟨_, _, o5, r5, hr, h, e5⟩ := Lower.seq_inv _ _ _ _ _ _ h
  obtain ⟨_, _, o6, r6, hw, h, e6⟩ := Lower.seq_inv _ _ _ _ _ _ h
  obtain ⟨_, _, o7, r7, hb, h, e7⟩ := Lower.seq_inv _ _ _ _ _ _ h
  intro port hp suffix hs
  have hin : ∀ n, n ∈ o5 ∨ n ∈ o6 ∨ n ∈ o7 → n ∈ out := by
    intro n hn
    rw [e1, e2, e3, e4, e5, e6, e7]
    simp only [List.mem_append]
    tauto
  simp only [List.mem_append] at hp
  rcases hp with (hp | hp) | hp
  · exact ⟨"mem_ra", hin _ (Or.inl (map_each_port_zeros _ _ _ _ _ _ _ _ _ _ _ _ hr port hp
      suffix hs))⟩
  · exact ⟨"mem_wa", hin _ (Or.inr (Or.inl (map_each_port_zeros _ _ _ _ _ _ _ _ _ _ _ _ hw
      port hp suffix (by
        simp only [List.mem_cons, List.mem_singleton, List.not_mem_nil, or_false] at hs ⊢
        tauto))))⟩
  · exact ⟨"mem_rwa", hin _ (Or.inr (Or.inr (map_each_port_zeros _ _ _ _ _ _ _ _ _ _ _ _ hb
      port hp suffix (by
        simp only [List.mem_cons, List.mem_singleton, List.not_mem_nil, or_false] at hs ⊢
        tauto))))⟩

theorem PreCheckForMem_zeros (char_signed : Bool) (decls : List Fir_statement)
    (st st1 : Inou_firrtl) (out : List Lnast_node)
    (h : Lower.for_each decls (Inou_firrtl.PreCheckForMem char_signed) st = .ok () st1 out) :
    (∀ id memory_id expression memory_index direction,
      Fir_statement.memory_port id memory_id expression memory_index direction ∈ decls →
      ∀ suffix ∈ ["addr", "clk", "en"],
        Lnast_node.mk .assign "" [ref_node (memory_id ++ "_" ++ id ++ "_" ++ suffix),
          const_node "0"] ∈ out) ∧
    (∀ id type depth read_latency write_latency read_under_write reader_id writer_id
        readwriter_id,
      Fir_statement.memory id type depth read_latency write_latency read_under_write
        reader_id writer_id readwriter_id ∈ decls →
      ∀ port ∈ reader_id ++ writer_id ++ readwriter_id, ∀ suffix ∈ ["_addr", "_clk", "_en"],
        ∃ name, Lnast_node.mk .assign name [ref_node (id ++ "_" ++ port ++ suffix),
          const_node "0"] ∈ out) := by
  constructor
  · intro id memory_id expression memory_index direction hd suffix hs
    obtain ⟨s, s1, o, hf, ho⟩ := for_each_member _ _ decls st st1 out h hd
    rw [Inou_firrtl.PreCheckForMem] at hf
    exact ho _ (HandleMemPortPre_zeros id memory_id direction s s1 o hf suffix hs)
  · intro id type depth read_latency write_latency read_under_write reader_id writer_id
      readwriter_id hd port hp suffix hs
    obtain ⟨s, s1, o, hf, ho⟩ := for_each_member _ _ decls st st1 out h hd
    rw [Inou_firrtl.PreCheckForMem] at hf
    obtain ⟨_, s2, o1, o2, _, hf2, e⟩ := Lower.seq_inv _ _ _ _ _ _ hf
    obtain ⟨name, hn⟩ := InitMemory_zeros char_signed id type depth read_latency write_latency
      read_under_write reader_id writer_id readwriter_id _ _ _ hf2 port hp suffix hs
    exact ⟨name, ho _ (by rw [e]; exact List.mem_append_right _ hn)⟩

theorem Lowered.ok_of_err_none {α : Type} (r : Lowered α) (h : r.err = none) :
    ∃ v st out, r = .ok v st out := by
  cases r with
  | ok v st out => exact ⟨v, st, out, rfl⟩
  | error e => cases h

theorem children_of_inv (m : Lower Unit) (st st1 : Inou_firrtl) (v out : List Lnast_node)
    (h : Lower.children_of m st = .ok v st1 out) : m st = .ok () st1 v ∧ out = [] := by
  unfold Lower.children_of at h
  split at h
  · cases h
  · rename_i u s o hm
    cases h
    exact ⟨hm, rfl⟩

theorem when_structure (fuel : Nat) (predicate : Fir_expression)
    (consequent otherwise : List Fir_statement) (st st1 : Inou_firrtl)
    (out : List Lnast_node)
    (h : Inou_firrtl.ListStatementInfo fuel (.when predicate consequent otherwise) st
      = .ok () st1 out) :
    ∃ f cond_str s1 nodes_c seq_t s2 s3 stmts_t else_part,
      fuel = f + 1 ∧
      Inou_firrtl.ReturnExprString f predicate true st = .ok cond_str s1 nodes_c ∧
      Inou_firrtl.get_new_seq_name s1 = .ok seq_t s2 [] ∧
      Lower.for_each consequent (Inou_firrtl.ListStatementInfo f) s2 = .ok () s3 stmts_t ∧
      (otherwise = [] → else_part = []) ∧
      (otherwise ≠ [] → ∃ seq_f s4 stmts_f,
        Inou_firrtl.get_new_seq_name s3 = .ok seq_f s4 [] ∧
        Lower.for_each otherwise (Inou_firrtl.ListStatementInfo f) s4 = .ok () st1 stmts_f ∧
        else_part = [.mk .stmts seq_f stmts_f]) ∧
      out = nodes_c ++
        [.mk .if_ "when" (.mk .cond cond_str [] :: .mk .stmts seq_t stmts_t :: else_part)] := by
  cases fuel with
  | zero => cases h
  | succ fuel =>
    rw [Inou_firrtl.ListStatementInfo] at h
    obtain ⟨cond_str, s1, nodes_c, o1, hc0, h1, e1⟩ := Lower.seq_inv _ _ _ _ _ _ h
    obtain ⟨seq_t, s2, o2, o3, hs, h2, e2⟩ := Lower.seq_inv _ _ _ _ _ _ h1
    have ho2 : o2 = [] := by cases hs; rfl
    obtain ⟨stmts_t, s3, o4, o5, hc, h3, e3⟩ := Lower.seq_inv _ _ _ _ _ _ h2
    obtain ⟨hc1, ho4⟩ := children_of_inv _ _ _ _ _ hc
    subst ho2 ho4
    split_ifs at h3 with hlen
    · obtain ⟨seq_f, s4, o6, o7, hs2, h4, e4⟩ := Lower.seq_inv _ _ _ _ _ _ h3
      have ho6 : o6 = [] := by cases hs2; rfl
      obtain ⟨stmts_f, s5, o8, o9, hc2, h5, e5⟩ := Lower.seq_inv _ _ _ _ _ _ h4
      obtain ⟨hc3, ho8⟩ := children_of_inv _ _ _ _ _ hc2
      subst ho6 ho8
      cases h5
      refine ⟨fuel, cond_str, s1, nodes_c, seq_t, s2, s3, stmts_t,
        [.mk .stmts seq_f stmts_f], rfl, hc0, hs, hc1, ?_, ?_, ?_⟩
      · intro ho
        rw [ho] at hlen
        exact absurd hlen (by decide)
      · intro _
        exact ⟨seq_f, s4, stmts_f, hs2, hc3, rfl⟩
      · rw [e1, e2, e3, e4, e5]
        rfl
    · cases h3
      refine ⟨fuel, cond_str, s1, nodes_c, seq_t, s2, _, stmts_t, [], rfl, hc0, hs, hc1,
        ?_, ?_, ?_⟩
      · intro _
        rfl
      · intro ho
        exact absurd (List.length_pos.mpr ho) hlen
      · rw [e1, e2, e3]
        rfl

theorem mem_decls_each_member (p : Fir_statement) :
    ∀ l : List Fir_statement, p ∈ Inou_firrtl.mem_decls_each l →
      ∃ x ∈ l, p ∈ Inou_firrtl.mem_decls x := by
  intro l
  induction l with
  | nil =>
    intro h
    rw [Inou_firrtl.mem_decls_each] at h
    cases h
  | cons a rest ih =>
    intro h
    rw [Inou_firrtl.mem_decls_each, List.mem_append] at h
    rcases h with h | h
    · exact ⟨a, List.mem_cons_self _ _, h⟩
    · obtain ⟨x, hx, hp⟩ := ih h
      exact ⟨x, List.mem_cons_of_mem _ hx, hp⟩

/-- The two driver assignments that `HandleMemPort` emits for a memory port. -/
theorem HandleMemPort_drivers (fuel : Nat) (id memory_id : String)
    (expression memory_index : Fir_expression) (st st1 : Inou_firrtl)
    (out : List Lnast_node)
    (h : Inou_firrtl.HandleMemPort fuel id memory_id expression memory_index st
      = .ok () st1 out) :
    ∃ adr_str clk_str s1 s2 nodes_clk nodes_adr,
      Inou_firrtl.ReturnExprString fuel expression true st = .ok clk_str s1 nodes_clk ∧
      Inou_firrtl.ReturnExprString fuel memory_index true s1 = .ok adr_str s2 nodes_adr ∧
      st1 = s2 ∧
      out = nodes_clk ++ nodes_adr ++
        [.mk .assign "" [ref_node (memory_id ++ "_" ++ id ++ "_" ++ "addr"),
          Inou_firrtl.AttachExprStrToNode adr_str],
         .mk .assign "" [ref_node (memory_id ++ "_" ++ id ++ "_" ++ "clk"),
          Inou_firrtl.AttachExprStrToNode clk_str]] := by
  unfold Inou_firrtl.HandleMemPort at h
  obtain ⟨s0, s0b, o0, r0, hg, h1, e0⟩ := Lower.seq_inv _ _ _ _ _ _ h
  have hg2 : st = s0 ∧ st = s0b ∧ o0 = [] := by
    cases hg
    exact ⟨rfl, rfl, rfl⟩
  obtain ⟨ea, eb, ec⟩ := hg2
  subst ea eb ec
  obtain ⟨_, sI, oI, rI, hI, h2, eI⟩ := Lower.seq_inv _ _ _ _ _ _ h1
  have hI2 : st = sI ∧ oI = [] := by
    unfold Inou_firrtl.I at hI
    split_ifs at hI
    · cases hI; exact ⟨rfl, rfl⟩
    · cases hI
  obtain ⟨ea, eb⟩ := hI2
  subst ea eb
  obtain ⟨clk_str, s1, nodes_clk, r1, hclk, h3, e1⟩ := Lower.seq_inv _ _ _ _ _ _ h2
  obtain ⟨adr_str, s2, nodes_adr, r2, hadr, h4, e2⟩ := Lower.seq_inv _ _ _ _ _ _ h3
  obtain ⟨_, s3, o3, r3, h5, h6, e3⟩ := Lower.seq_inv _ _ _ _ _ _ h4
  have h5b : s3 = s2 ∧ o3 = [Lnast_node.mk .assign ""
      [ref_node (memory_id ++ "_" ++ id ++ "_" ++ "addr"),
        Inou_firrtl.AttachExprStrToNode adr_str]] := by
    cases h5
    exact ⟨rfl, rfl⟩
  have h6b : st1 = s3 ∧ r3 = [Lnast_node.mk .assign ""
      [ref_node (memory_id ++ "_" ++ id ++ "_" ++ "clk"),
        Inou_firrtl.AttachExprStrToNode clk_str]] := by
    cases h6
    exact ⟨rfl, rfl⟩
  refine ⟨adr_str, clk_str, s1, s2, nodes_clk, nodes_adr, hclk, hadr, ?_, ?_⟩
  · rw [h6b.1, h5b.1]
  · rw [e0, eI, e1, e2, e3, h5b.2, h6b.2]
    simp

/-- The drivers of the memory ports inside a `when` are below its `if` node, given that
those of every statement lowered with the budget `f` are among or below its nodes. -/
theorem when_drivers_below (f : Nat)
    (hA : ∀ (stmt : Fir_statement) (st st1 : Inou_firrtl) (out : List Lnast_node),
      Inou_firrtl.ListStatementInfo f stmt st = .ok () st1 out →
      ∀ id memory_id expression memory_index direction,
        Fir_statement.memory_port id memory_id expression memory_index direction
          ∈ Inou_firrtl.mem_decls stmt →
        ∃ g s s1 s2 adr_str clk_str nodes_clk nodes_adr,
          Inou_firrtl.ReturnExprString g expression true s = .ok clk_str s1 nodes_clk ∧
          Inou_firrtl.ReturnExprString g memory_index true s1 = .ok adr_str s2 nodes_adr ∧
          ∀ n ∈ [Lnast_node.mk .assign "" [ref_node (memory_id ++ "_" ++ id ++ "_" ++ "addr"),
                  Inou_firrtl.AttachExprStrToNode adr_str],
                 Lnast_node.mk .assign "" [ref_node (memory_id ++ "_" ++ id ++ "_" ++ "clk"),
                  Inou_firrtl.AttachExprStrToNode clk_str]],
            n ∈ out ∨ ∃ r ∈ out, Below n r)
    (predicate : Fir_expression) (consequent otherwise : List Fir_statement)
    (st st1 : Inou_firrtl) (out : List Lnast_node)
    (h : Inou_firrtl.ListStatementInfo (f + 1) (.when predicate consequent otherwise) st
      = .ok () st1 out)
    (id memory_id : String) (expression memory_index : Fir_expression)
    (direction : Mport_direction)
    (hd : Fir_statement.memory_port id memory_id expression memory_index direction
      ∈ Inou_firrtl.mem_decls (.when predicate consequent otherwise)) :
    ∃ g s s1 s2 adr_str clk_str nodes_clk nodes_adr,
      Inou_firrtl.ReturnExprString g expression true s = .ok clk_str s1 nodes_clk ∧
      Inou_firrtl.ReturnExprString g memory_index true s1 = .ok adr_str s2 nodes_adr ∧
      ∀ n ∈ [Lnast_node.mk .assign "" [ref_node (memory_id ++ "_" ++ id ++ "_" ++ "addr"),
              Inou_firrtl.AttachExprStrToNode adr_str],
             Lnast_node.mk .assign "" [ref_node (memory_id ++ "_" ++ id ++ "_" ++ "clk"),
              Inou_firrtl.AttachExprStrToNode clk_str]],
        ∃ pre r, out = pre ++ [r] ∧ Below n r := by
  obtain ⟨f2, cond_str, s1, nodes_c, seq_t, s2, s3, stmts_t, else_part, hf, _, _, hcons,
    hnil, helse, hout⟩ := when_structure _ _ _ _ _ _ _ h
  have hf2 : f2 = f := by omega
  subst hf2
  rw [Inou_firrtl.mem_decls, List.mem_append] at hd
  -- the statement of the `when` that declares the port, its nodes below a `stmts` child
  have key : ∀ (l : List Fir_statement) (sx sy : Inou_firrtl) (nodes : List Lnast_node)
      (seq_name : String),
      Lower.for_each l (Inou_firrtl.ListStatementInfo f2) sx = .ok () sy nodes →
      Fir_statement.memory_port id memory_id expression memory_index direction
        ∈ Inou_firrtl.mem_decls_each l →
      Lnast_node.mk .stmts seq_name nodes ∈
        (Lnast_node.mk .cond cond_str [] :: .mk .stmts seq_t stmts_t :: else_part) →
      ∃ g s s1 s2 adr_str clk_str nodes_clk nodes_adr,
        Inou_firrtl.ReturnExprString g expression true s = .ok clk_str s1 nodes_clk ∧
        Inou_firrtl.ReturnExprString g memory_index true s1 = .ok adr_str s2 nodes_adr ∧
        ∀ n ∈ [Lnast_node.mk .assign "" [ref_node (memory_id ++ "_" ++ id ++ "_" ++ "addr"),
                Inou_firrtl.AttachExprStrToNode adr_str],
               Lnast_node.mk .assign "" [ref_node (memory_id ++ "_" ++ id ++ "_" ++ "clk"),
                Inou_firrtl.AttachExprStrToNode clk_str]],
          ∃ pre r, out = pre ++ [r] ∧ Below n r := by
    intro l sx sy nodes seq_name hl hmem hchild
    obtain ⟨x, hx, hpx⟩ := mem_decls_each_member _ l hmem
    obtain ⟨s, sb, o, hfx, ho⟩ := for_each_member _ x l sx sy nodes hl hx
    obtain ⟨g, t, t1, t2, adr_str, clk_str, nodes_clk, nodes_adr, hc, ha, hn⟩ :=
      hA x s sb o hfx id memory_id expression memory_index direction hpx
    refine ⟨g, t, t1, t2, adr_str, clk_str, nodes_clk, nodes_adr, hc, ha, ?_⟩
    intro n hnm
    refine ⟨nodes_c, _, hout, ?_⟩
    rcases hn n hnm with hin | ⟨r, hr, hb⟩
    · exact Below.deeper _ _ _ _ hchild (Below.child _ _ _ (ho n hin))
    · exact Below.deeper _ _ _ _ hchild (Below.deeper _ _ _ r (ho r hr) hb)
  rcases hd with hd | hd
  · exact key consequent s2 s3 stmts_t seq_t hcons hd
      (List.mem_cons_of_mem _ (List.mem_cons_self _ _))
  · have hne : otherwise ≠ [] := by
      intro e
      rw [e, Inou_firrtl.mem_decls_each] at hd
      cases hd
    obtain ⟨seq_f, s4, stmts_f, _, hoth, hep⟩ := helse hne
    exact key otherwise s4 st1 stmts_f seq_f hoth hd (by rw [hep]; simp)

/-- The drivers of the memory ports declared by a statement are among the nodes of its
lowering or below one of them. -/
theorem port_drivers_inside :
    ∀ (f : Nat) (stmt : Fir_statement) (st st1 : Inou_firrtl) (out : List Lnast_node),
      Inou_firrtl.ListStatementInfo f stmt st = .ok () st1 out →
      ∀ id memory_id expression memory_index direction,
        Fir_statement.memory_port id memory_id expression memory_index direction
          ∈ Inou_firrtl.mem_decls stmt →
        ∃ g s s1 s2 adr_str clk_str nodes_clk nodes_adr,
          Inou_firrtl.ReturnExprString g expression true s = .ok clk_str s1 nodes_clk ∧
          Inou_firrtl.ReturnExprString g memory_index true s1 = .ok adr_str s2 nodes_adr ∧
          ∀ n ∈ [Lnast_node.mk .assign "" [ref_node (memory_id ++ "_" ++ id ++ "_" ++ "addr"),
                  Inou_firrtl.AttachExprStrToNode adr_str],
                 Lnast_node.mk .assign "" [ref_node (memory_id ++ "_" ++ id ++ "_" ++ "clk"),
                  Inou_firrtl.AttachExprStrToNode clk_str]],
            n ∈ out ∨ ∃ r ∈ out, Below n r := by
  intro f
  induction f with
  | zero =>
    intro stmt st st1 out h
    rw [Inou_firrtl.ListStatementInfo] at h
    cases h
  | succ f ih =>
    intro stmt st st1 out h id memory_id expression memory_index direction hd
    cases stmt with
    | when predicate consequent otherwise =>
      obtain ⟨g, s, s1, s2, adr_str, clk_str, nodes_clk, nodes_adr, hc, ha, hn⟩ :=
        when_drivers_below f ih predicate consequent otherwise st st1 out h id memory_id
          expression memory_index direction hd
      refine ⟨g, s, s1, s2, adr_str, clk_str, nodes_clk, nodes_adr, hc, ha, ?_⟩
      intro n hnm
      obtain ⟨pre, r, e, hb⟩ := hn n hnm
      exact Or.inr ⟨r, by rw [e]; simp, hb⟩
    | memory_port id2 memory_id2 expression2 memory_index2 direction2 =>
      rw [Inou_firrtl.mem_decls, List.mem_singleton] at hd
      cases hd
      rw [Inou_firrtl.ListStatementInfo] at h
      obtain ⟨adr_str, clk_str, s1, s2, nodes_clk, nodes_adr, hc, ha, _, e⟩ :=
        HandleMemPort_drivers _ _ _ _ _ _ _ _ h
      refine ⟨f, st, s1, s2, adr_str, clk_str, nodes_clk, nodes_adr, hc, ha, ?_⟩
      intro n hnm
      left
      rw [e]
      exact List.mem_append_right _ hnm
    | memory _ _ _ _ _ _ _ _ _ =>
      rw [Inou_firrtl.mem_decls, List.mem_singleton] at hd
      cases hd
    | cmemory _ _ _ _ =>
      rw [Inou_firrtl.mem_decls, List.mem_singleton] at hd
      cases hd
    | _ => simp [Inou_firrtl.mem_decls] at hd

theorem create_temp_var_inv (st st1 : Inou_firrtl) (v : String) (out : List Lnast_node)
    (h : Inou_firrtl.create_temp_var st = .ok v st1 out) :
    v = "___F" ++ nat_to_string st.temp_var_count ∧ out = [] := by
  unfold Inou_firrtl.create_temp_var at h
  cases h
  exact ⟨rfl, rfl⟩

theorem emit_inv (node : Lnast_node) (st st1 : Inou_firrtl) (out : List Lnast_node)
    (h : Lower.emit node st = .ok () st1 out) : out = [node] := by
  unfold Lower.emit at h
  cases h
  rfl

/-- The nodes that `InitCMemory` emits for the size of the memory. -/
theorem InitCMemory_nodes (char_signed : Bool) (id : String) (type : Cmem_type)
    (read_under_write : Read_under_write) (sync_read : Bool) (st st1 : Inou_firrtl)
    (out : List Lnast_node)
    (h : Inou_firrtl.InitCMemory char_signed id type read_under_write sync_read st
      = .ok () st1 out) :
    ∃ depth_type temp_var_s rest,
      Inou_firrtl.cmemory_depth_type char_signed type st = .ok depth_type st [] ∧
      out = [.mk .dot "cmem" [ref_node temp_var_s, ref_node ("#" ++ id), ref_node "__size"],
        .mk .assign "cmem" [ref_node temp_var_s, const_node depth_type.1]] ++ rest := by
  unfold Inou_firrtl.InitCMemory at h
  obtain ⟨dt, s1, o1, r1, hdt, h1, e1⟩ := Lower.seq_inv _ _ _ _ _ _ h
  obtain ⟨tmp, s2, o2, r2, ht, h2, e2⟩ := Lower.seq_inv _ _ _ _ _ _ h1
  obtain ⟨_, s3, o3, r3, h3a, h3, e3⟩ := Lower.seq_inv _ _ _ _ _ _ h2
  obtain ⟨_, s4, o4, r4, h4a, h4, e4⟩ := Lower.seq_inv _ _ _ _ _ _ h3
  have ho2 := (create_temp_var_inv _ _ _ _ ht).2
  have ho3 := emit_inv _ _ _ _ h3a
  have ho4 := emit_inv _ _ _ _ h4a
  have hdt2 : st = s1 ∧ o1 = [] := by
    unfold Inou_firrtl.cmemory_depth_type at hdt
    cases type <;> cases hdt <;> exact ⟨rfl, rfl⟩
  obtain ⟨ea, eb⟩ := hdt2
  refine ⟨dt, tmp, r4, ?_, ?_⟩
  · rw [hdt, ← ea, eb]
  · rw [e1, e2, e3, e4, eb, ho2, ho3, ho4]
    rfl

/-- The nodes that `InitMemory` emits for the size of the memory and for its tuple of
ports. -/
theorem InitMemory_nodes (char_signed : Bool) (id : String) (type : Fir_type)
    (depth : Mem_depth) (read_latency write_latency : Nat)
    (read_under_write : Read_under_write) (reader_id writer_id readwriter_id : List String)
    (st st1 : Inou_firrtl) (out : List Lnast_node)
    (h : Inou_firrtl.InitMemory char_signed id type depth read_latency write_latency
      read_under_write reader_id writer_id readwriter_id st = .ok () st1 out) :
    ∃ depth_str temp_var_d temp_var_lhs temp_var_t tup_ids,
      Inou_firrtl.memory_depth_str char_signed depth st = .ok depth_str st [] ∧
      Lnast_node.mk .dot "mem"
        [ref_node temp_var_d, ref_node ("#" ++ id), ref_node "__size"] ∈ out ∧
      Lnast_node.mk .assign "mem" [ref_node temp_var_d, const_node depth_str] ∈ out ∧
      Lnast_node.mk .dot "memLHS"
        [ref_node temp_var_lhs, ref_node ("#" ++ id), ref_node "__port"] ∈ out ∧
      Lnast_node.mk .tuple "mem" (ref_node temp_var_t ::
        List.map (fun port_temp : String × String =>
          Lnast_node.mk .assign "" [ref_node port_temp.1, ref_node port_temp.2]) tup_ids)
        ∈ out ∧
      Lnast_node.mk .assign "" [ref_node temp_var_lhs, ref_node temp_var_t] ∈ out := by
  unfold Inou_firrtl.InitMemory at h
  obtain ⟨ds, s1, o1, r1, hds, h1, e1⟩ := Lower.seq_inv _ _ _ _ _ _ h
  obtain ⟨tmp, _, o2, r2, _, h2, e2⟩ := Lower.seq_inv _ _ _ _ _ _ h1
  obtain ⟨_, _, o3, r3, h3a, h3, e3⟩ := Lower.seq_inv _ _ _ _ _ _ h2
  obtain ⟨_, _, o4, r4, h4a, h4, e4⟩ := Lower.seq_inv _ _ _ _ _ _ h3
  obtain ⟨tup_r, _, o5, r5, _, h5, e5⟩ := Lower.seq_inv _ _ _ _ _ _ h4
  obtain ⟨tup_w, _, o6, r6, _, h6, e6⟩ := Lower.seq_inv _ _ _ _ _ _ h5
  obtain ⟨tup_b, _, o7, r7, _, h7, e7⟩ := Lower.seq_inv _ _ _ _ _ _ h6
  obtain ⟨lhs, _, o8, r8, _, h8, e8⟩ := Lower.seq_inv _ _ _ _ _ _ h7
  obtain ⟨_, _, o9, r9, h9a, h9, e9⟩ := Lower.seq_inv _ _ _ _ _ _ h8
  obtain ⟨t, _, o10, r10, _, h10, e10⟩ := Lower.seq_inv _ _ _ _ _ _ h9
  obtain ⟨_, _, o11, r11, h11a, h11, e11⟩ := Lower.seq_inv _ _ _ _ _ _ h10
  obtain ⟨_, _, o12, r12, h12a, h12, e12⟩ := Lower.seq_inv _ _ _ _ _ _ h11
  have hds2 : st = s1 ∧ o1 = [] := by
    unfold Inou_firrtl.memory_depth_str at hds
    cases depth <;> cases hds <;> exact ⟨rfl, rfl⟩
  have ho3 := emit_inv _ _ _ _ h3a
  have ho4 := emit_inv _ _ _ _ h4a
  have ho9 := emit_inv _ _ _ _ h9a
  have ho11 := emit_inv _ _ _ _ h11a
  have ho12 := emit_inv _ _ _ _ h12a
  refine ⟨ds, tmp, lhs, t, tup_r ++ tup_w ++ tup_b, ?_, ?_, ?_, ?_, ?_, ?_⟩
  · rw [hds, ← hds2.1, hds2.2]
  · rw [e1, e2, e3, ho3]; simp
  · rw [e1, e2, e3, e4, ho4]; simp
  · rw [e1, e2, e3, e4, e5, e6, e7, e8, e9, ho9]; simp
  · rw [e1, e2, e3, e4, e5, e6, e7, e8, e9, e10, e11, ho11]; simp
  · rw [e1, e2, e3, e4, e5, e6, e7, e8, e9, e10, e11, e12, ho12]; simp

/-- The nodes that `HandleMemPortPre` emits for the port and its attachment to the
memory. -/
theorem HandleMemPortPre_nodes (id memory_id : String) (direction : Mport_direction)
    (st st1 : Inou_firrtl) (out : List Lnast_node)
    (h : Inou_firrtl.HandleMemPortPre id memory_id direction st = .ok () st1 out) :
    ∃ fwd attributes temp_var_L temp_var_R,
      Lnast_node.mk .tuple "mport"
        (ref_node id :: .mk .assign "" [ref_node "__fwd", const_node fwd] :: attributes)
          ∈ out ∧
      Lnast_node.mk .dot "mport"
        [ref_node temp_var_L, ref_node ("#" ++ memory_id), ref_node "__port"] ∈ out ∧
      Lnast_node.mk .dot "mport"
        [ref_node temp_var_R, ref_node ("#" ++ memory_id), ref_node "__port"] ∈ out ∧
      Lnast_node.mk .tuple_concat "mport"
        [ref_node temp_var_L, ref_node temp_var_R, ref_node id] ∈ out := by
  unfold Inou_firrtl.HandleMemPortPre at h
  cases direction
  all_goals
    simp only [bind, Lower.seq, Lower.modify, Lower.get, Inou_firrtl.mport_attributes,
      Inou_firrtl.mport_suffix_list, pure, Lower.ret, Lower.emit, Inou_firrtl.create_temp_var,
      late_assign_zeros_nodes, Lower.fail, List.map_cons, List.map_nil, List.append_nil,
      List.nil_append, List.cons_append, List.singleton_append] at h
  all_goals first
    | (cases h; exact ⟨_, _, _, _, List.mem_cons_self _ _,
        List.mem_cons_of_mem _ (List.mem_cons_self _ _),
        List.mem_cons_of_mem _ (List.mem_cons_of_mem _ (List.mem_cons_self _ _)),
        List.mem_cons_of_mem _ (List.mem_cons_of_mem _ (List.mem_cons_of_mem _
          (List.mem_cons_self _ _)))⟩)
    | cases h

theorem for_each_block {α : Type} (f : α → Lower Unit) (a : α) :
    ∀ (l : List α) (st st1 : Inou_firrtl) (out : List Lnast_node),
      Lower.for_each l f st = .ok () st1 out → a ∈ l →
      ∃ s s1 o pre post, f a s = .ok () s1 o ∧ out = pre ++ o ++ post := by
  intro l
  induction l with
  | nil => intro st st1 out _ ha; cases ha
  | cons b rest ih =>
    intro st st1 out h ha
    rw [Lower.for_each] at h
    obtain ⟨_, s1, o1, o2, h1, h2, e⟩ := Lower.seq_inv _ _ _ _ _ _ h
    rcases List.mem_cons.mp ha with hb | hr
    · subst hb
      exact ⟨st, s1, o1, [], o2, h1, by rw [e]; rfl⟩
    · obtain ⟨s, s2, o, pre, post, hf, ho⟩ := ih s1 st1 o2 h2 hr
      exact ⟨s, s2, o, o1 ++ pre, post, hf, by rw [e, ho]; simp only [List.append_assoc]⟩

/-- The nodes of the pre-traversal for each kind of declaration. -/
theorem PreCheckForMem_nodes (char_signed : Bool) (decls : List Fir_statement)
    (st st1 : Inou_firrtl) (out : List Lnast_node)
    (h : Lower.for_each decls (Inou_firrtl.PreCheckForMem char_signed) st = .ok () st1 out) :
    (∀ id memory_id expression memory_index direction,
      Fir_statement.memory_port id memory_id expression memory_index direction ∈ decls →
      ∃ fwd attributes temp_var_L temp_var_R,
        Lnast_node.mk .tuple "mport"
          (ref_node id :: .mk .assign "" [ref_node "__fwd", const_node fwd] :: attributes)
            ∈ out ∧
        Lnast_node.mk .dot "mport"
          [ref_node temp_var_L, ref_node ("#" ++ memory_id), ref_node "__port"] ∈ out ∧
        Lnast_node.mk .dot "mport"
          [ref_node temp_var_R, ref_node ("#" ++ memory_id), ref_node "__port"] ∈ out ∧
        Lnast_node.mk .tuple_concat "mport"
          [ref_node temp_var_L, ref_node temp_var_R, ref_node id] ∈ out) ∧
    (∀ id type depth read_latency write_latency read_under_write reader_id writer_id
        readwriter_id,
      Fir_statement.memory id type depth read_latency write_latency read_under_write
        reader_id writer_id readwriter_id ∈ decls →
      ∃ s depth_str temp_var_d temp_var_lhs temp_var_t tup_ids,
        Inou_firrtl.memory_depth_str char_signed depth s = .ok depth_str s [] ∧
        Lnast_node.mk .dot "mem"
          [ref_node temp_var_d, ref_node ("#" ++ id), ref_node "__size"] ∈ out ∧
        Lnast_node.mk .assign "mem" [ref_node temp_var_d, const_node depth_str] ∈ out ∧
        Lnast_node.mk .dot "memLHS"
          [ref_node temp_var_lhs, ref_node ("#" ++ id), ref_node "__port"] ∈ out ∧
        Lnast_node.mk .tuple "mem" (ref_node temp_var_t ::
          List.map (fun port_temp : String × String =>
            Lnast_node.mk .assign "" [ref_node port_temp.1, ref_node port_temp.2]) tup_ids)
          ∈ out ∧
        Lnast_node.mk .assign "" [ref_node temp_var_lhs, ref_node temp_var_t] ∈ out) ∧
    (∀ id type read_under_write sync_read,
      Fir_statement.cmemory id type read_under_write sync_read ∈ decls →
      ∃ s depth_type temp_var_s pre post,
        Inou_firrtl.cmemory_depth_type char_signed type s = .ok depth_type s [] ∧
        out = pre ++
          [.mk .dot "cmem" [ref_node temp_var_s, ref_node ("#" ++ id), ref_node "__size"],
           .mk .assign "cmem" [ref_node temp_var_s, const_node depth_type.1]] ++ post) := by
  refine ⟨?_, ?_, ?_⟩
  · intro id memory_id expression memory_index direction hd
    obtain ⟨s, s1, o, hf, ho⟩ := for_each_member _ _ decls st st1 out h hd
    rw [Inou_firrtl.PreCheckForMem] at hf
    obtain ⟨fwd, attributes, tL, tR, h1, h2, h3, h4⟩ :=
      HandleMemPortPre_nodes id memory_id direction s s1 o hf
    exact ⟨fwd, attributes, tL, tR, ho _ h1, ho _ h2, ho _ h3, ho _ h4⟩
  · intro id type depth read_latency write_latency read_under_write reader_id writer_id
      readwriter_id hd
    obtain ⟨s, s1, o, hf, ho⟩ := for_each_member _ _ decls st st1 out h hd
    rw [Inou_firrtl.PreCheckForMem] at hf
    obtain ⟨_, s2, o1, o2, hm, hf2, e⟩ := Lower.seq_inv _ _ _ _ _ _ hf
    obtain ⟨depth_str, td, tl, tt, tup_ids, h0, h1, h2, h3, h4, h5⟩ :=
      InitMemory_nodes char_signed id type depth read_latency write_latency
        read_under_write reader_id writer_id readwriter_id _ _ _ hf2
    have hin : ∀ n ∈ o2, n ∈ out := fun n hn =>
      ho n (by rw [e]; exact List.mem_append_right _ hn)
    exact ⟨s2, depth_str, td, tl, tt, tup_ids, h0, hin _ h1, hin _ h2, hin _ h3, hin _ h4,
      hin _ h5⟩
  · intro id type read_under_write sync_read hd
    obtain ⟨s, s1, o, pre, post, hf, ho⟩ := for_each_block _ _ decls st st1 out h hd
    rw [Inou_firrtl.PreCheckForMem] at hf
    obtain ⟨_, s2, o1, o2, hm, hf2, e⟩ := Lower.seq_inv _ _ _ _ _ _ hf
    have ho1 : o1 = [] := by
      unfold Lower.modify at hm
      cases hm
      rfl
    obtain ⟨depth_type, ts, rest, h0, h1⟩ :=
      InitCMemory_nodes char_signed id type read_under_write sync_read _ _ _ hf2
    refine ⟨s2, depth_type, ts, pre, rest ++ post, h0, ?_⟩
    rw [ho, e, ho1, h1]
    simp only [List.nil_append, List.append_assoc]

mutual
theorem same_node_sound : ∀ a b : Lnast_node, same_node a b = true → a = b
  | .mk type1 name1 children1, .mk type2 name2 children2 => by
    intro h
    rw [same_node] at h
    simp only [Bool.and_eq_true, decide_eq_true_eq] at h
    obtain ⟨⟨h1, h2⟩, h3⟩ := h
    rw [h1, h2, same_nodes_sound children1 children2 h3]
theorem same_nodes_sound : ∀ l1 l2 : List Lnast_node, same_nodes l1 l2 = true → l1 = l2
  | [], [] => fun _ => rfl
  | a :: rest1, b :: rest2 => by
    intro h
    rw [same_nodes] at h
    simp only [Bool.and_eq_true] at h
    rw [same_node_sound a b h.1, same_nodes_sound rest1 rest2 h.2]
  | [], _ :: _ => by
    intro h
    rw [same_nodes] at h
    cases h
  | _ :: _, [] => by
    intro h
    rw [same_nodes] at h
    cases h
end

/-! ## Theorems on the pre-traversal for memories -/

/-- C29 (as stated, refuted): for a module whose only statement is a `when` with the
memory `m` and the read port `r` of it inside, the assignments that drive `m_r_addr` and
`m_r_clk`, emitted for the port, are children of the `stmts` of the `if` node, not of the
top `stmts`. -/
theorem mem_port_drivers_in_if_counterexample :
    (Inou_firrtl.list_statements true 3
      [.when (.reference "c")
        [.cmemory "m" (.vector_type (.uint_type 8) 4) .UNDEFINED false,
         .memory_port "r" "m" (.reference "clk") (.reference "a")
          .MEMORY_PORT_DIRECTION_READ] []]
      { Inou_firrtl.empty with input_names := ["a", "c", "clk"] }).nodes
      = [.mk .dot "cmem" [ref_node "___F0", ref_node "#m", ref_node "__size"],
         .mk .assign "cmem" [ref_node "___F0", const_node "4"],
         .mk .select "" [ref_node "___F1", ref_node "#m", const_node "0"],
         .mk .dot "" [ref_node "___F2", ref_node "___F1", ref_node "__ubits"],
         .mk .assign "" [ref_node "___F2", const_node "8"],
         .mk .tuple "mport" [ref_node "r",
           .mk .assign "" [ref_node "__fwd", const_node "false"],
           .mk .assign "" [ref_node "__latency", const_node "0"]],
         .mk .dot "mport" [ref_node "___F3", ref_node "#m", ref_node "__port"],
         .mk .dot "mport" [ref_node "___F4", ref_node "#m", ref_node "__port"],
         .mk .tuple_concat "mport" [ref_node "___F3", ref_node "___F4", ref_node "r"],
         .mk .assign "" [ref_node "m_r_addr", const_node "0"],
         .mk .assign "" [ref_node "m_r_clk", const_node "0"],
         .mk .assign "" [ref_node "m_r_en", const_node "0"],
         .mk .if_ "when" [.mk .cond "$c" [],
           .mk .stmts "SEQ0"
            [.mk .assign "" [ref_node "m_r_addr", ref_node "$a"],
             .mk .assign "" [ref_node "m_r_clk", ref_node "$clk"]]]] :=
  same_nodes_sound _ _ (by decide!)

/-- C29 (amended): when the lowering of the statements of a module with a `when` among
them raises no error, the nodes of the top `stmts` are, in order: those of the statements
before the `when`; those that the pre-traversal emits for the Memory, CMemory and
MemoryPort statements inside the `when` at any depth, in the order of the source; the
nodes that compute the condition; the `if` node of the `when`; those of the statements
after it. Among the nodes of the pre-traversal are, for every memory port declared inside
the `when`, its tuple, its two `__port` dots, its tuple_concat and the assignments of the
const 0 to `<mem>_<port>_addr`, `_clk` and `_en`; for every memory, the dot and the
assignment of its `__size`, the dot, the tuple and the assignment of its ports and the
assignments of the const 0 for each of its ports; for every CMemory, the dot and the
assignment of its `__size`, one after the other. In the normal traversal a Memory or a
CMemory emits no node, and the assignments that drive `<mem>_<port>_addr` and
`<mem>_<port>_clk` of a memory port are below the `if` node. -/
theorem memory_hoisted_before_if (char_signed : Bool) (fuel : Nat)
    (before after : List Fir_statement) (predicate : Fir_expression)
    (consequent otherwise : List Fir_statement) (st : Inou_firrtl)
    (h : (Inou_firrtl.list_statements char_signed fuel
      (before ++ .when predicate consequent otherwise :: after) st).err = none) :
    ∃ sa sb sc nodes_a nodes_d nodes_c if_node nodes_b,
      (Inou_firrtl.list_statements char_signed fuel
        (before ++ .when predicate consequent otherwise :: after) st).nodes
        = nodes_a ++ nodes_d ++ nodes_c ++ [if_node] ++ nodes_b ∧
      if_node.type = .if_ ∧ if_node.name = "when" ∧
      Inou_firrtl.list_statements char_signed fuel before st = .ok () sa nodes_a ∧
      Lower.for_each (Inou_firrtl.mem_decls (.when predicate consequent otherwise))
        (Inou_firrtl.PreCheckForMem char_signed) sa = .ok () sb nodes_d ∧
      Inou_firrtl.ListStatementInfo fuel (.when predicate consequent otherwise) sb
        = .ok () sc (nodes_c ++ [if_node]) ∧
      (∃ cond_str s1,
        Inou_firrtl.ReturnExprString (fuel - 1) predicate true sb
          = .ok cond_str s1 nodes_c) ∧
      (∀ id memory_id expression memory_index direction,
        Fir_statement.memory_port id memory_id expression memory_index direction
          ∈ Inou_firrtl.mem_decls (.when predicate consequent otherwise) →
        (∃ fwd attributes temp_var_L temp_var_R,
          Lnast_node.mk .tuple "mport"
            (ref_node id :: .mk .assign "" [ref_node "__fwd", const_node fwd] :: attributes)
              ∈ nodes_d ∧
          Lnast_node.mk .dot "mport"
            [ref_node temp_var_L, ref_node ("#" ++ memory_id), ref_node "__port"]
              ∈ nodes_d ∧
          Lnast_node.mk .dot "mport"
            [ref_node temp_var_R, ref_node ("#" ++ memory_id), ref_node "__port"]
              ∈ nodes_d ∧
          Lnast_node.mk .tuple_concat "mport"
            [ref_node temp_var_L, ref_node temp_var_R, ref_node id] ∈ nodes_d) ∧
        (∀ suffix ∈ ["addr", "clk", "en"],
          Lnast_node.mk .assign "" [ref_node (memory_id ++ "_" ++ id ++ "_" ++ suffix),
            const_node "0"] ∈ nodes_d) ∧
        (∃ g s s1 s2 adr_str clk_str nodes_clk nodes_adr,
          Inou_firrtl.ReturnExprString g expression true s = .ok clk_str s1 nodes_clk ∧
          Inou_firrtl.ReturnExprString g memory_index true s1 = .ok adr_str s2 nodes_adr ∧
          Below (.mk .assign "" [ref_node (memory_id ++ "_" ++ id ++ "_" ++ "addr"),
            Inou_firrtl.AttachExprStrToNode adr_str]) if_node ∧
          Below (.mk .assign "" [ref_node (memory_id ++ "_" ++ id ++ "_" ++ "clk"),
            Inou_firrtl.AttachExprStrToNode clk_str]) if_node)) ∧
      (∀ id type depth read_latency write_latency read_under_write reader_id writer_id
          readwriter_id,
        Fir_statement.memory id type depth read_latency write_latency read_under_write
          reader_id writer_id readwriter_id
          ∈ Inou_firrtl.mem_decls (.when predicate consequent otherwise) →
        (∃ s depth_str temp_var_d temp_var_lhs temp_var_t tup_ids,
          Inou_firrtl.memory_depth_str char_signed depth s = .ok depth_str s [] ∧
          Lnast_node.mk .dot "mem"
            [ref_node temp_var_d, ref_node ("#" ++ id), ref_node "__size"] ∈ nodes_d ∧
          Lnast_node.mk .assign "mem" [ref_node temp_var_d, const_node depth_str]
            ∈ nodes_d ∧
          Lnast_node.mk .dot "memLHS"
            [ref_node temp_var_lhs, ref_node ("#" ++ id), ref_node "__port"] ∈ nodes_d ∧
          Lnast_node.mk .tuple "mem" (ref_node temp_var_t ::
            List.map (fun port_temp : String × String =>
              Lnast_node.mk .assign "" [ref_node port_temp.1, ref_node port_temp.2]) tup_ids)
            ∈ nodes_d ∧
          Lnast_node.mk .assign "" [ref_node temp_var_lhs, ref_node temp_var_t]
            ∈ nodes_d) ∧
        (∀ port ∈ reader_id ++ writer_id ++ readwriter_id,
          ∀ suffix ∈ ["_addr", "_clk", "_en"],
            ∃ name, Lnast_node.mk .assign name [ref_node (id ++ "_" ++ port ++ suffix),
              const_node "0"] ∈ nodes_d) ∧
        (∀ (f : Nat) (s : Inou_firrtl),
          Inou_firrtl.ListStatementInfo (f + 1)
            (.memory id type depth read_latency write_latency read_under_write reader_id
              writer_id readwriter_id) s = .ok () s [])) ∧
      (∀ id type read_under_write sync_read,
        Fir_statement.cmemory id type read_under_write sync_read
          ∈ Inou_firrtl.mem_decls (.when predicate consequent otherwise) →
        (∃ s depth_type temp_var_s pre post,
          Inou_firrtl.cmemory_depth_type char_signed type s = .ok depth_type s [] ∧
          nodes_d = pre ++
            [.mk .dot "cmem"
              [ref_node temp_var_s, ref_node ("#" ++ id), ref_node "__size"],
             .mk .assign "cmem" [ref_node temp_var_s, const_node depth_type.1]] ++ post) ∧
        (∀ (f : Nat) (s : Inou_firrtl),
          Inou_firrtl.ListStatementInfo (f + 1)
            (.cmemory id type read_under_write sync_read) s = .ok () s [])) := by
  obtain ⟨_, st_end, out, hok⟩ := Lowered.ok_of_err_none _ h
  obtain ⟨sa, sb, sc, nodes_a, nodes_d, nodes_n, nodes_b, ha, hd, hn, _, e⟩ :=
    list_statements_split char_signed fuel before after _ st st_end out hok
  obtain ⟨f, cond_str, s1, nodes_c, seq_t, s2, s3, stmts_t, else_part, hf, hcond, _, _, _,
    _, en⟩ := when_structure fuel _ _ _ _ _ _ hn
  subst hf
  rw [PreCheckForMem_decls] at hd
  have hz := PreCheckForMem_zeros char_signed _ sa sb nodes_d hd
  have hp := PreCheckForMem_nodes char_signed _ sa sb nodes_d hd
  refine ⟨sa, sb, sc, nodes_a, nodes_d, nodes_c,
    .mk .if_ "when" (.mk .cond cond_str [] :: .mk .stmts seq_t stmts_t :: else_part),
    nodes_b, ?_, rfl, rfl, ha, hd, ?_, ⟨cond_str, s1, hcond⟩, ?_, ?_, ?_⟩
  · rw [hok, Lowered.nodes, e, en]
    simp only [List.append_assoc]
  · rw [← en]
    exact hn
  · intro id memory_id expression memory_index direction hm
    refine ⟨hp.1 id memory_id expression memory_index direction hm,
      hz.1 id memory_id expression memory_index direction hm, ?_⟩
    obtain ⟨g, t, t1, t2, adr_str, clk_str, nodes_clk, nodes_adr, hc, hadr, hb⟩ :=
      when_drivers_below f (port_drivers_inside f) predicate consequent otherwise sb sc
        nodes_n hn id memory_id expression memory_index direction hm
    have hlast : ∀ n pre r, nodes_n = pre ++ [r] → Below n r →
        Below n (.mk .if_ "when"
          (.mk .cond cond_str [] :: .mk .stmts seq_t stmts_t :: else_part)) := by
      intro n pre r hr hbr
      rw [en] at hr
      have := (List.append_inj' hr rfl).2
      simp only [List.cons.injEq, and_true] at this
      rw [this]
      exact hbr
    refine ⟨g, t, t1, t2, adr_str, clk_str, nodes_clk, nodes_adr, hc, hadr, ?_, ?_⟩
    · obtain ⟨pre, r, hr, hbr⟩ := hb _ (List.mem_cons_self _ _)
      exact hlast _ pre r hr hbr
    · obtain ⟨pre, r, hr, hbr⟩ := hb _ (List.mem_cons_of_mem _ (List.mem_cons_self _ _))
      exact hlast _ pre r hr hbr
  · intro id type depth read_latency write_latency read_under_write reader_id writer_id
      readwriter_id hm
    exact ⟨hp.2.1 id type depth read_latency write_latency read_under_write reader_id
        writer_id readwriter_id hm,
      hz.2 id type depth read_latency write_latency read_under_write reader_id writer_id
        readwriter_id hm, fun _ _ => rfl⟩
  · intro id type read_under_write sync_read hm
    exact ⟨hp.2.2 id type read_under_write sync_read hm, fun _ _ => rfl⟩

/-- Witness of `memory_hoisted_before_if`: a module whose only statement is a `when`
with the memory `mm`, the memory `m` and, in a `when` inside it, the read port `r` of `m`. -/
theorem memory_hoisted_before_if_witness :
    ∃ sa sb sc nodes_a nodes_d nodes_c if_node nodes_b,
      (Inou_firrtl.list_statements true 4
        ([] ++ .when (.reference "c") [.memory "mm" (.uint_type 8) (.uint_depth 4) 1 1 .UNDEFINED ["p"] [] [],
           .cmemory "m" (.vector_type (.uint_type 8) 4) .UNDEFINED false,
           .when (.reference "d")
            [.memory_port "r" "m" (.reference "clk") (.reference "a")
              .MEMORY_PORT_DIRECTION_READ] []] [] :: [])
        { Inou_firrtl.empty with input_names := ["a", "c", "clk", "d"] }).nodes
        = nodes_a ++ nodes_d ++ nodes_c ++ [if_node] ++ nodes_b ∧
      if_node.type = .if_ ∧ if_node.name = "when" ∧
      Inou_firrtl.list_statements true 4 []
        { Inou_firrtl.empty with input_names := ["a", "c", "clk", "d"] } = .ok () sa nodes_a ∧
      Lower.for_each (Inou_firrtl.mem_decls (.when (.reference "c") [.memory "mm" (.uint_type 8) (.uint_depth 4) 1 1 .UNDEFINED ["p"] [] [],
           .cmemory "m" (.vector_type (.uint_type 8) 4) .UNDEFINED false,
           .when (.reference "d")
            [.memory_port "r" "m" (.reference "clk") (.reference "a")
              .MEMORY_PORT_DIRECTION_READ] []] []))
        (Inou_firrtl.PreCheckForMem true) sa = .ok () sb nodes_d ∧
      Inou_firrtl.ListStatementInfo 4 (.when (.reference "c") [.memory "mm" (.uint_type 8) (.uint_depth 4) 1 1 .UNDEFINED ["p"] [] [],
           .cmemory "m" (.vector_type (.uint_type 8) 4) .UNDEFINED false,
           .when (.reference "d")
            [.memory_port "r" "m" (.reference "clk") (.reference "a")
              .MEMORY_PORT_DIRECTION_READ] []] []) sb
        = .ok () sc (nodes_c ++ [if_node]) ∧
      (∃ cond_str s1,
        Inou_firrtl.ReturnExprString (4 - 1) (.reference "c") true sb
          = .ok cond_str s1 nodes_c) ∧
      (∀ id memory_id expression memory_index direction,
        Fir_statement.memory_port id memory_id expression memory_index direction
          ∈ Inou_firrtl.mem_decls (.when (.reference "c") [.memory "mm" (.uint_type 8) (.uint_depth 4) 1 1 .UNDEFINED ["p"] [] [],
           .cmemory "m" (.vector_type (.uint_type 8) 4) .UNDEFINED false,
           .when (.reference "d")
            [.memory_port "r" "m" (.reference "clk") (.reference "a")
              .MEMORY_PORT_DIRECTION_READ] []] []) →
        (∃ fwd attributes temp_var_L temp_var_R,
          Lnast_node.mk .tuple "mport"
            (ref_node id :: .mk .assign "" [ref_node "__fwd", const_node fwd] :: attributes)
              ∈ nodes_d ∧
          Lnast_node.mk .dot "mport"
            [ref_node temp_var_L, ref_node ("#" ++ memory_id), ref_node "__port"]
              ∈ nodes_d ∧
          Lnast_node.mk .dot "mport"
            [ref_node temp_var_R, ref_node ("#" ++ memory_id), ref_node "__port"]
              ∈ nodes_d ∧
          Lnast_node.mk .tuple_concat "mport"
            [ref_node temp_var_L, ref_node temp_var_R, ref_node id] ∈ nodes_d) ∧
        (∀ suffix ∈ ["addr", "clk", "en"],
          Lnast_node.mk .assign "" [ref_node (memory_id ++ "_" ++ id ++ "_" ++ suffix),
            const_node "0"] ∈ nodes_d) ∧
        (∃ g s s1 s2 adr_str clk_str nodes_clk nodes_adr,
          Inou_firrtl.ReturnExprString g expression true s = .ok clk_str s1 nodes_clk ∧
          Inou_firrtl.ReturnExprString g memory_index true s1 = .ok adr_str s2 nodes_adr ∧
          Below (.mk .assign "" [ref_node (memory_id ++ "_" ++ id ++ "_" ++ "addr"),
            Inou_firrtl.AttachExprStrToNode adr_str]) if_node ∧
          Below (.mk .assign "" [ref_node (memory_id ++ "_" ++ id ++ "_" ++ "clk"),
            Inou_firrtl.AttachExprStrToNode clk_str]) if_node)) ∧
      (∀ id type depth read_latency write_latency read_under_write reader_id writer_id
          readwriter_id,
        Fir_statement.memory id type depth read_latency write_latency read_under_write
          reader_id writer_id readwriter_id
          ∈ Inou_firrtl.mem_decls (.when (.reference "c") [.memory "mm" (.uint_type 8) (.uint_depth 4) 1 1 .UNDEFINED ["p"] [] [],
           .cmemory "m" (.vector_type (.uint_type 8) 4) .UNDEFINED false,
           .when (.reference "d")
            [.memory_port "r" "m" (.reference "clk") (.reference "a")
              .MEMORY_PORT_DIRECTION_READ] []] []) →
        (∃ s depth_str temp_var_d temp_var_lhs temp_var_t tup_ids,
          Inou_firrtl.memory_depth_str true depth s = .ok depth_str s [] ∧
          Lnast_node.mk .dot "mem"
            [ref_node temp_var_d, ref_node ("#" ++ id), ref_node "__size"] ∈ nodes_d ∧
          Lnast_node.mk .assign "mem" [ref_node temp_var_d, const_node depth_str]
            ∈ nodes_d ∧
          Lnast_node.mk .dot "memLHS"
            [ref_node temp_var_lhs, ref_node ("#" ++ id), ref_node "__port"] ∈ nodes_d ∧
          Lnast_node.mk .tuple "mem" (ref_node temp_var_t ::
            List.map (fun port_temp : String × String =>
              Lnast_node.mk .assign "" [ref_node port_temp.1, ref_node port_temp.2]) tup_ids)
            ∈ nodes_d ∧
          Lnast_node.mk .assign "" [ref_node temp_var_lhs, ref_node temp_var_t]
            ∈ nodes_d) ∧
        (∀ port ∈ reader_id ++ writer_id ++ readwriter_id,
          ∀ suffix ∈ ["_addr", "_clk", "_en"],
            ∃ name, Lnast_node.mk .assign name [ref_node (id ++ "_" ++ port ++ suffix),
              const_node "0"] ∈ nodes_d) ∧
        (∀ (f : Nat) (s : Inou_firrtl),
          Inou_firrtl.ListStatementInfo (f + 1)
            (.memory id type depth read_latency write_latency read_under_write reader_id
              writer_id readwriter_id) s = .ok () s [])) ∧
      (∀ id type read_under_write sync_read,
        Fir_statement.cmemory id type read_under_write sync_read
          ∈ Inou_firrtl.mem_decls (.when (.reference "c") [.memory "mm" (.uint_type 8) (.uint_depth 4) 1 1 .UNDEFINED ["p"] [] [],
           .cmemory "m" (.vector_type (.uint_type 8) 4) .UNDEFINED false,
           .when (.reference "d")
            [.memory_port "r" "m" (.reference "clk") (.reference "a")
              .MEMORY_PORT_DIRECTION_READ] []] []) →
        (∃ s depth_type temp_var_s pre post,
          Inou_firrtl.cmemory_depth_type true type s = .ok depth_type s [] ∧
          nodes_d = pre ++
            [.mk .dot "cmem"
              [ref_node temp_var_s, ref_node ("#" ++ id), ref_node "__size"],
             .mk .assign "cmem" [ref_node temp_var_s, const_node depth_type.1]] ++ post) ∧
        (∀ (f : Nat) (s : Inou_firrtl),
          Inou_firrtl.ListStatementInfo (f + 1)
            (.cmemory id type read_under_write sync_read) s = .ok () s [])) :=
  memory_hoisted_before_if true 4 [] [] (.reference "c")
    [.memory "mm" (.uint_type 8) (.uint_depth 4) 1 1 .UNDEFINED ["p"] [] [],
            .cmemory "m" (.vector_type (.uint_type 8) 4) .UNDEFINED false,
            .when (.reference "d")
             [.memory_port "r" "m" (.reference "clk") (.reference "a")
               .MEMORY_PORT_DIRECTION_READ] []] []
    { Inou_firrtl.empty with input_names := ["a", "c", "clk", "d"] } (by decide!)

/-- C30 (as stated, refuted): for a module with the statements `node n = a` and then the
memory `m`, the node of the lowering of the first statement comes before the nodes that
the pre-traversal emits for the memory. -/
theorem pre_traversal_after_statement_counterexample :
    (Inou_firrtl.list_statements true 2
      [.node "n" (.reference "a"),
       .cmemory "m" (.vector_type (.uint_type 8) 4) .UNDEFINED false]
      { Inou_firrtl.empty with input_names := ["a"] }).nodes
      = [.mk .assign "" [ref_node "n", ref_node "$a"],
         .mk .dot "cmem" [ref_node "___F0", ref_node "#m", ref_node "__size"],
         .mk .assign "cmem" [ref_node "___F0", const_node "4"],
         .mk .select "" [ref_node "___F1", ref_node "#m", const_node "0"],
         .mk .dot "" [ref_node "___F2", ref_node "___F1", ref_node "__ubits"],
         .mk .assign "" [ref_node "___F2", const_node "8"]] := by
  rfl

/-- C30 (amended): when the lowering of the statements of a module raises no error, the
nodes of the top `stmts` follow the order of the statements, and for each statement the
nodes that the pre-traversal emits for its memories come directly before the nodes of its
own lowering: for every statement of the module the list of the nodes is made of the
nodes of the statements before it, the nodes of its pre-traversal, the nodes of its
lowering and the nodes of the statements after it. -/
theorem statements_lowered_in_turn (char_signed : Bool) (fuel : Nat)
    (before after : List Fir_statement) (stmt : Fir_statement) (st : Inou_firrtl)
    (h : (Inou_firrtl.list_statements char_signed fuel (before ++ stmt :: after) st).err
      = none) :
    ∃ sa sb sc st_end nodes_a nodes_d nodes_n nodes_b,
      Inou_firrtl.list_statements char_signed fuel before st = .ok () sa nodes_a ∧
      Inou_firrtl.PreCheckForMem char_signed stmt sa = .ok () sb nodes_d ∧
      Inou_firrtl.ListStatementInfo fuel stmt sb = .ok () sc nodes_n ∧
      Inou_firrtl.list_statements char_signed fuel after sc = .ok () st_end nodes_b ∧
      (Inou_firrtl.list_statements char_signed fuel (before ++ stmt :: after) st).nodes
        = nodes_a ++ nodes_d ++ nodes_n ++ nodes_b := by
  obtain ⟨_, st_end, out, hok⟩ := Lowered.ok_of_err_none _ h
  obtain ⟨sa, sb, sc, nodes_a, nodes_d, nodes_n, nodes_b, h1, h2, h3, h4, e⟩ :=
    list_statements_split char_signed fuel before after stmt st st_end out hok
  exact ⟨sa, sb, sc, st_end, nodes_a, nodes_d, nodes_n, nodes_b, h1, h2, h3, h4,
    by rw [hok, Lowered.nodes, e]⟩

/-- Witness of `statements_lowered_in_turn`: the statements `node n = a` and the memory
`m`, seen from the memory. -/
theorem statements_lowered_in_turn_witness :
    ∃ sa sb sc st_end nodes_a nodes_d nodes_n nodes_b,
      Inou_firrtl.list_statements true 2 [.node "n" (.reference "a")]
        { Inou_firrtl.empty with input_names := ["a"] } = .ok () sa nodes_a ∧
      Inou_firrtl.PreCheckForMem true
        (.cmemory "m" (.vector_type (.uint_type 8) 4) .UNDEFINED false) sa
        = .ok () sb nodes_d ∧
      Inou_firrtl.ListStatementInfo 2
        (.cmemory "m" (.vector_type (.uint_type 8) 4) .UNDEFINED false) sb
        = .ok () sc nodes_n ∧
      Inou_firrtl.list_statements true 2 [] sc = .ok () st_end nodes_b ∧
      (Inou_firrtl.list_statements true 2
        ([.node "n" (.reference "a")] ++
          .cmemory "m" (.vector_type (.uint_type 8) 4) .UNDEFINED false :: [])
        { Inou_firrtl.empty with input_names := ["a"] }).nodes
        = nodes_a ++ nodes_d ++ nodes_n ++ nodes_b :=
  statements_lowered_in_turn true 2 [.node "n" (.reference "a")] []
    (.cmemory "m" (.vector_type (.uint_type 8) 4) .UNDEFINED false)
    { Inou_firrtl.empty with input_names := ["a"] } (by decide!)

/-! ## Theorems on the keywords of Pyrope and on Graph_library -/

set_option maxRecDepth 100000 in
/-- C31: the keyword table that the constructor of `Prp` fills maps exactly the 22 keywords
if, else, elif, for, while, return, unique, when, as, is, and, or, not, intersect, union,
until, in, by, I, N, yield and waitfor, each once; every token id lies in 128..148; and
two distinct keywords share a token id exactly when they are intersect and union. -/
theorem pyrope_keyword_table :
    (Prp.pyrope_keyword.map Prod.fst).Perm
      ["if", "else", "elif", "for", "while", "return", "unique", "when", "as", "is", "and",
       "or", "not", "intersect", "union", "until", "in", "by", "I", "N", "yield", "waitfor"] ∧
    (Prp.pyrope_keyword.map Prod.fst).Nodup ∧
    Prp.pyrope_keyword.length = 22 ∧
    (∀ kv ∈ Prp.pyrope_keyword, 128 ≤ kv.2 ∧ kv.2 ≤ 148) ∧
    (∀ a ∈ Prp.pyrope_keyword, ∀ b ∈ Prp.pyrope_keyword, a.1 ≠ b.1 →
      (a.2 = b.2 ↔
        (a.1 = "intersect" ∧ b.1 = "union") ∨ (a.1 = "union" ∧ b.1 = "intersect"))) := by
  decide

/-- C32: for every lgid at most the size of the vector, `get_version(lgid)` returns 0; for
every other lgid the read `attribute[lgid]` is outside the bounds of the vector; so no
call returns a version stored in the vector. -/
theorem get_version_never_reads_stored (attributes : List Graph_attributes) (lgid : Nat) :
    Graph_library.get_version attributes lgid
      = if lgid ≤ attributes.length then some 0 else none := by
  unfold Graph_library.get_version
  by_cases h : lgid ≤ attributes.length
  · simp [h]
  · have h2 : attributes.length ≤ lgid := by omega
    simp [h, h2]

/-! ## Theorems on the bit count of a range -/

/-- C33 (as stated, refuted): on the exact-mode ranges (max, min) = (15, −1) and
(15, −8), `get_bits()` returns 5, not the 4 that the comment above it announces. -/
theorem get_bits_fifteen_counterexample :
    Bitwidth_range.get_bits 16 32767 { max := 15, min := -1, overflow := false } = some 5 ∧
    Bitwidth_range.get_bits 16 32767 { max := 15, min := -1, overflow := false } ≠ some 4 ∧
    Bitwidth_range.get_bits 16 32767 { max := 15, min := -8, overflow := false } = some 5 ∧
    Bitwidth_range.get_bits 16 32767 { max := 15, min := -8, overflow := false } ≠ some 4 := by
  decide

/-- C33 (amended): in exact mode `get_bits()` returns the bit count of max (1 when max is
0) plus one bit whenever min is negative, whatever the magnitude of min; with max = 15 it
returns 5 for every negative min, so for (15, −1), (15, −8) and (15, −9) alike, and 4 for
every other min (for a `Bits_t` of at least 8 bits, max within `int64_t` and the count
below `Bits_max`). -/
theorem get_bits_adds_bit_for_negative_min (w Bits_max : Nat) (max min : Int) (hw : 8 ≤ w)
    (h1 : -(2 : Int) ^ 63 ≤ max) (h2 : max < 2 ^ 63)
    (hB : (if max = 0 then 1 else Nat.size max.natAbs) + (if min < 0 then 1 else 0)
      < Bits_max) :
    Bitwidth_range.get_bits w Bits_max { max := max, min := min, overflow := false }
      = some ((if max = 0 then 1 else Nat.size max.natAbs) + (if min < 0 then 1 else 0)) ∧
    (max = 15 →
      Bitwidth_range.get_bits w Bits_max { max := max, min := min, overflow := false }
        = some (if min < 0 then 5 else 4)) := by
  have hx := get_bits_exact w Bits_max { max := max, min := min, overflow := false } hw rfl
    h1 h2 hB
  refine ⟨hx, ?_⟩
  intro h15
  have hs : Nat.size 15 = 4 := by
    simp [Nat.size, Nat.binaryRec]
  rw [hx]
  subst h15
  simp only [exact_bits]
  have hn : ((15 : Int).natAbs) = 15 := rfl
  rw [hn, hs]
  split_ifs <;> simp_all

/-- Witness of `get_bits_adds_bit_for_negative_min` at the exact range [-8, 15] with a
16-bit `Bits_t` and `Bits_max` = 32767. -/
theorem get_bits_adds_bit_for_negative_min_witness :
    Bitwidth_range.get_bits 16 32767 { max := 15, min := -8, overflow := false }
      = some ((if (15 : Int) = 0 then 1 else Nat.size (15 : Int).natAbs)
        + (if (-8 : Int) < 0 then 1 else 0)) ∧
    ((15 : Int) = 15 →
      Bitwidth_range.get_bits 16 32767 { max := 15, min := -8, overflow := false }
        = some (if (-8 : Int) < 0 then 5 else 4)) :=
  get_bits_adds_bit_for_negative_min 16 32767 15 (-8) (by decide) (by decide) (by decide)
    (by simp [Nat.size, Nat.binaryRec])

/-- C38: for every n with 2 ≤ n ≤ 63, `set_sbits(n)` followed by `get_bits()` returns n,
and for n = 1, the range [−1, 0], it returns 2 (within the preconditions n < Bits_max of
`set_sbits` and bits < Bits_max of `get_bits`, for a `Bits_t` of at least 8 bits). -/
theorem set_sbits_get_bits (w Bits_max n : Nat) (hw : 8 ≤ w) (h1 : 1 ≤ n) (h63 : n ≤ 63)
    (hB : n < Bits_max) (hB2 : 2 < Bits_max) :
    (Bitwidth_range.set_sbits w Bits_max n).bind (Bitwidth_range.get_bits w Bits_max)
      = some (if n = 1 then 2 else n) ∧
    (n = 1 → Bitwidth_range.set_sbits w Bits_max n
      = some { max := 0, min := -1, overflow := false }) := by
  obtain ⟨hp1, hp2⟩ := int_pow_bounds (n - 1) (by omega)
  rw [set_sbits_exact w Bits_max n h1 h63 hB]
  have e : ((2 ^ (n - 1) : Nat) : Int) = (2 : Int) ^ (n - 1) := by push_cast; rfl
  have h0 : 0 < (2 : Nat) ^ (n - 1) := Nat.pos_pow_of_pos _ (by decide)
  have hmax : ((2 : Int) ^ (n - 1) - 1).natAbs = 2 ^ (n - 1) - 1 := by omega
  have hmin : (-(2 : Int) ^ (n - 1)) < 0 := by omega
  have h62 : (2 : Nat) ^ (n - 1) ≤ 2 ^ 62 := Nat.pow_le_pow_right (by decide) (by omega)
  norm_num at h62
  have hx : exact_bits { max := 2 ^ (n - 1) - 1, min := -2 ^ (n - 1), overflow := false }
      = if n = 1 then 2 else n := by
    unfold exact_bits
    simp only [hmin, if_true, hmax, size_pow_sub_one]
    by_cases hn : n = 1
    · subst hn; simp
    · have h2 : (2 : Nat) ^ 1 ≤ 2 ^ (n - 1) := Nat.pow_le_pow_right (by decide) (by omega)
      have hne : ¬ ((2 : Int) ^ (n - 1) - 1 = 0) := by omega
      simp only [hne, hn, if_false]
      omega
  have := get_bits_exact w Bits_max
    { max := 2 ^ (n - 1) - 1, min := -2 ^ (n - 1), overflow := false } hw rfl
    (by show -(2 : Int) ^ 63 ≤ 2 ^ (n - 1) - 1; norm_num; omega)
    (by show (2 : Int) ^ (n - 1) - 1 < 2 ^ 63; norm_num; omega)
    (by rw [hx]; split <;> omega)
  rw [hx] at this
  refine ⟨by simpa using this, ?_⟩
  intro hn
  subst hn
  rfl

/-- Witness of `set_sbits_get_bits` at n = 7 with a 16-bit `Bits_t` and `Bits_max` =
32767. -/
theorem set_sbits_get_bits_witness :
    (Bitwidth_range.set_sbits 16 32767 7).bind (Bitwidth_range.get_bits 16 32767)
      = some (if 7 = 1 then 2 else 7) ∧
    (7 = 1 → Bitwidth_range.set_sbits 16 32767 7
      = some { max := 0, min := -1, overflow := false }) :=
  set_sbits_get_bits 16 32767 7 (by decide) (by decide) (by decide) (by decide) (by decide)

theorem decode_encode_bound (w : Nat) (hw : w < 32) (v : Int) :
    (v = 0 → Bitwidth_range.to_lconst true (Bitwidth_range.encode_bound w v) = 0) ∧
    (0 < v → Bitwidth_range.to_lconst true (Bitwidth_range.encode_bound w v)
        = 2 ^ Nat.size v.natAbs - 1) ∧
    (v < 0 → Bitwidth_range.to_lconst true (Bitwidth_range.encode_bound w v)
        = -2 ^ (Nat.size v.natAbs + 1)) := by
  unfold Bitwidth_range.encode_bound Lconst.is_negative Lconst.get_bits Bitwidth_range.to_lconst
  simp only [neg_Bits_t_narrow _ _ hw, bit_count_eq_size, decide_eq_true_eq]
  refine ⟨?_, ?_, ?_⟩
  · intro h; simp [h]
  · intro h
    have h1 : ¬ v = 0 := by omega
    have h2 : ¬ v < 0 := by omega
    have h3 : 0 < Nat.size v.natAbs := Nat.size_pos.mpr (by omega)
    have h4 : ¬ ((Nat.size v.natAbs : Int) = 0) := by omega
    have h5 : ((Nat.size v.natAbs : Int)) > 0 := by omega
    simp only [h1, h2, h4, h5, if_false, if_true, Bool.not_true, Bool.false_eq_true,
      Int.toNat_ofNat, one_mul]
  · intro h
    have h1 : ¬ v = 0 := by omega
    have h4 : ¬ (-(((Nat.size v.natAbs + 1 : Nat)) : Int) = 0) := by omega
    have h5 : ¬ (-(((Nat.size v.natAbs + 1 : Nat)) : Int) > 0) := by omega
    simp only [h1, h, h4, h5, if_false, if_true, Bool.not_true, Bool.false_eq_true,
      neg_neg, Int.toNat_ofNat, one_mul, zero_sub]

theorem natAbs_lt_pow_size (v : Int) : (v.natAbs : Int) < 2 ^ Nat.size v.natAbs := by
  have := Nat.lt_size_self v.natAbs
  exact_mod_cast this

/-- C39 (as stated, refuted): `set_range(5, 2^70)` stores min = 3 in overflow mode, which
`to_lconst` decodes to 7, above the lower bound 5; `set_range(−2^70, −5)` stores max = −4,
which decodes to −16, below the upper bound −5. -/
theorem overflow_encoding_counterexample :
    Bitwidth_range.set_range 16 5 (2 ^ 70) = some { max := 71, min := 3, overflow := true } ∧
    Bitwidth_range.to_lconst true 3 = 7 ∧ ¬ ((7 : Int) ≤ 5) ∧
    Bitwidth_range.set_range 16 (-2 ^ 70) (-5)
      = some { max := -4, min := -72, overflow := true } ∧
    Bitwidth_range.to_lconst true (-4) = -16 ∧ ¬ ((-5 : Int) ≤ -16) := by
  decide

/-- C39 (amended): for every lo ≤ hi of which at least one does not fit a signed 64-bit
integer (and a `Bits_t` narrower than `int`), `set_range(lo, hi)` sets the overflow flag,
and the stored bounds decode with `to_lconst(true, ·)` to dmin and dmax with dmin ≤ lo
when lo ≤ 0 and hi ≤ dmax when hi ≥ 0; a positive lo decodes to dmin ≥ lo and a negative
hi to dmax < hi. -/
theorem overflow_encoding_bounds (w : Nat) (lo hi : Int) (hw : w < 32) (h : lo ≤ hi)
    (hov : (Lconst.is_i hi && Lconst.is_i lo) = false) :
    ∃ r, Bitwidth_range.set_range w lo hi = some r ∧ r.overflow = true ∧
      (lo ≤ 0 → Bitwidth_range.to_lconst true r.min ≤ lo) ∧
      (0 ≤ hi → hi ≤ Bitwidth_range.to_lconst true r.max) ∧
      (0 < lo → lo ≤ Bitwidth_range.to_lconst true r.min) ∧
      (hi < 0 → Bitwidth_range.to_lconst true r.max < hi) := by
  unfold Bitwidth_range.set_range
  rw [if_neg (by simpa using h), hov]
  refine ⟨_, rfl, rfl, ?_, ?_, ?_, ?_⟩
  · intro h0
    show Bitwidth_range.to_lconst true (Bitwidth_range.encode_bound w lo) ≤ lo
    rcases eq_or_lt_of_le h0 with h1 | h1
    · rw [(decode_encode_bound w hw lo).1 h1]
      exact le_of_eq h1.symm
    · rw [(decode_encode_bound w hw lo).2.2 h1]
      have := natAbs_lt_pow_size lo
      have e : (2 : Int) ^ (Nat.size lo.natAbs + 1) = 2 * 2 ^ Nat.size lo.natAbs := by ring
      have key : -(2 : Int) ^ (Nat.size lo.natAbs + 1) ≤ lo := by omega
      exact key
  · intro h0
    show hi ≤ Bitwidth_range.to_lconst true (Bitwidth_range.encode_bound w hi)
    rcases eq_or_lt_of_le h0 with h1 | h1
    · rw [(decode_encode_bound w hw hi).1 h1.symm]
      exact le_of_eq h1.symm
    · rw [(decode_encode_bound w hw hi).2.1 h1]
      have := natAbs_lt_pow_size hi
      have key : hi ≤ (2 : Int) ^ Nat.size hi.natAbs - 1 := by omega
      exact key
  · intro h1
    show lo ≤ Bitwidth_range.to_lconst true (Bitwidth_range.encode_bound w lo)
    rw [(decode_encode_bound w hw lo).2.1 h1]
    have := natAbs_lt_pow_size lo
    have key : lo ≤ (2 : Int) ^ Nat.size lo.natAbs - 1 := by omega
    exact key
  · intro h1
    show Bitwidth_range.to_lconst true (Bitwidth_range.encode_bound w hi) < hi
    rw [(decode_encode_bound w hw hi).2.2 h1]
    have := natAbs_lt_pow_size hi
    have e : (2 : Int) ^ (Nat.size hi.natAbs + 1) = 2 * 2 ^ Nat.size hi.natAbs := by ring
    have key : -(2 : Int) ^ (Nat.size hi.natAbs + 1) < hi := by omega
    exact key

/-- Witness of `overflow_encoding_bounds`: `set_range(−5, 2^70)` with a 16-bit `Bits_t`. -/
theorem overflow_encoding_bounds_witness :
    ∃ r, Bitwidth_range.set_range 16 (-5) (2 ^ 70) = some r ∧ r.overflow = true ∧
      ((-5 : Int) ≤ 0 → Bitwidth_range.to_lconst true r.min ≤ -5) ∧
      ((0 : Int) ≤ 2 ^ 70 → 2 ^ 70 ≤ Bitwidth_range.to_lconst true r.max) ∧
      ((0 : Int) < -5 → -5 ≤ Bitwidth_range.to_lconst true r.min) ∧
      ((2 : Int) ^ 70 < 0 → Bitwidth_range.to_lconst true r.max < 2 ^ 70) :=
  overflow_encoding_bounds 16 (-5) (2 ^ 70) (by decide) (by decide) (by decide)

/-! ## Theorems on nested statements of the validator -/

/-- C34 (the code at the failing input): for an if whose stmts holds a func_call with
exactly three ref children, `semantic_check` raises "If Operation Error: Not a Valid Node
Type": the nested func_call is handed to `check_if_op`. The same func_call as a top-level
statement, and the same if without it, raise no error. -/
theorem nested_func_call_checked_as_if :
    (Semantic_pass.semantic_check .fresh (lnast_of_stmts
      [.mk .if_ "" [.mk .cstmts "" [], .mk .cond "" [ref_node "c"],
        .mk .stmts ""
          [.mk Lnast_ntype.func_call "" [ref_node "f", ref_node "g", ref_node "x"]]]])).err
      = some (.msg "If Operation Error: Not a Valid Node Type\n") ∧
    (Semantic_pass.semantic_check .fresh (lnast_of_stmts
      [.mk Lnast_ntype.func_call "" [ref_node "f", ref_node "g", ref_node "x"]])).err = none ∧
    (Semantic_pass.semantic_check .fresh (lnast_of_stmts
      [.mk .if_ "" [.mk .cstmts "" [], .mk .cond "" [ref_node "c"],
        .mk .stmts "" []]])).err = none := by
  decide

/-! ## Theorems on registers and on the uses of memory ports -/

namespace Inou_firrtl

theorem ReturnExprString_as_async_reset (fuel : Nat) (sig : Fir_expression) (is_rhs : Bool)
    (st st2 : Inou_firrtl) (sig_str : String) (nodes_s : List Lnast_node)
    (hs : ReturnExprString fuel sig true { st with temp_var_count := st.temp_var_count + 1 }
      = .ok sig_str st2 nodes_s) :
    ReturnExprString (fuel + 1) (.prim_op .OP_AS_ASYNC_RESET [sig] []) is_rhs st
      = .error (.pass_error "as_clock, as_fixed, as_async not yet implemented") := by
  rw [ReturnExprString]
  simp only [bind, Lower.seq, create_temp_var, ListPrimOpInfo, HandleTypeConvOp, I, arg_at,
    List.length_cons, List.length_nil, List.get?_cons_zero, pure, Lower.ret, hs,
    type_conv_callee, Lower.fail, Nat.reduceAdd, decide_True, Bool.and_self, if_true]

end Inou_firrtl

/-- C35 (the code at the failing input): for the register `r` of type SInt<w>, w > 0,
with the input `clock` as clock and a literal as reset, the lowering emits two bit-width
assignments: `#r.__sbits ← w` and then `#r.__ubits ← w`. -/
theorem signed_register_gets_both_bit_attributes (w : Nat) (hw : 0 < w) :
    (Inou_firrtl.lower_statements 2
      [.register_ "r" (.sint_type w) (.reference "clock") (.uint_literal "0") (.reference "r")]
      { Inou_firrtl.empty with input_names := ["clock"] }).nodes
      = [.mk .dot "" [ref_node "___F0", ref_node "#r", ref_node "__sbits"],
         .mk .assign "" [ref_node "___F0", const_node (nat_to_string w)],
         .mk .dot "" [ref_node "___F1", ref_node "#r", ref_node "__ubits"],
         .mk .assign "" [ref_node "___F1", const_node (nat_to_string w)]] := by
  simp only [Inou_firrtl.lower_statements, Lower.for_each, Inou_firrtl.ListStatementInfo,
    Inou_firrtl.init_reg_dots, Inou_firrtl.get_bit_count, bind, pure, Lower.seq, Lower.ret,
    Lower.modify, Inou_firrtl.init_reg_ref_dots, gt_iff_lt, hw, if_true]
  rfl

/-- Witness of `signed_register_gets_both_bit_attributes`: the register `r` of type
SInt<4>. -/
theorem signed_register_gets_both_bit_attributes_witness :
    (Inou_firrtl.lower_statements 2
      [.register_ "r" (.sint_type 4) (.reference "clock") (.uint_literal "0") (.reference "r")]
      { Inou_firrtl.empty with input_names := ["clock"] }).nodes
      = [.mk .dot "" [ref_node "___F0", ref_node "#r", ref_node "__sbits"],
         .mk .assign "" [ref_node "___F0", const_node "4"],
         .mk .dot "" [ref_node "___F1", ref_node "#r", ref_node "__ubits"],
         .mk .assign "" [ref_node "___F1", const_node "4"]] :=
  signed_register_gets_both_bit_attributes 4 (by decide)

/-- C36 (the code at the failing input): for a register of type UInt<w> or SInt<w> whose
reset is `asAsyncReset(sig)`, whenever the lowerings of the clock and of `sig` return, the
lowering of the register ends with the fatal error "as_clock, as_fixed, as_async not yet
implemented" of `HandleTypeConvOp`, before any `__reset_async` assignment. -/
theorem async_reset_register_rejected (fuel w : Nat) (id : String) (type : Fir_type)
    (clock sig init : Fir_expression) (st st1 st2 : Inou_firrtl) (clk_str sig_str : String)
    (nodes_c nodes_s : List Lnast_node)
    (ht : type = .uint_type w ∨ type = .sint_type w)
    (hc : Inou_firrtl.ReturnExprString (fuel + 1) clock true
      { st with register_names := Inou_firrtl.set_insert st.register_names id }
      = .ok clk_str st1 nodes_c)
    (hs : Inou_firrtl.ReturnExprString fuel sig true
      { st1 with temp_var_count := st1.temp_var_count + 1 } = .ok sig_str st2 nodes_s) :
    Inou_firrtl.ListStatementInfo (fuel + 2)
      (.register_ id type clock (.prim_op .OP_AS_ASYNC_RESET [sig] []) init) st
      = .error (.pass_error "as_clock, as_fixed, as_async not yet implemented") := by
  have hr := Inou_firrtl.ReturnExprString_as_async_reset fuel sig true st1 st2 sig_str nodes_s hs
  rcases ht with h | h <;> subst h <;>
  simp only [Inou_firrtl.ListStatementInfo, Inou_firrtl.init_reg_dots, Inou_firrtl.get_bit_count,
    Inou_firrtl.init_reg_ref_dots, bind, pure, Lower.seq, Lower.ret, Lower.modify, hc, hr]

/-- Witness of `async_reset_register_rejected`: the register `r` of type UInt<8> with the
input `clock` as clock and `asAsyncReset(rst)` of the input `rst` as reset. -/
theorem async_reset_register_rejected_witness :
    Inou_firrtl.ListStatementInfo 3
      (.register_ "r" (.uint_type 8) (.reference "clock")
        (.prim_op .OP_AS_ASYNC_RESET [.reference "rst"] []) (.reference "r"))
      { Inou_firrtl.empty with input_names := ["clock", "rst"] }
      = .error (.pass_error "as_clock, as_fixed, as_async not yet implemented") :=
  async_reset_register_rejected 1 8 "r" (.uint_type 8) (.reference "clock") (.reference "rst")
    (.reference "r") { Inou_firrtl.empty with input_names := ["clock", "rst"] } _ _ _ _ _ _
    (Or.inl rfl) (by rfl) (by rfl)

/-- C37 (the code at the failing input): the pre-traversal of the memory port `r` of the
memory `mem` assigns 0 to `mem_r_en` and `mem_r_data`. In the state that it leaves, the
connects `r[0] <= x` and `r.a <= x` emit the enable driver with the target `em_r_en`, the
memory id without its first character, and write to a temporary; the connect `r <= x`
with the bare reference emits the drivers of `mem_r_en` and `mem_r_data`. -/
theorem sub_access_enable_name_truncated :
    Inou_firrtl.PreCheckForMem true
      (.memory_port "r" "mem" (.reference "clk") (.reference "addr")
        .MEMORY_PORT_DIRECTION_INFER)
      { Inou_firrtl.empty with input_names := ["clk", "addr", "x"] }
      = .ok ()
        { Inou_firrtl.empty with
          input_names := ["clk", "addr", "x"], temp_var_count := 2,
          mem_props_map := [("mem", (false, "", ""))],
          dangling_ports_map := [("r", "mem")], late_assign_ports := [("mem.r", .INFER)] }
        [.mk .tuple "mport"
          [ref_node "r", .mk .assign "" [ref_node "__fwd", const_node "false"]],
         .mk .dot "mport" [ref_node "___F0", ref_node "#mem", ref_node "__port"],
         .mk .dot "mport" [ref_node "___F1", ref_node "#mem", ref_node "__port"],
         .mk .tuple_concat "mport" [ref_node "___F0", ref_node "___F1", ref_node "r"],
         .mk .assign "" [ref_node "mem_r_addr", const_node "0"],
         .mk .assign "" [ref_node "mem_r_clk", const_node "0"],
         .mk .assign "" [ref_node "mem_r_en", const_node "0"],
         .mk .assign "" [ref_node "mem_r_data", const_node "0"]] ∧
    (Inou_firrtl.ListStatementInfo 2
      (.connect (.sub_index (.reference "r") "0") (.reference "x"))
      { Inou_firrtl.empty with
        input_names := ["clk", "addr", "x"], temp_var_count := 2,
        mem_props_map := [("mem", (false, "", ""))],
        dangling_ports_map := [("r", "mem")], late_assign_ports := [("mem.r", .INFER)] }).nodes
      = [.mk .assign "dpo" [ref_node "em_r_en", const_node "1"],
         .mk .select "" [ref_node "___F2", ref_node "r", const_node "0"],
         .mk .assign "" [ref_node "___F2", ref_node "$x"]] ∧
    (Inou_firrtl.ListStatementInfo 2
      (.connect (.sub_field (.reference "r") "a") (.reference "x"))
      { Inou_firrtl.empty with
        input_names := ["clk", "addr", "x"], temp_var_count := 2,
        mem_props_map := [("mem", (false, "", ""))],
        dangling_ports_map := [("r", "mem")], late_assign_ports := [("mem.r", .INFER)] }).nodes
      = [.mk .assign "dpo" [ref_node "em_r_en", const_node "1"],
         .mk .dot "" [ref_node "___F2", ref_node "r", ref_node "a"],
         .mk .assign "" [ref_node "___F2", ref_node "$x"]] ∧
    (Inou_firrtl.ListStatementInfo 2
      (.connect (.reference "r") (.reference "x"))
      { Inou_firrtl.empty with
        input_names := ["clk", "addr", "x"], temp_var_count := 2,
        mem_props_map := [("mem", (false, "", ""))],
        dangling_ports_map := [("r", "mem")], late_assign_ports := [("mem.r", .INFER)] }).nodes
      = [.mk .assign "dpo" [ref_node "mem_r_en", const_node "1"],
         .mk .assign "" [ref_node "mem_r_data", ref_node "$x"]] := by
  refine ⟨by rfl, by rfl, by rfl, by rfl⟩

/-! ## Lemmas on the invariant of the memory ports -/

namespace Inou_firrtl

theorem Late_inv_congr (Z : String → Prop) (st st1 : Inou_firrtl)
    (h1 : st1.late_assign_ports = st.late_assign_ports)
    (h2 : st1.dangling_ports_map = st.dangling_ports_map) (h : Late_inv Z st) :
    Late_inv Z st1 :=
  ⟨by rw [h1, h2]; exact h.known, by rw [h1]; exact h.covered⟩

theorem Late_inv_mono (Z Z2 : String → Prop) (st : Inou_firrtl) (hz : ∀ x, Z x → Z2 x)
    (h : Late_inv Z st) : Late_inv Z2 st :=
  ⟨h.known, fun kd hk s hs => hz _ (h.covered kd hk s hs)⟩

theorem frames_pure {α : Type} (a : α) : Frames (pure a : Lower α) := by
  refine ⟨fun Z st v st1 out hi hm => ?_⟩
  cases hm
  exact hi

theorem frames_ret {α : Type} (a : α) : Frames (Lower.ret a) := frames_pure a

theorem frames_fail {α : Type} (e : Fir_error) : Frames (Lower.fail e : Lower α) := by
  refine ⟨fun Z st v st1 out hi hm => ?_⟩
  cases hm

theorem frames_get : Frames Lower.get := by
  refine ⟨fun Z st v st1 out hi hm => ?_⟩
  cases hm
  exact hi

theorem frames_emit (n : Lnast_node) : Frames (Lower.emit n) := by
  refine ⟨fun Z st v st1 out hi hm => ?_⟩
  cases hm
  exact hi

theorem frames_modify (f : Inou_firrtl → Inou_firrtl)
    (hf : ∀ s, (f s).late_assign_ports = s.late_assign_ports ∧
      (f s).dangling_ports_map = s.dangling_ports_map) : Frames (Lower.modify f) := by
  refine ⟨fun Z st v st1 out hi hm => ?_⟩
  cases hm
  exact Late_inv_congr Z st _ (hf st).1 (hf st).2 hi

theorem frames_seq {α β : Type} {m : Lower α} {f : α → Lower β}
    (hm : Frames m) (hf : ∀ a, Frames (f a)) : Frames (Lower.seq m f) := by
  refine ⟨fun Z st v st1 out hi h => ?_⟩
  obtain ⟨a, s1, o1, o2, h1, h2, _⟩ := Lower.seq_inv _ _ _ _ _ _ h
  exact (hf a).ok Z _ _ _ _ (hm.ok Z _ _ _ _ hi h1) h2

theorem frames_bind {α β : Type} {m : Lower α} {f : α → Lower β}
    (hm : Frames m) (hf : ∀ a, Frames (f a)) : Frames (m >>= f) :=
  frames_seq hm hf

theorem frames_children_of {m : Lower Unit} (hm : Frames m) : Frames (Lower.children_of m) := by
  refine ⟨fun Z st v st1 out hi h => ?_⟩
  unfold Lower.children_of at h
  cases h1 : m st with
  | error e => rw [h1] at h; cases h
  | ok a st2 out1 =>
    rw [h1] at h
    cases h
    exact hm.ok Z _ _ _ _ hi h1

theorem frames_for_each {α : Type} (l : List α) (f : α → Lower Unit)
    (hf : ∀ a ∈ l, Frames (f a)) : Frames (Lower.for_each l f) := by
  induction l with
  | nil => exact frames_ret _
  | cons a rest ih =>
    rw [Lower.for_each]
    exact frames_seq (hf a (List.mem_cons_self _ _))
      fun _ => ih fun b hb => hf b (List.mem_cons_of_mem _ hb)

theorem frames_map_each {α β : Type} (l : List α) (f : α → Lower β)
    (hf : ∀ a ∈ l, Frames (f a)) : Frames (map_each l f) := by
  induction l with
  | nil => exact frames_pure _
  | cons a rest ih =>
    rw [map_each]
    refine frames_bind (hf a (List.mem_cons_self _ _)) fun b => ?_
    refine frames_bind (ih fun b hb => hf b (List.mem_cons_of_mem _ hb)) fun bs => ?_
    exact frames_pure _

theorem create_temp_var_frames : Frames create_temp_var := by
  refine ⟨fun Z st v st1 out hi h => ?_⟩
  cases h
  exact Late_inv_congr Z st _ rfl rfl hi

theorem get_new_seq_name_frames : Frames get_new_seq_name := by
  refine ⟨fun Z st v st1 out hi h => ?_⟩
  cases h
  exact Late_inv_congr Z st _ rfl rfl hi

theorem I_frames (c : Bool) (t : String) : Frames (I c t) := by
  unfold I
  split_ifs
  · exact frames_pure _
  · exact frames_fail _

theorem arg_at_frames (arg : List Fir_expression) (i : Nat) : Frames (arg_at arg i) := by
  unfold arg_at
  split
  · exact frames_pure _
  · exact frames_fail _

theorem const_at_frames (c : List String) (i : Nat) : Frames (const_at c i) := by
  unfold const_at
  split
  · exact frames_pure _
  · exact frames_fail _


theorem lookup_of_map_contains {β : Type} (m : List (String × β)) (key : String)
    (h : map_contains m key = true) : ∃ v, m.lookup key = some v := by
  induction m with
  | nil => simp [map_contains] at h
  | cons kv rest ih =>
    obtain ⟨k, w⟩ := kv
    by_cases hk : key = k
    · subst hk
      exact ⟨w, by simp [List.lookup_cons]⟩
    · have hk2 : (key == k) = false := by simpa using hk
      rw [List.lookup_cons, hk2]
      apply ih
      unfold map_contains at h ⊢
      rw [List.any_cons] at h
      have hk3 : decide (k = key) = false := by
        simpa using fun e : k = key => hk e.symm
      simpa [hk3] using h

theorem mem_of_lookup {β : Type} (m : List (String × β)) (key : String) (v : β)
    (h : m.lookup key = some v) : (key, v) ∈ m := by
  induction m with
  | nil => simp at h
  | cons kv rest ih =>
    obtain ⟨k, w⟩ := kv
    by_cases hk : key = k
    · subst hk
      simp [List.lookup_cons] at h
      subst h
      exact List.mem_cons_self _ _
    · have hk2 : (key == k) = false := by simpa using hk
      rw [List.lookup_cons, hk2] at h
      exact List.mem_cons_of_mem _ (ih h)

theorem map_contains_map_insert {β : Type} (m : List (String × β)) (key key2 : String)
    (v : β) (h : map_contains m key2 = true) :
    map_contains (map_insert m key v) key2 = true := by
  unfold map_insert
  split_ifs with hc
  · unfold map_contains at h ⊢
    rw [List.any_eq_true] at h ⊢
    obtain ⟨kv, hkv, he⟩ := h
    refine ⟨if kv.1 = key then (key, v) else kv, List.mem_map.mpr ⟨kv, hkv, rfl⟩, ?_⟩
    split_ifs with hk
    · simp only [decide_eq_true_eq] at he ⊢
      rw [← hk, he]
    · exact he
  · unfold map_contains at h ⊢
    rw [List.any_append, h]
    rfl

theorem map_contains_map_insert_self {β : Type} (m : List (String × β)) (key : String)
    (v : β) : map_contains (map_insert m key v) key = true := by
  unfold map_insert
  split_ifs with hc
  · unfold map_contains at hc ⊢
    rw [List.any_eq_true] at hc ⊢
    obtain ⟨kv, hkv, he⟩ := hc
    refine ⟨if kv.1 = key then (key, v) else kv, List.mem_map.mpr ⟨kv, hkv, rfl⟩, ?_⟩
    simp only [decide_eq_true_eq] at he
    simp [he]
  · unfold map_contains
    rw [List.any_append]
    simp

theorem mem_map_insert {β : Type} (m : List (String × β)) (key : String) (v : β)
    (kd : String × β) (h : kd ∈ map_insert m key v) : kd = (key, v) ∨ kd ∈ m := by
  unfold map_insert at h
  split_ifs at h with hc
  · obtain ⟨kv, hkv, he⟩ := List.mem_map.mp h
    split_ifs at he with hk
    · exact Or.inl he.symm
    · exact Or.inr (he ▸ hkv)
  · rcases List.mem_append.mp h with h1 | h1
    · exact Or.inr h1
    · exact Or.inl (List.mem_singleton.mp h1)

theorem late_cover_infer (d : Mem_dir)
    (hd : d = .INFER ∨ d = .READI ∨ d = .WRITEI ∨ d = .READ_WRITEI) :
    late_cover d = late_cover .INFER := by
  rcases hd with h | h | h | h <;> subst h <;> rfl

theorem Late_inv_insert (Z : String → Prop) (st st1 : Inou_firrtl) (key : String)
    (d : Mem_dir) (hd : st1.dangling_ports_map = st.dangling_ports_map)
    (hl : st1.late_assign_ports = map_insert st.late_assign_ports key d)
    (hz : ∀ suffix ∈ late_cover d, Z (late_assign_rstr key ++ suffix))
    (h : Late_inv Z st) : Late_inv Z st1 := by
  refine ⟨?_, ?_⟩
  · intro p m hp
    rw [hl]
    rw [hd] at hp
    exact map_contains_map_insert _ _ _ _ (h.known p m hp)
  · intro kd hk s hs
    rw [hl] at hk
    rcases mem_map_insert _ _ _ _ hk with e | hm
    · subst e
      exact hz s hs
    · exact h.covered kd hm s hs

theorem PortDirInference_frames_at (Z : String → Prop) (p m : String) (r : Bool)
    (st st1 : Inou_firrtl) (out : List Lnast_node) (hi : Late_inv Z st)
    (hm : st.dangling_ports_map.lookup p = some m)
    (h : PortDirInference p m r st = .ok () st1 out) : Late_inv Z st1 := by
  obtain ⟨d, hd⟩ := lookup_of_map_contains _ _ (hi.known p m hm)
  have hmem := mem_of_lookup _ _ _ hd
  have hat : late_assign_ports_at st (m ++ "." ++ p) = (d, st) := by
    unfold late_assign_ports_at
    rw [hd]
  unfold PortDirInference at h
  simp only [hat] at h
  have hcov : ∀ d2, (d = .INFER ∨ d = .READI ∨ d = .WRITEI ∨ d = .READ_WRITEI) →
      (d2 = .INFER ∨ d2 = .READI ∨ d2 = .WRITEI ∨ d2 = .READ_WRITEI) →
      ∀ suffix ∈ late_cover d2, Z (late_assign_rstr (m ++ "." ++ p) ++ suffix) := by
    intro d2 h1 h2 s hs
    rw [late_cover_infer d2 h2, ← late_cover_infer d h1] at hs
    exact hi.covered _ hmem s hs
  split_ifs at h with h1 h2 h3 h4 h5
  all_goals first
    | (cases h; exact hi)
    | (cases h
       refine Late_inv_insert Z st _ _ _ rfl rfl ?_ hi
       apply hcov _ ?_ (by simp)
       tauto)


theorem frames_at_of {α : Type} {m : Lower α} (st : Inou_firrtl) (h : Frames m) :
    Frames_at st m :=
  ⟨fun Z v st1 out hi hm => h.ok Z st v st1 out hi hm⟩

theorem frames_get_bind_at {β : Type} {f : Inou_firrtl → Lower β}
    (hf : ∀ st, Frames_at st (f st)) : Frames (Lower.get >>= f) := by
  refine ⟨fun Z st v st1 out hi h => ?_⟩
  obtain ⟨a, s1, o1, o2, h1, h2, _⟩ := Lower.seq_inv _ _ _ _ _ _ h
  cases h1
  exact (hf _).ok Z _ _ _ hi h2

theorem frames_at_bind {α β : Type} {st : Inou_firrtl} {m : Lower α} {f : α → Lower β}
    (hm : Frames_at st m) (hf : ∀ a, Frames (f a)) : Frames_at st (m >>= f) := by
  refine ⟨fun Z v st1 out hi h => ?_⟩
  obtain ⟨a, s1, o1, o2, h1, h2, _⟩ := Lower.seq_inv _ _ _ _ _ _ h
  exact (hf a).ok Z _ _ _ _ (hm.ok Z _ _ _ hi h1) h2

theorem frames_at_emit_bind {β : Type} {st : Inou_firrtl} (n : Lnast_node)
    {f : Unit → Lower β} (hf : Frames_at st (f ())) :
    Frames_at st (Lower.emit n >>= f) := by
  refine ⟨fun Z v st1 out hi h => ?_⟩
  obtain ⟨a, s1, o1, o2, h1, h2, _⟩ := Lower.seq_inv _ _ _ _ _ _ h
  cases h1
  exact hf.ok Z _ _ _ hi h2

theorem lookup_getD_of_contains {β : Type} (m : List (String × β)) (key : String) (dflt : β)
    (h : map_contains m key = true) : m.lookup key = some ((m.lookup key).getD dflt) := by
  obtain ⟨v, hv⟩ := lookup_of_map_contains m key h
  rw [hv]
  rfl

theorem PortDirInference_at (p m : String) (r : Bool) (st : Inou_firrtl)
    (hm : st.dangling_ports_map.lookup p = some m) :
    Frames_at st (PortDirInference p m r) :=
  ⟨fun Z _ st1 out hi h => PortDirInference_frames_at Z p m r st st1 out hi hm h⟩

theorem dots_sels_loop_frames (q : List String) :
    ∀ (sel : Bool) (bund : String) (done : List Lnast_node) (ln_node : Option Lnast_node),
      Frames (dots_sels_loop q sel bund done ln_node) := by
  induction q with
  | nil =>
    intro sel bund done ln_node
    rw [dots_sels_loop]
    exact frames_pure _
  | cons elem0 rest ih =>
    intro sel bund done ln_node
    unfold dots_sels_loop
    refine frames_bind frames_get ?_
    intro st
    dsimp only
    split_ifs
    all_goals first
      | (refine frames_bind create_temp_var_frames ?_
         intro tv
         exact ih _ _ _ _)
      | (cases ln_node with
         | none => exact frames_fail _
         | some n0 => exact ih _ _ _ _)

theorem CreateDotsSelsFromStr_frames (s : String) : Frames (CreateDotsSelsFromStr s) := by
  unfold CreateDotsSelsFromStr
  split_ifs
  · exact frames_fail _
  · refine frames_bind frames_get ?_
    intro st
    split
    · exact frames_fail _
    · refine frames_bind (dots_sels_loop_frames _ _ _ _ _) ?_
      rintro ⟨ln_node, done⟩
      dsimp only
      cases ln_node with
      | none => exact frames_fail _
      | some n =>
        dsimp only
        refine frames_bind (frames_for_each _ _ fun a _ => frames_emit _) ?_
        intro _
        split
        · exact frames_pure _
        · exact frames_fail _

theorem get_full_name_frames (term : String) (r : Bool) : Frames (get_full_name term r) := by
  unfold get_full_name
  apply frames_get_bind_at
  intro st
  dsimp only
  split_ifs
  all_goals first
    | exact frames_at_of _ (frames_pure _)
    | exact frames_at_of _ (CreateDotsSelsFromStr_frames _)
    | exact frames_at_bind
        (PortDirInference_at _ _ _ _ (lookup_getD_of_contains _ _ _ (by assumption)))
        fun _ => frames_pure _

theorem create_bitwidth_dot_node_frames (bw : Nat) (id : String) (s : Bool) :
    Frames (create_bitwidth_dot_node bw id s) := by
  unfold create_bitwidth_dot_node
  with_reducible repeat' first
    | exact frames_pure _
    | exact CreateDotsSelsFromStr_frames _
    | exact frames_emit _
    | apply frames_bind
    | intro _
    | split_ifs

theorem assign_or_dp_assign_frames (lhs : String) (rhs : Lnast_node) :
    Frames (assign_or_dp_assign lhs rhs) := by
  unfold assign_or_dp_assign
  split_ifs <;> exact frames_emit _

theorem bund_vec_full_str_frames (s : String) (r : Bool) :
    Frames (bund_vec_full_str s r) := by
  unfold bund_vec_full_str
  apply frames_get_bind_at
  intro st
  dsimp only
  split_ifs
  all_goals first
    | exact frames_at_of _ (get_full_name_frames _ _)
    | (apply frames_at_emit_bind
       exact frames_at_bind
         (PortDirInference_at _ _ _ _ (lookup_getD_of_contains _ _ _ (by assumption)))
         fun _ => frames_pure _)

theorem bund_vec_create_frames (s : String) : Frames (bund_vec_create s) := by
  unfold bund_vec_create
  split_ifs
  · exact frames_fail _
  · exact CreateDotsSelsFromStr_frames _

theorem bund_vec_memory_frames (s full : String) (r : Bool) :
    Frames (bund_vec_memory s full r) := by
  unfold bund_vec_memory
  with_reducible repeat' first
    | exact frames_pure _
    | exact bund_vec_create_frames _
    | split_ifs
    | dsimp only

theorem bund_vec_instance_frames (s full : String) : Frames (bund_vec_instance s full) := by
  unfold bund_vec_instance
  repeat' first
    | exact frames_fail _
    | exact frames_get
    | exact frames_modify _ (fun _ => ⟨rfl, rfl⟩)
    | exact bund_vec_create_frames _
    | apply frames_bind
    | intro _
    | split_ifs

theorem HandleBundVecAcc_flat_frames (s : String) (r : Bool) :
    Frames (HandleBundVecAcc_flat s r) := by
  unfold HandleBundVecAcc_flat
  with_reducible repeat' first
    | exact frames_get
    | exact bund_vec_full_str_frames _ _
    | exact bund_vec_memory_frames _ _ _
    | exact bund_vec_instance_frames _ _
    | exact bund_vec_create_frames _
    | apply frames_bind
    | intro _
    | split_ifs
    | dsimp only

theorem initial_reference_frames (id lhs : String) : Frames (initial_reference id lhs) := by
  unfold initial_reference
  apply frames_get_bind_at
  intro st
  dsimp only
  split_ifs
  all_goals first
    | exact frames_at_of _
        (frames_bind (get_full_name_frames _ _) fun _ => assign_or_dp_assign_frames _ _)
    | (apply frames_at_emit_bind
       exact frames_at_bind
         (PortDirInference_at _ _ _ _ (lookup_getD_of_contains _ _ _ (by assumption)))
         fun _ => frames_bind (CreateDotsSelsFromStr_frames _)
           fun _ => assign_or_dp_assign_frames _ _)

theorem return_reference_frames (id : String) (r : Bool) : Frames (return_reference id r) := by
  unfold return_reference
  refine frames_bind (get_full_name_frames _ _) ?_
  intro expr_string
  apply frames_get_bind_at
  intro st
  dsimp only
  split_ifs
  all_goals first
    | exact frames_at_of _ (frames_pure _)
    | (apply frames_at_emit_bind
       exact frames_at_bind
         (PortDirInference_at _ _ _ _ (lookup_getD_of_contains _ _ _ (by assumption)))
         fun _ => frames_pure _)
    | (apply frames_at_emit_bind
       exact frames_at_bind
         (PortDirInference_at _ _ _ _ (lookup_getD_of_contains _ _ _ (by assumption)))
         fun _ => CreateDotsSelsFromStr_frames _)


theorem HandleMuxAssign_frames (ret : Return_expr) (hret : ∀ e r, Frames (ret e r))
    (init : Initial_expr) (hinit : ∀ e l, Frames (init e l))
    (c t f : Fir_expression) (lhs : String) :
    Frames (HandleMuxAssign ret init c t f lhs) := by
  unfold HandleMuxAssign
  with_reducible repeat' first
    | exact frames_pure _
    | exact frames_fail _
    | exact frames_emit _
    | exact create_temp_var_frames
    | exact get_new_seq_name_frames
    | exact I_frames _ _
    | exact arg_at_frames _ _
    | exact const_at_frames _ _
    | exact get_full_name_frames _ _
    | exact hret _ _
    | exact frames_children_of (hinit _ _)
    | exact hinit _ _
    | apply frames_bind
    | intro _

theorem HandleValidIfAssign_frames (ret : Return_expr) (hret : ∀ e r, Frames (ret e r))
    (init : Initial_expr) (hinit : ∀ e l, Frames (init e l))
    (c v : Fir_expression) (lhs : String) :
    Frames (HandleValidIfAssign ret init c v lhs) := by
  unfold HandleValidIfAssign
  with_reducible repeat' first
    | exact frames_pure _
    | exact frames_fail _
    | exact frames_emit _
    | exact create_temp_var_frames
    | exact get_new_seq_name_frames
    | exact I_frames _ _
    | exact arg_at_frames _ _
    | exact const_at_frames _ _
    | exact get_full_name_frames _ _
    | exact hret _ _
    | exact frames_children_of (hinit _ _)
    | exact hinit _ _
    | apply frames_bind
    | intro _

theorem HandleUnaryOp_frames (ret : Return_expr) (hret : ∀ e r, Frames (ret e r))
    (callee : String) (arg : List Fir_expression) (lhs : String) :
    Frames (HandleUnaryOp ret callee arg lhs) := by
  unfold HandleUnaryOp
  with_reducible repeat' first
    | exact frames_pure _
    | exact frames_fail _
    | exact frames_emit _
    | exact create_temp_var_frames
    | exact get_new_seq_name_frames
    | exact I_frames _ _
    | exact arg_at_frames _ _
    | exact const_at_frames _ _
    | exact get_full_name_frames _ _
    | exact hret _ _
    | apply frames_bind
    | intro _

theorem HandleExtractBitsOp_frames (ret : Return_expr) (hret : ∀ e r, Frames (ret e r))
    (arg : List Fir_expression) (cs : List String) (lhs : String) :
    Frames (HandleExtractBitsOp ret arg cs lhs) := by
  unfold HandleExtractBitsOp
  with_reducible repeat' first
    | exact frames_pure _
    | exact frames_fail _
    | exact frames_emit _
    | exact create_temp_var_frames
    | exact get_new_seq_name_frames
    | exact I_frames _ _
    | exact arg_at_frames _ _
    | exact const_at_frames _ _
    | exact get_full_name_frames _ _
    | exact hret _ _
    | apply frames_bind
    | intro _

theorem HandleHeadOp_frames (ret : Return_expr) (hret : ∀ e r, Frames (ret e r))
    (callee : String) (arg : List Fir_expression) (cs : List String) (lhs : String) :
    Frames (HandleHeadOp ret callee arg cs lhs) := by
  unfold HandleHeadOp
  with_reducible repeat' first
    | exact frames_pure _
    | exact frames_fail _
    | exact frames_emit _
    | exact create_temp_var_frames
    | exact get_new_seq_name_frames
    | exact I_frames _ _
    | exact arg_at_frames _ _
    | exact const_at_frames _ _
    | exact get_full_name_frames _ _
    | exact hret _ _
    | apply frames_bind
    | intro _

theorem HandleConcatOp_frames (ret : Return_expr) (hret : ∀ e r, Frames (ret e r))
    (arg : List Fir_expression) (lhs : String) :
    Frames (HandleConcatOp ret arg lhs) := by
  unfold HandleConcatOp
  with_reducible repeat' first
    | exact frames_pure _
    | exact frames_fail _
    | exact frames_emit _
    | exact create_temp_var_frames
    | exact get_new_seq_name_frames
    | exact I_frames _ _
    | exact arg_at_frames _ _
    | exact const_at_frames _ _
    | exact get_full_name_frames _ _
    | exact hret _ _
    | apply frames_bind
    | intro _

theorem HandleTwoExprPrimOp_frames (ret : Return_expr) (hret : ∀ e r, Frames (ret e r))
    (op : Fir_op) (arg : List Fir_expression) (lhs : String) :
    Frames (HandleTwoExprPrimOp ret op arg lhs) := by
  unfold HandleTwoExprPrimOp
  with_reducible repeat' first
    | exact frames_pure _
    | exact frames_fail _
    | exact frames_emit _
    | exact create_temp_var_frames
    | exact get_new_seq_name_frames
    | exact I_frames _ _
    | exact arg_at_frames _ _
    | exact const_at_frames _ _
    | exact get_full_name_frames _ _
    | exact hret _ _
    | apply frames_bind
    | intro _
    | split

theorem HandleStaticShiftOp_frames (ret : Return_expr) (hret : ∀ e r, Frames (ret e r))
    (op : Fir_op) (arg : List Fir_expression) (cs : List String) (lhs : String) :
    Frames (HandleStaticShiftOp ret op arg cs lhs) := by
  unfold HandleStaticShiftOp
  with_reducible repeat' first
    | exact frames_pure _
    | exact frames_fail _
    | exact frames_emit _
    | exact create_temp_var_frames
    | exact get_new_seq_name_frames
    | exact I_frames _ _
    | exact arg_at_frames _ _
    | exact const_at_frames _ _
    | exact get_full_name_frames _ _
    | exact hret _ _
    | apply frames_bind
    | intro _
    | split

theorem HandleTypeConvOp_frames (ret : Return_expr) (hret : ∀ e r, Frames (ret e r))
    (op : Fir_op) (arg : List Fir_expression) (cs : List String) (lhs : String) :
    Frames (HandleTypeConvOp ret op arg cs lhs) := by
  unfold HandleTypeConvOp
  with_reducible repeat' first
    | exact frames_pure _
    | exact frames_fail _
    | exact frames_emit _
    | exact create_temp_var_frames
    | exact get_new_seq_name_frames
    | exact I_frames _ _
    | exact arg_at_frames _ _
    | exact const_at_frames _ _
    | exact get_full_name_frames _ _
    | exact hret _ _
    | apply frames_bind
    | intro _
    | split

theorem ListPrimOpInfo_frames (ret : Return_expr) (hret : ∀ e r, Frames (ret e r))
    (op : Fir_op) (arg : List Fir_expression) (cs : List String) (lhs : String) :
    Frames (ListPrimOpInfo ret op arg cs lhs) := by
  unfold ListPrimOpInfo
  cases op
  all_goals dsimp only
  all_goals with_reducible first
    | exact HandleTwoExprPrimOp_frames ret hret _ _ _
    | exact HandleHeadOp_frames ret hret _ _ _ _
    | exact HandleStaticShiftOp_frames ret hret _ _ _ _
    | exact HandleUnaryOp_frames ret hret _ _ _
    | exact HandleConcatOp_frames ret hret _ _
    | exact HandleExtractBitsOp_frames ret hret _ _ _
    | exact HandleTypeConvOp_frames ret hret _ _ _ _
    | exact frames_fail _

theorem FlattenExpression_frames (ret : Return_expr) (hret : ∀ e r, Frames (ret e r)) :
    ∀ e : Fir_expression, Frames (FlattenExpression ret e)
  | .sub_field e f => by
    rw [FlattenExpression]
    exact frames_bind (FlattenExpression_frames ret hret e) fun _ => frames_pure _
  | .sub_access e i => by
    rw [FlattenExpression]
    exact frames_bind (hret _ _) fun _ =>
      frames_bind (FlattenExpression_frames ret hret e) fun _ => frames_pure _
  | .sub_index e i => by
    rw [FlattenExpression]
    exact frames_bind (FlattenExpression_frames ret hret e) fun _ => frames_pure _
  | .reference id => by
    rw [FlattenExpression]
    exact frames_pure _
  | .not_set => frames_fail _
  | .uint_literal _ => frames_fail _
  | .sint_literal _ => frames_fail _
  | .valid_if _ _ => frames_fail _
  | .mux _ _ _ => frames_fail _
  | .prim_op _ _ _ => frames_fail _
  | .fixed_literal => frames_fail _

theorem HandleBundVecAcc_frames (ret : Return_expr) (hret : ∀ e r, Frames (ret e r))
    (e : Fir_expression) (r : Bool) : Frames (HandleBundVecAcc ret e r) := by
  unfold HandleBundVecAcc
  exact frames_bind (FlattenExpression_frames ret hret e) fun _ =>
    HandleBundVecAcc_flat_frames _ _

theorem expr_lowering_frames (fuel : Nat) :
    (∀ e lhs, Frames (InitialExprAdd fuel e lhs)) ∧
    (∀ e r, Frames (ReturnExprString fuel e r)) := by
  induction fuel with
  | zero =>
    constructor
    · intro e lhs; rw [InitialExprAdd]; exact frames_fail _
    · intro e r; rw [ReturnExprString]; exact frames_fail _
  | succ fuel ih =>
    constructor
    · intro e lhs
      rw [InitialExprAdd]
      refine frames_bind (get_full_name_frames _ _) ?_
      intro lhs1
      cases e
      all_goals with_reducible repeat' first
        | exact frames_pure _
        | exact frames_fail _
        | exact frames_emit _
        | exact create_temp_var_frames
        | exact assign_or_dp_assign_frames _ _
        | exact initial_reference_frames _ _
        | exact return_reference_frames _ _
        | exact HandleValidIfAssign_frames _ ih.2 _ ih.1 _ _ _
        | exact HandleMuxAssign_frames _ ih.2 _ ih.1 _ _ _ _
        | exact HandleBundVecAcc_frames _ ih.2 _ _
        | exact ListPrimOpInfo_frames _ ih.2 _ _ _ _
        | exact ih.2 _ _
        | apply frames_bind
        | intro _
    · intro e r
      cases e
      all_goals rw [ReturnExprString]
      all_goals with_reducible repeat' first
        | exact frames_pure _
        | exact frames_fail _
        | exact frames_emit _
        | exact create_temp_var_frames
        | exact assign_or_dp_assign_frames _ _
        | exact initial_reference_frames _ _
        | exact return_reference_frames _ _
        | exact HandleValidIfAssign_frames _ ih.2 _ ih.1 _ _ _
        | exact HandleMuxAssign_frames _ ih.2 _ ih.1 _ _ _ _
        | exact HandleBundVecAcc_frames _ ih.2 _ _
        | exact ListPrimOpInfo_frames _ ih.2 _ _ _ _
        | exact ih.2 _ _
        | apply frames_bind
        | intro _

theorem get_bit_count_frames (t : Fir_type) : Frames (get_bit_count t) := by
  cases t <;> first | exact frames_pure _ | exact frames_fail _

mutual
theorem init_wire_dots_frames : ∀ (t : Fir_type) (id : String), Frames (init_wire_dots t id)
  | .bundle_type field, id => by
    rw [init_wire_dots]
    exact init_wire_dots_fields_frames field id
  | .vector_type type size, id => by
    rw [init_wire_dots]
    exact frames_for_each _ _ fun i _ => init_wire_dots_frames type _
  | .fixed_type, id => by
    rw [init_wire_dots]
    exact frames_fail _
  | .async_reset_type, id => by
    rw [init_wire_dots]
    repeat' first
      | exact frames_modify _ (fun _ => ⟨rfl, rfl⟩)
      | exact create_bitwidth_dot_node_frames _ _ _
      | exact get_bit_count_frames _
      | apply frames_bind
      | intro _
  | .sint_type width, id => by
    rw [init_wire_dots]
    repeat' first
      | exact frames_modify _ (fun _ => ⟨rfl, rfl⟩)
      | exact create_bitwidth_dot_node_frames _ _ _
      | exact get_bit_count_frames _
      | apply frames_bind
      | intro _
  | .uint_type width, id => by
    rw [init_wire_dots]
    repeat' first
      | exact frames_modify _ (fun _ => ⟨rfl, rfl⟩)
      | exact create_bitwidth_dot_node_frames _ _ _
      | exact get_bit_count_frames _
      | apply frames_bind
      | intro _
  | .clock_type, id => by
    rw [init_wire_dots]
    repeat' first
      | exact frames_modify _ (fun _ => ⟨rfl, rfl⟩)
      | exact create_bitwidth_dot_node_frames _ _ _
      | exact get_bit_count_frames _
      | apply frames_bind
      | intro _
  | .analog_type width, id => by
    rw [init_wire_dots]
    repeat' first
      | exact frames_modify _ (fun _ => ⟨rfl, rfl⟩)
      | exact create_bitwidth_dot_node_frames _ _ _
      | exact get_bit_count_frames _
      | apply frames_bind
      | intro _
  | .reset_type, id => by
    rw [init_wire_dots]
    repeat' first
      | exact frames_modify _ (fun _ => ⟨rfl, rfl⟩)
      | exact create_bitwidth_dot_node_frames _ _ _
      | exact get_bit_count_frames _
      | apply frames_bind
      | intro _
  | .not_set, id => by
    rw [init_wire_dots]
    repeat' first
      | exact frames_modify _ (fun _ => ⟨rfl, rfl⟩)
      | exact create_bitwidth_dot_node_frames _ _ _
      | exact get_bit_count_frames _
      | apply frames_bind
      | intro _
theorem init_wire_dots_fields_frames : ∀ (fields : List Fir_field) (id : String),
    Frames (init_wire_dots_fields fields id)
  | [], id => by
    rw [init_wire_dots_fields]
    exact frames_pure _
  | .mk field_id flip field_type :: rest, id => by
    rw [init_wire_dots_fields]
    exact frames_bind (init_wire_dots_frames field_type _) fun _ =>
      init_wire_dots_fields_frames rest id
end

theorem init_reg_ref_dots_frames (fuel : Nat) (id : String) (c r i : Fir_expression)
    (bw : Nat) (s : Bool) : Frames (init_reg_ref_dots fuel id c r i bw s) := by
  unfold init_reg_ref_dots
  repeat' first
    | exact frames_pure _
    | exact frames_get
    | exact frames_emit _
    | exact frames_modify _ (fun _ => ⟨rfl, rfl⟩)
    | exact CreateDotsSelsFromStr_frames _
    | exact (expr_lowering_frames _).2 _ _
    | exact FlattenExpression_frames _ (expr_lowering_frames _).2 _
    | apply frames_bind
    | intro _
    | split_ifs
    | split
    | dsimp only

mutual
theorem init_reg_dots_frames (fuel : Nat) :
    ∀ (t : Fir_type) (id : String) (c r i : Fir_expression),
      Frames (init_reg_dots fuel t id c r i)
  | .bundle_type field, id, c, r, i => by
    rw [init_reg_dots]
    exact init_reg_dots_fields_frames fuel field id c r i
  | .vector_type type size, id, c, r, i => by
    rw [init_reg_dots]
    exact frames_for_each _ _ fun k _ => init_reg_dots_frames fuel type _ c r i
  | .fixed_type, id, c, r, i => by
    rw [init_reg_dots]
    exact frames_fail _
  | .async_reset_type, id, c, r, i => by
    rw [init_reg_dots]
    repeat' first
      | exact frames_modify _ (fun _ => ⟨rfl, rfl⟩)
      | exact get_bit_count_frames _
      | exact init_reg_ref_dots_frames _ _ _ _ _ _ _
      | apply frames_bind
      | intro _
  | .sint_type width, id, c, r, i => by
    rw [init_reg_dots]
    repeat' first
      | exact frames_modify _ (fun _ => ⟨rfl, rfl⟩)
      | exact get_bit_count_frames _
      | exact init_reg_ref_dots_frames _ _ _ _ _ _ _
      | apply frames_bind
      | intro _
  | .uint_type width, id, c, r, i => by
    rw [init_reg_dots]
    repeat' first
      | exact frames_modify _ (fun _ => ⟨rfl, rfl⟩)
      | exact get_bit_count_frames _
      | exact init_reg_ref_dots_frames _ _ _ _ _ _ _
      | apply frames_bind
      | intro _
  | .clock_type, id, c, r, i => by
    rw [init_reg_dots]
    repeat' first
      | exact frames_modify _ (fun _ => ⟨rfl, rfl⟩)
      | exact get_bit_count_frames _
      | exact init_reg_ref_dots_frames _ _ _ _ _ _ _
      | apply frames_bind
      | intro _
  | .analog_type width, id, c, r, i => by
    rw [init_reg_dots]
    repeat' first
      | exact frames_modify _ (fun _ => ⟨rfl, rfl⟩)
      | exact get_bit_count_frames _
      | exact init_reg_ref_dots_frames _ _ _ _ _ _ _
      | apply frames_bind
      | intro _
  | .reset_type, id, c, r, i => by
    rw [init_reg_dots]
    repeat' first
      | exact frames_modify _ (fun _ => ⟨rfl, rfl⟩)
      | exact get_bit_count_frames _
      | exact init_reg_ref_dots_frames _ _ _ _ _ _ _
      | apply frames_bind
      | intro _
  | .not_set, id, c, r, i => by
    rw [init_reg_dots]
    repeat' first
      | exact frames_modify _ (fun _ => ⟨rfl, rfl⟩)
      | exact get_bit_count_frames _
      | exact init_reg_ref_dots_frames _ _ _ _ _ _ _
      | apply frames_bind
      | intro _
theorem init_reg_dots_fields_frames (fuel : Nat) :
    ∀ (fields : List Fir_field) (id : String) (c r i : Fir_expression),
      Frames (init_reg_dots_fields fuel fields id c r i)
  | [], id, c, r, i => by
    rw [init_reg_dots_fields]
    exact frames_pure _
  | .mk field_id flip field_type :: rest, id, c, r, i => by
    rw [init_reg_dots_fields]
    exact frames_bind (init_reg_dots_frames fuel field_type _ c r i) fun _ =>
      init_reg_dots_fields_frames fuel rest id c r i
end

theorem flipped_dir_frames (dir : Nat) : Frames (flipped_dir dir) := by
  unfold flipped_dir
  exact frames_bind (I_frames _ _) fun _ => frames_pure _

mutual
theorem create_io_list_frames : ∀ (t : Fir_type) (dir : Nat) (port_id : String),
    Frames (create_io_list t dir port_id)
  | .uint_type width, dir, port_id => by rw [create_io_list]; exact frames_pure _
  | .sint_type width, dir, port_id => by rw [create_io_list]; exact frames_pure _
  | .clock_type, dir, port_id => by rw [create_io_list]; exact frames_pure _
  | .bundle_type field, dir, port_id => by
    rw [create_io_list]
    exact create_io_list_fields_frames field dir port_id
  | .vector_type type size, dir, port_id => by
    rw [create_io_list]
    refine frames_bind (frames_map_each _ _ fun i _ => ?_) fun _ => frames_pure _
    exact frames_bind (create_io_list_frames type dir _) fun _ => frames_pure _
  | .fixed_type, _, _ => by rw [create_io_list]; exact frames_fail _
  | .analog_type _, _, _ => by rw [create_io_list]; exact frames_fail _
  | .async_reset_type, dir, port_id => by
    rw [create_io_list]
    exact frames_bind (frames_modify _ (fun _ => ⟨rfl, rfl⟩)) fun _ => frames_pure _
  | .reset_type, dir, port_id => by rw [create_io_list]; exact frames_pure _
  | .not_set, _, _ => by rw [create_io_list]; exact frames_fail _
theorem create_io_list_fields_frames : ∀ (fields : List Fir_field) (dir : Nat)
    (port_id : String), Frames (create_io_list_fields fields dir port_id)
  | [], _, _ => by rw [create_io_list_fields]; exact frames_pure _
  | .mk field_id is_flipped field_type :: rest, dir, port_id => by
    rw [create_io_list_fields]
    split_ifs
    · refine frames_bind (flipped_dir_frames _) fun field_dir => ?_
      exact frames_bind (create_io_list_frames field_type field_dir _) fun _ =>
        frames_bind (create_io_list_fields_frames rest dir port_id) fun _ => frames_pure _
    · refine frames_bind (frames_pure _) fun field_dir => ?_
      exact frames_bind (create_io_list_frames field_type field_dir _) fun _ =>
        frames_bind (create_io_list_fields_frames rest dir port_id) fun _ => frames_pure _
end

theorem memory_depth_str_frames (char_signed : Bool) (depth : Mem_depth) :
    Frames (memory_depth_str char_signed depth) := by
  cases depth <;> first | exact frames_pure _ | exact frames_fail _

theorem cmemory_depth_type_frames (char_signed : Bool) (type : Cmem_type) :
    Frames (cmemory_depth_type char_signed type) := by
  cases type <;> first | exact frames_pure _ | exact frames_fail _

theorem InitCMemory_frames (char_signed : Bool) (id : String) (type : Cmem_type)
    (read_under_write : Read_under_write) (sync_read : Bool) :
    Frames (InitCMemory char_signed id type read_under_write sync_read) := by
  unfold InitCMemory
  repeat' first
    | exact frames_emit _
    | exact create_temp_var_frames
    | exact cmemory_depth_type_frames _ _
    | exact init_wire_dots_frames _ _
    | exact frames_modify _ (fun _ => ⟨rfl, rfl⟩)
    | apply frames_bind
    | intro _

theorem late_assign_zeros_frames (name str_start : String) (suffixes : List String) :
    Frames (late_assign_zeros name str_start suffixes) := by
  unfold late_assign_zeros
  exact frames_for_each _ _ fun _ _ => frames_emit _

theorem lookup_map_insert_self {β : Type} (m : List (String × β)) (key : String) (v : β) :
    (map_insert m key v).lookup key = some v := by
  cases h : m.lookup key with
  | some w => exact lookup_map_insert m key v w h
  | none =>
    have hc : map_contains m key = false := by
      cases hc : map_contains m key with
      | false => rfl
      | true =>
        obtain ⟨w, hw⟩ := lookup_of_map_contains m key hc
        rw [hw] at h
        cases h
    unfold map_insert
    rw [hc]
    simp only [Bool.false_eq_true, if_false]
    induction m with
    | nil => simp [List.lookup_cons]
    | cons kv rest ih =>
      obtain ⟨k, u⟩ := kv
      by_cases hk : key = k
      · subst hk
        simp [List.lookup_cons] at h
      · have hk2 : (key == k) = false := by simpa using hk
        rw [List.lookup_cons, hk2] at h
        rw [List.cons_append, List.lookup_cons, hk2]
        apply ih h
        unfold map_contains at hc ⊢
        rw [List.any_cons] at hc
        simp only [Bool.or_eq_false_iff] at hc
        exact hc.2

theorem lookup_map_insert_ne {β : Type} (m : List (String × β)) (key key2 : String) (v : β)
    (hne : key2 ≠ key) : (map_insert m key v).lookup key2 = m.lookup key2 := by
  unfold map_insert
  split_ifs with hc
  · induction m with
    | nil => rfl
    | cons kv rest ih =>
      obtain ⟨k, u⟩ := kv
      rw [List.map_cons]
      by_cases hk : k = key
      · subst hk
        have hk2 : (key2 == k) = false := by simpa using hne
        simp only [if_true, List.lookup_cons, hk2]
        by_cases hr : map_contains rest k = true
        · exact ih hr
        · have hr2 : ∀ kv ∈ rest, ¬ kv.1 = k := by
            intro kv hkv e
            apply hr
            unfold map_contains
            rw [List.any_eq_true]
            exact ⟨kv, hkv, by simpa using e⟩
          have : (rest.map fun kv => if kv.1 = k then (k, v) else kv) = rest := by
            conv_rhs => rw [← List.map_id rest]
            apply List.map_congr_left
            intro kv hkv
            simp [hr2 kv hkv]
          rw [this]
      · simp only [hk, if_false, List.lookup_cons]
        by_cases hk2 : key2 = k
        · subst hk2; simp
        · have hk3 : (key2 == k) = false := by simpa using hk2
          rw [hk3]
          by_cases hr : map_contains rest key = true
          · exact ih hr
          · have hr2 : ∀ kv ∈ rest, ¬ kv.1 = key := by
              intro kv hkv e
              apply hr
              unfold map_contains
              rw [List.any_eq_true]
              exact ⟨kv, hkv, by simpa using e⟩
            have : (rest.map fun kv => if kv.1 = key then (key, v) else kv) = rest := by
              conv_rhs => rw [← List.map_id rest]
              apply List.map_congr_left
              intro kv hkv
              simp [hr2 kv hkv]
            rw [this]
  · induction m with
    | nil =>
      have hk2 : (key2 == key) = false := by simpa using hne
      simp [List.lookup_cons, hk2]
    | cons kv rest ih =>
      obtain ⟨k, u⟩ := kv
      rw [List.cons_append, List.lookup_cons, List.lookup_cons]
      cases hk : key2 == k with
      | true => rfl
      | false =>
        apply ih
        intro hr
        apply hc
        unfold map_contains at hr ⊢
        rw [List.any_cons, hr]
        simp

theorem map_no_dot (l : List Char) (h : l.contains '.' = false) :
    (l.map fun c => if c = '.' then '_' else c) = l := by
  induction l with
  | nil => rfl
  | cons c rest ih =>
    rw [List.contains_cons] at h
    simp only [Bool.or_eq_false_iff, beq_eq_false_iff_ne, ne_eq] at h
    have hc : ¬ c = '.' := fun e => h.1 e.symm
    rw [List.map_cons, ih h.2, if_neg hc]

theorem late_assign_rstr_plain (mem_id port_id : String) (hm : plain_id mem_id = true)
    (hp : plain_id port_id = true) :
    late_assign_rstr (mem_id ++ "." ++ port_id) = mem_id ++ "_" ++ port_id ++ "_" := by
  unfold plain_id at hm hp
  simp only [Bool.not_eq_true'] at hm hp
  have e : str_substr_from ("#" ++ (mem_id ++ "." ++ port_id)) 1 = mem_id ++ "." ++ port_id := by
    apply String.ext
    rfl
  unfold late_assign_rstr str_replace_char
  rw [e]
  apply String.ext
  simp only [String.data_append, List.map_append, map_no_dot _ hm, map_no_dot _ hp]
  rfl


theorem declares_of_frames {α : Type} {m : Lower α} (h : Frames m) : Declares m :=
  ⟨fun Z st v st1 out hi hm =>
    Late_inv_mono Z _ st1 (fun _ hx => Or.inl hx) (h.ok Z st v st1 out hi hm)⟩

theorem zero_assigned_append_left (a b : List Lnast_node) (name : String)
    (h : zero_assigned a name) : zero_assigned (a ++ b) name := by
  obtain ⟨nm, hn⟩ := h
  exact ⟨nm, List.mem_append_left _ hn⟩

theorem zero_assigned_append_right (a b : List Lnast_node) (name : String)
    (h : zero_assigned b name) : zero_assigned (a ++ b) name := by
  obtain ⟨nm, hn⟩ := h
  exact ⟨nm, List.mem_append_right _ hn⟩

theorem declares_bind {α β : Type} {m : Lower α} {f : α → Lower β}
    (hm : Declares m) (hf : ∀ a, Declares (f a)) : Declares (m >>= f) := by
  refine ⟨fun Z st v st1 out hi h => ?_⟩
  obtain ⟨a, s1, o1, o2, h1, h2, e⟩ := Lower.seq_inv _ _ _ _ _ _ h
  have i1 := hm.ok Z _ _ _ _ hi h1
  have i2 := (hf a).ok _ _ _ _ _ i1 h2
  refine Late_inv_mono _ _ st1 ?_ i2
  intro x hx
  rw [e]
  rcases hx with (hx | hx) | hx
  · exact Or.inl hx
  · exact Or.inr (zero_assigned_append_left _ _ _ hx)
  · exact Or.inr (zero_assigned_append_right _ _ _ hx)

theorem declares_map_each {α β : Type} (l : List α) (f : α → Lower β)
    (hf : ∀ a ∈ l, Declares (f a)) : Declares (map_each l f) := by
  induction l with
  | nil => exact declares_of_frames (frames_pure _)
  | cons a rest ih =>
    rw [map_each]
    refine declares_bind (hf a (List.mem_cons_self _ _)) fun b => ?_
    refine declares_bind (ih fun b hb => hf b (List.mem_cons_of_mem _ hb)) fun bs => ?_
    exact declares_of_frames (frames_pure _)

theorem init_memory_port_declares (id tup_name asg_name lat : String) (fwd : Bool)
    (dir : Mem_dir) (suffixes : List String) (port_id : String)
    (hid : plain_id id = true) (hp : plain_id port_id = true)
    (hs : ∀ s ∈ late_cover dir, "_" ++ s ∈ suffixes) :
    Declares (init_memory_port id tup_name asg_name lat fwd dir suffixes port_id) := by
  refine ⟨fun Z st v st1 out hi h => ?_⟩
  have hz := init_memory_port_zeros id tup_name asg_name lat fwd dir suffixes port_id st st1
    v out h
  unfold init_memory_port at h
  simp only [bind, Lower.seq, Lower.modify, pure, Lower.ret, Lower.emit, create_temp_var,
    late_assign_zeros_nodes, List.append_nil, List.nil_append, List.singleton_append] at h
  cases h
  refine Late_inv_insert _ st _ (id ++ "." ++ port_id) dir rfl rfl ?_
    (Late_inv_mono Z _ st (fun _ hx => Or.inl hx) hi)
  intro s hs2
  refine Or.inr ⟨asg_name, ?_⟩
  have := hz _ (hs s hs2)
  rw [late_assign_rstr_plain id port_id hid hp, String.append_assoc _ "_" s]
  exact this

theorem Late_inv_declare_port (Z : String → Prop) (st st1 : Inou_firrtl)
    (id memory_id : String) (d : Mem_dir)
    (hd : st1.dangling_ports_map = map_insert st.dangling_ports_map id memory_id)
    (hl : st1.late_assign_ports
      = map_insert st.late_assign_ports (memory_id ++ "." ++ id) d)
    (hz : ∀ suffix ∈ late_cover d, Z (late_assign_rstr (memory_id ++ "." ++ id) ++ suffix))
    (h : Late_inv Z st) : Late_inv Z st1 := by
  refine ⟨?_, ?_⟩
  · intro p m hp
    rw [hl]
    rw [hd] at hp
    by_cases e : p = id
    · subst e
      rw [lookup_map_insert_self] at hp
      cases hp
      exact map_contains_map_insert_self _ _ _
    · rw [lookup_map_insert_ne _ _ _ _ e] at hp
      exact map_contains_map_insert _ _ _ _ (h.known p m hp)
  · intro kd hk s hs
    rw [hl] at hk
    rcases mem_map_insert _ _ _ _ hk with e | hm
    · subst e
      exact hz s hs
    · exact h.covered kd hm s hs

theorem HandleMemPortPre_declares (id memory_id : String) (direction : Mport_direction)
    (hid : plain_id id = true) (hm : plain_id memory_id = true) :
    Declares (HandleMemPortPre id memory_id direction) := by
  refine ⟨fun Z st v st1 out hi h => ?_⟩
  unfold HandleMemPortPre at h
  cases direction
  all_goals
    simp only [bind, Lower.seq, Lower.modify, Lower.get, mport_attributes,
      mport_suffix_list, pure, Lower.ret, Lower.emit, create_temp_var,
      late_assign_zeros_nodes, Lower.fail, List.map_cons, List.map_nil, List.append_nil,
      List.nil_append, List.cons_append, List.singleton_append] at h
  case OTHER => cases h
  all_goals
    cases h
    refine Late_inv_declare_port _ st _ id memory_id _ rfl rfl ?_
      (Late_inv_mono Z _ st (fun _ hx => Or.inl hx) hi)
    intro s hs
    refine Or.inr ⟨"", ?_⟩
    rw [late_assign_rstr_plain memory_id id hm hid]
    simp only [late_cover] at hs
    fin_cases hs <;> simp


theorem InitMemory_declares (char_signed : Bool) (id : String) (type : Fir_type)
    (depth : Mem_depth) (read_latency write_latency : Nat)
    (read_under_write : Read_under_write) (reader_id writer_id readwriter_id : List String)
    (hid : plain_id id = true)
    (hp : ∀ p ∈ reader_id ++ writer_id ++ readwriter_id, plain_id p = true) :
    Declares (InitMemory char_signed id type depth read_latency write_latency
      read_under_write reader_id writer_id readwriter_id) := by
  have hr : ∀ p ∈ reader_id, plain_id p = true := fun p h =>
    hp p (List.mem_append_left _ (List.mem_append_left _ h))
  have hw : ∀ p ∈ writer_id, plain_id p = true := fun p h =>
    hp p (List.mem_append_left _ (List.mem_append_right _ h))
  have hb : ∀ p ∈ readwriter_id, plain_id p = true := fun p h =>
    hp p (List.mem_append_right _ h)
  unfold InitMemory
  repeat' first
    | exact declares_of_frames (frames_emit _)
    | exact declares_of_frames create_temp_var_frames
    | exact declares_of_frames (memory_depth_str_frames _ _)
    | exact declares_of_frames (init_wire_dots_frames _ _)
    | exact declares_of_frames (frames_modify _ (fun _ => ⟨rfl, rfl⟩))
    | exact declares_map_each _ _ fun p h =>
        init_memory_port_declares _ _ _ _ _ _ _ _ hid (hr p h) (by decide)
    | exact declares_map_each _ _ fun p h =>
        init_memory_port_declares _ _ _ _ _ _ _ _ hid (hw p h) (by decide)
    | exact declares_map_each _ _ fun p h =>
        init_memory_port_declares _ _ _ _ _ _ _ _ hid (hb p h) (by decide)
    | apply declares_bind
    | intro _

mutual
theorem PreCheckForMem_declares (char_signed : Bool) :
    ∀ stmt : Fir_statement, (∀ d ∈ mem_decls stmt, decl_ids_plain d = true) →
      Declares (PreCheckForMem char_signed stmt)
  | .memory id type depth rl wl ruw reader_id writer_id readwriter_id, h => by
    have hd := h _ (by rw [mem_decls]; exact List.mem_singleton_self _)
    simp only [decl_ids_plain, Bool.and_eq_true, List.all_eq_true] at hd
    rw [PreCheckForMem]
    exact declares_bind (declares_of_frames (frames_modify _ (fun _ => ⟨rfl, rfl⟩)))
      fun _ => InitMemory_declares _ _ _ _ _ _ _ _ _ _ hd.1 hd.2
  | .cmemory id type ruw sync_read, _ => by
    rw [PreCheckForMem]
    exact declares_bind (declares_of_frames (frames_modify _ (fun _ => ⟨rfl, rfl⟩)))
      fun _ => declares_of_frames (InitCMemory_frames _ _ _ _ _)
  | .memory_port id memory_id _ _ direction, h => by
    have hd := h _ (by rw [mem_decls]; exact List.mem_singleton_self _)
    simp only [decl_ids_plain, Bool.and_eq_true] at hd
    rw [PreCheckForMem]
    exact HandleMemPortPre_declares _ _ _ hd.1 hd.2
  | .when _ consequent otherwise, h => by
    rw [PreCheckForMem]
    rw [mem_decls] at h
    exact declares_bind
      (PreCheckForMem_each_declares char_signed consequent
        fun d hd => h d (List.mem_append_left _ hd))
      fun _ => PreCheckForMem_each_declares char_signed otherwise
        fun d hd => h d (List.mem_append_right _ hd)
  | .not_set, _ => declares_of_frames (frames_pure _)
  | .wire _ _, _ => declares_of_frames (frames_pure _)
  | .register_ _ _ _ _ _, _ => declares_of_frames (frames_pure _)
  | .instance_ _ _, _ => declares_of_frames (frames_pure _)
  | .node _ _, _ => declares_of_frames (frames_pure _)
  | .stop _ _ _, _ => declares_of_frames (frames_pure _)
  | .printf _ _ _ _, _ => declares_of_frames (frames_pure _)
  | .skip, _ => declares_of_frames (frames_pure _)
  | .connect _ _, _ => declares_of_frames (frames_pure _)
  | .partial_connect _ _, _ => declares_of_frames (frames_pure _)
  | .is_invalid, _ => declares_of_frames (frames_pure _)
  | .attach, _ => declares_of_frames (frames_pure _)
theorem PreCheckForMem_each_declares (char_signed : Bool) :
    ∀ l : List Fir_statement, (∀ d ∈ mem_decls_each l, decl_ids_plain d = true) →
      Declares (PreCheckForMem_each char_signed l)
  | [], _ => declares_of_frames (frames_pure _)
  | stmt :: rest, h => by
    rw [PreCheckForMem_each]
    rw [mem_decls_each] at h
    exact declares_bind
      (PreCheckForMem_declares char_signed stmt fun d hd => h d (List.mem_append_left _ hd))
      fun _ => PreCheckForMem_each_declares char_signed rest
        fun d hd => h d (List.mem_append_right _ hd)
end

end Inou_firrtl

/-! ## Theorems on the late assignments of the memory ports -/

